import Mathlib

/-!
# Asynchronous compression request engine

A shallow embedding of `crypto/acompress.c`: the request chain coordinator
(`acomp_do_req_chain`, `acomp_do_one_req`, `acomp_reqchain_finish`,
`acomp_reqchain_done`), the buffer projection (`acomp_virt_to_sg`,
`acomp_reqchain_virt`), the buffer view (`acomp_walk_virt`,
`acomp_walk_next_src`, `acomp_walk_next_dst`), the per-CPU stream pool
(`crypto_acomp_alloc_streams`, `crypto_acomp_free_streams`,
`crypto_acomp_lock_stream_bh`, `acomp_stream_workfn`) and the transform
initialisation (`crypto_acomp_init_tfm`).

Requests live in a heap indexed by request id; pointers are symbolic; the
intrusive lists of the C code are the sequences of the requests linked on
them; the backend is a parameter.  Every call of the backend and of a
completion function is recorded in a trace.
-/

namespace Acomp

/-! ## Constants of the headers -/

/-- Modelled from the spec: `InvalidArgument`, the errno of `<linux/errno.h>`
(a header that is not under src/). -/
def EINVAL : Int := 22

/-- Modelled from the spec: `Busy`, the errno of `<linux/errno.h>`
(a header that is not under src/). -/
def EBUSY : Int := 16

/-- Modelled from the spec: `InProgress`, the errno of `<linux/errno.h>`
(a header that is not under src/). -/
def EINPROGRESS : Int := 115

/-- Modelled from the spec: the MAY_SLEEP request flag of `<linux/crypto.h>`
(a header that is not under src/). -/
def CRYPTO_TFM_REQ_MAY_SLEEP : Nat := 0x200

/-- Modelled from the spec: the MAY_BACKLOG request flag of `<linux/crypto.h>`
(a header that is not under src/). -/
def CRYPTO_TFM_REQ_MAY_BACKLOG : Nat := 0x400

/-- Modelled from the spec: the on-stack request flag of `<linux/crypto.h>`
(a header that is not under src/). -/
def CRYPTO_TFM_REQ_ON_STACK : Nat := 0x800

/-- Modelled from the spec: SRC_IS_FLAT, the flag of `<crypto/acompress.h>`
(a header that is not under src/): the source is a virtual address. -/
def CRYPTO_ACOMP_REQ_SRC_VIRT : Nat := 0x2

/-- Modelled from the spec: SRC_NONDMA, the flag of `<crypto/acompress.h>`
(a header that is not under src/). -/
def CRYPTO_ACOMP_REQ_SRC_NONDMA : Nat := 0x4

/-- Modelled from the spec: DST_IS_FLAT, the flag of `<crypto/acompress.h>`
(a header that is not under src/): the destination is a virtual address. -/
def CRYPTO_ACOMP_REQ_DST_VIRT : Nat := 0x8

/-- Modelled from the spec: DST_NONDMA, the flag of `<crypto/acompress.h>`
(a header that is not under src/). -/
def CRYPTO_ACOMP_REQ_DST_NONDMA : Nat := 0x10

/-- Modelled from the spec: SRC_IS_PAGED, the flag of `<crypto/acompress.h>`
(a header that is not under src/): the source is a folio. -/
def CRYPTO_ACOMP_REQ_SRC_FOLIO : Nat := 0x20

/-- Modelled from the spec: DST_IS_PAGED, the flag of `<crypto/acompress.h>`
(a header that is not under src/): the destination is a folio. -/
def CRYPTO_ACOMP_REQ_DST_FOLIO : Nat := 0x40

/-- Modelled from the spec: the size of one memory page, `PAGE_SIZE` of the
architecture headers (not under src/). -/
def PAGE_SIZE : Nat := 4096

/-- The walk flags, the anonymous enum at the top of acompress.c. -/
def ACOMP_WALK_SLEEP : Nat := 1

/-- Walk flag: the source is linear. -/
def ACOMP_WALK_SRC_LINEAR : Nat := 2

/-- Walk flag: the source is a folio. -/
def ACOMP_WALK_SRC_FOLIO : Nat := 4

/-- Walk flag: the destination is linear. -/
def ACOMP_WALK_DST_LINEAR : Nat := 8

/-- Walk flag: the destination is a folio. -/
def ACOMP_WALK_DST_FOLIO : Nat := 16

/-! ## 32-bit flag words -/

/-- The complement `~x` of a 32-bit word. -/
def not32 (x : Nat) : Nat := (2 ^ 32 - 1) ^^^ (x % 2 ^ 32)

/-- The C truth value of `flags & mask`. -/
def flagSet (flags mask : Nat) : Bool := decide ((flags &&& mask) ≠ 0)

/-- The statement `flags &= ~mask` on a 32-bit word. -/
def clearFlag (flags mask : Nat) : Nat := flags &&& not32 mask

/-- The statement `flags |= mask`. -/
def setFlag (flags mask : Nat) : Nat := flags ||| mask

/-! ## Pointers, scatter lists, requests -/

/-- Requests are named by their index in the heap. -/
abbrev ReqId := Nat

/-- Backend operations (the function pointers `compress`, `decompress`). -/
abbrev OpId := Nat

/-- Transforms are named by their index in the transform table. -/
abbrev TfmId := Nat

/-- Pointer values held by a request: caller memory (a flat buffer, a folio or
a scatter list, by address), the two scatter lists embedded in a request's
chain state, and the chain state of a request. -/
inductive Ptr where
  | null
  | addr (a : Nat)
  | ssg (r : ReqId)
  | dsg (r : ReqId)
  | chain (r : ReqId)
  deriving DecidableEq, Repr

/-- Values of `crypto_completion_t`: no function, the coordinator's handler
`acomp_reqchain_done`, or a function of the caller. -/
inductive Completion where
  | null
  | reqchain_done
  | caller (f : Nat)
  deriving DecidableEq, Repr

/-- The page a scatter-list entry points at. -/
inductive SgPage where
  | none
  | virt (buf : Ptr)
  | page (folio : Ptr) (index : Nat)
  deriving DecidableEq, Repr

/-- One entry of `struct scatterlist`. -/
structure Scatterlist where
  page : SgPage
  offset : Nat
  length : Nat
  deriving DecidableEq, Repr

/-- The record `struct acomp_req_chain`.  The unions `src`/`sfolio` and
`dst`/`dfolio` are one pointer field each. -/
structure AcompReqChain where
  head : List ReqId
  req0 : ReqId
  cur : ReqId
  op : OpId
  compl : Completion
  data : Ptr
  ssg : Scatterlist
  dsg : Scatterlist
  src : Ptr
  dst : Ptr
  soff : Nat
  doff : Nat
  flags : Nat
  deriving DecidableEq, Repr

/-- The record `struct acomp_req` with the fields of its
`struct crypto_async_request base` inlined (`list`, `complete`, `data`, `tfm`,
`flags`, `err`).  `list` is the list head read as the sequence of requests
linked on it; the unions `src`/`svirt`/`sfolio` and `dst`/`dvirt`/`dfolio` are
one pointer field each. -/
structure AcompReq where
  list : List ReqId
  complete : Completion
  data : Ptr
  tfm : TfmId
  flags : Nat
  err : Int
  src : Ptr
  dst : Ptr
  soff : Nat
  doff : Nat
  slen : Nat
  dlen : Nat
  chain : AcompReqChain
  deriving DecidableEq, Repr

/-- The fields of `struct crypto_acomp` the coordinator and the transform
initialisation use.  `req_chain` is the value of `crypto_acomp_req_chain(tfm)`,
`base_exit` tells whether `base.exit` is bound to `crypto_acomp_exit_tfm`. -/
structure CryptoAcomp where
  compress : OpId
  decompress : OpId
  fb : TfmId
  req_chain : Bool
  reqsize : Nat := 0
  base_exit : Bool := false
  deriving DecidableEq, Repr

/-- The calls recorded in the trace.  `op fn r seen err`: the backend
operation `fn` was called on request `r`, which looked like `seen` at the
call, and returned `err`.  `fallback c r fbreq err`: the software fallback
(compress when `c`) ran for request `r` on the on-stack request `fbreq` and
returned `err`.  `complete c data err`: the completion function `c` saved in
a chain state (the caller's) was called as `c(data, err)`.  `deliver r err`:
the backend signalled the completion of request `r` with status `err`. -/
inductive Event where
  | op (fn : OpId) (r : ReqId) (seen : AcompReq) (err : Int)
  | fallback (compress : Bool) (r : ReqId) (fbreq : AcompReq) (err : Int)
  | complete (c : Completion) (data : Ptr) (err : Int)
  | deliver (r : ReqId) (err : Int)
  deriving DecidableEq, Repr

/-- The memory the coordinator works on: the requests, the transforms, and
the record of the calls made so far. -/
structure World where
  reqs : ReqId → AcompReq
  tfms : TfmId → CryptoAcomp
  trace : List Event

/-- What a backend call hands back: the returned status and the output
length it stored in `req->dlen`. -/
structure OpResult where
  err : Int
  dlen : Nat
  deriving DecidableEq, Repr

/-- The backend. `op fn r w` is the call `fn(req)` of a transform operation
in memory `w`; `fb c fbreq w` is the call of the fallback transform's
operation, `compress` (`c` true) or `decompress`, on the on-stack request
`fbreq` of `acomp_do_nondma`: the nested `crypto_acomp_compress(fbreq)` or
`crypto_acomp_decompress(fbreq)` makes exactly this one call when it takes
the first branch of `acomp_do_req_chain` (the test `nested_direct`), as it
does when the fallback transform chains natively; `final r` is the status
with which a deferred job is completed later, and `notifies r` tells whether
an in-progress notification precedes it. -/
structure Backend where
  op : OpId → ReqId → World → OpResult
  fb : Bool → AcompReq → World → OpResult
  final : ReqId → Int
  notifies : ReqId → Bool

/-- Replace one request of the heap. -/
def World.modify (w : World) (r : ReqId) (f : AcompReq → AcompReq) : World :=
  { w with reqs := Function.update w.reqs r (f (w.reqs r)) }

/-- Append an event to the record of calls. -/
def World.log (w : World) (e : Event) : World :=
  { w with trace := w.trace ++ [e] }

/-- Read a pointer as a pointer to the chain state of a request (the C code
casts `base.data` without a check): the request whose chain state it is. -/
def Ptr.owner : Ptr → ReqId
  | .chain r => r
  | .ssg r => r
  | .dsg r => r
  | .addr a => a
  | .null => 0

/-! ## Helpers of the headers -/

/-- Modelled from the spec: `sg_init_table(sg, 1)` of `<linux/scatterlist.h>`
(not under src/): an empty one-entry scatter list. -/
def sg_init_table : Scatterlist := ⟨.none, 0, 0⟩

/-- Modelled from the spec: `offset_in_page` of `<linux/mm.h>` (not under
src/): the offset of an address in its page. -/
def offset_in_page : Ptr → Nat
  | .addr a => a % PAGE_SIZE
  | _ => 0

/-- Modelled from the spec: `sg_init_one(sg, buf, len)` of
`<linux/scatterlist.h>` (not under src/): a one-entry scatter list over the
flat buffer `buf` of `len` bytes. -/
def sg_init_one (buf : Ptr) (len : Nat) : Scatterlist :=
  ⟨.virt buf, offset_in_page buf, len⟩

/-- Modelled from the spec: `sg_set_page(sg, page, len, offset)` of
`<linux/scatterlist.h>` (not under src/). -/
def sg_set_page (_sg : Scatterlist) (page : SgPage) (len offset : Nat) : Scatterlist :=
  ⟨page, offset, len⟩

/-- Modelled from the spec: `folio_page(folio, n)` of `<linux/page-flags.h>`
(not under src/): the n-th page of a folio. -/
def folio_page (folio : Ptr) (n : Nat) : SgPage := .page folio n

/-- Modelled from the spec: `sg_set_folio(sg, folio, len, offset)` of
`<linux/scatterlist.h>` (not under src/). -/
def sg_set_folio (sg : Scatterlist) (folio : Ptr) (len offset : Nat) : Scatterlist :=
  sg_set_page sg (folio_page folio 0) len offset

/-- Modelled from the spec: `acomp_request_set_src_sg` of `<crypto/acompress.h>`
(not under src/): the source becomes the scatter list `src` of `slen` bytes
and no flat, nondma or paged source flag stays set. -/
def acomp_request_set_src_sg (req : AcompReq) (src : Ptr) (slen : Nat) : AcompReq :=
  { req with
    src := src
    slen := slen
    flags := clearFlag (clearFlag (clearFlag req.flags CRYPTO_ACOMP_REQ_SRC_NONDMA)
      CRYPTO_ACOMP_REQ_SRC_VIRT) CRYPTO_ACOMP_REQ_SRC_FOLIO }

/-- Modelled from the spec: `acomp_request_set_src_dma` of `<crypto/acompress.h>`
(not under src/): the source becomes the flat buffer `src` of `slen` bytes. -/
def acomp_request_set_src_dma (req : AcompReq) (src : Ptr) (slen : Nat) : AcompReq :=
  { req with
    src := src
    slen := slen
    flags := setFlag (clearFlag (clearFlag req.flags CRYPTO_ACOMP_REQ_SRC_FOLIO)
      CRYPTO_ACOMP_REQ_SRC_NONDMA) CRYPTO_ACOMP_REQ_SRC_VIRT }

/-- Modelled from the spec: `acomp_request_set_src_folio` of
`<crypto/acompress.h>` (not under src/): the source becomes `len` bytes at
offset `off` of `folio`. -/
def acomp_request_set_src_folio (req : AcompReq) (folio : Ptr) (off len : Nat) : AcompReq :=
  { req with
    src := folio
    soff := off
    slen := len
    flags := setFlag (clearFlag (clearFlag req.flags CRYPTO_ACOMP_REQ_SRC_NONDMA)
      CRYPTO_ACOMP_REQ_SRC_VIRT) CRYPTO_ACOMP_REQ_SRC_FOLIO }

/-- Modelled from the spec: `acomp_request_set_dst_sg` of `<crypto/acompress.h>`
(not under src/): the destination becomes the scatter list `dst` of `dlen`
bytes and no flat, nondma or paged destination flag stays set. -/
def acomp_request_set_dst_sg (req : AcompReq) (dst : Ptr) (dlen : Nat) : AcompReq :=
  { req with
    dst := dst
    dlen := dlen
    flags := clearFlag (clearFlag (clearFlag req.flags CRYPTO_ACOMP_REQ_DST_NONDMA)
      CRYPTO_ACOMP_REQ_DST_VIRT) CRYPTO_ACOMP_REQ_DST_FOLIO }

/-- Modelled from the spec: `acomp_request_set_dst_dma` of `<crypto/acompress.h>`
(not under src/): the destination becomes the flat buffer `dst` of `dlen`
bytes. -/
def acomp_request_set_dst_dma (req : AcompReq) (dst : Ptr) (dlen : Nat) : AcompReq :=
  { req with
    dst := dst
    dlen := dlen
    flags := setFlag (clearFlag (clearFlag req.flags CRYPTO_ACOMP_REQ_DST_FOLIO)
      CRYPTO_ACOMP_REQ_DST_NONDMA) CRYPTO_ACOMP_REQ_DST_VIRT }

/-- Modelled from the spec: `acomp_request_set_dst_folio` of
`<crypto/acompress.h>` (not under src/): the destination becomes `len` bytes
at offset `off` of `folio`. -/
def acomp_request_set_dst_folio (req : AcompReq) (folio : Ptr) (off len : Nat) : AcompReq :=
  { req with
    dst := folio
    doff := off
    dlen := len
    flags := setFlag (clearFlag (clearFlag req.flags CRYPTO_ACOMP_REQ_DST_NONDMA)
      CRYPTO_ACOMP_REQ_DST_VIRT) CRYPTO_ACOMP_REQ_DST_FOLIO }

/-- Modelled from the spec: `acomp_request_chained` of
`<crypto/internal/acompress.h>` (not under src/): the job carries queued
follow-ons, that is, its list head is not empty. -/
def acomp_request_chained (req : AcompReq) : Bool := !req.list.isEmpty

/-- Modelled from the spec: `acomp_request_issg` of
`<crypto/internal/acompress.h>` (not under src/): source and destination are
both scatter lists already. -/
def acomp_request_issg (req : AcompReq) : Bool :=
  !flagSet req.flags (CRYPTO_ACOMP_REQ_SRC_VIRT ||| CRYPTO_ACOMP_REQ_DST_VIRT |||
    CRYPTO_ACOMP_REQ_SRC_FOLIO ||| CRYPTO_ACOMP_REQ_DST_FOLIO)

/-- Modelled from the spec: `acomp_request_src_isvirt` of
`<crypto/internal/acompress.h>` (not under src/). -/
def acomp_request_src_isvirt (req : AcompReq) : Bool :=
  flagSet req.flags CRYPTO_ACOMP_REQ_SRC_VIRT

/-- Modelled from the spec: `acomp_request_dst_isvirt` of
`<crypto/internal/acompress.h>` (not under src/). -/
def acomp_request_dst_isvirt (req : AcompReq) : Bool :=
  flagSet req.flags CRYPTO_ACOMP_REQ_DST_VIRT

/-- Modelled from the spec: `acomp_request_src_isfolio` of
`<crypto/internal/acompress.h>` (not under src/). -/
def acomp_request_src_isfolio (req : AcompReq) : Bool :=
  flagSet req.flags CRYPTO_ACOMP_REQ_SRC_FOLIO

/-- Modelled from the spec: `acomp_request_dst_isfolio` of
`<crypto/internal/acompress.h>` (not under src/). -/
def acomp_request_dst_isfolio (req : AcompReq) : Bool :=
  flagSet req.flags CRYPTO_ACOMP_REQ_DST_FOLIO

/-- Modelled from the spec: `acomp_request_isnondma` of
`<crypto/internal/acompress.h>` (not under src/): a buffer of the job is not
accessible to the device. -/
def acomp_request_isnondma (req : AcompReq) : Bool :=
  flagSet req.flags (CRYPTO_ACOMP_REQ_SRC_NONDMA ||| CRYPTO_ACOMP_REQ_DST_NONDMA)

/-- Modelled from the spec: the private flags of `<crypto/acompress.h>` (not
under src/), the buffer-shape flags a caller's callback flags never touch. -/
def CRYPTO_ACOMP_REQ_PRIVATE : Nat :=
  CRYPTO_ACOMP_REQ_SRC_VIRT ||| CRYPTO_ACOMP_REQ_SRC_NONDMA |||
  CRYPTO_ACOMP_REQ_DST_VIRT ||| CRYPTO_ACOMP_REQ_DST_NONDMA |||
  CRYPTO_ACOMP_REQ_SRC_FOLIO ||| CRYPTO_ACOMP_REQ_DST_FOLIO

/-- Modelled from the spec: `ACOMP_REQUEST_ON_STACK` of
`<crypto/internal/acompress.h>` (not under src/): the throwaway job on the
stack, bound to the fallback transform, with only the on-stack flag set. -/
def acomp_request_on_stack_init (fb : TfmId) : AcompReq :=
  { list := [], complete := .null, data := .null, tfm := fb
    flags := CRYPTO_TFM_REQ_ON_STACK, err := 0
    src := .null, dst := .null, soff := 0, doff := 0, slen := 0, dlen := 0
    chain :=
      { head := [], req0 := 0, cur := 0, op := 0, compl := .null, data := .null
        ssg := sg_init_table, dsg := sg_init_table, src := .null, dst := .null
        soff := 0, doff := 0, flags := 0 } }

/-- Modelled from the spec: `acomp_request_set_callback` of
`<crypto/acompress.h>` (not under src/): binds the completion and its context
and takes the caller's flags, the private and on-stack flags of the request
staying as they are. -/
def acomp_request_set_callback (req : AcompReq) (flgs : Nat) (cmpl : Completion)
    (data : Ptr) : AcompReq :=
  let keep := CRYPTO_ACOMP_REQ_PRIVATE ||| CRYPTO_TFM_REQ_ON_STACK
  { req with
    complete := cmpl
    data := data
    flags := setFlag (req.flags &&& keep) (flgs &&& not32 keep)
    list := [] }

/-! ## Buffer projection: `acomp_virt_to_sg`, `acomp_reqchain_virt` -/

/-- The function `acomp_virt_to_sg(req)` on the request `r`. -/
def acomp_virt_to_sg (r : ReqId) (req : AcompReq) : AcompReq :=
  let req := { req with chain := { req.chain with
    flags := req.flags &&& (CRYPTO_ACOMP_REQ_SRC_VIRT ||| CRYPTO_ACOMP_REQ_DST_VIRT |||
      CRYPTO_ACOMP_REQ_SRC_FOLIO ||| CRYPTO_ACOMP_REQ_DST_FOLIO) } }
  let req :=
    if acomp_request_src_isvirt req then
      let slen := req.slen
      let svirt := req.src
      let req := { req with chain := { req.chain with
        src := svirt
        ssg := sg_init_one svirt slen } }
      acomp_request_set_src_sg req (.ssg r) slen
    else if acomp_request_src_isfolio req then
      let folio := req.src
      let slen := req.slen
      let off := req.soff
      let req := { req with chain := { req.chain with
        src := folio
        soff := off
        ssg := sg_set_page sg_init_table (folio_page folio (off / PAGE_SIZE)) slen
          (off % PAGE_SIZE) } }
      acomp_request_set_src_sg req (.ssg r) slen
    else req
  if acomp_request_dst_isvirt req then
    let dlen := req.dlen
    let dvirt := req.dst
    let req := { req with chain := { req.chain with
      dst := dvirt
      dsg := sg_init_one dvirt dlen } }
    acomp_request_set_dst_sg req (.dsg r) dlen
  else if acomp_request_dst_isfolio req then
    let folio := req.dst
    let dlen := req.dlen
    let off := req.doff
    let req := { req with chain := { req.chain with
      dst := folio
      doff := off
      dsg := sg_set_page sg_init_table (folio_page folio (off / PAGE_SIZE)) dlen
        (off % PAGE_SIZE) } }
    acomp_request_set_src_sg req (.dsg r) dlen
  else req

/-- The body of `acomp_reqchain_virt(state, err)` on the request
`req = state->cur`. -/
def reqchain_virt_req (req : AcompReq) (err : Int) : AcompReq :=
  let slen := req.slen
  let dlen := req.dlen
  let req := { req with err := err }
  let state := req.chain
  let req :=
    if flagSet state.flags CRYPTO_ACOMP_REQ_SRC_VIRT then
      acomp_request_set_src_dma req state.src slen
    else if flagSet state.flags CRYPTO_ACOMP_REQ_SRC_FOLIO then
      acomp_request_set_src_folio req state.src state.soff slen
    else req
  if flagSet state.flags CRYPTO_ACOMP_REQ_DST_VIRT then
    acomp_request_set_dst_dma req state.dst dlen
  else if flagSet state.flags CRYPTO_ACOMP_REQ_DST_FOLIO then
    acomp_request_set_dst_folio req state.dst state.doff dlen
  else req

/-- The function `acomp_reqchain_virt(state, err)`, `s` the request whose
chain state `state` is. -/
def acomp_reqchain_virt (w : World) (s : ReqId) (err : Int) : World :=
  w.modify (w.reqs s).chain.cur (fun req => reqchain_virt_req req err)

/-! ## The chain coordinator -/

/-- The assignment `state->cur = req`. -/
def set_cur (r : ReqId) (q : AcompReq) : AcompReq :=
  { q with chain := { q.chain with cur := r } }

/-- The assignment `state->op = op`. -/
def set_op (op : OpId) (q : AcompReq) : AcompReq :=
  { q with chain := { q.chain with op := op } }

/-- The assignment `state->src = NULL`. -/
def set_src_null (q : AcompReq) : AcompReq :=
  { q with chain := { q.chain with src := .null } }

/-- The assignment `req->dlen = n`. -/
def set_dlen (n : Nat) (q : AcompReq) : AcompReq := { q with dlen := n }

/-- Modelled from the spec: `INIT_LIST_HEAD(&state->head)` of `<linux/list.h>`
(not under src/): the pending queue becomes empty. -/
def init_head (q : AcompReq) : AcompReq :=
  { q with chain := { q.chain with head := [] } }

/-- Modelled from the spec: `list_splice_init(list, &state->head)` of
`<linux/list.h>` (not under src/), the part on the chain state: the jobs
`l` go in front of the pending queue. -/
def splice_head (l : List ReqId) (q : AcompReq) : AcompReq :=
  { q with chain := { q.chain with head := l ++ q.chain.head } }

/-- Modelled from the spec: `list_splice_init(&req->base.list, head)` of
`<linux/list.h>` (not under src/), the part on the spliced list: it is left
empty. -/
def clear_list (q : AcompReq) : AcompReq := { q with list := [] }

/-- Modelled from the spec: `list_del_init(&req->base.list)` of
`<linux/list.h>` (not under src/) for a job `r` on the pending queue: it is
taken off the queue. -/
def list_del_init (r : ReqId) (q : AcompReq) : AcompReq :=
  { q with chain := { q.chain with head := q.chain.head.erase r } }

/-- Modelled from the spec: `list_add_tail(&req->base.list, &req0->base.list)`
of `<linux/list.h>` (not under src/): job `r` is appended to the list of the
lead job. -/
def list_add_tail (r : ReqId) (q : AcompReq) : AcompReq :=
  { q with list := q.list ++ [r] }

/-- The three assignments of the loop of `acomp_reqchain_finish` on a popped
job: `flags &= mask`, `complete = acomp_reqchain_done`, `data = state`. -/
def rebind (mask : Nat) (s : ReqId) (q : AcompReq) : AcompReq :=
  { q with flags := q.flags &&& mask, complete := .reqchain_done, data := .chain s }

/-- The assignments of `acomp_save_req(req, cplt)` on the request `r`. -/
def save_completion (cplt : Completion) (r : ReqId) (req : AcompReq) : AcompReq :=
  { req with
    complete := cplt
    data := .chain r
    chain := { req.chain with compl := req.complete, data := req.data, req0 := r } }

/-- The function `acomp_save_req(req, cplt)`. -/
def acomp_save_req (w : World) (r : ReqId) (cplt : Completion) : World :=
  w.modify r (save_completion cplt r)

/-- The assignments `req->base.complete = c`, `req->base.data = d`. -/
def set_completion (c : Completion) (d : Ptr) (req : AcompReq) : AcompReq :=
  { req with complete := c, data := d }

/-- The function `acomp_restore_req(req)`. -/
def acomp_restore_req (w : World) (r : ReqId) : World :=
  let s := (w.reqs r).data.owner
  w.modify r (set_completion (w.reqs s).chain.compl (w.reqs s).chain.data)

/-- The call `op(req)` of a backend operation: the backend stores the output
length in the request and returns a status; the call is recorded. -/
def call_op (B : Backend) (w : World) (fn : OpId) (r : ReqId) : World × Int :=
  let res := B.op fn r w
  ((w.modify r (set_dlen res.dlen)).log (.op fn r (w.reqs r) res.err), res.err)

/-- The on-stack request that `acomp_do_nondma` builds from `req`. -/
def nondma_fbreq (fb : TfmId) (req : AcompReq) : AcompReq :=
  let keep := CRYPTO_ACOMP_REQ_SRC_VIRT ||| CRYPTO_ACOMP_REQ_SRC_NONDMA |||
    CRYPTO_ACOMP_REQ_DST_VIRT ||| CRYPTO_ACOMP_REQ_DST_NONDMA
  let fbreq := acomp_request_on_stack_init fb
  let fbreq := acomp_request_set_callback fbreq req.flags .null .null
  let fbreq := { fbreq with flags := clearFlag fbreq.flags keep }
  let fbreq := { fbreq with flags := setFlag fbreq.flags (req.flags &&& keep) }
  { fbreq with src := req.src, dst := req.dst, slen := req.slen, dlen := req.dlen }

/-- The test at the head of `acomp_do_req_chain`, taken by the nested call
`crypto_acomp_compress(fbreq)` / `crypto_acomp_decompress(fbreq)` of
`acomp_do_nondma` on its on-stack request: when it holds (the fallback
transform chains natively, or the on-stack request has scatter-list buffers
and no follow-ons) the nested call is `return op(req)`, one call of the
fallback transform's operation. -/
def nested_direct (w : World) (fbreq : AcompReq) : Bool :=
  (w.tfms fbreq.tfm).req_chain ||
    (!acomp_request_chained fbreq && acomp_request_issg fbreq)

/-- The function `acomp_do_nondma(state, req)`.  The nested call
`crypto_acomp_compress(fbreq)` / `crypto_acomp_decompress(fbreq)` is
`acomp_do_req_chain` on the on-stack request.  It is followed on its first
branch, `return op(req)`, taken when `nested_direct` holds: there it is the
one call `fb` of the fallback transform's operation.  On the other branch the
nested call sets up a chain for the on-stack request and enters
`acomp_do_nondma` again with the fallback's own fallback; that branch is not
followed, `fb` stands for whatever it hands back. -/
def acomp_do_nondma (B : Backend) (w : World) (s r : ReqId) : World × Int :=
  let req := w.reqs r
  let fbreq := nondma_fbreq (w.tfms req.tfm).fb req
  let compress := decide ((w.reqs s).chain.op = (w.tfms req.tfm).compress)
  let res := B.fb compress fbreq w
  ((w.modify r (set_dlen res.dlen)).log (.fallback compress r fbreq res.err), res.err)

/-- The function `acomp_do_one_req(state, req)`. -/
def acomp_do_one_req (B : Backend) (w : World) (s r : ReqId) : World × Int :=
  let w := w.modify s (set_cur r)
  if acomp_request_isnondma (w.reqs r) then
    acomp_do_nondma B w s r
  else
    let w := w.modify r (acomp_virt_to_sg r)
    call_op B w (w.reqs s).chain.op r

/-- The loop `list_for_each_entry_safe(req, n, &state->head, base.list)` of
`acomp_reqchain_finish`, run over the entries that are on `state->head` when
the loop is entered.  The third component tells whether the loop ran to its
end (true) or left through `goto out` (false). -/
def reqchain_finish_loop (B : Backend) (req0 s : ReqId) (mask : Nat) :
    List ReqId → World → Int → World × Int × Bool
  | [], w, err => (w, err, true)
  | r :: rest, w, _ =>
    let w := w.modify s (list_del_init r)
    let w := w.modify r (rebind mask s)
    let res := acomp_do_one_req B w s r
    if res.2 = -EINPROGRESS then
      (res.1, if (res.1.reqs s).chain.head ≠ [] then -EBUSY else res.2, false)
    else if res.2 = -EBUSY then
      (res.1, res.2, false)
    else
      let w := acomp_reqchain_virt res.1 s res.2
      let w := w.modify req0 (list_add_tail r)
      reqchain_finish_loop B req0 s mask rest w res.2

/-- The function `acomp_reqchain_finish(req0, err, mask)`. -/
def acomp_reqchain_finish (B : Backend) (w : World) (req0 : ReqId) (err : Int)
    (mask : Nat) : World × Int :=
  let s := (w.reqs req0).data.owner
  let req := (w.reqs s).chain.cur
  let w := acomp_reqchain_virt w s err
  let w := if req ≠ req0 then w.modify req0 (list_add_tail req) else w
  let res := reqchain_finish_loop B req0 s mask (w.reqs s).chain.head w err
  if res.2.2 then (acomp_restore_req res.1 req0, res.2.1) else (res.1, res.2.1)

/-- The function `acomp_reqchain_done(data, err)`, `s` the request whose
chain state `data` points at. -/
def acomp_reqchain_done (B : Backend) (w : World) (s : ReqId) (err : Int) : World :=
  let compl := (w.reqs s).chain.compl
  let data := (w.reqs s).chain.data
  if err = -EINPROGRESS then
    if (w.reqs s).chain.head ≠ [] then w
    else w.log (.complete compl data err)
  else
    let res := acomp_reqchain_finish B w (w.reqs s).chain.req0 err CRYPTO_TFM_REQ_MAY_BACKLOG
    if res.2 = -EBUSY then res.1
    else res.1.log (.complete compl data res.2)

/-- The slow path of `acomp_do_req_chain` up to the start of the lead job:
the lead job's completion is saved and rewritten, the chain state is set up
and the follow-ons are spliced onto the pending queue. -/
def reqchain_setup (w : World) (r : ReqId) (op : OpId) : World :=
  let w := acomp_save_req w r .reqchain_done
  let s := (w.reqs r).data.owner
  let w := w.modify s (set_op op)
  let w := w.modify s set_src_null
  let w := w.modify s init_head
  let spliced := (w.reqs r).list
  let w := w.modify s (splice_head spliced)
  w.modify r clear_list

/-- The function `acomp_do_req_chain(req, op)`. -/
def acomp_do_req_chain (B : Backend) (w : World) (r : ReqId) (op : OpId) : World × Int :=
  let tfm := w.tfms (w.reqs r).tfm
  if tfm.req_chain || (!acomp_request_chained (w.reqs r) && acomp_request_issg (w.reqs r)) then
    call_op B w op r
  else
    let w := reqchain_setup w r op
    let s := (w.reqs r).data.owner
    let res := acomp_do_one_req B w s r
    if res.2 = -EBUSY ∨ res.2 = -EINPROGRESS then
      (res.1, -EBUSY)
    else
      acomp_reqchain_finish B res.1 r res.2 (not32 0)

/-- The function `crypto_acomp_compress(req)`. -/
def crypto_acomp_compress (B : Backend) (w : World) (r : ReqId) : World × Int :=
  acomp_do_req_chain B w r (w.tfms (w.reqs r).tfm).compress

/-- The function `crypto_acomp_decompress(req)`. -/
def crypto_acomp_decompress (B : Backend) (w : World) (r : ReqId) : World × Int :=
  acomp_do_req_chain B w r (w.tfms (w.reqs r).tfm).decompress

/-! ## The buffer view: `acomp_walk_virt` -/

/-- The fields of `struct scatter_walk` the view sets up. -/
structure ScatterWalk where
  sg : Ptr
  offset : Nat
  addr : Ptr
  deriving DecidableEq, Repr

/-- The record `struct acomp_walk` (`in_` is its field `in`). -/
structure AcompWalk where
  in_ : ScatterWalk
  out : ScatterWalk
  slen : Nat
  dlen : Nat
  flags : Nat
  deriving DecidableEq, Repr

/-- The scatter-list entry a pointer of request `req` points at: `mem` holds
the caller's scatter lists by address. -/
def sg_at (mem : Nat → Scatterlist) (req : AcompReq) : Ptr → Scatterlist
  | .addr a => mem a
  | .ssg _ => req.chain.ssg
  | .dsg _ => req.chain.dsg
  | _ => sg_init_table

/-- Modelled from the spec: `scatterwalk_start(walk, sg)` of
`<crypto/scatterwalk.h>` (not under src/): the cursor is put on the first
entry of the scatter list. -/
def scatterwalk_start (walk : ScatterWalk) (sg : Ptr) (entry : Scatterlist) : ScatterWalk :=
  { walk with sg := sg, offset := entry.offset }

/-- The function `acomp_walk_virt(walk, req)` on the request `r`: the view,
the request and the returned status. -/
def acomp_walk_virt (mem : Nat → Scatterlist) (r : ReqId) (walk : AcompWalk)
    (req : AcompReq) : AcompWalk × AcompReq × Int :=
  let src := req.src
  let dst := req.dst
  let walk := { walk with slen := req.slen }
  let walk := { walk with dlen := req.dlen }
  if walk.slen = 0 ∨ walk.dlen = 0 then
    (walk, req, -EINVAL)
  else
    let walk := { walk with flags := 0 }
    let walk :=
      if flagSet req.flags CRYPTO_TFM_REQ_MAY_SLEEP then
        { walk with flags := walk.flags ||| ACOMP_WALK_SLEEP }
      else walk
    let p : AcompWalk × AcompReq × Ptr :=
      if flagSet req.flags CRYPTO_ACOMP_REQ_SRC_VIRT then
        ({ walk with flags := walk.flags ||| ACOMP_WALK_SRC_LINEAR }, req, src)
      else if flagSet req.flags CRYPTO_ACOMP_REQ_SRC_FOLIO then
        (walk, { req with chain := { req.chain with
          ssg := sg_set_folio sg_init_table req.src walk.slen req.soff } }, .ssg r)
      else (walk, req, src)
    let walk := p.1
    let req := p.2.1
    let src := p.2.2
    let p : AcompWalk × AcompReq × Ptr :=
      if flagSet req.flags CRYPTO_ACOMP_REQ_DST_VIRT then
        ({ walk with flags := walk.flags ||| ACOMP_WALK_DST_LINEAR }, req, dst)
      else if flagSet req.flags CRYPTO_ACOMP_REQ_DST_FOLIO then
        (walk, { req with chain := { req.chain with
          dsg := sg_set_folio sg_init_table req.dst walk.dlen req.doff } }, .dsg r)
      else (walk, req, dst)
    let walk := p.1
    let req := p.2.1
    let dst := p.2.2
    let walk :=
      if flagSet walk.flags ACOMP_WALK_SRC_LINEAR then
        { walk with in_ := { walk.in_ with sg := req.src, offset := 0 } }
      else { walk with in_ := scatterwalk_start walk.in_ src (sg_at mem req src) }
    let walk :=
      if flagSet walk.flags ACOMP_WALK_DST_LINEAR then
        { walk with out := { walk.out with sg := req.dst, offset := 0 } }
      else { walk with out := scatterwalk_start walk.out dst (sg_at mem req dst) }
    (walk, req, 0)

/-! ## Reading the trace; the life of a chain -/

/-- A status that leaves the job outstanding: in progress, or busy. -/
def deferred (err : Int) : Bool := decide (err = -EINPROGRESS) || decide (err = -EBUSY)

/-- The job an event starts, with the status its start returned. -/
def Event.started : Event → Option (ReqId × Int)
  | .op _ r _ err => some (r, err)
  | .fallback _ r _ err => some (r, err)
  | _ => none

/-- The jobs started in a trace, in order, each with the status returned. -/
def starts (t : List Event) : List (ReqId × Int) := t.filterMap Event.started

/-- The call of the caller's completion function an event records. -/
def Event.completion : Event → Option (Completion × Ptr × Int)
  | .complete c d err => some (c, d, err)
  | _ => none

/-- The calls of the caller's completion function in a trace, in order. -/
def completions (t : List Event) : List (Completion × Ptr × Int) :=
  t.filterMap Event.completion

/-- The completion an event delivers to a job. -/
def Event.delivered : Event → Option (ReqId × Int)
  | .deliver r err => some (r, err)
  | _ => none

/-- The completions the backend delivered in a trace, in order. -/
def deliveries (t : List Event) : List (ReqId × Int) := t.filterMap Event.delivered

/-- Whether an event brings job `k` to a terminal status: its start returned
one, or the backend delivered one. -/
def Event.settles (k : ReqId) : Event → Bool
  | .op _ r _ err => decide (r = k) && !deferred err
  | .fallback _ r _ err => decide (r = k) && !deferred err
  | .deliver r err => decide (r = k) && !deferred err
  | .complete _ _ _ => false

/-- Job `k` has reached a terminal status in the trace. -/
def settled (t : List Event) (k : ReqId) : Bool := t.any (Event.settles k)

/-- The effect of one event on the jobs that are outstanding. -/
def outstanding_step (acc : List ReqId) : Event → List ReqId
  | .op _ r _ err => if deferred err then acc ++ [r] else acc
  | .fallback _ r _ err => if deferred err then acc ++ [r] else acc
  | .deliver r err => if deferred err then acc else acc.erase r
  | .complete _ _ _ => acc

/-- The jobs outstanding after a trace: started with a deferred status and
not yet completed by the backend. -/
def outstanding (t : List Event) : List ReqId := t.foldl outstanding_step []

/-- The backend signals the completion of request `r` with status `err`: it
calls `req->base.complete(req->base.data, err)`. -/
def crypto_request_complete (B : Backend) (w : World) (r : ReqId) (err : Int) : World :=
  let w := w.log (.deliver r err)
  match (w.reqs r).complete with
  | .reqchain_done => acomp_reqchain_done B w (w.reqs r).data.owner err
  | c => w.log (.complete c (w.reqs r).data err)

/-- One round of the backend: the oldest outstanding job, if there is one,
is completed with its final status, after an in-progress notification when
the backend sends one. -/
def backend_round (B : Backend) (w : World) : World :=
  match outstanding w.trace with
  | [] => w
  | r :: _ =>
    let w := if B.notifies r then crypto_request_complete B w r (-EINPROGRESS) else w
    crypto_request_complete B w r (B.final r)

/-- The memory after `n` rounds of the backend. -/
def backend_rounds (B : Backend) : Nat → World → World
  | 0, w => w
  | n + 1, w => backend_rounds B n (backend_round B w)

/-- The life of a chain: the lead job `r` is submitted with operation `op`,
then the backend completes outstanding jobs for `n` rounds. -/
def chain_life (B : Backend) (w : World) (r : ReqId) (op : OpId) (n : Nat) : World :=
  backend_rounds B n (acomp_do_req_chain B w r op).1

/-- The events a call added to the trace: those of `w1` after those of `w`. -/
def newEvents (w w1 : World) : List Event := w1.trace.drop w.trace.length

/-- The fields of a request that steer the coordinator: completion function
and context, list head, transform, and the control fields of its chain
state. -/
def steer (q : AcompReq) :
    Completion × Ptr × List ReqId × TfmId × List ReqId × ReqId × Completion × Ptr × OpId :=
  (q.complete, q.data, q.list, q.tfm, q.chain.head, q.chain.req0, q.chain.compl,
    q.chain.data, q.chain.op)

/-- A trace keeps the order of the chain: whenever a job is started, every
job started before it has reached a terminal status. -/
def Ordered (t : List Event) : Prop :=
  ∀ pre ev post, t = pre ++ ev :: post → ev.started.isSome = true →
    ∀ k ∈ (starts pre).map Prod.fst, settled pre k = true

/-- The status a run of jobs ends with: that of the last job started, or
`err` when none was started. -/
def lastStatus (l : List (ReqId × Int)) (err : Int) : Int :=
  (l.getLast?.map Prod.snd).getD err

/-- The jobs of a run whose start returned a terminal status. -/
def finishedJobs (l : List (ReqId × Int)) : List ReqId :=
  (l.filter (fun p => !deferred p.2)).map Prod.fst

/-- What one run of the loop of `acomp_reqchain_finish` over the pending
queue `qs` of the chain of `lead` does: `R` is its result from memory `w` and
status `err`, `evs` the events it adds. -/
structure LoopSpec (B : Backend) (lead : ReqId) (qs : List ReqId) (w : World) (err : Int)
    (R : World × Int × Bool) (evs : List Event) : Prop where
  trace : R.1.trace = w.trace ++ evs
  all_starts : ∀ e ∈ evs, e.started.isSome = true
  jobs : (starts evs).map Prod.fst ++ (R.1.reqs lead).chain.head = qs
  tfms : R.1.tfms = w.tfms
  lead_complete : (R.1.reqs lead).complete = (w.reqs lead).complete
  lead_data : (R.1.reqs lead).data = (w.reqs lead).data
  lead_req0 : (R.1.reqs lead).chain.req0 = (w.reqs lead).chain.req0
  lead_compl : (R.1.reqs lead).chain.compl = (w.reqs lead).chain.compl
  lead_cdata : (R.1.reqs lead).chain.data = (w.reqs lead).chain.data
  lead_op : (R.1.reqs lead).chain.op = (w.reqs lead).chain.op
  lead_list : (R.1.reqs lead).list = (w.reqs lead).list ++ finishedJobs (starts evs)
  errs : ∀ p ∈ starts evs, deferred p.2 = false → (R.1.reqs p.1).err = p.2
  errs_frame : ∀ x, x ∉ qs → (R.1.reqs x).err = (w.reqs x).err
  fin : R.2.2 = true →
    (R.1.reqs lead).chain.head = [] ∧ (∀ p ∈ starts evs, deferred p.2 = false) ∧
    R.2.1 = lastStatus (starts evs) err
  out : R.2.2 = false →
    ∃ pre r st, starts evs = pre ++ [(r, st)] ∧ (∀ p ∈ pre, deferred p.2 = false) ∧
      deferred st = true ∧ (R.1.reqs lead).chain.cur = r ∧
      (R.1.reqs r).complete = .reqchain_done ∧ (R.1.reqs r).data = .chain lead ∧
      R.2.1 = (if st = -EINPROGRESS ∧ (R.1.reqs lead).chain.head = [] then -EINPROGRESS
        else -EBUSY)
  statuses : ∀ p ∈ starts evs, ∃ w0 s, p.2 = (acomp_do_one_req B w0 s p.1).2

/-- The chain of `lead` is set up in memory `w`: the lead job's context
points at its chain state, which holds the caller's completion `c` and
context `d` and the pending queue `rest` of distinct jobs other than the
lead job. -/
structure Running (lead : ReqId) (c : Completion) (d : Ptr) (rest : List ReqId)
    (w : World) : Prop where
  data : (w.reqs lead).data = .chain lead
  req0 : (w.reqs lead).chain.req0 = lead
  compl : (w.reqs lead).chain.compl = c
  cdata : (w.reqs lead).chain.data = d
  head : (w.reqs lead).chain.head = rest
  nodup : (lead :: rest).Nodup

/-- A call ran the chain of `lead` to its end: the jobs `js` were all started
and each start returned a terminal status, the call yields the status of the
last one (`err` when there was none), the lead job has the caller's
completion and context back, and the queue is empty. -/
structure RanToEnd (lead : ReqId) (c : Completion) (d : Ptr) (js : List ReqId)
    (err : Int) (F : World × Int) (evs : List Event) : Prop where
  terminal : ∀ p ∈ starts evs, deferred p.2 = false
  jobs : (starts evs).map Prod.fst = js
  status : F.2 = lastStatus (starts evs) err
  complete : (F.1.reqs lead).complete = c
  data : (F.1.reqs lead).data = d
  head : (F.1.reqs lead).chain.head = []

/-- A call left the chain of `lead` waiting: of the jobs `js` it started the
jobs of `pre`, whose starts returned terminal statuses, and then job `r`,
whose start returned the deferred status `st`; the jobs `rest1` stay on the
queue and the chain stays set up. -/
structure LeftWaiting (lead : ReqId) (c : Completion) (d : Ptr) (js : List ReqId)
    (F : World × Int) (evs : List Event) (pre : List (ReqId × Int)) (r : ReqId) (st : Int)
    (rest1 : List ReqId) : Prop where
  starts_eq : starts evs = pre ++ [(r, st)]
  terminal : ∀ p ∈ pre, deferred p.2 = false
  deferred : deferred st = true
  jobs : js = pre.map Prod.fst ++ r :: rest1
  running : Running lead c d rest1 F.1
  cur : (F.1.reqs lead).chain.cur = r
  complete : (F.1.reqs r).complete = .reqchain_done
  data : (F.1.reqs r).data = .chain lead

/-- What a call of `acomp_reqchain_finish` on the chain of `lead` does, from
memory `w` with pending queue `rest`: `F` is its result, `evs` the events it
adds. -/
structure FinishSpec (B : Backend) (lead : ReqId) (c : Completion) (d : Ptr)
    (rest : List ReqId) (w : World) (err : Int) (F : World × Int) (evs : List Event) :
    Prop where
  trace : F.1.trace = w.trace ++ evs
  all_starts : ∀ e ∈ evs, e.started.isSome = true
  tfms : F.1.tfms = w.tfms
  cur_err : (w.reqs lead).chain.cur ∉ rest →
    (F.1.reqs (w.reqs lead).chain.cur).err = err
  errs : ∀ p ∈ starts evs, deferred p.2 = false → (F.1.reqs p.1).err = p.2
  errs_frame : ∀ x, x ∉ rest → x ≠ (w.reqs lead).chain.cur → (F.1.reqs x).err = (w.reqs x).err
  outcome : RanToEnd lead c d rest err F evs ∨
    ∃ pre r st rest1, LeftWaiting lead c d rest F evs pre r st rest1 ∧
      F.2 = (if st = -EINPROGRESS ∧ rest1 = [] then -EINPROGRESS else -EBUSY)
  lead_list : (F.1.reqs lead).list =
    ((w.reqs lead).list ++ if (w.reqs lead).chain.cur ≠ lead then [(w.reqs lead).chain.cur]
      else []) ++ finishedJobs (starts evs)
  statuses : ∀ p ∈ starts evs, ∃ w0 s, p.2 = (acomp_do_one_req B w0 s p.1).2

/-- What a call of `acomp_do_req_chain` on the slow path does for the lead
job `lead` with follow-ons `qs`, caller's completion `c` and context `d`:
`S` is its result from memory `w`, `evs` the events it adds. -/
structure SubmitSpec (B : Backend) (lead : ReqId) (c : Completion) (d : Ptr)
    (qs : List ReqId) (w : World) (S : World × Int) (evs : List Event) : Prop where
  trace : S.1.trace = w.trace ++ evs
  all_starts : ∀ e ∈ evs, e.started.isSome = true
  tfms : S.1.tfms = w.tfms
  errs : ∀ p ∈ starts evs, deferred p.2 = false → (S.1.reqs p.1).err = p.2
  errs_frame : ∀ x, x ∉ lead :: qs → (S.1.reqs x).err = (w.reqs x).err
  outcome : RanToEnd lead c d (lead :: qs) 0 S evs ∨
    ∃ pre r st rest1, LeftWaiting lead c d (lead :: qs) S evs pre r st rest1 ∧
      S.2 = (if r ≠ lead ∧ st = -EINPROGRESS ∧ rest1 = [] then -EINPROGRESS else -EBUSY)
  lead_list : (S.1.reqs lead).list = (finishedJobs (starts evs)).tail
  statuses : ∀ p ∈ starts evs, ∃ w0 s, p.2 = (acomp_do_one_req B w0 s p.1).2

/-- Whether an event brings job `k` to the terminal status `e`. -/
def Event.settlesWith (k : ReqId) (e : Int) : Event → Bool
  | .op _ r _ err => decide (r = k) && decide (err = e) && !deferred err
  | .fallback _ r _ err => decide (r = k) && decide (err = e) && !deferred err
  | .deliver r err => decide (r = k) && decide (err = e) && !deferred err
  | .complete _ _ _ => false

/-- Job `k` has reached the terminal status `e` in the trace. -/
def reached (t : List Event) (k : ReqId) (e : Int) : Bool := t.any (Event.settlesWith k e)

/-- Every job started in the trace has reached a terminal status. -/
def AllSettled (t : List Event) : Prop :=
  ∀ k ∈ (starts t).map Prod.fst, settled t k = true

/-- The last job of the chain of `lead` with follow-ons `qs`. -/
def lastJob (lead : ReqId) (qs : List ReqId) : ReqId := qs.getLast?.getD lead

/-- The chain of `lead` with follow-ons `qs` waits in memory `w` for the
backend to complete job `r`, the last job started; the jobs `rest` are still
on the queue.  Every job before `r` has reached a terminal status, and the
caller's completion (`c` with context `d`) has been called with in-progress
notifications only. -/
structure Waiting (lead : ReqId) (c : Completion) (d : Ptr) (qs : List ReqId)
    (w : World) (r : ReqId) (rest : List ReqId) : Prop where
  running : Running lead c d rest w
  cur : (w.reqs lead).chain.cur = r
  complete : (w.reqs r).complete = .reqchain_done
  data : (w.reqs r).data = .chain lead
  jobs : ∃ pre, (starts w.trace).map Prod.fst = pre ++ [r] ∧ lead :: qs = pre ++ r :: rest ∧
    ∀ k ∈ pre, settled w.trace k = true
  out : outstanding w.trace = [r]
  ordered : Ordered w.trace
  compls : ∀ x ∈ completions w.trace, x = (c, d, -EINPROGRESS)
  deferred_start : ∃ p ∈ starts w.trace, deferred p.2 = true

/-- The chain of `lead` with follow-ons `qs` is over in memory `w`: every job
was started, in order, and has reached a terminal status, nothing is
outstanding and the lead job has the caller's completion `c` and context `d`
back.  Either every start returned a terminal status and the caller's
completion was never called, or some start was deferred and the last event
is the one call of the caller's completion with a terminal status, that of
the last job. -/
structure Over (lead : ReqId) (c : Completion) (d : Ptr) (qs : List ReqId)
    (w : World) : Prop where
  jobs : (starts w.trace).map Prod.fst = lead :: qs
  settled : ∀ k ∈ lead :: qs, settled w.trace k = true
  out : outstanding w.trace = []
  ordered : Ordered w.trace
  complete : (w.reqs lead).complete = c
  data : (w.reqs lead).data = d
  compls :
    ((∀ p ∈ starts w.trace, deferred p.2 = false) ∧ completions w.trace = [] ∧
      deliveries w.trace = []) ∨
    ((∃ p ∈ starts w.trace, deferred p.2 = true) ∧
      ∃ pre e, w.trace = pre ++ [Event.complete c d e] ∧ deferred e = false ∧
        (∀ x ∈ completions pre, x = (c, d, -EINPROGRESS)) ∧
        (starts pre).map Prod.fst = lead :: qs ∧
        (∀ k ∈ lead :: qs, Acomp.settled pre k = true) ∧
        reached pre (lastJob lead qs) e = true)

/-! ## Concrete chains -/

/-- A request with every field zero. -/
def blank_req : AcompReq := { acomp_request_on_stack_init 0 with flags := 0 }

/-- A request as a caller sets it up: flags, buffers, lengths and follow-ons,
with the completion function `caller 7` and the context at address 99. -/
def caller_req (flags : Nat) (src dst : Ptr) (slen dlen : Nat) (l : List ReqId) : AcompReq :=
  { blank_req with
    flags := flags, src := src, dst := dst, slen := slen, dlen := dlen, list := l
    complete := .caller 7, data := .addr 99 }

/-- A transform without native chain support: compress is operation 1,
decompress operation 2. -/
def plain_tfm : CryptoAcomp := { compress := 1, decompress := 2, fb := 0, req_chain := false }

/-- The memory that holds the requests `rs` (request `i` is the i-th), the
transform `plain_tfm`, and an empty trace. -/
def memory_of (rs : List AcompReq) : World :=
  { reqs := fun i => rs.getD i blank_req, tfms := fun _ => plain_tfm, trace := [] }

/-- A transform table with a software fallback: transform 0 has no native
chain support and falls back to transform 1; every other transform chains
natively and is its own fallback, with compress as operation 3 and decompress
as operation 4. -/
def fallback_tfms (t : TfmId) : CryptoAcomp :=
  if t = 0 then { compress := 1, decompress := 2, fb := 1, req_chain := false }
  else { compress := 3, decompress := 4, fb := t, req_chain := true }

/-- The memory `w` with the transform table `fallback_tfms`. -/
def with_fallback (w : World) : World := { w with tfms := fallback_tfms }

/-- A backend that follows a script: the start of job `r` returns the r-th
status of `st` and reports `50 + r` bytes of output, a deferred job `r` is
completed later with the r-th status of `fin`, after an in-progress
notification when `notify` is set; the software fallback succeeds. -/
def scripted_backend (st fin : List Int) (notify : Bool) : Backend :=
  { op := fun _ r _ => ⟨st.getD r 0, 50 + r⟩
    fb := fun _ _ _ => ⟨0, 77⟩
    final := fun r => fin.getD r 0
    notifies := fun _ => notify }

/-- A lead job with flat buffers and no follow-ons. -/
def single_flat : World :=
  memory_of [caller_req 0xA (.addr 10) (.addr 20) 100 200 []]

/-- A lead job whose buffers are scatter lists, without follow-ons. -/
def single_sg : World :=
  memory_of [caller_req 0 (.addr 10) (.addr 20) 100 200 []]

/-- A lead job with flat buffers and two follow-ons with scatter-list
buffers. -/
def chain_of_three : World :=
  memory_of [caller_req 0xA (.addr 10) (.addr 20) 100 200 [1, 2],
    caller_req 0 (.addr 11) (.addr 21) 100 200 [],
    caller_req 0 (.addr 12) (.addr 22) 100 200 []]

/-- A lead job with flat buffers and one follow-on with scatter-list
buffers. -/
def chain_of_two : World :=
  memory_of [caller_req 0xA (.addr 10) (.addr 20) 100 200 [1],
    caller_req 0 (.addr 11) (.addr 21) 100 200 []]

/-- A job whose source is a scatter list of 100 bytes and whose destination
is 200 bytes of a folio. -/
def sg_to_folio : AcompReq :=
  caller_req CRYPTO_ACOMP_REQ_DST_FOLIO (.addr 1000) (.addr 2000) 100 200 []

/-- The memory after `chain_of_three` was submitted to a backend that defers
the start of the lead job: the chain waits for the lead job, the two
follow-ons are on the queue. -/
def waiting_on_lead (st : List Int) : World :=
  (acomp_do_req_chain (scripted_backend st [] false) chain_of_three 0 1).1

/-! ## The buffer view: spans -/

/-- Modelled from the spec: `UINT_MAX` of `<linux/limits.h>` (not under
src/), the largest `unsigned int`: no bound on a span. -/
def UINT_MAX : Nat := 2 ^ 32 - 1

/-- Modelled from the spec: `INT_MAX` of `<linux/limits.h>` (not under src/),
the largest `int`. -/
def INT_MAX : Nat := 2 ^ 31 - 1

/-- The conversion of an `unsigned int` to the `int` a function returns: the
same 32 bits read as a two's complement number. -/
def int_of_uint (x : Nat) : Int :=
  if x % 2 ^ 32 < 2 ^ 31 then ((x % 2 ^ 32 : Nat) : Int)
  else ((x % 2 ^ 32 : Nat) : Int) - 2 ^ 32

/-- The conversion of an `int` to `unsigned int`: its value modulo `2 ^ 32`. -/
def uint_of_int (x : Int) : Nat := (x % 2 ^ 32).toNat

/-- The pointer `(u8 *)p + n`.  The scatter lists and chain states embedded
in a request have no interior addresses here and stay as they are. -/
def ptr_add : Ptr → Nat → Ptr
  | .addr a, n => .addr (a + n)
  | .null, n => .addr n
  | p, _ => p

/-- The bound `max` on a span that `acomp_walk_next_src` and
`acomp_walk_next_dst` compute: one page when the scheduler is not preemptible
(`preempt_model_preemptible()` is false) and the view may sleep, `UINT_MAX`
otherwise. -/
def walk_span_max (preemptible : Bool) (walk : AcompWalk) : Nat :=
  let max := UINT_MAX
  if !preemptible && flagSet walk.flags ACOMP_WALK_SLEEP then PAGE_SIZE else max

/-- The function `acomp_walk_next_src(walk)`.  `preemptible` is the value of
`preempt_model_preemptible()` and `next` the helper `scatterwalk_next` of
`<crypto/scatterwalk.h>` (not under src/): it maps the next run of the
scatter list and returns its length. -/
def acomp_walk_next_src (preemptible : Bool) (next : ScatterWalk → Nat → ScatterWalk × Nat)
    (walk : AcompWalk) : AcompWalk × Int :=
  let slen := walk.slen
  let max := walk_span_max preemptible walk
  if flagSet walk.flags ACOMP_WALK_SRC_LINEAR then
    ({ walk with in_ := { walk.in_ with addr := ptr_add walk.in_.sg walk.in_.offset } },
      int_of_uint (min slen max))
  else if slen ≠ 0 then
    ({ walk with in_ := (next walk.in_ slen).1 }, int_of_uint (next walk.in_ slen).2)
  else (walk, 0)

/-- The function `acomp_walk_next_dst(walk)`, with `preemptible` and `next`
as for `acomp_walk_next_src`. -/
def acomp_walk_next_dst (preemptible : Bool) (next : ScatterWalk → Nat → ScatterWalk × Nat)
    (walk : AcompWalk) : AcompWalk × Int :=
  let dlen := walk.dlen
  let max := walk_span_max preemptible walk
  if flagSet walk.flags ACOMP_WALK_DST_LINEAR then
    ({ walk with out := { walk.out with addr := ptr_add walk.out.sg walk.out.offset } },
      int_of_uint (min dlen max))
  else if dlen ≠ 0 then
    ({ walk with out := (next walk.out dlen).1 }, int_of_uint (next walk.out dlen).2)
  else (walk, 0)

/-- A view of a flat source of `slen` bytes at address 4096 and a flat
destination of `dlen` bytes at address 8192; `sleep` tells whether the view
may sleep. -/
def flat_view (slen dlen : Nat) (sleep : Bool) : AcompWalk :=
  { in_ := ⟨.addr 4096, 0, .null⟩, out := ⟨.addr 8192, 0, .null⟩
    slen := slen, dlen := dlen
    flags := (if sleep then ACOMP_WALK_SLEEP else 0) ||| ACOMP_WALK_SRC_LINEAR |||
      ACOMP_WALK_DST_LINEAR }

/-- A `scatterwalk_next` that maps nothing and takes the whole length. -/
def whole_run (walk : ScatterWalk) (n : Nat) : ScatterWalk × Nat := (walk, n)

/-- A job with a flat source of 4096 bytes and 8192 bytes of a folio as
destination. -/
def flat_to_folio : AcompReq :=
  caller_req (CRYPTO_ACOMP_REQ_SRC_VIRT ||| CRYPTO_ACOMP_REQ_DST_FOLIO) (.addr 4096) (.addr 2000)
    4096 8192 []

/-! ## The per-CPU stream pool -/

/-- Modelled from the spec: `OutOfMemory`, the errno of `<linux/errno.h>`
(a header that is not under src/). -/
def ENOMEM : Int := 12

/-- Modelled from the spec: what the scratch allocator `alloc_context()`
hands back, a handle or an error (`IS_ERR` holds of the second, and
`PTR_ERR` is its code). -/
inductive CtxResult where
  | handle (h : Nat)
  | error (e : Int)
  deriving DecidableEq, Repr

/-- The record `struct crypto_acomp_stream` of `<crypto/internal/acompress.h>`
(not under src/), as acompress.c uses it: a spin lock (held or not) and the
context, `NULL` (`none`) or a handle. -/
structure CryptoAcompStream where
  lock : Bool
  ctx : Option Nat
  deriving DecidableEq, Repr

/-- The work item `stream_work`: whether `INIT_WORK` bound it to
`acomp_stream_workfn`, and whether it is scheduled and has not run yet. -/
structure WorkStruct where
  bound : Bool
  pending : Bool
  deriving DecidableEq, Repr

/-- The record `struct crypto_acomp_streams` of `<crypto/internal/acompress.h>`
(not under src/), as acompress.c uses it: the per-CPU slots (`NULL`, or one
slot per CPU), the set of wanted CPUs and the work item.  Its function
pointers `alloc_ctx` and `free_ctx` are the allocator and the destructor of
the environment. -/
structure CryptoAcompStreams where
  streams : Option (Nat → CryptoAcompStream)
  stream_want : Nat → Bool
  stream_work : WorkStruct

/-- The calls the pool makes to its collaborators. -/
inductive PoolEvent where
  | alloc_percpu (ok : Bool)
  | free_percpu
  | alloc_ctx (res : CtxResult)
  | free_ctx (ctx : Nat)
  | cancel_work_sync
  | schedule_work
  deriving DecidableEq, Repr

/-- The memory the pool works on: the pool, the depth to which bottom halves
are disabled, and the record of the calls made so far. -/
structure PoolWorld where
  s : CryptoAcompStreams
  bh : Nat
  calls : List PoolEvent

/-- The platform and the allocators: the number of CPU ids, the possible
CPUs (`cpu_possible_mask`), whether `alloc_percpu` succeeds and what
`s->alloc_ctx()` returns, each when called in a given memory. -/
structure PoolEnv where
  nr_cpu_ids : Nat
  cpu_possible : Nat → Bool
  alloc_percpu : PoolWorld → Bool
  alloc_ctx : PoolWorld → CtxResult

/-- Append a call to the record of calls. -/
def PoolWorld.call (w : PoolWorld) (e : PoolEvent) : PoolWorld :=
  { w with calls := w.calls ++ [e] }

/-- Write the slot `per_cpu_ptr(streams, cpu)`. -/
def PoolWorld.slot (w : PoolWorld) (cpu : Nat) (f : CryptoAcompStream → CryptoAcompStream) :
    PoolWorld :=
  { w with s := { w.s with
    streams := w.s.streams.map (fun st => Function.update st cpu (f (st cpu))) } }

/-- Modelled from the spec: `spin_lock_init(&ps->lock)` of
`<linux/spinlock.h>` (not under src/): the lock is free. -/
def spin_lock_init (ps : CryptoAcompStream) : CryptoAcompStream := { ps with lock := false }

/-- Modelled from the spec: `spin_lock(&ps->lock)` of `<linux/spinlock.h>`
(not under src/): the lock is held. -/
def spin_lock (ps : CryptoAcompStream) : CryptoAcompStream := { ps with lock := true }

/-- Modelled from the spec: `spin_unlock(&ps->lock)` of `<linux/spinlock.h>`
(not under src/): the lock is free. -/
def spin_unlock (ps : CryptoAcompStream) : CryptoAcompStream := { ps with lock := false }

/-- Modelled from the spec: `spin_lock_bh(&ps->lock)` of `<linux/spinlock.h>`
(not under src/) on the slot of `cpu`: bottom halves are disabled and the
lock is held. -/
def spin_lock_bh (w : PoolWorld) (cpu : Nat) : PoolWorld :=
  { w.slot cpu spin_lock with bh := w.bh + 1 }

/-- Modelled from the spec: `spin_unlock_bh(&ps->lock)` of
`<linux/spinlock.h>` (not under src/) on the slot of `cpu`. -/
def spin_unlock_bh (w : PoolWorld) (cpu : Nat) : PoolWorld :=
  { w.slot cpu spin_unlock with bh := w.bh - 1 }

/-- Modelled from the spec: `cpumask_first(mask)` of `<linux/cpumask.h>` (not
under src/): the least CPU of the mask, `nr_cpu_ids` when it is empty. -/
def cpumask_first (nr : Nat) (mask : Nat → Bool) : Nat :=
  ((List.range nr).find? mask).getD nr

/-- Modelled from the spec: the CPUs `for_each_possible_cpu` of
`<linux/cpumask.h>` (not under src/) visits: the possible CPUs in increasing
order. -/
def possible_cpus (E : PoolEnv) : List Nat := (List.range E.nr_cpu_ids).filter E.cpu_possible

/-- Modelled from the spec: `cpumask_set_cpu(cpu, &s->stream_want)` of
`<linux/cpumask.h>` (not under src/). -/
def cpumask_set_cpu (cpu : Nat) (w : PoolWorld) : PoolWorld :=
  { w with s := { w.s with stream_want := Function.update w.s.stream_want cpu true } }

/-- Modelled from the spec: `cpumask_clear_cpu(cpu, &s->stream_want)` of
`<linux/cpumask.h>` (not under src/). -/
def cpumask_clear_cpu (cpu : Nat) (w : PoolWorld) : PoolWorld :=
  { w with s := { w.s with stream_want := Function.update w.s.stream_want cpu false } }

/-- Modelled from the spec: `schedule_work(&s->stream_work)` of
`<linux/workqueue.h>` (not under src/): "schedule background work". -/
def schedule_work (w : PoolWorld) : PoolWorld :=
  { w.call .schedule_work with s := { w.s with
    stream_work := { w.s.stream_work with pending := true } } }

/-- Modelled from the spec: `cancel_work_sync(&s->stream_work)` of
`<linux/workqueue.h>` (not under src/): "cancel and wait for background
work". -/
def cancel_work_sync (w : PoolWorld) : PoolWorld :=
  { w.call .cancel_work_sync with s := { w.s with
    stream_work := { w.s.stream_work with pending := false } } }

/-- Modelled from the spec: `INIT_WORK(&s->stream_work, acomp_stream_workfn)`
of `<linux/workqueue.h>` (not under src/). -/
def init_work (w : PoolWorld) : PoolWorld :=
  { w with s := { w.s with stream_work := ⟨true, false⟩ } }

/-- The assignment `ps->ctx = ctx`. -/
def set_ctx (h : Nat) (ps : CryptoAcompStream) : CryptoAcompStream := { ps with ctx := some h }

/-- The loop `for_each_cpu(cpu, &s->stream_want)` of `acomp_stream_workfn`
over the CPU ids `cpus` still to be looked at, in increasing order: the
wanted bit of each is read when the loop reaches it.  The slots are read
through the pointer `streams` the function took from `s->streams`; reading a
slot through `NULL` has no result. -/
def stream_workfn_loop (E : PoolEnv) : List Nat → PoolWorld → Option PoolWorld
  | [], w => some w
  | cpu :: rest, w =>
    if w.s.stream_want cpu then
      match w.s.streams with
      | none => none
      | some st =>
        if (st cpu).ctx.isSome then stream_workfn_loop E rest w
        else
          let res := E.alloc_ctx w
          let w := w.call (.alloc_ctx res)
          match res with
          | .error _ => some w
          | .handle h =>
            let w := spin_lock_bh w cpu
            let w := w.slot cpu (set_ctx h)
            let w := spin_unlock_bh w cpu
            let w := cpumask_clear_cpu cpu w
            stream_workfn_loop E rest w
    else stream_workfn_loop E rest w

/-- The function `acomp_stream_workfn(work)`, the background fill task. -/
def acomp_stream_workfn (E : PoolEnv) (w : PoolWorld) : Option PoolWorld :=
  stream_workfn_loop E (List.range E.nr_cpu_ids) w

/-- The loop `for_each_possible_cpu(i)` of `crypto_acomp_free_streams` over
the slots `st`: the destructor is called on every context that is there. -/
def free_ctx_loop (st : Nat → CryptoAcompStream) : List Nat → PoolWorld → PoolWorld
  | [], w => w
  | i :: rest, w =>
    match (st i).ctx with
    | none => free_ctx_loop st rest w
    | some c => free_ctx_loop st rest (w.call (.free_ctx c))

/-- The function `crypto_acomp_free_streams(s)`. -/
def crypto_acomp_free_streams (E : PoolEnv) (w : PoolWorld) : PoolWorld :=
  let streams := w.s.streams
  let w := { w with s := { w.s with streams := none } }
  match streams with
  | none => w
  | some st =>
    let w := cancel_work_sync w
    let w := free_ctx_loop st (possible_cpus E) w
    w.call .free_percpu

/-- The loop `for_each_possible_cpu(i)` of `crypto_acomp_alloc_streams` over
the new slots: every lock is initialised. -/
def lock_init_loop : List Nat → (Nat → CryptoAcompStream) → (Nat → CryptoAcompStream)
  | [], st => st
  | i :: rest, st => lock_init_loop rest (Function.update st i (spin_lock_init (st i)))

/-- Modelled from the spec: the storage `alloc_percpu` of `<linux/percpu.h>`
(not under src/) returns: one zeroed slot per CPU. -/
def zeroed_percpu : Nat → CryptoAcompStream := fun _ => ⟨false, none⟩

/-- The function `crypto_acomp_alloc_streams(s)`: the memory and the returned
status. -/
def crypto_acomp_alloc_streams (E : PoolEnv) (w : PoolWorld) : PoolWorld × Int :=
  if w.s.streams.isSome then (w, 0)
  else
    let ok := E.alloc_percpu w
    let w := w.call (.alloc_percpu ok)
    if ok = false then (w, -ENOMEM)
    else
      let streams := zeroed_percpu
      let res := E.alloc_ctx w
      let w := w.call (.alloc_ctx res)
      match res with
      | .error e => (w.call .free_percpu, e)
      | .handle h =>
        let i := cpumask_first E.nr_cpu_ids E.cpu_possible
        let streams := Function.update streams i (set_ctx h (streams i))
        let streams := lock_init_loop (possible_cpus E) streams
        let w := { w with s := { w.s with streams := some streams } }
        (init_work w, 0)

/-- The function `crypto_acomp_lock_stream_bh(s)` called on the CPU `cpu`
(the value of `raw_smp_processor_id()`): the memory and the CPU whose slot
is returned, locked.  Reading a slot through a `NULL` `s->streams` has no
result. -/
def crypto_acomp_lock_stream_bh (E : PoolEnv) (w : PoolWorld) (cpu : Nat) :
    Option (PoolWorld × Nat) :=
  match w.s.streams with
  | none => none
  | some st =>
    let w := spin_lock_bh w cpu
    if (st cpu).ctx.isSome then some (w, cpu)
    else
      let w := w.slot cpu spin_unlock
      let w := cpumask_set_cpu cpu w
      let w := schedule_work w
      let first := cpumask_first E.nr_cpu_ids E.cpu_possible
      let w := w.slot first spin_lock
      some (w, first)

/-- The slot of a CPU in a memory, a zeroed slot when the pool has none. -/
def PoolWorld.stream (w : PoolWorld) (cpu : Nat) : CryptoAcompStream :=
  (w.s.streams.getD zeroed_percpu) cpu

/-- A pool that was never allocated, nothing wanted, no call made. -/
def empty_pool : PoolWorld :=
  { s := { streams := none, stream_want := fun _ => false, stream_work := ⟨false, false⟩ }
    bh := 0, calls := [] }

/-- Four possible CPUs `0..3`; both allocators succeed, and the k-th call
recorded is answered with the handle `100 + k`. -/
def four_units : PoolEnv :=
  { nr_cpu_ids := 4, cpu_possible := fun c => decide (c < 4)
    alloc_percpu := fun _ => true
    alloc_ctx := fun w => .handle (100 + w.calls.length) }

/-- Four possible CPUs whose context allocator always fails with -ENOMEM. -/
def four_units_no_memory : PoolEnv :=
  { four_units with alloc_ctx := fun _ => .error (-ENOMEM) }

/-- The number of calls of the context allocator in a record of calls. -/
def ctx_allocations (calls : List PoolEvent) : Nat :=
  calls.countP (fun e => match e with
    | .alloc_ctx _ => true
    | _ => false)

/-- The contexts handed to the destructor in a record of calls, in order. -/
def ctx_frees (calls : List PoolEvent) : List Nat :=
  calls.filterMap (fun e => match e with
    | .free_ctx c => some c
    | _ => none)

/-- The pool of `four_units` after `crypto_acomp_alloc_streams`: CPU 0 holds
the context 101. -/
def four_units_allocated : PoolWorld := (crypto_acomp_alloc_streams four_units empty_pool).1

/-- The pool of `four_units` after allocation and a call of
`crypto_acomp_lock_stream_bh` on CPU 2: CPU 2 is wanted and the fill task is
scheduled. -/
def four_units_wanting_two : PoolWorld :=
  ((crypto_acomp_lock_stream_bh four_units four_units_allocated 2).map (fun p => p.1)).getD
    empty_pool

/-! ## Transform initialisation -/

/-- Modelled from the spec: the errno "no such entry" of `<linux/errno.h>`
(a header that is not under src/), with which the algorithm lookup fails
when no implementation of the name is registered. -/
def ENOENT : Int := 2

/-- Modelled from the spec: the flag `CRYPTO_ALG_ASYNC` of `<linux/crypto.h>`
(not under src/), set on algorithms that may complete asynchronously. -/
def CRYPTO_ALG_ASYNC : Nat := 0x80

/-- The fields of `struct acomp_alg` and of its `struct crypto_alg` that
`crypto_acomp_init_tfm` reads: whether `cra_type` is `&crypto_acomp_type`,
the algorithm flags, the two operations, the request size and whether the
`init` hook is there. -/
structure AcompAlg where
  acomp_type : Bool
  cra_flags : Nat
  compress : OpId
  decompress : OpId
  reqsize : Nat
  has_init : Bool
  deriving DecidableEq, Repr

/-- What `crypto_alloc_tfm_node` (declared in internal.h, defined outside
src/) hands back: a transform or an error pointer. -/
inductive TfmResult where
  | tfm (t : TfmId)
  | error (e : Int)
  deriving DecidableEq, Repr

/-- The calls `crypto_acomp_init_tfm` makes. -/
inductive TfmEvent where
  | alloc_acomp (type mask : Nat) (res : TfmResult)
  | free_acomp (fb : Option TfmId)
  | alg_init (t : TfmId) (err : Int)
  | init_scomp_ops_async (t : TfmId) (err : Int)
  deriving DecidableEq, Repr

/-- The transforms and the record of the calls made so far. -/
structure TfmWorld where
  tfms : TfmId → CryptoAcomp
  calls : List TfmEvent

/-- What is outside acompress.c: the transform allocator, the bound
`MAX_SYNC_COMP_REQSIZE` of `<crypto/internal/acompress.h>` (not under src/),
the `init` hook of the algorithm and `crypto_init_scomp_ops_async` of
scompress.c (not under src/).  Of the two hooks only the returned status is
kept; what they write into the transform is outside acompress.c. -/
structure TfmEnv where
  alloc_tfm : TfmWorld → TfmResult
  MAX_SYNC_COMP_REQSIZE : Nat
  alg_init : TfmWorld → TfmId → Int
  init_scomp_ops_async : TfmWorld → TfmId → Int

/-- Append a call to the record of calls. -/
def TfmWorld.call (w : TfmWorld) (e : TfmEvent) : TfmWorld :=
  { w with calls := w.calls ++ [e] }

/-- Replace one transform of the table. -/
def TfmWorld.set (w : TfmWorld) (t : TfmId) (f : CryptoAcomp → CryptoAcomp) : TfmWorld :=
  { w with tfms := Function.update w.tfms t (f (w.tfms t)) }

/-- Modelled from the spec: `acomp_is_async` of `<crypto/internal/acompress.h>`
(not under src/): the algorithm of the transform is flagged asynchronous. -/
def acomp_is_async (alg : AcompAlg) : Bool := flagSet alg.cra_flags CRYPTO_ALG_ASYNC

/-- Modelled from the spec: `crypto_acomp_reqsize` of `<crypto/acompress.h>`
(not under src/): the scratch size a request of the transform needs. -/
def crypto_acomp_reqsize (w : TfmWorld) (t : TfmId) : Nat := (w.tfms t).reqsize

/-- The function `crypto_alloc_acomp(alg_name, type, mask)`: the call is
passed on to the transform allocator. -/
def crypto_alloc_acomp (E : TfmEnv) (w : TfmWorld) (type mask : Nat) : TfmWorld × TfmResult :=
  (w.call (.alloc_acomp type mask (E.alloc_tfm w)), E.alloc_tfm w)

/-- The assignment `acomp->fb = fb`. -/
def set_fb (fb : TfmId) (a : CryptoAcomp) : CryptoAcomp := { a with fb := fb }

/-- The assignments of `crypto_acomp_init_tfm` from the algorithm:
`compress`, `decompress`, `reqsize` and `base.exit`. -/
def set_ops (alg : AcompAlg) (a : CryptoAcomp) : CryptoAcomp :=
  { a with
    compress := alg.compress
    decompress := alg.decompress
    reqsize := alg.reqsize
    base_exit := true }

/-- The part of `crypto_acomp_init_tfm` after the fallback is settled, from
`acomp->compress = alg->compress` on; `fb` is the local `fb`. -/
def init_tfm_ops (E : TfmEnv) (alg : AcompAlg) (w : TfmWorld) (t : TfmId)
    (fb : Option TfmId) : TfmWorld × Int :=
  let w := w.set t (set_ops alg)
  if alg.has_init = false then (w, 0)
  else
    let err := E.alg_init w t
    let w := w.call (.alg_init t err)
    if err ≠ 0 then (w.call (.free_acomp fb), err)
    else (w, 0)

/-- The function `crypto_acomp_init_tfm(tfm)` for the transform `t` of the
algorithm `alg`. -/
def crypto_acomp_init_tfm (E : TfmEnv) (alg : AcompAlg) (w : TfmWorld) (t : TfmId) :
    TfmWorld × Int :=
  let w := w.set t (set_fb t)
  if alg.acomp_type = false then
    (w.call (.init_scomp_ops_async t (E.init_scomp_ops_async w t)), E.init_scomp_ops_async w t)
  else if acomp_is_async alg then
    let r := crypto_alloc_acomp E w 0 CRYPTO_ALG_ASYNC
    match r.2 with
    | .error e => (r.1, e)
    | .tfm fb =>
      if crypto_acomp_reqsize r.1 fb > E.MAX_SYNC_COMP_REQSIZE then
        (r.1.call (.free_acomp (some fb)), -EINVAL)
      else
        init_tfm_ops E alg (r.1.set t (set_fb fb)) t (some fb)
  else init_tfm_ops E alg w t none

/-- An asynchronous algorithm registered against the acomp type, with an
`init` hook. -/
def async_alg : AcompAlg :=
  { acomp_type := true, cra_flags := CRYPTO_ALG_ASYNC, compress := 1, decompress := 2
    reqsize := 64, has_init := true }

/-- The same algorithm without the asynchronous flag. -/
def sync_alg : AcompAlg := { async_alg with cra_flags := 0 }

/-- A transform table in which transform 5 needs 128 bytes of request
context and every other none; no call made. -/
def fresh_tfms : TfmWorld :=
  { tfms := fun t => { plain_tfm with reqsize := if t = 5 then 128 else 0 }, calls := [] }

/-- An environment whose transform allocator answers `res`, with the bound
`MAX_SYNC_COMP_REQSIZE` at 0 and hooks that succeed. -/
def tfm_env (res : TfmResult) : TfmEnv :=
  { alloc_tfm := fun _ => res, MAX_SYNC_COMP_REQSIZE := 0
    alg_init := fun _ _ => 0, init_scomp_ops_async := fun _ _ => 0 }

/-- The buffers of a job as a backend operation sees them: source and
destination, their offsets and lengths, and the flags. -/
def buffers (q : AcompReq) : Ptr × Ptr × Nat × Nat × Nat × Nat × Nat :=
  (q.src, q.dst, q.soff, q.doff, q.slen, q.dlen, q.flags)

/-- A backend that compresses to half the source length and succeeds at
once; it looks at nothing but the buffers of the job. -/
def halving_backend : Backend :=
  { op := fun _ r w => ⟨0, (w.reqs r).slen / 2⟩
    fb := fun _ q _ => ⟨0, q.slen / 2⟩
    final := fun _ => 0
    notifies := fun _ => false }

/-- A lead job whose buffers are scatter lists, of 100 and 200 bytes, with
one follow-on job without buffers attached. -/
def sg_with_trivial : World :=
  memory_of [caller_req 0 (.addr 10) (.addr 20) 100 200 [1],
    caller_req 0 .null .null 0 0 []]

/-- A lead job with flat buffers and no follow-ons, submitted to a backend
that defers its start: the chain waits for the lead job with an empty
queue. -/
def waiting_single : World :=
  (acomp_do_req_chain (scripted_backend [-EINPROGRESS] [] false) single_flat 0 1).1

/-- A job whose source and destination are both flat and not accessible to
the device (NONDMA), of 100 and 200 bytes. -/
def nondma_job : AcompReq :=
  caller_req (CRYPTO_ACOMP_REQ_SRC_VIRT ||| CRYPTO_ACOMP_REQ_SRC_NONDMA |||
    CRYPTO_ACOMP_REQ_DST_VIRT ||| CRYPTO_ACOMP_REQ_DST_NONDMA) (.addr 10) (.addr 20) 100 200 []

/-! ## Consuming a span -/

/-- The subtraction `a -= b` on an `unsigned int`. -/
def uint_sub (a b : Nat) : Nat := (a % 2 ^ 32 + 2 ^ 32 - b % 2 ^ 32) % 2 ^ 32

/-- The helpers of `<crypto/scatterwalk.h>` that the view calls (not under
src/): `advance` is `scatterwalk_advance`, `done_src` and `done_dst` are
`scatterwalk_done_src` and `scatterwalk_done_dst`, `next` is
`scatterwalk_next`.  Each takes the cursor and a byte count. -/
structure WalkOps where
  next : ScatterWalk → Nat → ScatterWalk × Nat
  advance : ScatterWalk → Nat → ScatterWalk
  done_src : ScatterWalk → Nat → ScatterWalk
  done_dst : ScatterWalk → Nat → ScatterWalk

/-- The function `acomp_walk_done_src(walk, used)`.  The second component
tells whether `cond_resched()` was called. -/
def acomp_walk_done_src (ops : WalkOps) (walk : AcompWalk) (used : Int) : AcompWalk × Bool :=
  let walk := { walk with slen := uint_sub walk.slen (uint_of_int used) }
  let walk :=
    if flagSet walk.flags ACOMP_WALK_SRC_LINEAR then
      { walk with in_ := ops.advance walk.in_ (uint_of_int used) }
    else { walk with in_ := ops.done_src walk.in_ (uint_of_int used) }
  (walk, flagSet walk.flags ACOMP_WALK_SLEEP)

/-- The function `acomp_walk_done_dst(walk, used)`.  The second component
tells whether `cond_resched()` was called. -/
def acomp_walk_done_dst (ops : WalkOps) (walk : AcompWalk) (used : Int) : AcompWalk × Bool :=
  let walk := { walk with dlen := uint_sub walk.dlen (uint_of_int used) }
  let walk :=
    if flagSet walk.flags ACOMP_WALK_DST_LINEAR then
      { walk with out := ops.advance walk.out (uint_of_int used) }
    else { walk with out := ops.done_dst walk.out (uint_of_int used) }
  (walk, flagSet walk.flags ACOMP_WALK_SLEEP)

/-- A caller that takes source spans until `acomp_walk_next_src` returns 0,
consuming each span whole with `acomp_walk_done_src`.  The result is the list
of spans returned and the view at the end; `none` when `fuel` rounds were not
enough. -/
def walk_src (preemptible : Bool) (ops : WalkOps) : Nat → AcompWalk → Option (List Int × AcompWalk)
  | 0, _ => none
  | fuel + 1, walk =>
    let p := acomp_walk_next_src preemptible ops.next walk
    if p.2 = 0 then some ([], p.1)
    else
      match walk_src preemptible ops fuel (acomp_walk_done_src ops p.1 p.2).1 with
      | none => none
      | some (spans, last) => some (p.2 :: spans, last)

/-- A caller that takes destination spans until `acomp_walk_next_dst`
returns 0, consuming each span whole with `acomp_walk_done_dst`. -/
def walk_dst (preemptible : Bool) (ops : WalkOps) : Nat → AcompWalk → Option (List Int × AcompWalk)
  | 0, _ => none
  | fuel + 1, walk =>
    let p := acomp_walk_next_dst preemptible ops.next walk
    if p.2 = 0 then some ([], p.1)
    else
      match walk_dst preemptible ops fuel (acomp_walk_done_dst ops p.1 p.2).1 with
      | none => none
      | some (spans, last) => some (p.2 :: spans, last)

/-- Helpers that move the cursor of a flat buffer forward by the byte count
and leave a scatter list alone. -/
def flat_ops : WalkOps :=
  { next := whole_run
    advance := fun walk n => { walk with offset := (walk.offset + n) % 2 ^ 32 }
    done_src := fun walk _ => walk
    done_dst := fun walk _ => walk }

/-- The number of rounds that cover `len` bytes in spans of at most `cap`
bytes: `len / cap` rounded up. -/
def span_rounds (len cap : Nat) : Nat := (len + cap - 1) / cap

/-! ## The life of a stream pool -/

/-- Modelled from the spec: `crypto_acomp_unlock_stream_bh(stream)` of
`<crypto/internal/acompress.h>` (not under src/), "unlock(slot)": the slot's
lock is released with `spin_unlock_bh`.  The slot is named by its CPU. -/
def crypto_acomp_unlock_stream_bh (w : PoolWorld) (cpu : Nat) : PoolWorld := spin_unlock_bh w cpu

/-- What is done to a pool between its allocation and its release: a call of
`crypto_acomp_lock_stream_bh` on a CPU, the unlock of a slot, or a run of the
fill task `acomp_stream_workfn`. -/
inductive PoolAction where
  | lock (cpu : Nat)
  | unlock (cpu : Nat)
  | work
  deriving DecidableEq, Repr

/-- One action on a pool; `none` when a slot is read through `NULL`. -/
def pool_step (E : PoolEnv) (w : PoolWorld) : PoolAction → Option PoolWorld
  | .lock cpu => (crypto_acomp_lock_stream_bh E w cpu).map (fun p => p.1)
  | .unlock cpu => some (crypto_acomp_unlock_stream_bh w cpu)
  | .work => acomp_stream_workfn E w

/-- A sequence of actions on a pool, one after the other. -/
def pool_run (E : PoolEnv) : List PoolAction → PoolWorld → Option PoolWorld
  | [], w => some w
  | a :: rest, w =>
    match pool_step E w a with
    | none => none
    | some w1 => pool_run E rest w1

/-! ## Where the jobs of a chain are -/

/-- The follow-ons `qs` of the chain of `lead` are all in place in memory
`w`.  Either nothing is outstanding, the pending queue `state->head` is empty
and the lead job's list holds `qs`; or the job `state->cur` is outstanding,
and the lead job's list, then `state->cur` (unless it is the lead job), then
the pending queue make up `qs`, in this order. -/
def Linked (lead : ReqId) (qs : List ReqId) (w : World) : Prop :=
  (outstanding w.trace = [] ∧ (w.reqs lead).chain.head = [] ∧ (w.reqs lead).list = qs) ∨
  (outstanding w.trace = [(w.reqs lead).chain.cur] ∧
    (w.reqs lead).list ++
      (if (w.reqs lead).chain.cur = lead then [] else [(w.reqs lead).chain.cur]) ++
      (w.reqs lead).chain.head = qs)

/-- A lead job with flat buffers and one follow-on that is NONDMA, on a
transform whose fallback chains natively. -/
def chain_with_nondma : World :=
  with_fallback (memory_of [caller_req 0xA (.addr 10) (.addr 20) 100 200 [1], nondma_job])

@[simp] theorem modify_reqs (w : World) (r : ReqId) (f : AcompReq → AcompReq) (x : ReqId) :
    (w.modify r f).reqs x = if x = r then f (w.reqs r) else w.reqs x := by
  unfold World.modify
  by_cases h : x = r
  · subst h; simp
  · simp [h]

@[simp] theorem modify_trace (w : World) (r : ReqId) (f : AcompReq → AcompReq) :
    (w.modify r f).trace = w.trace := rfl

@[simp] theorem modify_tfms (w : World) (r : ReqId) (f : AcompReq → AcompReq) :
    (w.modify r f).tfms = w.tfms := rfl

@[simp] theorem log_reqs (w : World) (e : Event) : (w.log e).reqs = w.reqs := rfl

@[simp] theorem log_trace (w : World) (e : Event) : (w.log e).trace = w.trace ++ [e] := rfl

@[simp] theorem log_tfms (w : World) (e : Event) : (w.log e).tfms = w.tfms := rfl

theorem newEvents_of_trace {w w1 : World} {evs : List Event}
    (h : w1.trace = w.trace ++ evs) : newEvents w w1 = evs := by
  simp [newEvents, h]

theorem steer_virt_to_sg (r : ReqId) (q : AcompReq) :
    steer (acomp_virt_to_sg r q) = steer q := by
  unfold acomp_virt_to_sg
  simp only [acomp_request_src_isvirt, acomp_request_src_isfolio, acomp_request_dst_isvirt,
    acomp_request_dst_isfolio, acomp_request_set_src_sg, acomp_request_set_dst_sg]
  split_ifs <;> rfl

theorem cur_virt_to_sg (r : ReqId) (q : AcompReq) :
    (acomp_virt_to_sg r q).chain.cur = q.chain.cur := by
  unfold acomp_virt_to_sg
  simp only [acomp_request_src_isvirt, acomp_request_src_isfolio, acomp_request_dst_isvirt,
    acomp_request_dst_isfolio, acomp_request_set_src_sg, acomp_request_set_dst_sg]
  split_ifs <;> rfl

theorem chain_reqchain_virt_req (q : AcompReq) (err : Int) :
    (reqchain_virt_req q err).chain = q.chain := by
  unfold reqchain_virt_req
  simp only [acomp_request_set_src_dma, acomp_request_set_src_folio,
    acomp_request_set_dst_dma, acomp_request_set_dst_folio]
  split_ifs <;> rfl

theorem ctl_reqchain_virt_req (q : AcompReq) (err : Int) :
    (reqchain_virt_req q err).complete = q.complete ∧
    (reqchain_virt_req q err).data = q.data ∧
    (reqchain_virt_req q err).list = q.list ∧
    (reqchain_virt_req q err).tfm = q.tfm ∧
    (reqchain_virt_req q err).err = err := by
  unfold reqchain_virt_req
  simp only [acomp_request_set_src_dma, acomp_request_set_src_folio,
    acomp_request_set_dst_dma, acomp_request_set_dst_folio]
  split_ifs <;> simp

theorem proj_modify {α : Type} (g : AcompReq → α) (w : World) (r : ReqId)
    (f : AcompReq → AcompReq) (hf : ∀ q, g (f q) = g q) (x : ReqId) :
    g ((w.modify r f).reqs x) = g (w.reqs x) := by
  rw [modify_reqs]
  split_ifs with h
  · subst h; exact hf _
  · rfl

theorem modify_reqs_self (w : World) (r : ReqId) (f : AcompReq → AcompReq) :
    (w.modify r f).reqs r = f (w.reqs r) := by simp

theorem modify_reqs_other (w : World) (r : ReqId) (f : AcompReq → AcompReq) (x : ReqId)
    (h : x ≠ r) : (w.modify r f).reqs x = w.reqs x := by simp [h]

theorem err_virt_to_sg (r : ReqId) (q : AcompReq) :
    (acomp_virt_to_sg r q).err = q.err := by
  unfold acomp_virt_to_sg
  simp only [acomp_request_src_isvirt, acomp_request_src_isfolio, acomp_request_dst_isvirt,
    acomp_request_dst_isfolio, acomp_request_set_src_sg, acomp_request_set_dst_sg]
  split_ifs <;> rfl

theorem do_one_req_proj {α : Type} (g : AcompReq → α)
    (h1 : ∀ r q, g (set_cur r q) = g q) (h2 : ∀ n q, g (set_dlen n q) = g q)
    (h3 : ∀ r q, g (acomp_virt_to_sg r q) = g q)
    (B : Backend) (w : World) (s r x : ReqId) :
    g ((acomp_do_one_req B w s r).1.reqs x) = g (w.reqs x) := by
  simp only [acomp_do_one_req]
  split_ifs with h
  · simp only [acomp_do_nondma, log_reqs]
    rw [proj_modify g _ _ _ (h2 _), proj_modify g _ _ _ (h1 _)]
  · simp only [call_op, log_reqs]
    rw [proj_modify g _ _ _ (h2 _), proj_modify g _ _ _ (h3 _), proj_modify g _ _ _ (h1 _)]

theorem do_one_req_steer (B : Backend) (w : World) (s r x : ReqId) :
    steer ((acomp_do_one_req B w s r).1.reqs x) = steer (w.reqs x) :=
  do_one_req_proj steer (fun _ _ => rfl) (fun _ _ => rfl) steer_virt_to_sg B w s r x

theorem do_one_req_err (B : Backend) (w : World) (s r x : ReqId) :
    ((acomp_do_one_req B w s r).1.reqs x).err = (w.reqs x).err :=
  do_one_req_proj AcompReq.err (fun _ _ => rfl) (fun _ _ => rfl) err_virt_to_sg B w s r x

theorem do_one_req_tfms (B : Backend) (w : World) (s r : ReqId) :
    (acomp_do_one_req B w s r).1.tfms = w.tfms := by
  simp only [acomp_do_one_req]
  split_ifs <;> rfl

theorem do_one_req_trace (B : Backend) (w : World) (s r : ReqId) :
    ∃ ev, (acomp_do_one_req B w s r).1.trace = w.trace ++ [ev] ∧
      ev.started = some (r, (acomp_do_one_req B w s r).2) := by
  simp only [acomp_do_one_req]
  split_ifs with h
  · exact ⟨_, rfl, rfl⟩
  · exact ⟨_, rfl, rfl⟩

theorem cur_set_dlen (n : Nat) (q : AcompReq) : (set_dlen n q).chain.cur = q.chain.cur := rfl

theorem do_one_req_cur (B : Backend) (w : World) (s r : ReqId) :
    ((acomp_do_one_req B w s r).1.reqs s).chain.cur = r := by
  simp only [acomp_do_one_req]
  split_ifs with h
  · simp only [acomp_do_nondma, log_reqs]
    rw [proj_modify (fun q => q.chain.cur) _ _ _ (cur_set_dlen _), modify_reqs_self]
    rfl
  · simp only [call_op, log_reqs]
    rw [proj_modify (fun q => q.chain.cur) _ _ _ (cur_set_dlen _),
      proj_modify (fun q => q.chain.cur) _ _ _ (cur_virt_to_sg r), modify_reqs_self]
    rfl

theorem reqchain_virt_steer (w : World) (s : ReqId) (err : Int) (x : ReqId) :
    steer ((acomp_reqchain_virt w s err).reqs x) = steer (w.reqs x) := by
  unfold acomp_reqchain_virt
  apply proj_modify steer
  intro q
  have h := ctl_reqchain_virt_req q err
  simp only [steer, chain_reqchain_virt_req, h.1, h.2.1, h.2.2.1, h.2.2.2.1]

theorem reqchain_virt_cur (w : World) (s : ReqId) (err : Int) (x : ReqId) :
    ((acomp_reqchain_virt w s err).reqs x).chain.cur = (w.reqs x).chain.cur := by
  unfold acomp_reqchain_virt
  apply proj_modify (fun q => q.chain.cur)
  intro q
  simp only [chain_reqchain_virt_req]

theorem reqchain_virt_err (w : World) (s : ReqId) (err : Int) (x : ReqId) :
    ((acomp_reqchain_virt w s err).reqs x).err =
      if x = (w.reqs s).chain.cur then err else (w.reqs x).err := by
  unfold acomp_reqchain_virt
  rw [modify_reqs]
  split_ifs with h
  · exact (ctl_reqchain_virt_req _ err).2.2.2.2
  · rfl

theorem reqchain_virt_trace (w : World) (s : ReqId) (err : Int) :
    (acomp_reqchain_virt w s err).trace = w.trace := rfl

theorem reqchain_virt_tfms (w : World) (s : ReqId) (err : Int) :
    (acomp_reqchain_virt w s err).tfms = w.tfms := rfl

theorem starts_append (a b : List Event) : starts (a ++ b) = starts a ++ starts b := by
  simp [starts]

theorem starts_cons_started {ev : Event} {p : ReqId × Int} (h : ev.started = some p)
    (l : List Event) : starts (ev :: l) = p :: starts l := by
  simp [starts, List.filterMap_cons, h]

theorem lastStatus_cons (p : ReqId × Int) (l : List (ReqId × Int)) (err : Int) :
    lastStatus (p :: l) err = lastStatus l p.2 := by
  unfold lastStatus
  cases l with
  | nil => simp
  | cons a l =>
    rw [List.getLast?_cons_cons]
    have h : (a :: l).getLast? = some ((a :: l).getLast (by simp)) :=
      List.getLast?_eq_getLast _ _
    rw [h]; rfl

theorem lastStatus_nil (err : Int) : lastStatus [] err = err := rfl

theorem lastStatus_snoc (l : List (ReqId × Int)) (p : ReqId × Int) (err : Int) :
    lastStatus (l ++ [p]) err = p.2 := by
  simp [lastStatus]

theorem lastStatus_terminal {l : List (ReqId × Int)} {err : Int}
    (h : ∀ p ∈ l, deferred p.2 = false) (he : deferred err = false) :
    deferred (lastStatus l err) = false := by
  rcases List.eq_nil_or_concat l with hl | ⟨l1, p, hl⟩
  · subst hl; exact he
  · subst hl
    rw [List.concat_eq_append, lastStatus_snoc]
    exact h p (by simp)

theorem deferred_false_of_ne {st : Int} (h1 : st ≠ -EINPROGRESS) (h2 : st ≠ -EBUSY) :
    deferred st = false := by
  simp [deferred, h1, h2]

theorem deferred_einprogress : deferred (-EINPROGRESS) = true := by
  simp [deferred]

theorem deferred_ebusy : deferred (-EBUSY) = true := by
  simp [deferred]

theorem ebusy_ne_einprogress : (-EBUSY : Int) ≠ -EINPROGRESS := by
  unfold EBUSY EINPROGRESS; decide

theorem loop_cons (B : Backend) (req0 s : ReqId) (mask : Nat) (r : ReqId)
    (rest : List ReqId) (w : World) (err : Int) :
    reqchain_finish_loop B req0 s mask (r :: rest) w err =
      if (acomp_do_one_req B ((w.modify s (list_del_init r)).modify r (rebind mask s)) s r).2
          = -EINPROGRESS then
        ((acomp_do_one_req B ((w.modify s (list_del_init r)).modify r (rebind mask s)) s r).1,
          if ((acomp_do_one_req B ((w.modify s (list_del_init r)).modify r
              (rebind mask s)) s r).1.reqs s).chain.head ≠ [] then -EBUSY
          else (acomp_do_one_req B ((w.modify s (list_del_init r)).modify r
              (rebind mask s)) s r).2, false)
      else if (acomp_do_one_req B ((w.modify s (list_del_init r)).modify r
          (rebind mask s)) s r).2 = -EBUSY then
        ((acomp_do_one_req B ((w.modify s (list_del_init r)).modify r (rebind mask s)) s r).1,
          (acomp_do_one_req B ((w.modify s (list_del_init r)).modify r (rebind mask s)) s r).2,
          false)
      else
        reqchain_finish_loop B req0 s mask rest
          ((acomp_reqchain_virt
            (acomp_do_one_req B ((w.modify s (list_del_init r)).modify r (rebind mask s)) s r).1
            s (acomp_do_one_req B ((w.modify s (list_del_init r)).modify r
              (rebind mask s)) s r).2).modify req0 (list_add_tail r))
          (acomp_do_one_req B ((w.modify s (list_del_init r)).modify r (rebind mask s)) s r).2 :=
  rfl

theorem steer_eq_iff (a b : AcompReq) :
    steer a = steer b ↔
      a.complete = b.complete ∧ a.data = b.data ∧ a.list = b.list ∧ a.tfm = b.tfm ∧
      a.chain.head = b.chain.head ∧ a.chain.req0 = b.chain.req0 ∧
      a.chain.compl = b.chain.compl ∧ a.chain.data = b.chain.data ∧
      a.chain.op = b.chain.op := by
  simp [steer]

theorem err_list_del_init (r : ReqId) (q : AcompReq) : (list_del_init r q).err = q.err := rfl

theorem err_rebind (mask : Nat) (s : ReqId) (q : AcompReq) : (rebind mask s q).err = q.err := rfl

theorem err_list_add_tail (r : ReqId) (q : AcompReq) : (list_add_tail r q).err = q.err := rfl

theorem loop_spec (B : Backend) (lead : ReqId) (mask : Nat) :
    ∀ (qs : List ReqId) (w : World) (err : Int),
      (w.reqs lead).chain.head = qs → (lead :: qs).Nodup →
      ∃ evs, LoopSpec B lead qs w err (reqchain_finish_loop B lead lead mask qs w err) evs := by
  intro qs
  induction qs with
  | nil =>
    intro w err hhead _
    refine ⟨[], ?_⟩
    constructor <;> simp [reqchain_finish_loop, starts, finishedJobs, lastStatus, hhead]
  | cons r rest ih =>
    intro w err hhead hnd
    have hrl : r ≠ lead := by
      intro h; subst h; simp at hnd
    have hlr : lead ≠ r := fun h => hrl h.symm
    have hr_rest : r ∉ rest := by
      simp only [List.nodup_cons, List.mem_cons, not_or] at hnd
      exact hnd.2.1
    have hnd' : (lead :: rest).Nodup := by
      simp only [List.nodup_cons, List.mem_cons, not_or] at hnd ⊢
      exact ⟨hnd.1.2, hnd.2.2⟩
    rw [loop_cons]
    -- the memory when the job is started
    have hw2 : ∃ w2, w2 = (w.modify lead (list_del_init r)).modify r (rebind mask lead) :=
      ⟨_, rfl⟩
    obtain ⟨w2, hw2⟩ := hw2
    rw [← hw2]
    have w2_lead : w2.reqs lead = list_del_init r (w.reqs lead) := by
      rw [hw2, modify_reqs_other _ _ _ _ hlr, modify_reqs_self]
    have w2_r : w2.reqs r = rebind mask lead (w.reqs r) := by
      rw [hw2, modify_reqs_self, modify_reqs_other _ _ _ _ hrl]
    have w2_err : ∀ x, (w2.reqs x).err = (w.reqs x).err := by
      intro x
      rw [hw2, proj_modify AcompReq.err _ _ _ (err_rebind _ _),
        proj_modify AcompReq.err _ _ _ (err_list_del_init _)]
    have w2_trace : w2.trace = w.trace := by rw [hw2]; rfl
    have w2_tfms : w2.tfms = w.tfms := by rw [hw2]; rfl
    have w2_head : (w2.reqs lead).chain.head = rest := by
      rw [w2_lead]
      show (w.reqs lead).chain.head.erase r = rest
      rw [hhead]; simp
    obtain ⟨ev, htr, hev⟩ := do_one_req_trace B w2 lead r
    have hsteer := do_one_req_steer B w2 lead r
    have hst := fun x => (steer_eq_iff _ _).1 (do_one_req_steer B w2 lead r x)
    have hcur := do_one_req_cur B w2 lead r
    have herr := do_one_req_err B w2 lead r
    have htf := do_one_req_tfms B w2 lead r
    generalize hres : acomp_do_one_req B w2 lead r = res at htr hev hst hsteer hcur herr htf ⊢
    have res_head : (res.1.reqs lead).chain.head = rest := by
      rw [(hst lead).2.2.2.2.1, w2_head]
    have hsev : starts [ev] = [(r, res.2)] := by
      rw [starts_cons_started hev]; rfl
    by_cases hA : res.2 = -EINPROGRESS
    · rw [if_pos hA]
      refine ⟨[ev], ?_⟩
      constructor
      · simp [htr, w2_trace]
      · intro e he
        simp only [List.mem_singleton] at he
        subst he; simp [hev]
      · simp [hsev, res_head]
      · simp [htf, w2_tfms]
      · show (res.1.reqs lead).complete = _
        rw [(hst lead).1, w2_lead]; rfl
      · show (res.1.reqs lead).data = _
        rw [(hst lead).2.1, w2_lead]; rfl
      · show (res.1.reqs lead).chain.req0 = _
        rw [(hst lead).2.2.2.2.2.1, w2_lead]; rfl
      · show (res.1.reqs lead).chain.compl = _
        rw [(hst lead).2.2.2.2.2.2.1, w2_lead]; rfl
      · show (res.1.reqs lead).chain.data = _
        rw [(hst lead).2.2.2.2.2.2.2.1, w2_lead]; rfl
      · show (res.1.reqs lead).chain.op = _
        rw [(hst lead).2.2.2.2.2.2.2.2, w2_lead]; rfl
      · show (res.1.reqs lead).list = _
        rw [(hst lead).2.2.1, w2_lead, hsev]
        simp [finishedJobs, hA, deferred_einprogress, list_del_init]
      · intro p hp hd
        rw [hsev] at hp
        simp only [List.mem_singleton] at hp
        subst hp
        simp [hA, deferred_einprogress] at hd
      · intro x _
        show (res.1.reqs x).err = _
        rw [herr, w2_err]
      · intro h; simp at h
      · intro _
        refine ⟨[], r, res.2, by simp [hsev], by simp, by simp [hA, deferred_einprogress],
          hcur, ?_, ?_, ?_⟩
        · show (res.1.reqs r).complete = _
          rw [(hst r).1, w2_r]; rfl
        · show (res.1.reqs r).data = _
          rw [(hst r).2.1, w2_r]; rfl
        · show (if (res.1.reqs lead).chain.head ≠ [] then -EBUSY else res.2) = _
          by_cases hh : (res.1.reqs lead).chain.head = [] <;> simp [hh, hA]
      · intro p hp
        rw [hsev] at hp
        simp only [List.mem_singleton] at hp
        subst hp
        exact ⟨w2, lead, by rw [hres]⟩
    · rw [if_neg hA]
      by_cases hB : res.2 = -EBUSY
      · rw [if_pos hB]
        refine ⟨[ev], ?_⟩
        constructor
        · simp [htr, w2_trace]
        · intro e he
          simp only [List.mem_singleton] at he
          subst he; simp [hev]
        · simp [hsev, res_head]
        · simp [htf, w2_tfms]
        · show (res.1.reqs lead).complete = _
          rw [(hst lead).1, w2_lead]; rfl
        · show (res.1.reqs lead).data = _
          rw [(hst lead).2.1, w2_lead]; rfl
        · show (res.1.reqs lead).chain.req0 = _
          rw [(hst lead).2.2.2.2.2.1, w2_lead]; rfl
        · show (res.1.reqs lead).chain.compl = _
          rw [(hst lead).2.2.2.2.2.2.1, w2_lead]; rfl
        · show (res.1.reqs lead).chain.data = _
          rw [(hst lead).2.2.2.2.2.2.2.1, w2_lead]; rfl
        · show (res.1.reqs lead).chain.op = _
          rw [(hst lead).2.2.2.2.2.2.2.2, w2_lead]; rfl
        · show (res.1.reqs lead).list = _
          rw [(hst lead).2.2.1, w2_lead, hsev]
          simp [finishedJobs, hB, deferred_ebusy, list_del_init]
        · intro p hp hd
          rw [hsev] at hp
          simp only [List.mem_singleton] at hp
          subst hp
          simp [hB, deferred_ebusy] at hd
        · intro x _
          show (res.1.reqs x).err = _
          rw [herr, w2_err]
        · intro h; simp at h
        · intro _
          refine ⟨[], r, res.2, by simp [hsev], by simp, by simp [hB, deferred_ebusy],
            hcur, ?_, ?_, ?_⟩
          · show (res.1.reqs r).complete = _
            rw [(hst r).1, w2_r]; rfl
          · show (res.1.reqs r).data = _
            rw [(hst r).2.1, w2_r]; rfl
          · show res.2 = _
            rw [hB, if_neg]
            intro h; exact ebusy_ne_einprogress h.1
        · intro p hp
          rw [hsev] at hp
          simp only [List.mem_singleton] at hp
          subst hp
          exact ⟨w2, lead, by rw [hres]⟩
      · rw [if_neg hB]
        have hdef : deferred res.2 = false := deferred_false_of_ne hA hB
        have hw4 : ∃ w4, w4 = (acomp_reqchain_virt res.1 lead res.2).modify lead
            (list_add_tail r) := ⟨_, rfl⟩
        obtain ⟨w4, hw4⟩ := hw4
        rw [← hw4]
        have w4_lead : w4.reqs lead =
            list_add_tail r ((acomp_reqchain_virt res.1 lead res.2).reqs lead) := by
          rw [hw4, modify_reqs_self]
        have w3_st : ∀ x, steer ((acomp_reqchain_virt res.1 lead res.2).reqs x) =
            steer (w2.reqs x) := fun x => (reqchain_virt_steer _ _ _ x).trans (hsteer x)
        have hl := (steer_eq_iff _ _).1 (w3_st lead)
        have w4_head : (w4.reqs lead).chain.head = rest := by
          rw [w4_lead]
          show ((acomp_reqchain_virt res.1 lead res.2).reqs lead).chain.head = rest
          rw [hl.2.2.2.2.1, w2_head]
        have w4_trace : w4.trace = w.trace ++ [ev] := by
          rw [hw4]
          show res.1.trace = _
          rw [htr, w2_trace]
        have w4_err_r : (w4.reqs r).err = res.2 := by
          rw [hw4, modify_reqs_other _ _ _ _ hrl, reqchain_virt_err, hcur, if_pos rfl]
        have w4_err : ∀ x, x ≠ r → (w4.reqs x).err = (w.reqs x).err := by
          intro x hx
          rw [hw4, proj_modify AcompReq.err _ _ _ (err_list_add_tail _), reqchain_virt_err,
            hcur, if_neg hx, herr, w2_err]
        obtain ⟨evs1, hS⟩ := ih w4 res.2 w4_head hnd'
        have hsev1 : starts (ev :: evs1) = (r, res.2) :: starts evs1 :=
          starts_cons_started hev _
        refine ⟨ev :: evs1, ?_⟩
        constructor
        · rw [hS.trace, w4_trace]; simp
        · intro e he
          rcases List.mem_cons.1 he with h | h
          · subst h; simp [hev]
          · exact hS.all_starts e h
        · rw [hsev1]
          simp only [List.map_cons, List.cons_append]
          rw [hS.jobs]
        · rw [hS.tfms, hw4]
          show res.1.tfms = _
          rw [htf, w2_tfms]
        · rw [hS.lead_complete, w4_lead]
          show ((acomp_reqchain_virt res.1 lead res.2).reqs lead).complete = _
          rw [hl.1, w2_lead]; rfl
        · rw [hS.lead_data, w4_lead]
          show ((acomp_reqchain_virt res.1 lead res.2).reqs lead).data = _
          rw [hl.2.1, w2_lead]; rfl
        · rw [hS.lead_req0, w4_lead]
          show ((acomp_reqchain_virt res.1 lead res.2).reqs lead).chain.req0 = _
          rw [hl.2.2.2.2.2.1, w2_lead]; rfl
        · rw [hS.lead_compl, w4_lead]
          show ((acomp_reqchain_virt res.1 lead res.2).reqs lead).chain.compl = _
          rw [hl.2.2.2.2.2.2.1, w2_lead]; rfl
        · rw [hS.lead_cdata, w4_lead]
          show ((acomp_reqchain_virt res.1 lead res.2).reqs lead).chain.data = _
          rw [hl.2.2.2.2.2.2.2.1, w2_lead]; rfl
        · rw [hS.lead_op, w4_lead]
          show ((acomp_reqchain_virt res.1 lead res.2).reqs lead).chain.op = _
          rw [hl.2.2.2.2.2.2.2.2, w2_lead]; rfl
        · rw [hS.lead_list, w4_lead, hsev1]
          show ((acomp_reqchain_virt res.1 lead res.2).reqs lead).list ++ [r] ++ _ = _
          rw [hl.2.2.1, w2_lead]
          simp [finishedJobs, hdef, list_del_init]
        · intro p hp hd
          rw [hsev1] at hp
          rcases List.mem_cons.1 hp with h | h
          · subst h
            show (_ : AcompReq).err = res.2
            rw [hS.errs_frame r hr_rest, w4_err_r]
          · exact hS.errs p h hd
        · intro x hx
          simp only [List.mem_cons, not_or] at hx
          rw [hS.errs_frame x hx.2, w4_err x hx.1]
        · intro hfin
          obtain ⟨h1, h2, h3⟩ := hS.fin hfin
          refine ⟨h1, ?_, ?_⟩
          · intro p hp
            rw [hsev1] at hp
            rcases List.mem_cons.1 hp with h | h
            · subst h; exact hdef
            · exact h2 p h
          · rw [h3, hsev1, lastStatus_cons]
        · intro hout
          obtain ⟨pre, r1, st, h1, h2, h3, h4, h5, h6, h7⟩ := hS.out hout
          refine ⟨(r, res.2) :: pre, r1, st, ?_, ?_, h3, h4, h5, h6, h7⟩
          · rw [hsev1, h1]; rfl
          · intro p hp
            rcases List.mem_cons.1 hp with h | h
            · subst h; exact hdef
            · exact h2 p h
        · intro p hp
          rw [hsev1] at hp
          rcases List.mem_cons.1 hp with h | h
          · subst h; exact ⟨w2, lead, by rw [hres]⟩
          · exact hS.statuses p h

theorem finish_eq (B : Backend) (w : World) (lead : ReqId) (err : Int) (mask : Nat)
    (hd : (w.reqs lead).data = .chain lead) (w2 : World)
    (hw2 : w2 = if (w.reqs lead).chain.cur ≠ lead then
      (acomp_reqchain_virt w lead err).modify lead (list_add_tail (w.reqs lead).chain.cur)
      else acomp_reqchain_virt w lead err) :
    acomp_reqchain_finish B w lead err mask =
      if (reqchain_finish_loop B lead lead mask (w2.reqs lead).chain.head w2 err).2.2 = true then
        (acomp_restore_req (reqchain_finish_loop B lead lead mask
          (w2.reqs lead).chain.head w2 err).1 lead,
          (reqchain_finish_loop B lead lead mask (w2.reqs lead).chain.head w2 err).2.1)
      else
        ((reqchain_finish_loop B lead lead mask (w2.reqs lead).chain.head w2 err).1,
          (reqchain_finish_loop B lead lead mask (w2.reqs lead).chain.head w2 err).2.1) := by
  subst hw2
  unfold acomp_reqchain_finish
  simp only [hd, Ptr.owner]

theorem restore_req_eq (w : World) (lead : ReqId) (hd : (w.reqs lead).data = .chain lead) :
    acomp_restore_req w lead = w.modify lead
      (set_completion (w.reqs lead).chain.compl (w.reqs lead).chain.data) := by
  unfold acomp_restore_req
  simp only [hd, Ptr.owner]

theorem err_set_completion (c : Completion) (d : Ptr) (q : AcompReq) :
    (set_completion c d q).err = q.err := rfl

theorem finish_spec (B : Backend) (lead : ReqId) (c : Completion) (d : Ptr)
    (rest : List ReqId) (w : World) (err : Int) (mask : Nat)
    (h : Running lead c d rest w) :
    ∃ evs, FinishSpec B lead c d rest w err (acomp_reqchain_finish B w lead err mask) evs := by
  obtain ⟨w2, hw2⟩ : ∃ w2, w2 = if (w.reqs lead).chain.cur ≠ lead then
      (acomp_reqchain_virt w lead err).modify lead (list_add_tail (w.reqs lead).chain.cur)
      else acomp_reqchain_virt w lead err := ⟨_, rfl⟩
  rw [finish_eq B w lead err mask h.data w2 hw2]
  have w2_trace : w2.trace = w.trace := by
    rw [hw2]; split_ifs <;> rfl
  have w2_tfms : w2.tfms = w.tfms := by
    rw [hw2]; split_ifs <;> rfl
  have hv := (steer_eq_iff _ _).1 (reqchain_virt_steer w lead err lead)
  have w2_lead : (w2.reqs lead).complete = (w.reqs lead).complete ∧
      (w2.reqs lead).data = (w.reqs lead).data ∧
      (w2.reqs lead).chain.head = (w.reqs lead).chain.head ∧
      (w2.reqs lead).chain.req0 = (w.reqs lead).chain.req0 ∧
      (w2.reqs lead).chain.compl = (w.reqs lead).chain.compl ∧
      (w2.reqs lead).chain.data = (w.reqs lead).chain.data ∧
      (w2.reqs lead).list = (w.reqs lead).list ++
        if (w.reqs lead).chain.cur ≠ lead then [(w.reqs lead).chain.cur] else [] := by
    rw [hw2]
    split_ifs with hc
    · rw [modify_reqs_self]
      refine ⟨hv.1, hv.2.1, hv.2.2.2.2.1, hv.2.2.2.2.2.1, hv.2.2.2.2.2.2.1,
        hv.2.2.2.2.2.2.2.1, ?_⟩
      show ((acomp_reqchain_virt w lead err).reqs lead).list ++ [_] = _
      rw [hv.2.2.1]
    · refine ⟨hv.1, hv.2.1, hv.2.2.2.2.1, hv.2.2.2.2.2.1, hv.2.2.2.2.2.2.1,
        hv.2.2.2.2.2.2.2.1, ?_⟩
      rw [hv.2.2.1]; simp
  have w2_err : ∀ x, (w2.reqs x).err =
      if x = (w.reqs lead).chain.cur then err else (w.reqs x).err := by
    intro x
    rw [hw2]
    split_ifs with hc hx hx
    · rw [proj_modify AcompReq.err _ _ _ (err_list_add_tail _), reqchain_virt_err, if_pos hx]
    · rw [proj_modify AcompReq.err _ _ _ (err_list_add_tail _), reqchain_virt_err, if_neg hx]
    · rw [reqchain_virt_err, if_pos hx]
    · rw [reqchain_virt_err, if_neg hx]
  have w2_head : (w2.reqs lead).chain.head = rest := by
    rw [w2_lead.2.2.1, h.head]
  rw [w2_head]
  obtain ⟨evs, hS⟩ := loop_spec B lead mask rest w2 err w2_head h.nodup
  generalize reqchain_finish_loop B lead lead mask rest w2 err = R at hS ⊢
  have hRdata : (R.1.reqs lead).data = .chain lead := by
    rw [hS.lead_data, w2_lead.2.1, h.data]
  refine ⟨evs, ?_⟩
  by_cases hfin : R.2.2 = true
  · rw [if_pos hfin, restore_req_eq _ _ hRdata]
    obtain ⟨f1, f2, f3⟩ := hS.fin hfin
    have hjobs : (starts evs).map Prod.fst = rest := by
      have := hS.jobs
      rw [f1, List.append_nil] at this
      exact this
    constructor
    · show R.1.trace = _
      rw [hS.trace, w2_trace]
    · exact hS.all_starts
    · show R.1.tfms = _
      rw [hS.tfms, w2_tfms]
    · intro hcur
      show ((R.1.modify lead (set_completion _ _)).reqs _).err = err
      rw [proj_modify AcompReq.err _ _ _ (err_set_completion _ _), hS.errs_frame _ hcur, w2_err,
        if_pos rfl]
    · intro p hp hd
      show ((R.1.modify lead (set_completion _ _)).reqs _).err = _
      rw [proj_modify AcompReq.err _ _ _ (err_set_completion _ _)]
      exact hS.errs p hp hd
    · intro x hx hxc
      show ((R.1.modify lead (set_completion _ _)).reqs _).err = _
      rw [proj_modify AcompReq.err _ _ _ (err_set_completion _ _), hS.errs_frame x hx, w2_err,
        if_neg hxc]
    · left
      constructor
      · exact f2
      · exact hjobs
      · exact f3
      · show ((R.1.modify lead (set_completion _ _)).reqs lead).complete = c
        rw [modify_reqs_self]
        show (R.1.reqs lead).chain.compl = c
        rw [hS.lead_compl, w2_lead.2.2.2.2.1, h.compl]
      · show ((R.1.modify lead (set_completion _ _)).reqs lead).data = d
        rw [modify_reqs_self]
        show (R.1.reqs lead).chain.data = d
        rw [hS.lead_cdata, w2_lead.2.2.2.2.2.1, h.cdata]
      · show ((R.1.modify lead (set_completion _ _)).reqs lead).chain.head = []
        rw [modify_reqs_self]
        exact f1
    · show ((R.1.modify lead (set_completion _ _)).reqs lead).list = _
      rw [modify_reqs_self]
      show (R.1.reqs lead).list = _
      rw [hS.lead_list, w2_lead.2.2.2.2.2.2]
    · exact hS.statuses
  · rw [if_neg hfin]
    have hfin' : R.2.2 = false := by simpa using hfin
    obtain ⟨pre, r, st, o1, o2, o3, o4, o5, o6, o7⟩ := hS.out hfin'
    have hjobs : rest = pre.map Prod.fst ++ r :: (R.1.reqs lead).chain.head := by
      have := hS.jobs
      rw [o1] at this
      simp only [List.map_append, List.map_cons, List.map_nil, List.append_assoc,
        List.singleton_append] at this
      exact this.symm
    constructor
    · show R.1.trace = _
      rw [hS.trace, w2_trace]
    · exact hS.all_starts
    · show R.1.tfms = _
      rw [hS.tfms, w2_tfms]
    · intro hcur
      show (R.1.reqs _).err = err
      rw [hS.errs_frame _ hcur, w2_err, if_pos rfl]
    · exact hS.errs
    · intro x hx hxc
      show (R.1.reqs _).err = _
      rw [hS.errs_frame x hx, w2_err, if_neg hxc]
    · right
      refine ⟨pre, r, st, (R.1.reqs lead).chain.head, ?_, o7⟩
      constructor
      · exact o1
      · exact o2
      · exact o3
      · exact hjobs
      · constructor
        · exact hRdata
        · show (R.1.reqs lead).chain.req0 = lead
          rw [hS.lead_req0, w2_lead.2.2.2.1, h.req0]
        · show (R.1.reqs lead).chain.compl = c
          rw [hS.lead_compl, w2_lead.2.2.2.2.1, h.compl]
        · show (R.1.reqs lead).chain.data = d
          rw [hS.lead_cdata, w2_lead.2.2.2.2.2.1, h.cdata]
        · rfl
        · have hn := h.nodup
          rw [hjobs] at hn
          simp only [List.nodup_cons, List.mem_append, List.mem_cons, not_or,
            List.nodup_append] at hn ⊢
          refine ⟨hn.1.2.2, hn.2.2.1.2⟩
      · exact o4
      · exact o5
      · exact o6
    · show (R.1.reqs lead).list = _
      rw [hS.lead_list, w2_lead.2.2.2.2.2.2]
    · exact hS.statuses

theorem setup_spec (w : World) (lead : ReqId) (op : OpId)
    (hnd : (lead :: (w.reqs lead).list).Nodup) :
    Running lead (w.reqs lead).complete (w.reqs lead).data (w.reqs lead).list
        (reqchain_setup w lead op) ∧
      ((reqchain_setup w lead op).reqs lead).complete = .reqchain_done ∧
      ((reqchain_setup w lead op).reqs lead).list = [] ∧
      ((reqchain_setup w lead op).reqs lead).chain.op = op ∧
      (reqchain_setup w lead op).trace = w.trace ∧
      (reqchain_setup w lead op).tfms = w.tfms ∧
      (∀ x, ((reqchain_setup w lead op).reqs x).err = (w.reqs x).err) ∧
      (∀ x, x ≠ lead → (reqchain_setup w lead op).reqs x = w.reqs x) := by
  have hown : ((acomp_save_req w lead .reqchain_done).reqs lead).data.owner = lead := by
    simp [acomp_save_req, save_completion, Ptr.owner]
  have hlead : (reqchain_setup w lead op).reqs lead =
      clear_list (splice_head (w.reqs lead).list (init_head (set_src_null (set_op op
        (save_completion .reqchain_done lead (w.reqs lead)))))) := by
    simp only [reqchain_setup, hown]
    simp [acomp_save_req, save_completion, set_op, set_src_null, init_head, splice_head,
      clear_list]
  refine ⟨?_, ?_, ?_, ?_, ?_, ?_, ?_, ?_⟩
  · constructor
    · rw [hlead]; rfl
    · rw [hlead]; rfl
    · rw [hlead]; rfl
    · rw [hlead]; rfl
    · rw [hlead]
      simp [clear_list, splice_head, init_head]
    · exact hnd
  · rw [hlead]; rfl
  · rw [hlead]; rfl
  · rw [hlead]; rfl
  · rfl
  · rfl
  · intro x
    by_cases hx : x = lead
    · subst hx; rw [hlead]; rfl
    · simp only [reqchain_setup, hown]
      simp [acomp_save_req, hx]
  · intro x hx
    simp only [reqchain_setup, hown]
    simp [acomp_save_req, hx]

theorem do_req_chain_slow (B : Backend) (w : World) (lead : ReqId) (op : OpId)
    (hslow : ((w.tfms (w.reqs lead).tfm).req_chain ||
      (!acomp_request_chained (w.reqs lead) && acomp_request_issg (w.reqs lead))) = false)
    (hnd : (lead :: (w.reqs lead).list).Nodup) :
    acomp_do_req_chain B w lead op =
      if (acomp_do_one_req B (reqchain_setup w lead op) lead lead).2 = -EBUSY ∨
          (acomp_do_one_req B (reqchain_setup w lead op) lead lead).2 = -EINPROGRESS then
        ((acomp_do_one_req B (reqchain_setup w lead op) lead lead).1, -EBUSY)
      else
        acomp_reqchain_finish B (acomp_do_one_req B (reqchain_setup w lead op) lead lead).1 lead
          (acomp_do_one_req B (reqchain_setup w lead op) lead lead).2 (not32 0) := by
  have hd := (setup_spec w lead op hnd).1.data
  unfold acomp_do_req_chain
  simp only [hslow, hd, Ptr.owner]
  simp

theorem finishedJobs_cons (p : ReqId × Int) (l : List (ReqId × Int)) :
    finishedJobs (p :: l) = if deferred p.2 then finishedJobs l else p.1 :: finishedJobs l := by
  unfold finishedJobs
  by_cases h : deferred p.2 = true <;> simp [h]

theorem submit_spec (B : Backend) (w : World) (lead : ReqId) (op : OpId)
    (hslow : ((w.tfms (w.reqs lead).tfm).req_chain ||
      (!acomp_request_chained (w.reqs lead) && acomp_request_issg (w.reqs lead))) = false)
    (hnd : (lead :: (w.reqs lead).list).Nodup) :
    ∃ evs, SubmitSpec B lead (w.reqs lead).complete (w.reqs lead).data (w.reqs lead).list w
      (acomp_do_req_chain B w lead op) evs := by
  rw [do_req_chain_slow B w lead op hslow hnd]
  obtain ⟨hrun, hcompl, hlist, _, htrace, htfms, herrs, _⟩ := setup_spec w lead op hnd
  generalize reqchain_setup w lead op = w1 at hrun hcompl hlist htrace htfms herrs ⊢
  obtain ⟨ev, htr, hev⟩ := do_one_req_trace B w1 lead lead
  have hsteer := do_one_req_steer B w1 lead lead
  have hcur := do_one_req_cur B w1 lead lead
  have herr := do_one_req_err B w1 lead lead
  have htf := do_one_req_tfms B w1 lead lead
  generalize hres : acomp_do_one_req B w1 lead lead = res at htr hev hsteer hcur herr htf ⊢
  have hl := (steer_eq_iff _ _).1 (hsteer lead)
  have hrun1 : Running lead (w.reqs lead).complete (w.reqs lead).data (w.reqs lead).list
      res.1 := by
    constructor
    · rw [hl.2.1, hrun.data]
    · rw [hl.2.2.2.2.2.1, hrun.req0]
    · rw [hl.2.2.2.2.2.2.1, hrun.compl]
    · rw [hl.2.2.2.2.2.2.2.1, hrun.cdata]
    · rw [hl.2.2.2.2.1, hrun.head]
    · exact hnd
  have hsev : starts [ev] = [(lead, res.2)] := by
    rw [starts_cons_started hev]; rfl
  by_cases hdef : res.2 = -EBUSY ∨ res.2 = -EINPROGRESS
  · rw [if_pos hdef]
    have hdef1 : deferred res.2 = true := by
      rcases hdef with h | h <;> simp [deferred, h]
    refine ⟨[ev], ?_⟩
    constructor
    · show res.1.trace = _
      rw [htr, htrace]
    · intro e he
      simp only [List.mem_singleton] at he
      subst he; simp [hev]
    · show res.1.tfms = _
      rw [htf, htfms]
    · intro p hp hd
      rw [hsev] at hp
      simp only [List.mem_singleton] at hp
      subst hp
      simp [hdef1] at hd
    · intro x _
      show (res.1.reqs x).err = _
      rw [herr, herrs]
    · right
      refine ⟨[], lead, res.2, (w.reqs lead).list, ?_, by simp⟩
      constructor
      · simpa using hsev
      · simp
      · exact hdef1
      · simp
      · exact hrun1
      · exact hcur
      · show (res.1.reqs lead).complete = _
        rw [hl.1, hcompl]
      · show (res.1.reqs lead).data = _
        rw [hl.2.1, hrun.data]
    · show (res.1.reqs lead).list = _
      rw [hl.2.2.1, hlist, hsev, finishedJobs_cons]
      simp [hdef1, finishedJobs]
    · intro p hp
      rw [hsev] at hp
      simp only [List.mem_singleton] at hp
      subst hp
      exact ⟨w1, lead, by rw [hres]⟩
  · rw [if_neg hdef]
    have hA : res.2 ≠ -EINPROGRESS := fun h => hdef (Or.inr h)
    have hB : res.2 ≠ -EBUSY := fun h => hdef (Or.inl h)
    have hdef1 : deferred res.2 = false := deferred_false_of_ne hA hB
    obtain ⟨evs1, hF⟩ := finish_spec B lead _ _ _ res.1 res.2 (not32 0) hrun1
    generalize acomp_reqchain_finish B res.1 lead res.2 (not32 0) = F at hF ⊢
    have hsev1 : starts (ev :: evs1) = (lead, res.2) :: starts evs1 :=
      starts_cons_started hev _
    have hcur_notin : (res.1.reqs lead).chain.cur ∉ (w.reqs lead).list := by
      rw [hcur]
      simp only [List.nodup_cons] at hnd
      exact hnd.1
    refine ⟨ev :: evs1, ?_⟩
    constructor
    · rw [hF.trace, htr, htrace]; simp
    · intro e he
      rcases List.mem_cons.1 he with h | h
      · subst h; simp [hev]
      · exact hF.all_starts e h
    · rw [hF.tfms, htf, htfms]
    · intro p hp hd
      rw [hsev1] at hp
      rcases List.mem_cons.1 hp with h | h
      · subst h
        have := hF.cur_err hcur_notin
        rw [hcur] at this
        exact this
      · exact hF.errs p h hd
    · intro x hx
      simp only [List.mem_cons, not_or] at hx
      rw [hF.errs_frame x hx.2 (by rw [hcur]; exact hx.1), herr, herrs]
    · rcases hF.outcome with hR | ⟨pre, r, st, rest1, hL, hret⟩
      · left
        constructor
        · intro p hp
          rw [hsev1] at hp
          rcases List.mem_cons.1 hp with h | h
          · subst h; exact hdef1
          · exact hR.terminal p h
        · rw [hsev1]
          simp only [List.map_cons]
          rw [hR.jobs]
        · rw [hR.status, hsev1, lastStatus_cons]
        · exact hR.complete
        · exact hR.data
        · exact hR.head
      · right
        have hr : r ≠ lead := by
          intro h
          have hn := hnd
          rw [hL.jobs, h] at hn
          simp at hn
        refine ⟨(lead, res.2) :: pre, r, st, rest1, ?_, ?_⟩
        · constructor
          · rw [hsev1, hL.starts_eq]; rfl
          · intro p hp
            rcases List.mem_cons.1 hp with h | h
            · subst h; exact hdef1
            · exact hL.terminal p h
          · exact hL.deferred
          · rw [hL.jobs]; rfl
          · exact hL.running
          · exact hL.cur
          · exact hL.complete
          · exact hL.data
        · rw [hret]
          simp [hr]
    · rw [hF.lead_list, hcur, hl.2.2.1, hlist, hsev1, finishedJobs_cons]
      simp [hdef1]
    · intro p hp
      rw [hsev1] at hp
      rcases List.mem_cons.1 hp with h | h
      · subst h; exact ⟨w1, lead, by rw [hres]⟩
      · exact hF.statuses p h

theorem completions_append (a b : List Event) :
    completions (a ++ b) = completions a ++ completions b := by
  simp [completions]

theorem deliveries_append (a b : List Event) :
    deliveries (a ++ b) = deliveries a ++ deliveries b := by
  simp [deliveries]

theorem settled_append (a b : List Event) (k : ReqId) :
    settled (a ++ b) k = (settled a k || settled b k) := by
  simp [settled]

theorem reached_append (a b : List Event) (k : ReqId) (e : Int) :
    reached (a ++ b) k e = (reached a k e || reached b k e) := by
  simp [reached]

theorem outstanding_append (a b : List Event) :
    outstanding (a ++ b) = b.foldl outstanding_step (outstanding a) := by
  simp [outstanding]

theorem started_completion {ev : Event} (h : ev.started.isSome = true) :
    ev.completion = none ∧ ev.delivered = none := by
  cases ev <;> simp [Event.started, Event.completion, Event.delivered] at h ⊢

theorem completions_of_starts {evs : List Event} (h : ∀ e ∈ evs, e.started.isSome = true) :
    completions evs = [] ∧ deliveries evs = [] := by
  induction evs with
  | nil => simp [completions, deliveries]
  | cons e l ih =>
    have h1 := started_completion (h e (List.mem_cons_self _ _))
    have h2 := ih (fun x hx => h x (List.mem_cons_of_mem _ hx))
    simp only [completions, deliveries] at h2 ⊢
    simp [List.filterMap_cons, h1.1, h1.2, h2.1, h2.2]

theorem started_cases {ev : Event} {p : ReqId × Int} (h : ev.started = some p) :
    (∀ k, ev.settles k = (decide (p.1 = k) && !deferred p.2)) ∧
    (∀ k e, ev.settlesWith k e = (decide (p.1 = k) && decide (p.2 = e) && !deferred p.2)) ∧
    (∀ acc, outstanding_step acc ev = if deferred p.2 then acc ++ [p.1] else acc) := by
  cases ev <;> simp [Event.started] at h <;> subst h <;>
    simp [Event.settles, Event.settlesWith, outstanding_step]

/-- A run of starts splits into the run before its last start and that start. -/
theorem starts_split_last {evs : List Event} (h : ∀ e ∈ evs, e.started.isSome = true)
    {pre : List (ReqId × Int)} {p : ReqId × Int} (hs : starts evs = pre ++ [p]) :
    ∃ evs0 e, evs = evs0 ++ [e] ∧ starts evs0 = pre ∧ e.started = some p ∧
      (∀ x ∈ evs0, x.started.isSome = true) := by
  have hne : evs ≠ [] := by
    intro h0; subst h0; simp [starts] at hs
  obtain ⟨evs0, e, rfl⟩ : ∃ evs0 e, evs = evs0 ++ [e] :=
    ⟨evs.dropLast, evs.getLast hne, (List.dropLast_append_getLast hne).symm⟩
  have he : e.started.isSome = true := h e (by simp)
  obtain ⟨q, hq⟩ := Option.isSome_iff_exists.1 he
  have hs2 : starts (evs0 ++ [e]) = starts evs0 ++ [q] := by
    rw [starts_append, starts_cons_started hq]; rfl
  rw [hs2] at hs
  have := List.append_inj' hs rfl
  refine ⟨evs0, e, rfl, this.1, ?_, fun x hx => h x (by simp [hx])⟩
  rw [hq]
  simpa using this.2

theorem foldl_terminal_starts {evs : List Event} (h : ∀ e ∈ evs, e.started.isSome = true)
    (ht : ∀ p ∈ starts evs, deferred p.2 = false) (acc : List ReqId) :
    evs.foldl outstanding_step acc = acc := by
  induction evs generalizing acc with
  | nil => rfl
  | cons e l ih =>
    obtain ⟨q, hq⟩ := Option.isSome_iff_exists.1 (h e (List.mem_cons_self _ _))
    have hst := starts_cons_started hq l
    have hq2 : deferred q.2 = false := ht q (by rw [hst]; exact List.mem_cons_self _ _)
    rw [List.foldl_cons, (started_cases hq).2.2, hq2]
    simp only [Bool.false_eq_true, if_false]
    exact ih (fun x hx => h x (List.mem_cons_of_mem _ hx))
      (fun p hp => ht p (by rw [hst]; exact List.mem_cons_of_mem _ hp)) acc

theorem outstanding_terminal_starts (t : List Event) {evs : List Event}
    (h : ∀ e ∈ evs, e.started.isSome = true)
    (ht : ∀ p ∈ starts evs, deferred p.2 = false) :
    outstanding (t ++ evs) = outstanding t := by
  rw [outstanding_append, foldl_terminal_starts h ht]

theorem outstanding_waiting_starts (t : List Event) {evs : List Event}
    (h : ∀ e ∈ evs, e.started.isSome = true) {pre : List (ReqId × Int)} {r : ReqId}
    {st : Int} (hs : starts evs = pre ++ [(r, st)])
    (ht : ∀ p ∈ pre, deferred p.2 = false) (hd : deferred st = true) :
    outstanding (t ++ evs) = outstanding t ++ [r] := by
  obtain ⟨evs0, e, rfl, h0, he, hall⟩ := starts_split_last h hs
  rw [← List.append_assoc, outstanding_append, outstanding_terminal_starts t hall
    (by rw [h0]; exact ht)]
  simp [(started_cases he).2.2, hd]

theorem settled_of_terminal_start {evs : List Event} {p : ReqId × Int}
    (hp : p ∈ starts evs)
    (hd : deferred p.2 = false) : settled evs p.1 = true := by
  simp only [starts, List.mem_filterMap] at hp
  obtain ⟨e, he, hep⟩ := hp
  simp only [settled, List.any_eq_true]
  exact ⟨e, he, by rw [(started_cases hep).1]; simp [hd]⟩

theorem reached_of_terminal_start {evs : List Event} {p : ReqId × Int}
    (hp : p ∈ starts evs) (hd : deferred p.2 = false) : reached evs p.1 p.2 = true := by
  simp only [starts, List.mem_filterMap] at hp
  obtain ⟨e, he, hep⟩ := hp
  simp only [reached, List.any_eq_true]
  exact ⟨e, he, by rw [(started_cases hep).2.1]; simp [hd]⟩

theorem ordered_nil : Ordered [] := by
  intro pre ev post h
  simp at h

theorem ordered_snoc {t : List Event} {ev : Event} (ho : Ordered t)
    (hs : ev.started.isSome = true → AllSettled t) : Ordered (t ++ [ev]) := by
  intro pre e post heq he
  rcases List.eq_nil_or_concat post with hpost | ⟨post1, x, hpost⟩
  · subst hpost
    have := List.append_inj' heq rfl
    have h1 : t = pre := this.1
    have h2 : ev = e := by simpa using this.2
    subst h1; subst h2
    exact hs he
  · rw [hpost, List.concat_eq_append, ← List.cons_append, ← List.append_assoc] at heq
    have := List.append_inj' heq rfl
    exact ho pre e post1 this.1 he

theorem allSettled_snoc_start {t : List Event} {ev : Event} {p : ReqId × Int}
    (ha : AllSettled t) (he : ev.started = some p) (hd : deferred p.2 = false) :
    AllSettled (t ++ [ev]) := by
  intro k hk
  rw [starts_append, starts_cons_started he, List.map_append, List.mem_append] at hk
  rw [settled_append]
  rcases hk with hk | hk
  · simp [ha k hk]
  · have : k = p.1 := by simpa [starts] using hk
    subst this
    have : settled [ev] p.1 = true := by
      simp [settled, (started_cases he).1, hd]
    simp [this]

theorem ordered_terminal_starts {evs : List Event} :
    ∀ {t : List Event}, Ordered t → AllSettled t →
      (∀ e ∈ evs, e.started.isSome = true) → (∀ p ∈ starts evs, deferred p.2 = false) →
      Ordered (t ++ evs) ∧ AllSettled (t ++ evs) := by
  induction evs with
  | nil => intro t ho ha _ _; simpa using ⟨ho, ha⟩
  | cons e l ih =>
    intro t ho ha h ht
    obtain ⟨q, hq⟩ := Option.isSome_iff_exists.1 (h e (List.mem_cons_self _ _))
    have hst := starts_cons_started hq l
    have hq2 : deferred q.2 = false := ht q (by rw [hst]; exact List.mem_cons_self _ _)
    have := ih (ordered_snoc ho (fun _ => ha)) (allSettled_snoc_start ha hq hq2)
      (fun x hx => h x (List.mem_cons_of_mem _ hx))
      (fun p hp => ht p (by rw [hst]; exact List.mem_cons_of_mem _ hp))
    simpa using this

theorem ordered_waiting_starts {t evs : List Event} (ho : Ordered t) (ha : AllSettled t)
    (h : ∀ e ∈ evs, e.started.isSome = true) {pre : List (ReqId × Int)} {p : ReqId × Int}
    (hs : starts evs = pre ++ [p]) (ht : ∀ x ∈ pre, deferred x.2 = false) :
    Ordered (t ++ evs) := by
  obtain ⟨evs0, e, rfl, h0, _, hall⟩ := starts_split_last h hs
  have := ordered_terminal_starts ho ha hall (by rw [h0]; exact ht)
  rw [← List.append_assoc]
  exact ordered_snoc this.1 (fun _ => this.2)

theorem ordered_snoc_other {t : List Event} {ev : Event} (ho : Ordered t)
    (hs : ev.started = none) : Ordered (t ++ [ev]) :=
  ordered_snoc ho (fun h => by simp [hs] at h)

theorem allSettled_nil : AllSettled [] := by
  intro k hk
  simp [starts] at hk

theorem settled_of_mem_jobs {evs : List Event} (ht : ∀ p ∈ starts evs, deferred p.2 = false)
    {k : ReqId} (hk : k ∈ (starts evs).map Prod.fst) : settled evs k = true := by
  obtain ⟨p, hp, rfl⟩ := List.mem_map.1 hk
  exact settled_of_terminal_start hp (ht p hp)

theorem submit_life (B : Backend) (w : World) (lead : ReqId) (op : OpId)
    (hslow : ((w.tfms (w.reqs lead).tfm).req_chain ||
      (!acomp_request_chained (w.reqs lead) && acomp_request_issg (w.reqs lead))) = false)
    (hnd : (lead :: (w.reqs lead).list).Nodup) (ht : w.trace = []) :
    (Over lead (w.reqs lead).complete (w.reqs lead).data (w.reqs lead).list
        (acomp_do_req_chain B w lead op).1 ∧
      deferred (acomp_do_req_chain B w lead op).2 = false ∧
      completions (acomp_do_req_chain B w lead op).1.trace = []) ∨
      ∃ r rest, Waiting lead (w.reqs lead).complete (w.reqs lead).data (w.reqs lead).list
        (acomp_do_req_chain B w lead op).1 r rest ∧
        rest.length ≤ (w.reqs lead).list.length ∧
        deferred (acomp_do_req_chain B w lead op).2 = true := by
  obtain ⟨evs, hS⟩ := submit_spec B w lead op hslow hnd
  have htr : (acomp_do_req_chain B w lead op).1.trace = evs := by
    rw [hS.trace, ht]; rfl
  rcases hS.outcome with hR | ⟨pre, r, st, rest1, hL, hret⟩
  · left
    refine ⟨?_, ?_, ?_⟩
    rotate_left
    · rw [hR.status]
      exact lastStatus_terminal hR.terminal (by decide)
    · rw [htr]; exact (completions_of_starts hS.all_starts).1
    constructor
    · rw [htr]; exact hR.jobs
    · intro k hk
      rw [htr]
      rw [← hR.jobs] at hk
      exact settled_of_mem_jobs hR.terminal hk
    · rw [htr]
      have := outstanding_terminal_starts [] hS.all_starts hR.terminal
      simpa [outstanding] using this
    · rw [htr]
      have := (ordered_terminal_starts ordered_nil allSettled_nil hS.all_starts hR.terminal).1
      simpa using this
    · exact hR.complete
    · exact hR.data
    · left
      rw [htr]
      exact ⟨hR.terminal, completions_of_starts hS.all_starts⟩
  · right
    refine ⟨r, rest1, ?_, ?_, ?_⟩
    rotate_left
    · have := congrArg List.length hL.jobs
      simp only [List.length_cons, List.length_append, List.length_map] at this
      omega
    · rw [hret]
      split_ifs
      · exact deferred_einprogress
      · exact deferred_ebusy
    · constructor
      · exact hL.running
      · exact hL.cur
      · exact hL.complete
      · exact hL.data
      · refine ⟨pre.map Prod.fst, ?_, hL.jobs, ?_⟩
        · rw [htr, hL.starts_eq]; simp
        · intro k hk
          rw [htr]
          obtain ⟨p, hp, rfl⟩ := List.mem_map.1 hk
          have hp1 : p ∈ starts evs := by rw [hL.starts_eq]; simp [hp]
          exact settled_of_terminal_start hp1 (hL.terminal p hp)
      · rw [htr]
        have := outstanding_waiting_starts [] hS.all_starts hL.starts_eq hL.terminal hL.deferred
        simpa [outstanding] using this
      · rw [htr]
        have := ordered_waiting_starts ordered_nil allSettled_nil hS.all_starts hL.starts_eq
          hL.terminal
        simpa using this
      · rw [htr, (completions_of_starts hS.all_starts).1]
        intro x hx; simp at hx
      · rw [htr, hL.starts_eq]
        exact ⟨(r, st), by simp, hL.deferred⟩

theorem running_of_reqs {lead : ReqId} {c : Completion} {d : Ptr} {rest : List ReqId}
    {w w1 : World} (h : Running lead c d rest w) (hr : w1.reqs = w.reqs) :
    Running lead c d rest w1 := by
  constructor
  · rw [hr]; exact h.data
  · rw [hr]; exact h.req0
  · rw [hr]; exact h.compl
  · rw [hr]; exact h.cdata
  · rw [hr]; exact h.head
  · exact h.nodup

theorem starts_snoc_other (t : List Event) (ev : Event) (h : ev.started = none) :
    starts (t ++ [ev]) = starts t := by
  simp [starts, List.filterMap_append, h]

theorem settled_mono {t : List Event} {k : ReqId} (h : settled t k = true) (u : List Event) :
    settled (t ++ u) k = true := by
  rw [settled_append, h]; rfl

/-- Logging an event that starts nothing, completes no job and calls the
caller's completion at most with an in-progress notification keeps a waiting
chain waiting. -/
theorem waiting_log_inert {lead : ReqId} {c : Completion} {d : Ptr} {qs : List ReqId}
    {w : World} {r : ReqId} {rest : List ReqId} (hW : Waiting lead c d qs w r rest)
    (ev : Event) (h1 : ev.started = none) (h2 : ∀ acc, outstanding_step acc ev = acc)
    (h3 : ∀ x, ev.completion = some x → x = (c, d, -EINPROGRESS)) :
    Waiting lead c d qs (w.log ev) r rest := by
  constructor
  · exact running_of_reqs hW.running rfl
  · exact hW.cur
  · exact hW.complete
  · exact hW.data
  · obtain ⟨pre, j1, j2, j3⟩ := hW.jobs
    refine ⟨pre, ?_, j2, fun k hk => settled_mono (j3 k hk) _⟩
    rw [log_trace, starts_snoc_other _ _ h1]; exact j1
  · rw [log_trace, outstanding_append]
    simp [h2, hW.out]
  · rw [log_trace]; exact ordered_snoc_other hW.ordered h1
  · intro x hx
    rw [log_trace, completions_append, List.mem_append] at hx
    rcases hx with hx | hx
    · exact hW.compls x hx
    · apply h3
      simp only [completions, List.filterMap_cons, List.filterMap_nil] at hx
      cases hc : ev.completion with
      | none => simp [hc] at hx
      | some y => simp [hc] at hx; rw [hx]
  · obtain ⟨p, hp, hd⟩ := hW.deferred_start
    exact ⟨p, by rw [log_trace, starts_snoc_other _ _ h1]; exact hp, hd⟩

theorem complete_done_eq (B : Backend) (w : World) (r : ReqId) (err : Int)
    (h : (w.reqs r).complete = .reqchain_done) :
    crypto_request_complete B w r err =
      acomp_reqchain_done B (w.log (.deliver r err)) (w.reqs r).data.owner err := by
  unfold crypto_request_complete
  simp only [log_reqs, h]

theorem notify_waiting (B : Backend) {lead : ReqId} {c : Completion} {d : Ptr}
    {qs : List ReqId} {w : World} {r : ReqId} {rest : List ReqId}
    (hW : Waiting lead c d qs w r rest) :
    Waiting lead c d qs (crypto_request_complete B w r (-EINPROGRESS)) r rest := by
  rw [complete_done_eq B w r _ hW.complete, hW.data]
  have h1 : Waiting lead c d qs (w.log (.deliver r (-EINPROGRESS))) r rest :=
    waiting_log_inert hW _ rfl
      (fun acc => by simp [outstanding_step, deferred_einprogress])
      (fun x hx => by simp [Event.completion] at hx)
  unfold acomp_reqchain_done
  simp only [Ptr.owner, if_true]
  split_ifs with hh
  · exact h1
  · have hc : ((w.log (.deliver r (-EINPROGRESS))).reqs lead).chain.compl = c := hW.running.compl
    have hd : ((w.log (.deliver r (-EINPROGRESS))).reqs lead).chain.data = d := hW.running.cdata
    rw [hc, hd]
    exact waiting_log_inert h1 _ rfl (fun acc => rfl)
      (fun x hx => by simp [Event.completion] at hx; rw [← hx])

theorem lastJob_snoc {lead : ReqId} {qs pre : List ReqId} {r : ReqId}
    (h : lead :: qs = pre ++ [r]) : lastJob lead qs = r := by
  have h1 : (lead :: qs).getLast? = some (lastJob lead qs) := by
    unfold lastJob
    cases qs with
    | nil => simp
    | cons a l =>
      rw [List.getLast?_cons_cons]
      have : (a :: l).getLast? = some ((a :: l).getLast (by simp)) :=
        List.getLast?_eq_getLast _ _
      rw [this]; rfl
  rw [h] at h1
  simpa using h1.symm

theorem deferred_ne_ebusy {e : Int} (h : deferred e = false) :
    e ≠ -EBUSY ∧ e ≠ -EINPROGRESS := by
  simp only [deferred, Bool.or_eq_false_iff, decide_eq_false_iff_not] at h
  exact ⟨h.2, h.1⟩

theorem final_step (B : Backend) {lead : ReqId} {c : Completion} {d : Ptr}
    {qs : List ReqId} {w : World} {r : ReqId} {rest : List ReqId}
    (hW : Waiting lead c d qs w r rest) {e : Int} (he : deferred e = false) :
    (Over lead c d qs (crypto_request_complete B w r e) ∧
        ∃ p ∈ starts (crypto_request_complete B w r e).trace, deferred p.2 = true) ∨
      ∃ r1 rest1, Waiting lead c d qs (crypto_request_complete B w r e) r1 rest1 ∧
        rest1.length < rest.length := by
  rw [complete_done_eq B w r _ hW.complete, hW.data]
  obtain ⟨w1, hw1⟩ : ∃ w1, w1 = w.log (.deliver r e) := ⟨_, rfl⟩
  rw [← hw1]
  have hrun1 : Running lead c d rest w1 := running_of_reqs hW.running (by rw [hw1]; rfl)
  obtain ⟨pre, j1, j2, j3⟩ := hW.jobs
  have t1 : w1.trace = w.trace ++ [.deliver r e] := by rw [hw1]; rfl
  have st1 : starts w1.trace = starts w.trace := by
    rw [t1, starts_snoc_other _ (.deliver r e) rfl]
  have out1 : outstanding w1.trace = [] := by
    rw [t1, outstanding_append, hW.out]
    simp [outstanding_step, he]
  have hsr : settled w1.trace r = true := by
    rw [t1, settled_append]
    simp [settled, Event.settles, he]
  have all1 : AllSettled w1.trace := by
    intro k hk
    rw [st1, j1, List.mem_append] at hk
    rcases hk with hk | hk
    · rw [t1]; exact settled_mono (j3 k hk) _
    · simp only [List.mem_singleton] at hk
      subst hk; exact hsr
  have ord1 : Ordered w1.trace := by
    rw [t1]; exact ordered_snoc_other hW.ordered rfl
  have cp1 : completions w1.trace = completions w.trace := by
    rw [t1, completions_append]
    simp [completions, Event.completion]
  have hne := (deferred_ne_ebusy he).2
  unfold acomp_reqchain_done
  simp only [Ptr.owner, if_neg hne, hrun1.req0, hrun1.compl, hrun1.cdata]
  obtain ⟨evs, hF⟩ := finish_spec B lead c d rest w1 e CRYPTO_TFM_REQ_MAY_BACKLOG hrun1
  generalize acomp_reqchain_finish B w1 lead e CRYPTO_TFM_REQ_MAY_BACKLOG = F at hF ⊢
  have cpe := completions_of_starts hF.all_starts
  rcases hF.outcome with hR | ⟨pre1, r1, st, rest1, hL, hret⟩
  · left
    have hterm : deferred F.2 = false := by
      rw [hR.status]; exact lastStatus_terminal hR.terminal he
    rw [if_neg (deferred_ne_ebusy hterm).1]
    have hjobs : (starts (w1.trace ++ evs)).map Prod.fst = lead :: qs := by
      rw [starts_append, st1, List.map_append, j1, hR.jobs, j2]; simp
    have hsett : ∀ k ∈ lead :: qs, settled (w1.trace ++ evs) k = true := by
      intro k hk
      rw [j2] at hk
      rw [settled_append]
      have : k ∈ pre ++ [r] ∨ k ∈ rest := by
        simp only [List.mem_append, List.mem_cons, List.mem_singleton] at hk ⊢
        tauto
      rcases this with h | h
      · rw [all1 k (by rw [st1, j1]; exact h)]; rfl
      · rw [← hR.jobs] at h
        rw [settled_of_mem_jobs hR.terminal h]; simp
    have hord := ordered_terminal_starts ord1 all1 hF.all_starts hR.terminal
    have hdefst : ∃ p ∈ starts (F.1.log (.complete c d F.2)).trace, deferred p.2 = true := by
      obtain ⟨p, hp, hd⟩ := hW.deferred_start
      refine ⟨p, ?_, hd⟩
      rw [log_trace, hF.trace, starts_snoc_other _ (.complete c d F.2) rfl, starts_append,
        st1]
      exact List.mem_append_left _ hp
    refine ⟨?_, hdefst⟩
    constructor
    · rw [log_trace, hF.trace, starts_snoc_other _ (.complete c d F.2) rfl]; exact hjobs
    · intro k hk
      rw [log_trace, hF.trace]
      exact settled_mono (hsett k hk) _
    · rw [log_trace, hF.trace, outstanding_append,
        outstanding_terminal_starts _ hF.all_starts hR.terminal, out1]
      rfl
    · rw [log_trace, hF.trace]
      exact ordered_snoc_other hord.1 rfl
    · exact hR.complete
    · exact hR.data
    · right
      refine ⟨hdefst, w1.trace ++ evs, F.2, ?_, hterm, ?_, hjobs, hsett, ?_⟩
      · rw [log_trace, hF.trace]
      · intro x hx
        rw [completions_append, cpe.1, List.append_nil, cp1] at hx
        exact hW.compls x hx
      · rw [reached_append]
        rcases List.eq_nil_or_concat (starts evs) with hs | ⟨l, p, hs⟩
        · have hrest : rest = [] := by rw [← hR.jobs, hs]; rfl
          rw [hrest] at j2
          have hst : F.2 = e := by rw [hR.status, hs]; rfl
          rw [lastJob_snoc j2, hst]
          have : reached w1.trace r e = true := by
            rw [t1, reached_append]
            simp [reached, Event.settlesWith, he]
          rw [this]; rfl
        · rw [List.concat_eq_append] at hs
          have hst : F.2 = p.2 := by rw [hR.status, hs, lastStatus_snoc]
          have hrest : rest = l.map Prod.fst ++ [p.1] := by
            rw [← hR.jobs, hs]; simp
          have hj : lead :: qs = (pre ++ r :: l.map Prod.fst) ++ [p.1] := by
            rw [j2, hrest]; simp
          rw [lastJob_snoc hj, hst]
          have hp : p ∈ starts evs := by rw [hs]; simp
          rw [reached_of_terminal_start hp (hR.terminal p hp)]; simp
  · right
    have hlen : rest1.length < rest.length := by
      have := congrArg List.length hL.jobs
      simp only [List.length_cons, List.length_append, List.length_map] at this
      omega
    have hW2 : Waiting lead c d qs F.1 r1 rest1 := by
      constructor
      · exact hL.running
      · exact hL.cur
      · exact hL.complete
      · exact hL.data
      · refine ⟨pre ++ [r] ++ pre1.map Prod.fst, ?_, ?_, ?_⟩
        · rw [hF.trace, starts_append, st1, List.map_append, j1, hL.starts_eq]; simp
        · rw [j2, hL.jobs]; simp
        · intro k hk
          rw [hF.trace, settled_append]
          rcases List.mem_append.1 hk with h | h
          · rw [all1 k (by rw [st1, j1]; exact h)]; rfl
          · obtain ⟨p, hp, rfl⟩ := List.mem_map.1 h
            have hp1 : p ∈ starts evs := by rw [hL.starts_eq]; simp [hp]
            rw [settled_of_terminal_start hp1 (hL.terminal p hp)]
            simp
      · rw [hF.trace, outstanding_waiting_starts _ hF.all_starts hL.starts_eq hL.terminal
          hL.deferred, out1]
        rfl
      · rw [hF.trace]
        exact ordered_waiting_starts ord1 all1 hF.all_starts hL.starts_eq hL.terminal
      · intro x hx
        rw [hF.trace, completions_append, cpe.1, List.append_nil, cp1] at hx
        exact hW.compls x hx
      · refine ⟨(r1, st), ?_, hL.deferred⟩
        rw [hF.trace, starts_append, hL.starts_eq]
        simp
    refine ⟨r1, rest1, ?_, hlen⟩
    split_ifs with hb
    · exact hW2
    · have hst : F.2 = -EINPROGRESS := by
        rw [hret] at hb ⊢
        split_ifs at hb ⊢ with h
        · rfl
        · exact absurd rfl hb
      rw [hst]
      exact waiting_log_inert hW2 _ rfl (fun acc => rfl)
        (fun x hx => by simp [Event.completion] at hx; rw [← hx])

theorem round_waiting (B : Backend) (hfin : ∀ r, deferred (B.final r) = false)
    {lead : ReqId} {c : Completion} {d : Ptr} {qs : List ReqId} {w : World} {r : ReqId}
    {rest : List ReqId} (hW : Waiting lead c d qs w r rest) :
    (Over lead c d qs (backend_round B w) ∧
        ∃ p ∈ starts (backend_round B w).trace, deferred p.2 = true) ∨
      ∃ r1 rest1, Waiting lead c d qs (backend_round B w) r1 rest1 ∧
        rest1.length < rest.length := by
  unfold backend_round
  rw [hW.out]
  simp only
  split_ifs with hn
  · exact final_step B (notify_waiting B hW) (hfin r)
  · exact final_step B hW (hfin r)

theorem round_over (B : Backend) {lead : ReqId} {c : Completion} {d : Ptr}
    {qs : List ReqId} {w : World} (hO : Over lead c d qs w) : backend_round B w = w := by
  unfold backend_round
  rw [hO.out]

theorem rounds_over (B : Backend) {lead : ReqId} {c : Completion} {d : Ptr}
    {qs : List ReqId} (n : Nat) {w : World} (hO : Over lead c d qs w) :
    backend_rounds B n w = w := by
  induction n with
  | zero => rfl
  | succ n ih => rw [backend_rounds, round_over B hO, ih]

theorem rounds_waiting (B : Backend) (hfin : ∀ r, deferred (B.final r) = false)
    {lead : ReqId} {c : Completion} {d : Ptr} {qs : List ReqId} (n : Nat) :
    ∀ {w : World} {r : ReqId} {rest : List ReqId}, Waiting lead c d qs w r rest →
      (Over lead c d qs (backend_rounds B n w) ∧
          ∃ p ∈ starts (backend_rounds B n w).trace, deferred p.2 = true) ∨
        ∃ r1 rest1, Waiting lead c d qs (backend_rounds B n w) r1 rest1 ∧
          rest1.length + n ≤ rest.length := by
  induction n with
  | zero =>
    intro w r rest hW
    exact Or.inr ⟨r, rest, hW, le_refl _⟩
  | succ n ih =>
    intro w r rest hW
    rw [backend_rounds]
    rcases round_waiting B hfin hW with hO | ⟨r1, rest1, hW1, hlen⟩
    · rw [rounds_over B n hO.1]; exact Or.inl hO
    · rcases ih hW1 with hO | ⟨r2, rest2, hW2, hlen2⟩
      · exact Or.inl hO
      · exact Or.inr ⟨r2, rest2, hW2, by omega⟩

/-- The life of a chain on the slow path.  Either the submit call returned
a terminal status: then the chain is over when the call returns, the caller's
completion was not called, and the backend has nothing left to do.  Or the
submit call returned a deferred status: then after any number of rounds of
the backend the chain is over, with a deferred start in its trace, or it
waits for one job with fewer jobs pending. -/
theorem chain_life_spec (B : Backend) (hfin : ∀ r, deferred (B.final r) = false)
    (w : World) (lead : ReqId) (op : OpId)
    (hslow : ((w.tfms (w.reqs lead).tfm).req_chain ||
      (!acomp_request_chained (w.reqs lead) && acomp_request_issg (w.reqs lead))) = false)
    (hnd : (lead :: (w.reqs lead).list).Nodup) (ht : w.trace = []) (n : Nat) :
    (deferred (acomp_do_req_chain B w lead op).2 = false ∧
      chain_life B w lead op n = (acomp_do_req_chain B w lead op).1 ∧
      Over lead (w.reqs lead).complete (w.reqs lead).data (w.reqs lead).list
        (chain_life B w lead op n) ∧
      completions (chain_life B w lead op n).trace = []) ∨
    (deferred (acomp_do_req_chain B w lead op).2 = true ∧
      ((Over lead (w.reqs lead).complete (w.reqs lead).data (w.reqs lead).list
          (chain_life B w lead op n) ∧
        ∃ p ∈ starts (chain_life B w lead op n).trace, deferred p.2 = true) ∨
      ∃ r rest, Waiting lead (w.reqs lead).complete (w.reqs lead).data (w.reqs lead).list
        (chain_life B w lead op n) r rest ∧
        rest.length + n ≤ (w.reqs lead).list.length)) := by
  unfold chain_life
  rcases submit_life B w lead op hslow hnd ht with ⟨hO, hd, hc⟩ | ⟨r, rest, hW, hlen, hd⟩
  · rw [rounds_over B n hO]
    exact Or.inl ⟨hd, rfl, hO, hc⟩
  · right
    refine ⟨hd, ?_⟩
    rcases rounds_waiting B hfin n hW with hO | ⟨r1, rest1, hW1, hlen1⟩
    · exact Or.inl hO
    · exact Or.inr ⟨r1, rest1, hW1, by omega⟩

theorem chain_life_over (B : Backend) (hfin : ∀ r, deferred (B.final r) = false)
    (w : World) (lead : ReqId) (op : OpId)
    (hslow : ((w.tfms (w.reqs lead).tfm).req_chain ||
      (!acomp_request_chained (w.reqs lead) && acomp_request_issg (w.reqs lead))) = false)
    (hnd : (lead :: (w.reqs lead).list).Nodup) (ht : w.trace = []) (n : Nat)
    (hn : (w.reqs lead).list.length < n) :
    Over lead (w.reqs lead).complete (w.reqs lead).data (w.reqs lead).list
        (chain_life B w lead op n) := by
  rcases chain_life_spec B hfin w lead op hslow hnd ht n with
    ⟨_, _, hO, _⟩ | ⟨_, ⟨hO, _⟩ | ⟨r, rest, _, hlen⟩⟩
  · exact hO
  · exact hO
  · omega

/-- C3. Jobs of one chain are started strictly in submission order. For a
lead job with follow-ons on the slow path, at every point of the life of the
chain (after any number of rounds of the backend) the jobs started so far
are an initial part of lead, q1, ..., qn, in that order, and whenever a job
was started, every job started before it had reached a terminal status: its
start had returned one, or the backend had delivered one to the completion
handler. -/
theorem jobs_start_in_order (B : Backend) (hfin : ∀ r, deferred (B.final r) = false)
    (w : World) (lead : ReqId) (op : OpId)
    (hslow : ((w.tfms (w.reqs lead).tfm).req_chain ||
      (!acomp_request_chained (w.reqs lead) && acomp_request_issg (w.reqs lead))) = false)
    (hnd : (lead :: (w.reqs lead).list).Nodup) (ht : w.trace = []) (n : Nat) :
    (∃ rest, (starts (chain_life B w lead op n).trace).map Prod.fst ++ rest =
      lead :: (w.reqs lead).list) ∧
    Ordered (chain_life B w lead op n).trace ∧
    (outstanding (chain_life B w lead op n).trace).length ≤ 1 := by
  rcases chain_life_spec B hfin w lead op hslow hnd ht n with
    ⟨_, _, hO, _⟩ | ⟨_, ⟨hO, _⟩ | ⟨r, rest, hW, _⟩⟩
  · exact ⟨⟨[], by rw [hO.jobs]; simp⟩, hO.ordered, by rw [hO.out]; simp⟩
  · exact ⟨⟨[], by rw [hO.jobs]; simp⟩, hO.ordered, by rw [hO.out]; simp⟩
  · obtain ⟨pre, j1, j2, _⟩ := hW.jobs
    exact ⟨⟨rest, by rw [j1, j2]; simp⟩, hW.ordered, by rw [hW.out]; simp⟩

/-- C3, witness: a chain of three jobs whose second start returns -EBUSY and
whose third returns -EINPROGRESS, after one round of the backend. -/
theorem jobs_start_in_order_witness :
    (∀ r, deferred ((scripted_backend [0, -16, -115] [0, -5, 0] true).final r) = false) ∧
    (((chain_of_three.tfms (chain_of_three.reqs 0).tfm).req_chain ||
      (!acomp_request_chained (chain_of_three.reqs 0) &&
        acomp_request_issg (chain_of_three.reqs 0))) = false) ∧
    (0 :: (chain_of_three.reqs 0).list).Nodup ∧ chain_of_three.trace = [] ∧
    ((∃ rest, (starts (chain_life (scripted_backend [0, -16, -115] [0, -5, 0] true)
        chain_of_three 0 1 1).trace).map Prod.fst ++ rest =
      0 :: (chain_of_three.reqs 0).list) ∧
    Ordered (chain_life (scripted_backend [0, -16, -115] [0, -5, 0] true)
      chain_of_three 0 1 1).trace ∧
    (outstanding (chain_life (scripted_backend [0, -16, -115] [0, -5, 0] true)
      chain_of_three 0 1 1).trace).length ≤ 1) :=
  have h0 : ∀ r, deferred ((scripted_backend [0, -16, -115] [0, -5, 0] true).final r)
      = false := fun r => match r with
    | 0 => by simp [scripted_backend, deferred, EINPROGRESS, EBUSY]
    | 1 => by simp [scripted_backend, deferred, EINPROGRESS, EBUSY]
    | 2 => by simp [scripted_backend, deferred, EINPROGRESS, EBUSY]
    | _ + 3 => by simp [scripted_backend, deferred, EINPROGRESS, EBUSY]
  have h1 : ((chain_of_three.tfms (chain_of_three.reqs 0).tfm).req_chain ||
      (!acomp_request_chained (chain_of_three.reqs 0) &&
        acomp_request_issg (chain_of_three.reqs 0))) = false := by decide
  have h2 : (0 :: (chain_of_three.reqs 0).list).Nodup := by decide
  have h3 : chain_of_three.trace = [] := rfl
  ⟨h0, h1, h2, h3,
    jobs_start_in_order (scripted_backend [0, -16, -115] [0, -5, 0] true) h0
      chain_of_three 0 1 h1 h2 h3 1⟩

/-- C1. Fast path of `acomp_do_req_chain`: when the transform processes
chains natively, or the request has no follow-ons and both its buffers are
scatter lists, the call makes exactly one call `op(req)`, on the memory and
the request exactly as the caller set them, returns the status of that call,
and leaves every request as that call left it: only the output length the
backend stored differs, so completion, context, list, buffers and chain
state of the request are the caller's. -/
theorem fast_path_single_call (B : Backend) (w : World) (r : ReqId) (op : OpId)
    (h : (w.tfms (w.reqs r).tfm).req_chain = true ∨
      ((w.reqs r).list = [] ∧ acomp_request_issg (w.reqs r) = true)) :
    (acomp_do_req_chain B w r op).2 = (B.op op r w).err ∧
    newEvents w (acomp_do_req_chain B w r op).1 =
      [Event.op op r (w.reqs r) (B.op op r w).err] ∧
    (acomp_do_req_chain B w r op).1.reqs r = set_dlen (B.op op r w).dlen (w.reqs r) ∧
    (∀ x, x ≠ r → (acomp_do_req_chain B w r op).1.reqs x = w.reqs x) ∧
    steer ((acomp_do_req_chain B w r op).1.reqs r) = steer (w.reqs r) ∧
    ((acomp_do_req_chain B w r op).1.reqs r).chain = (w.reqs r).chain := by
  have hfast : ((w.tfms (w.reqs r).tfm).req_chain ||
      (!acomp_request_chained (w.reqs r) && acomp_request_issg (w.reqs r))) = true := by
    rcases h with h | ⟨h1, h2⟩
    · simp [h]
    · simp [acomp_request_chained, h1, h2]
  have heq : acomp_do_req_chain B w r op = call_op B w op r := by
    unfold acomp_do_req_chain
    simp only [hfast, if_true]
  rw [heq]
  refine ⟨rfl, ?_, ?_, ?_, ?_, ?_⟩
  · exact newEvents_of_trace rfl
  · simp [call_op]
  · intro x hx
    simp [call_op, hx]
  · simp [call_op, steer, set_dlen]
  · simp [call_op, set_dlen]

/-- C1, witness: a lead job with scatter-list buffers and no follow-ons, against a
transform without native chaining and a backend that returns -5. -/
theorem fast_path_single_call_witness :
    ((single_sg.reqs 0).list = [] ∧ acomp_request_issg (single_sg.reqs 0) = true) ∧
    (acomp_do_req_chain (scripted_backend [-5] [] false) single_sg 0 1).2 = -5 ∧
    newEvents single_sg (acomp_do_req_chain (scripted_backend [-5] [] false) single_sg 0 1).1 =
      [Event.op 1 0 (single_sg.reqs 0) (-5)] :=
  ⟨by decide,
    (fast_path_single_call (scripted_backend [-5] [] false) single_sg 0 1
      (Or.inr (by decide))).1,
    (fast_path_single_call (scripted_backend [-5] [] false) single_sg 0 1
      (Or.inr (by decide))).2.1⟩

/-- C9. `acomp_walk_virt` rejects empty buffers: it returns -EINVAL exactly
when the source length or the destination length of the request is zero, and
0 otherwise; when it returns -EINVAL it has only copied the two lengths into
the view: the two scatter walks and the flags of the view and the whole
request are untouched. -/
theorem walk_virt_rejects_empty (mem : Nat → Scatterlist) (r : ReqId) (walk : AcompWalk)
    (req : AcompReq) :
    ((acomp_walk_virt mem r walk req).2.2 = -EINVAL ↔ (req.slen = 0 ∨ req.dlen = 0)) ∧
    ((acomp_walk_virt mem r walk req).2.2 = 0 ↔ ¬ (req.slen = 0 ∨ req.dlen = 0)) ∧
    (if req.slen = 0 ∨ req.dlen = 0 then
      (acomp_walk_virt mem r walk req).1 = { walk with slen := req.slen, dlen := req.dlen } ∧
      (acomp_walk_virt mem r walk req).1.in_ = walk.in_ ∧
      (acomp_walk_virt mem r walk req).1.out = walk.out ∧
      (acomp_walk_virt mem r walk req).1.flags = walk.flags ∧
      (acomp_walk_virt mem r walk req).2.1 = req
    else True) := by
  have hne : (-EINVAL : Int) ≠ 0 := by unfold EINVAL; decide
  by_cases h : req.slen = 0 ∨ req.dlen = 0
  · have heq : acomp_walk_virt mem r walk req =
        ({ walk with slen := req.slen, dlen := req.dlen }, req, -EINVAL) := by
      unfold acomp_walk_virt
      simp only [h, if_true]
    rw [heq]
    simp [h, hne]
  · have heq : (acomp_walk_virt mem r walk req).2.2 = 0 := by
      unfold acomp_walk_virt
      simp only [h, if_false]
    rw [heq]
    simp [h, hne.symm]

/-- C10, the failing input. A job whose source is a scatter list of 100
bytes and whose destination is 200 bytes of a folio: `acomp_virt_to_sg`
hands the destination folio's scatter list and length to the source setter,
so after the backend reported 150 bytes and `acomp_reqchain_virt` restored
the job, the source is the chain state's destination scatter list and the
source length is 200, not the caller's scatter list and 100. -/
theorem virt_to_sg_folio_dst_clobbers_src :
    sg_to_folio.src = .addr 1000 ∧ sg_to_folio.slen = 100 ∧
    (acomp_virt_to_sg 0 sg_to_folio).src = .dsg 0 ∧
    (acomp_virt_to_sg 0 sg_to_folio).slen = 200 ∧
    (acomp_virt_to_sg 0 sg_to_folio).dst = .addr 2000 ∧
    acomp_request_dst_isfolio (acomp_virt_to_sg 0 sg_to_folio) = true ∧
    (reqchain_virt_req (set_dlen 150 (acomp_virt_to_sg 0 sg_to_folio)) 0).src = .dsg 0 ∧
    (reqchain_virt_req (set_dlen 150 (acomp_virt_to_sg 0 sg_to_folio)) 0).slen = 200 ∧
    (reqchain_virt_req (set_dlen 150 (acomp_virt_to_sg 0 sg_to_folio)) 0).dlen = 150 := by
  decide

theorem do_one_req_status (B : Backend) (w : World) (s r : ReqId) :
    (∃ fn w0, (acomp_do_one_req B w s r).2 = (B.op fn r w0).err) ∨
    (∃ c q w0, (acomp_do_one_req B w s r).2 = (B.fb c q w0).err) := by
  simp only [acomp_do_one_req]
  split_ifs with h
  · exact Or.inr ⟨_, _, _, rfl⟩
  · exact Or.inl ⟨_, _, rfl⟩

theorem sync_backend_terminal {B : Backend}
    (hop : ∀ fn r w0, deferred (B.op fn r w0).err = false)
    (hfb : ∀ c q w0, deferred (B.fb c q w0).err = false)
    {evs : List Event}
    (hst : ∀ p ∈ starts evs, ∃ w0 s, p.2 = (acomp_do_one_req B w0 s p.1).2) :
    ∀ p ∈ starts evs, deferred p.2 = false := by
  intro p hp
  obtain ⟨w0, s, h⟩ := hst p hp
  rcases do_one_req_status B w0 s p.1 with ⟨fn, w1, h1⟩ | ⟨c, q, w1, h1⟩
  · rw [h, h1]; exact hop _ _ _
  · rw [h, h1]; exact hfb _ _ _

theorem getLast_of_jobs {l : List (ReqId × Int)} {lead : ReqId} {qs : List ReqId}
    (h : l.map Prod.fst = lead :: qs) (err : Int) :
    l.getLast? = some (lastJob lead qs, lastStatus l err) := by
  rcases List.eq_nil_or_concat l with hl | ⟨l1, p, hl⟩
  · subst hl; simp at h
  · subst hl
    rw [List.concat_eq_append] at h ⊢
    rw [lastStatus_snoc]
    have h2 : lead :: qs = l1.map Prod.fst ++ [p.1] := by
      rw [← h]; simp
    rw [lastJob_snoc h2]
    simp

/-- No start of a finished run is deferred, so a deferred start is the last
start of the run that was left waiting. -/
theorem deferred_start_is_last {pre1 : List (ReqId × Int)} {y : ReqId × Int}
    (ht : ∀ p ∈ pre1, deferred p.2 = false) (pre post : List (ReqId × Int))
    (x : ReqId × Int) (hx : deferred x.2 = true) (h : pre ++ x :: post = pre1 ++ [y]) :
    post = [] ∧ x = y := by
  rcases List.eq_nil_or_concat post with hp | ⟨post1, z, hp⟩
  · subst hp
    have := List.append_inj' h rfl
    exact ⟨rfl, by simpa using this.2⟩
  · exfalso
    rw [hp, List.concat_eq_append, ← List.cons_append, ← List.append_assoc] at h
    have := (List.append_inj' h rfl).1
    have hx1 : x ∈ pre1 := by rw [← this]; simp
    rw [ht x hx1] at hx
    exact Bool.false_ne_true hx

/-- C4. Busy stops the chain. In a call of `acomp_do_req_chain` on the slow
path, and in a call of the completion handler `acomp_reqchain_done` on a
chain that is set up, a start that returns -EBUSY is the last start of the
call: no later job is started, the call (submit, or `acomp_reqchain_finish`
inside the handler) yields -EBUSY, and the call does not invoke the caller's
completion. -/
theorem busy_stops_chain (B : Backend) (w : World) (lead : ReqId) (op : OpId)
    (hslow : ((w.tfms (w.reqs lead).tfm).req_chain ||
      (!acomp_request_chained (w.reqs lead) && acomp_request_issg (w.reqs lead))) = false)
    (hnd : (lead :: (w.reqs lead).list).Nodup)
    (w2 : World) (lead2 : ReqId) (c : Completion) (d : Ptr) (rest : List ReqId)
    (hrun : Running lead2 c d rest w2) (e : Int) :
    (∀ pre post r, starts (newEvents w (acomp_do_req_chain B w lead op).1) =
        pre ++ (r, -EBUSY) :: post →
      post = [] ∧ (acomp_do_req_chain B w lead op).2 = -EBUSY ∧
      completions (newEvents w (acomp_do_req_chain B w lead op).1) = []) ∧
    (∀ pre post r, starts (newEvents w2 (acomp_reqchain_done B w2 lead2 e)) =
        pre ++ (r, -EBUSY) :: post →
      post = [] ∧
      (acomp_reqchain_finish B w2 lead2 e CRYPTO_TFM_REQ_MAY_BACKLOG).2 = -EBUSY ∧
      completions (newEvents w2 (acomp_reqchain_done B w2 lead2 e)) = []) := by
  constructor
  · intro pre post r hsplit
    obtain ⟨evs, hS⟩ := submit_spec B w lead op hslow hnd
    rw [newEvents_of_trace hS.trace] at hsplit ⊢
    rcases hS.outcome with hR | ⟨pre1, r1, st, rest1, hL, hret⟩
    · exfalso
      have := hR.terminal (r, -EBUSY) (by rw [hsplit]; simp)
      rw [deferred_ebusy] at this
      exact Bool.noConfusion this
    · rw [hL.starts_eq] at hsplit
      obtain ⟨h1, h2⟩ := deferred_start_is_last hL.terminal pre post (r, -EBUSY)
            deferred_ebusy hsplit.symm
      have hst : st = -EBUSY := by
        have := congrArg Prod.snd h2
        exact this.symm
      refine ⟨h1, ?_, (completions_of_starts hS.all_starts).1⟩
      rw [hret, hst, if_neg]
      intro h
      exact ebusy_ne_einprogress h.2.1
  · intro pre post r hsplit
    by_cases he : e = -EINPROGRESS
    · exfalso
      subst he
      unfold acomp_reqchain_done at hsplit
      simp only [if_true] at hsplit
      split_ifs at hsplit with hh
      · simp [newEvents, starts] at hsplit
      · simp [newEvents, starts, Event.started] at hsplit
    · obtain ⟨evs, hF⟩ := finish_spec B lead2 c d rest w2 e CRYPTO_TFM_REQ_MAY_BACKLOG hrun
      have hD : acomp_reqchain_done B w2 lead2 e =
          if (acomp_reqchain_finish B w2 lead2 e CRYPTO_TFM_REQ_MAY_BACKLOG).2 = -EBUSY then
            (acomp_reqchain_finish B w2 lead2 e CRYPTO_TFM_REQ_MAY_BACKLOG).1
          else (acomp_reqchain_finish B w2 lead2 e CRYPTO_TFM_REQ_MAY_BACKLOG).1.log
            (.complete c d (acomp_reqchain_finish B w2 lead2 e CRYPTO_TFM_REQ_MAY_BACKLOG).2) := by
        unfold acomp_reqchain_done
        simp only [if_neg he, hrun.req0, hrun.compl, hrun.cdata]
      rw [hD] at hsplit ⊢
      generalize acomp_reqchain_finish B w2 lead2 e CRYPTO_TFM_REQ_MAY_BACKLOG = F
        at hF hsplit ⊢
      have hstarts : starts (newEvents w2 (if F.2 = -EBUSY then F.1
          else F.1.log (.complete c d F.2))) = starts evs := by
        split_ifs
        · rw [newEvents_of_trace hF.trace]
        · have : (F.1.log (.complete c d F.2)).trace = w2.trace ++ (evs ++ [.complete c d F.2]) := by
            rw [log_trace, hF.trace, List.append_assoc]
          rw [newEvents_of_trace this, starts_snoc_other _ (.complete c d F.2) rfl]
      rw [hstarts] at hsplit
      rcases hF.outcome with hR | ⟨pre1, r1, st, rest1, hL, hret⟩
      · exfalso
        have := hR.terminal (r, -EBUSY) (by rw [hsplit]; simp)
        rw [deferred_ebusy] at this
        exact Bool.noConfusion this
      · rw [hL.starts_eq] at hsplit
        obtain ⟨h1, h2⟩ := deferred_start_is_last hL.terminal pre post (r, -EBUSY)
            deferred_ebusy hsplit.symm
        have hst : st = -EBUSY := by
          have := congrArg Prod.snd h2
          exact this.symm
        have hF2 : F.2 = -EBUSY := by
          rw [hret, hst, if_neg]
          intro h
          exact ebusy_ne_einprogress h.1
        refine ⟨h1, hF2, ?_⟩
        rw [if_pos hF2, newEvents_of_trace hF.trace]
        exact (completions_of_starts hF.all_starts).1

/-- C4, witness: the second job of a chain of three returns -EBUSY, once when
started by the submit call and once when started by the completion handler. -/
theorem busy_stops_chain_witness :
    (((chain_of_three.tfms (chain_of_three.reqs 0).tfm).req_chain ||
      (!acomp_request_chained (chain_of_three.reqs 0) &&
        acomp_request_issg (chain_of_three.reqs 0))) = false) ∧
    (0 :: (chain_of_three.reqs 0).list).Nodup ∧
    Running 0 (.caller 7) (.addr 99) [1, 2] (waiting_on_lead [-115, -16, 0]) ∧
    (starts (newEvents chain_of_three
      (acomp_do_req_chain (scripted_backend [0, -16, 0] [] false) chain_of_three 0 1).1) =
        [(0, 0)] ++ (1, -EBUSY) :: []) ∧
    (([] : List (ReqId × Int)) = [] ∧
      (acomp_do_req_chain (scripted_backend [0, -16, 0] [] false) chain_of_three 0 1).2
        = -EBUSY ∧
      completions (newEvents chain_of_three
        (acomp_do_req_chain (scripted_backend [0, -16, 0] [] false) chain_of_three 0 1).1)
        = []) ∧
    (starts (newEvents (waiting_on_lead [-115, -16, 0])
      (acomp_reqchain_done (scripted_backend [0, -16, 0] [] false)
        (waiting_on_lead [-115, -16, 0]) 0 0)) = [] ++ (1, -EBUSY) :: []) ∧
    (([] : List (ReqId × Int)) = [] ∧
      (acomp_reqchain_finish (scripted_backend [0, -16, 0] [] false)
        (waiting_on_lead [-115, -16, 0]) 0 0 CRYPTO_TFM_REQ_MAY_BACKLOG).2 = -EBUSY ∧
      completions (newEvents (waiting_on_lead [-115, -16, 0])
        (acomp_reqchain_done (scripted_backend [0, -16, 0] [] false)
          (waiting_on_lead [-115, -16, 0]) 0 0)) = []) :=
  have h1 : ((chain_of_three.tfms (chain_of_three.reqs 0).tfm).req_chain ||
      (!acomp_request_chained (chain_of_three.reqs 0) &&
        acomp_request_issg (chain_of_three.reqs 0))) = false := by decide
  have h2 : (0 :: (chain_of_three.reqs 0).list).Nodup := by decide
  have h3 : Running 0 (.caller 7) (.addr 99) [1, 2] (waiting_on_lead [-115, -16, 0]) :=
    ⟨by decide, by decide, by decide, by decide, by decide, by decide⟩
  have e1 : starts (newEvents chain_of_three
      (acomp_do_req_chain (scripted_backend [0, -16, 0] [] false) chain_of_three 0 1).1) =
        [(0, 0)] ++ (1, -EBUSY) :: [] := by decide
  have e2 : starts (newEvents (waiting_on_lead [-115, -16, 0])
      (acomp_reqchain_done (scripted_backend [0, -16, 0] [] false)
        (waiting_on_lead [-115, -16, 0]) 0 0)) = [] ++ (1, -EBUSY) :: [] := by decide
  have h := busy_stops_chain (scripted_backend [0, -16, 0] [] false) chain_of_three 0 1 h1 h2
    (waiting_on_lead [-115, -16, 0]) 0 (.caller 7) (.addr 99) [1, 2] h3 0
  ⟨h1, h2, h3, e1, h.1 [(0, 0)] [] 1 e1, e2, h.2 [] [] 1 e2⟩

/-- C8, counterexample. The chain of three jobs waits for its lead job; the
backend completes the lead job with status 0; the handler starts the second
job, which returns 0, and the third, which returns -EINPROGRESS with the
queue empty, and then calls the caller's completion with -EINPROGRESS. -/
theorem done_reports_in_progress :
    completions (newEvents (waiting_on_lead [-115, 0, -115])
      (acomp_reqchain_done (scripted_backend [-115, 0, -115] [] false)
        (waiting_on_lead [-115, 0, -115]) 0 0)) =
      [(.caller 7, .addr 99, -EINPROGRESS)] := by
  decide

/-- C8, amended. In every execution of `acomp_reqchain_done` on a chain that
is set up, the caller's completion is called only with the caller's context
and never with -EBUSY; it is called with -EINPROGRESS only when the pending
queue is empty, and when it is called with a terminal status the chain has
run to its end: the queue is empty and the lead job has the caller's
completion and context back. -/
theorem done_never_reports_busy (B : Backend) (w : World) (lead : ReqId) (c : Completion)
    (d : Ptr) (rest : List ReqId) (hrun : Running lead c d rest w) (e : Int) :
    ∀ x ∈ completions (newEvents w (acomp_reqchain_done B w lead e)),
      x.1 = c ∧ x.2.1 = d ∧ x.2.2 ≠ -EBUSY ∧
      ((acomp_reqchain_done B w lead e).reqs lead).chain.head = [] ∧
      (deferred x.2.2 = false →
        ((acomp_reqchain_done B w lead e).reqs lead).complete = c ∧
        ((acomp_reqchain_done B w lead e).reqs lead).data = d) := by
  intro x hx
  by_cases he : e = -EINPROGRESS
  · subst he
    unfold acomp_reqchain_done at hx ⊢
    simp only [if_true, hrun.compl, hrun.cdata] at hx ⊢
    split_ifs at hx ⊢ with hh
    · simp [newEvents, completions] at hx
    · have : newEvents w (w.log (.complete c d (-EINPROGRESS))) =
          [.complete c d (-EINPROGRESS)] := newEvents_of_trace rfl
      rw [this] at hx
      simp only [completions, List.filterMap_cons, List.filterMap_nil, Event.completion,
        List.mem_singleton] at hx
      subst hx
      refine ⟨rfl, rfl, fun h => ebusy_ne_einprogress h.symm, ?_, ?_⟩
      · simpa using hh
      · intro h
        rw [deferred_einprogress] at h
        exact Bool.noConfusion h
  · obtain ⟨evs, hF⟩ := finish_spec B lead c d rest w e CRYPTO_TFM_REQ_MAY_BACKLOG hrun
    have hD : acomp_reqchain_done B w lead e =
        if (acomp_reqchain_finish B w lead e CRYPTO_TFM_REQ_MAY_BACKLOG).2 = -EBUSY then
          (acomp_reqchain_finish B w lead e CRYPTO_TFM_REQ_MAY_BACKLOG).1
        else (acomp_reqchain_finish B w lead e CRYPTO_TFM_REQ_MAY_BACKLOG).1.log
          (.complete c d (acomp_reqchain_finish B w lead e CRYPTO_TFM_REQ_MAY_BACKLOG).2) := by
      unfold acomp_reqchain_done
      simp only [if_neg he, hrun.req0, hrun.compl, hrun.cdata]
    rw [hD] at hx ⊢
    generalize acomp_reqchain_finish B w lead e CRYPTO_TFM_REQ_MAY_BACKLOG = F at hF hx ⊢
    have cpe := (completions_of_starts hF.all_starts).1
    split_ifs at hx ⊢ with hb
    · rw [newEvents_of_trace hF.trace, cpe] at hx
      simp at hx
    · have : (F.1.log (.complete c d F.2)).trace = w.trace ++ (evs ++ [.complete c d F.2]) := by
        rw [log_trace, hF.trace, List.append_assoc]
      rw [newEvents_of_trace this, completions_append, cpe] at hx
      simp only [completions, List.filterMap_cons, List.filterMap_nil, Event.completion,
        List.nil_append, List.mem_singleton] at hx
      subst hx
      refine ⟨rfl, rfl, hb, ?_, ?_⟩
      · rcases hF.outcome with hR | ⟨pre1, r1, st, rest1, hL, hret⟩
        · exact hR.head
        · show (F.1.reqs lead).chain.head = []
          rw [hL.running.head]
          by_contra hne
          apply hb
          rw [hret, if_neg]
          intro h; exact hne h.2
      · intro hdef
        rcases hF.outcome with hR | ⟨pre1, r1, st, rest1, hL, hret⟩
        · exact ⟨hR.complete, hR.data⟩
        · exfalso
          have hd : deferred F.2 = true := by
            rw [hret]
            split_ifs
            · exact deferred_einprogress
            · exact deferred_ebusy
          simp only at hdef
          rw [hd] at hdef
          exact Bool.noConfusion hdef

/-- C8 amended, witness: the completion handler on a chain of three whose last
job is deferred. -/
theorem done_never_reports_busy_witness :
    Running 0 (.caller 7) (.addr 99) [1, 2] (waiting_on_lead [-115, 0, -115]) ∧
    (∀ x ∈ completions (newEvents (waiting_on_lead [-115, 0, -115])
        (acomp_reqchain_done (scripted_backend [-115, 0, -115] [] false)
          (waiting_on_lead [-115, 0, -115]) 0 0)),
      x.1 = .caller 7 ∧ x.2.1 = .addr 99 ∧ x.2.2 ≠ -EBUSY ∧
      ((acomp_reqchain_done (scripted_backend [-115, 0, -115] [] false)
        (waiting_on_lead [-115, 0, -115]) 0 0).reqs 0).chain.head = [] ∧
      (deferred x.2.2 = false →
        ((acomp_reqchain_done (scripted_backend [-115, 0, -115] [] false)
          (waiting_on_lead [-115, 0, -115]) 0 0).reqs 0).complete = .caller 7 ∧
        ((acomp_reqchain_done (scripted_backend [-115, 0, -115] [] false)
          (waiting_on_lead [-115, 0, -115]) 0 0).reqs 0).data = .addr 99)) :=
  have h : Running 0 (.caller 7) (.addr 99) [1, 2] (waiting_on_lead [-115, 0, -115]) :=
    ⟨by decide, by decide, by decide, by decide, by decide, by decide⟩
  ⟨h, done_never_reports_busy (scripted_backend [-115, 0, -115] [] false)
    (waiting_on_lead [-115, 0, -115]) 0 (.caller 7) (.addr 99) [1, 2] h 0⟩

theorem flagSet_two_pow (f k : Nat) : flagSet f (2 ^ k) = f.testBit k := by
  unfold flagSet
  rw [Nat.and_two_pow]
  cases h : f.testBit k <;> simp

theorem testBit_clearFlag (f k i : Nat) (hk : k < 32) :
    (clearFlag f (2 ^ k)).testBit i = (f.testBit i && decide (i < 32) && !decide (k = i)) := by
  unfold clearFlag not32
  have hmod : 2 ^ k % 2 ^ 32 = 2 ^ k :=
    Nat.mod_eq_of_lt (Nat.pow_lt_pow_right (by decide) hk)
  rw [hmod, Nat.testBit_and, Nat.testBit_xor, Nat.testBit_two_pow_sub_one, Nat.testBit_two_pow]
  by_cases h1 : i < 32 <;> by_cases h2 : k = i <;> simp [h1, h2]
  omega

theorem testBit_setFlag (f k i : Nat) :
    (setFlag f (2 ^ k)).testBit i = (f.testBit i || decide (k = i)) := by
  unfold setFlag
  rw [Nat.testBit_or, Nat.testBit_two_pow]

theorem testBit_high {f : Nat} (hf : f < 2 ^ 32) {i : Nat} (hi : 32 ≤ i) :
    f.testBit i = false :=
  Nat.testBit_lt_two_pow (lt_of_lt_of_le hf (Nat.pow_le_pow_right (by decide) hi))

theorem src_virt_pow : CRYPTO_ACOMP_REQ_SRC_VIRT = 2 ^ 1 := rfl
theorem src_nondma_pow : CRYPTO_ACOMP_REQ_SRC_NONDMA = 2 ^ 2 := rfl
theorem dst_virt_pow : CRYPTO_ACOMP_REQ_DST_VIRT = 2 ^ 3 := rfl
theorem dst_nondma_pow : CRYPTO_ACOMP_REQ_DST_NONDMA = 2 ^ 4 := rfl
theorem src_folio_pow : CRYPTO_ACOMP_REQ_SRC_FOLIO = 2 ^ 5 := rfl
theorem dst_folio_pow : CRYPTO_ACOMP_REQ_DST_FOLIO = 2 ^ 6 := rfl

theorem testBit_shape_mask (f i : Nat) :
    (f &&& (CRYPTO_ACOMP_REQ_SRC_VIRT ||| CRYPTO_ACOMP_REQ_DST_VIRT |||
      CRYPTO_ACOMP_REQ_SRC_FOLIO ||| CRYPTO_ACOMP_REQ_DST_FOLIO)).testBit i =
    (f.testBit i && (decide (1 = i) || decide (3 = i) || decide (5 = i) || decide (6 = i))) := by
  rw [src_virt_pow, dst_virt_pow, src_folio_pow, dst_folio_pow, Nat.testBit_and,
    Nat.testBit_or, Nat.testBit_or, Nat.testBit_or, Nat.testBit_two_pow, Nat.testBit_two_pow,
    Nat.testBit_two_pow, Nat.testBit_two_pow]

theorem flagSet_nondma (f : Nat) :
    flagSet f (CRYPTO_ACOMP_REQ_SRC_NONDMA ||| CRYPTO_ACOMP_REQ_DST_NONDMA) =
      (f.testBit 2 || f.testBit 4) := by
  have h : ∀ i, (f &&& (CRYPTO_ACOMP_REQ_SRC_NONDMA ||| CRYPTO_ACOMP_REQ_DST_NONDMA)).testBit i
      = (f.testBit i && (decide (2 = i) || decide (4 = i))) := by
    intro i
    rw [src_nondma_pow, dst_nondma_pow, Nat.testBit_and, Nat.testBit_or, Nat.testBit_two_pow,
      Nat.testBit_two_pow]
  unfold flagSet
  by_cases h2 : f.testBit 2 = true
  · have : (f &&& (CRYPTO_ACOMP_REQ_SRC_NONDMA ||| CRYPTO_ACOMP_REQ_DST_NONDMA)) ≠ 0 := by
      intro h0
      have := h 2
      rw [h0, h2] at this
      simp at this
    simp [this, h2]
  · by_cases h4 : f.testBit 4 = true
    · have : (f &&& (CRYPTO_ACOMP_REQ_SRC_NONDMA ||| CRYPTO_ACOMP_REQ_DST_NONDMA)) ≠ 0 := by
        intro h0
        have := h 4
        rw [h0, h4] at this
        simp at this
      simp [this, h4]
    · have : (f &&& (CRYPTO_ACOMP_REQ_SRC_NONDMA ||| CRYPTO_ACOMP_REQ_DST_NONDMA)) = 0 := by
        apply Nat.eq_of_testBit_eq
        intro i
        rw [h i]
        by_cases hi2 : 2 = i
        · subst hi2; simp [h2]
        · by_cases hi4 : 4 = i
          · subst hi4; simp [h4]
          · simp [hi2, hi4]
      simp [this, h2, h4]

theorem testBit_clear_src_virt (f i : Nat) :
    (clearFlag f CRYPTO_ACOMP_REQ_SRC_VIRT).testBit i =
      (f.testBit i && decide (i < 32) && !decide (1 = i)) :=
  testBit_clearFlag f 1 i (by decide)

theorem testBit_set_src_virt (f i : Nat) :
    (setFlag f CRYPTO_ACOMP_REQ_SRC_VIRT).testBit i = (f.testBit i || decide (1 = i)) :=
  testBit_setFlag f 1 i

theorem testBit_clear_src_nondma (f i : Nat) :
    (clearFlag f CRYPTO_ACOMP_REQ_SRC_NONDMA).testBit i =
      (f.testBit i && decide (i < 32) && !decide (2 = i)) :=
  testBit_clearFlag f 2 i (by decide)

theorem testBit_set_src_nondma (f i : Nat) :
    (setFlag f CRYPTO_ACOMP_REQ_SRC_NONDMA).testBit i = (f.testBit i || decide (2 = i)) :=
  testBit_setFlag f 2 i

theorem testBit_clear_dst_virt (f i : Nat) :
    (clearFlag f CRYPTO_ACOMP_REQ_DST_VIRT).testBit i =
      (f.testBit i && decide (i < 32) && !decide (3 = i)) :=
  testBit_clearFlag f 3 i (by decide)

theorem testBit_set_dst_virt (f i : Nat) :
    (setFlag f CRYPTO_ACOMP_REQ_DST_VIRT).testBit i = (f.testBit i || decide (3 = i)) :=
  testBit_setFlag f 3 i

theorem testBit_clear_dst_nondma (f i : Nat) :
    (clearFlag f CRYPTO_ACOMP_REQ_DST_NONDMA).testBit i =
      (f.testBit i && decide (i < 32) && !decide (4 = i)) :=
  testBit_clearFlag f 4 i (by decide)

theorem testBit_set_dst_nondma (f i : Nat) :
    (setFlag f CRYPTO_ACOMP_REQ_DST_NONDMA).testBit i = (f.testBit i || decide (4 = i)) :=
  testBit_setFlag f 4 i

theorem testBit_clear_src_folio (f i : Nat) :
    (clearFlag f CRYPTO_ACOMP_REQ_SRC_FOLIO).testBit i =
      (f.testBit i && decide (i < 32) && !decide (5 = i)) :=
  testBit_clearFlag f 5 i (by decide)

theorem testBit_set_src_folio (f i : Nat) :
    (setFlag f CRYPTO_ACOMP_REQ_SRC_FOLIO).testBit i = (f.testBit i || decide (5 = i)) :=
  testBit_setFlag f 5 i

theorem testBit_clear_dst_folio (f i : Nat) :
    (clearFlag f CRYPTO_ACOMP_REQ_DST_FOLIO).testBit i =
      (f.testBit i && decide (i < 32) && !decide (6 = i)) :=
  testBit_clearFlag f 6 i (by decide)

theorem testBit_set_dst_folio (f i : Nat) :
    (setFlag f CRYPTO_ACOMP_REQ_DST_FOLIO).testBit i = (f.testBit i || decide (6 = i)) :=
  testBit_setFlag f 6 i

/-- A flag word below `2 ^ 32` is determined by its low 32 bits: a word whose
bits agree with those of `f` wherever `f` can have one is `f`. -/
theorem flags_eq_of_low_bits (f g : Nat) (hf : f < 2 ^ 32)
    (h : ∀ i, g.testBit i = (f.testBit i && decide (i < 32))) : g = f := by
  apply Nat.eq_of_testBit_eq
  intro i
  rw [h i]
  by_cases hi : i < 32
  · simp [hi]
  · simp [hi, testBit_high hf (by omega : 32 ≤ i)]

theorem flagSet_src_virt (f : Nat) : flagSet f CRYPTO_ACOMP_REQ_SRC_VIRT = f.testBit 1 :=
  flagSet_two_pow f 1

theorem flagSet_dst_virt (f : Nat) : flagSet f CRYPTO_ACOMP_REQ_DST_VIRT = f.testBit 3 :=
  flagSet_two_pow f 3

theorem flagSet_src_folio (f : Nat) : flagSet f CRYPTO_ACOMP_REQ_SRC_FOLIO = f.testBit 5 :=
  flagSet_two_pow f 5

theorem flagSet_dst_folio (f : Nat) : flagSet f CRYPTO_ACOMP_REQ_DST_FOLIO = f.testBit 6 :=
  flagSet_two_pow f 6

/-- Projection and restoration give the job back when the destination is
flat or a scatter list. For a job that is not NONDMA, with a 32-bit flag
word, whose source is not both flat and paged and whose destination is not
paged: after `acomp_virt_to_sg`, a backend that stores the output length `d`,
and `acomp_reqchain_virt` with status `e`, the source and destination
descriptors, the offsets, the source length and the flags are the original
ones, the destination length is `d` and the error field is `e`. -/
theorem virt_to_sg_round_trip (r : ReqId) (q : AcompReq) (d : Nat) (e : Int)
    (hf : q.flags < 2 ^ 32) (hnd : acomp_request_isnondma q = false)
    (hsrc : ¬ (acomp_request_src_isvirt q = true ∧ acomp_request_src_isfolio q = true))
    (hdst : acomp_request_dst_isfolio q = false) :
    (reqchain_virt_req (set_dlen d (acomp_virt_to_sg r q)) e).src = q.src ∧
    (reqchain_virt_req (set_dlen d (acomp_virt_to_sg r q)) e).dst = q.dst ∧
    (reqchain_virt_req (set_dlen d (acomp_virt_to_sg r q)) e).soff = q.soff ∧
    (reqchain_virt_req (set_dlen d (acomp_virt_to_sg r q)) e).doff = q.doff ∧
    (reqchain_virt_req (set_dlen d (acomp_virt_to_sg r q)) e).slen = q.slen ∧
    (reqchain_virt_req (set_dlen d (acomp_virt_to_sg r q)) e).dlen = d ∧
    (reqchain_virt_req (set_dlen d (acomp_virt_to_sg r q)) e).flags = q.flags ∧
    (reqchain_virt_req (set_dlen d (acomp_virt_to_sg r q)) e).err = e := by
  have h24 : q.flags.testBit 2 = false ∧ q.flags.testBit 4 = false := by
    simp only [acomp_request_isnondma, flagSet_nondma, Bool.or_eq_false_iff] at hnd
    exact hnd
  have h6 : q.flags.testBit 6 = false := by
    simpa only [acomp_request_dst_isfolio, flagSet_dst_folio] using hdst
  have h15 : ¬ (q.flags.testBit 1 = true ∧ q.flags.testBit 5 = true) := by
    simpa only [acomp_request_src_isvirt, acomp_request_src_isfolio, flagSet_src_virt,
      flagSet_src_folio] using hsrc
  have hcases : (q.flags.testBit 1 = true ∧ q.flags.testBit 5 = false) ∨
      (q.flags.testBit 1 = false ∧ q.flags.testBit 5 = true) ∨
      (q.flags.testBit 1 = false ∧ q.flags.testBit 5 = false) := by
    cases h1 : q.flags.testBit 1 <;> cases h5 : q.flags.testBit 5 <;> simp_all
  rcases hcases with ⟨b1, b5⟩ | ⟨b1, b5⟩ | ⟨b1, b5⟩ <;> cases b3 : q.flags.testBit 3 <;>
    simp [acomp_virt_to_sg, reqchain_virt_req, set_dlen, acomp_request_src_isvirt,
      acomp_request_src_isfolio, acomp_request_dst_isvirt, acomp_request_dst_isfolio,
      acomp_request_set_src_sg, acomp_request_set_dst_sg, acomp_request_set_src_dma,
      acomp_request_set_dst_dma, acomp_request_set_src_folio, acomp_request_set_dst_folio,
      flagSet_src_virt, flagSet_dst_virt, flagSet_src_folio, flagSet_dst_folio,
      testBit_shape_mask, testBit_clear_src_virt, testBit_clear_src_nondma,
      testBit_clear_dst_virt, testBit_clear_dst_nondma, testBit_clear_src_folio,
      testBit_clear_dst_folio, b1, b3, b5, h6, -Nat.testBit_and, -Nat.testBit_or] <;>
    (refine flags_eq_of_low_bits q.flags _ hf (fun i => ?_)
     simp only [testBit_clear_src_virt, testBit_clear_src_nondma, testBit_clear_dst_virt,
       testBit_clear_dst_nondma, testBit_clear_src_folio, testBit_clear_dst_folio,
       testBit_set_src_virt, testBit_set_dst_virt, testBit_set_src_folio,
       testBit_set_dst_folio]
     by_cases e1 : 1 = i <;> by_cases e2 : 2 = i <;> by_cases e3 : 3 = i <;>
       by_cases e4 : 4 = i <;> by_cases e5 : 5 = i <;> by_cases e6 : 6 = i <;>
       first
       | omega
       | (subst i; simp [b1, b3, b5, h6, h24.1, h24.2])
       | simp [e1, e2, e3, e4, e5, e6])

/-! ### Spans of a flat view -/

theorem uint_of_int_of_uint (x : Nat) (h : x ≤ UINT_MAX) : uint_of_int (int_of_uint x) = x := by
  unfold UINT_MAX at h
  unfold uint_of_int int_of_uint
  have hx : x % 2 ^ 32 = x := Nat.mod_eq_of_lt (by omega)
  rw [hx]
  split <;> omega

theorem int_of_uint_small (x : Nat) (h : x ≤ INT_MAX) : int_of_uint x = (x : Int) := by
  unfold INT_MAX at h
  unfold int_of_uint
  have hx : x % 2 ^ 32 = x := Nat.mod_eq_of_lt (by omega)
  rw [hx, if_pos (by omega)]

theorem int_of_uint_eq_zero (x : Nat) (h : x ≤ UINT_MAX) : int_of_uint x = 0 ↔ x = 0 := by
  unfold UINT_MAX at h
  unfold int_of_uint
  have hx : x % 2 ^ 32 = x := Nat.mod_eq_of_lt (by omega)
  rw [hx]
  split <;> omega

theorem walk_span_max_pos (preemptible : Bool) (walk : AcompWalk) :
    0 < walk_span_max preemptible walk ∧ walk_span_max preemptible walk ≤ UINT_MAX := by
  simp only [walk_span_max]
  split <;> simp [PAGE_SIZE, UINT_MAX]

/-- The span returned for a flat buffer of `len` bytes under the bound
`cap`, a page or `UINT_MAX`: read as `unsigned int` it is `min len cap`, it
is that number itself when it fits an `int`, and it is 0 exactly when `len`
is 0. -/
theorem flat_span (len cap : Nat) (hl : len ≤ UINT_MAX) (hc : 0 < cap) :
    uint_of_int (int_of_uint (min len cap)) = min len cap ∧
    (min len cap ≤ INT_MAX → int_of_uint (min len cap) = ((min len cap : Nat) : Int)) ∧
    (int_of_uint (min len cap) = 0 ↔ len = 0) := by
  have hm : min len cap ≤ UINT_MAX := le_trans (min_le_left _ _) hl
  refine ⟨uint_of_int_of_uint _ hm, int_of_uint_small _, ?_⟩
  rw [int_of_uint_eq_zero _ hm]
  constructor
  · intro h
    by_contra hne
    have : 0 < min len cap := lt_min (Nat.pos_of_ne_zero hne) hc
    omega
  · intro h
    simp [h]

/-- C11, the claim as stated fails. A flat view of `2 ^ 31` bytes whose
span is not capped (the scheduler is preemptible): the remaining length is
`2 ^ 31`, the cap `UINT_MAX` does not bind, and `acomp_walk_next_src` and
`acomp_walk_next_dst`, which return `int`, return `-(2 ^ 31)`, not the
remaining length. -/
theorem flat_span_exceeds_int :
    flagSet (flat_view (2 ^ 31) (2 ^ 31) false).flags ACOMP_WALK_SRC_LINEAR = true ∧
    flagSet (flat_view (2 ^ 31) (2 ^ 31) false).flags ACOMP_WALK_DST_LINEAR = true ∧
    (flat_view (2 ^ 31) (2 ^ 31) false).slen ≤ UINT_MAX ∧
    (flat_view (2 ^ 31) (2 ^ 31) false).dlen ≤ UINT_MAX ∧
    (acomp_walk_next_src true whole_run (flat_view (2 ^ 31) (2 ^ 31) false)).2 = -(2 ^ 31) ∧
    (acomp_walk_next_dst true whole_run (flat_view (2 ^ 31) (2 ^ 31) false)).2 = -(2 ^ 31) ∧
    (acomp_walk_next_src true whole_run (flat_view (2 ^ 31) (2 ^ 31) false)).2 ≠
      ((min (flat_view (2 ^ 31) (2 ^ 31) false).slen UINT_MAX : Nat) : Int) ∧
    (acomp_walk_next_dst true whole_run (flat_view (2 ^ 31) (2 ^ 31) false)).2 ≠
      ((min (flat_view (2 ^ 31) (2 ^ 31) false).dlen UINT_MAX : Nat) : Int) := by
  decide

/-- C11, amended. For a view whose source is flat, `acomp_walk_next_src`
returns the `int` that holds `min (remaining source length) cap`, where `cap`
is one page when the scheduler is not preemptible and the view may sleep and
`UINT_MAX` otherwise: read back as `unsigned int` the result is that
minimum, it is the minimum itself whenever the minimum is at most `INT_MAX`
(so always under the page cap), and it is 0 exactly when the remaining length
is 0; the only change of the view is the mapped address of the source walk.
The same holds for `acomp_walk_next_dst` with the destination. -/
theorem flat_span_is_capped_length (preemptible : Bool)
    (next : ScatterWalk → Nat → ScatterWalk × Nat) (walk : AcompWalk)
    (hs : walk.slen ≤ UINT_MAX) (hd : walk.dlen ≤ UINT_MAX) :
    (walk_span_max preemptible walk =
      if preemptible = false ∧ flagSet walk.flags ACOMP_WALK_SLEEP = true then PAGE_SIZE
      else UINT_MAX) ∧
    (flagSet walk.flags ACOMP_WALK_SRC_LINEAR = true →
      uint_of_int (acomp_walk_next_src preemptible next walk).2 =
        min walk.slen (walk_span_max preemptible walk) ∧
      (min walk.slen (walk_span_max preemptible walk) ≤ INT_MAX →
        (acomp_walk_next_src preemptible next walk).2 =
          ((min walk.slen (walk_span_max preemptible walk) : Nat) : Int)) ∧
      (preemptible = false ∧ flagSet walk.flags ACOMP_WALK_SLEEP = true →
        (acomp_walk_next_src preemptible next walk).2 = ((min walk.slen PAGE_SIZE : Nat) : Int)) ∧
      ((acomp_walk_next_src preemptible next walk).2 = 0 ↔ walk.slen = 0) ∧
      (acomp_walk_next_src preemptible next walk).1 =
        { walk with in_ := { walk.in_ with addr := ptr_add walk.in_.sg walk.in_.offset } }) ∧
    (flagSet walk.flags ACOMP_WALK_DST_LINEAR = true →
      uint_of_int (acomp_walk_next_dst preemptible next walk).2 =
        min walk.dlen (walk_span_max preemptible walk) ∧
      (min walk.dlen (walk_span_max preemptible walk) ≤ INT_MAX →
        (acomp_walk_next_dst preemptible next walk).2 =
          ((min walk.dlen (walk_span_max preemptible walk) : Nat) : Int)) ∧
      (preemptible = false ∧ flagSet walk.flags ACOMP_WALK_SLEEP = true →
        (acomp_walk_next_dst preemptible next walk).2 = ((min walk.dlen PAGE_SIZE : Nat) : Int)) ∧
      ((acomp_walk_next_dst preemptible next walk).2 = 0 ↔ walk.dlen = 0) ∧
      (acomp_walk_next_dst preemptible next walk).1 =
        { walk with out := { walk.out with addr := ptr_add walk.out.sg walk.out.offset } }) := by
  have hcap : walk_span_max preemptible walk =
      if preemptible = false ∧ flagSet walk.flags ACOMP_WALK_SLEEP = true then PAGE_SIZE
      else UINT_MAX := by
    unfold walk_span_max
    cases preemptible <;> cases flagSet walk.flags ACOMP_WALK_SLEEP <;> simp
  have hpage : ∀ len : Nat, min len PAGE_SIZE ≤ INT_MAX := fun len =>
    le_trans (min_le_right _ _) (by unfold PAGE_SIZE INT_MAX; omega)
  obtain ⟨hpos, -⟩ := walk_span_max_pos preemptible walk
  refine ⟨hcap, ?_, ?_⟩
  · intro hl
    have hret : (acomp_walk_next_src preemptible next walk) =
        ({ walk with in_ := { walk.in_ with addr := ptr_add walk.in_.sg walk.in_.offset } },
          int_of_uint (min walk.slen (walk_span_max preemptible walk))) := by
      simp only [acomp_walk_next_src, hl, if_true]
    obtain ⟨h1, h2, h3⟩ := flat_span walk.slen _ hs hpos
    rw [hret]
    refine ⟨h1, h2, ?_, h3, rfl⟩
    intro hc
    have hm : walk_span_max preemptible walk = PAGE_SIZE := by rw [hcap, if_pos hc]
    show int_of_uint (min walk.slen (walk_span_max preemptible walk)) = _
    rw [hm]
    exact int_of_uint_small _ (hpage _)
  · intro hl
    have hret : (acomp_walk_next_dst preemptible next walk) =
        ({ walk with out := { walk.out with addr := ptr_add walk.out.sg walk.out.offset } },
          int_of_uint (min walk.dlen (walk_span_max preemptible walk))) := by
      simp only [acomp_walk_next_dst, hl, if_true]
    obtain ⟨h1, h2, h3⟩ := flat_span walk.dlen _ hd hpos
    rw [hret]
    refine ⟨h1, h2, ?_, h3, rfl⟩
    intro hc
    have hm : walk_span_max preemptible walk = PAGE_SIZE := by rw [hcap, if_pos hc]
    show int_of_uint (min walk.dlen (walk_span_max preemptible walk)) = _
    rw [hm]
    exact int_of_uint_small _ (hpage _)

/-- C11, witness: a sleeping flat view of 10000 source bytes and 100
destination bytes on a scheduler that is not preemptible. -/
theorem flat_span_is_capped_length_witness :
    (flat_view 10000 100 true).slen ≤ UINT_MAX ∧ (flat_view 10000 100 true).dlen ≤ UINT_MAX ∧
    flagSet (flat_view 10000 100 true).flags ACOMP_WALK_SRC_LINEAR = true ∧
    (acomp_walk_next_src false whole_run (flat_view 10000 100 true)).2 = 4096 ∧
    uint_of_int (acomp_walk_next_src false whole_run (flat_view 10000 100 true)).2 =
      min (flat_view 10000 100 true).slen
        (walk_span_max false (flat_view 10000 100 true)) :=
  ⟨by decide, by decide, by decide, by decide,
    ((flat_span_is_capped_length false whole_run (flat_view 10000 100 true)
      (by decide) (by decide)).2.1 (by decide)).1⟩

/-! ### Projection to scatter lists -/

theorem flagSet_shape_mask (f : Nat) :
    flagSet f (CRYPTO_ACOMP_REQ_SRC_VIRT ||| CRYPTO_ACOMP_REQ_DST_VIRT |||
      CRYPTO_ACOMP_REQ_SRC_FOLIO ||| CRYPTO_ACOMP_REQ_DST_FOLIO) =
    (f.testBit 1 || f.testBit 3 || f.testBit 5 || f.testBit 6) := by
  unfold flagSet
  by_cases h : f.testBit 1 = true ∨ f.testBit 3 = true ∨ f.testBit 5 = true ∨ f.testBit 6 = true
  · have hne : (f &&& (CRYPTO_ACOMP_REQ_SRC_VIRT ||| CRYPTO_ACOMP_REQ_DST_VIRT |||
        CRYPTO_ACOMP_REQ_SRC_FOLIO ||| CRYPTO_ACOMP_REQ_DST_FOLIO)) ≠ 0 := by
      intro h0
      rcases h with h | h | h | h
      · have := testBit_shape_mask f 1
        rw [h0, h] at this
        simp at this
      · have := testBit_shape_mask f 3
        rw [h0, h] at this
        simp at this
      · have := testBit_shape_mask f 5
        rw [h0, h] at this
        simp at this
      · have := testBit_shape_mask f 6
        rw [h0, h] at this
        simp at this
    rw [decide_eq_true hne]
    rcases h with h | h | h | h <;> simp [h]
  · simp only [not_or, Bool.not_eq_true] at h
    obtain ⟨h1, h3, h5, h6⟩ := h
    have h0 : (f &&& (CRYPTO_ACOMP_REQ_SRC_VIRT ||| CRYPTO_ACOMP_REQ_DST_VIRT |||
        CRYPTO_ACOMP_REQ_SRC_FOLIO ||| CRYPTO_ACOMP_REQ_DST_FOLIO)) = 0 := by
      apply Nat.eq_of_testBit_eq
      intro i
      rw [testBit_shape_mask]
      by_cases e1 : 1 = i <;> by_cases e3 : 3 = i <;> by_cases e5 : 5 = i <;>
        by_cases e6 : 6 = i <;>
        first
        | omega
        | (subst i; simp [h1, h3, h5, h6])
        | simp [e1, e3, e5, e6]
    simp [h0, h1, h3, h5, h6]

/-- Projection where the destination is not paged. For a job whose source is
at most one of flat and paged and whose destination is not paged,
`acomp_virt_to_sg` leaves both ends in scatter-list form: no flat or paged
flag is set, a converted source is the chain state's source entry and a
converted destination its destination entry, an end that was a scatter list
keeps its pointer, and the two lengths are unchanged. -/
theorem virt_to_sg_projects (r : ReqId) (q : AcompReq)
    (hsrc : ¬ (acomp_request_src_isvirt q = true ∧ acomp_request_src_isfolio q = true))
    (hdst : acomp_request_dst_isfolio q = false) :
    acomp_request_issg (acomp_virt_to_sg r q) = true ∧
    (acomp_virt_to_sg r q).src =
      (if acomp_request_src_isvirt q = true ∨ acomp_request_src_isfolio q = true
        then .ssg r else q.src) ∧
    (acomp_virt_to_sg r q).dst =
      (if acomp_request_dst_isvirt q = true then .dsg r else q.dst) ∧
    (acomp_virt_to_sg r q).slen = q.slen ∧
    (acomp_virt_to_sg r q).dlen = q.dlen := by
  have h6 : q.flags.testBit 6 = false := by
    simpa only [acomp_request_dst_isfolio, flagSet_dst_folio] using hdst
  have h15 : ¬ (q.flags.testBit 1 = true ∧ q.flags.testBit 5 = true) := by
    simpa only [acomp_request_src_isvirt, acomp_request_src_isfolio, flagSet_src_virt,
      flagSet_src_folio] using hsrc
  have hcases : (q.flags.testBit 1 = true ∧ q.flags.testBit 5 = false) ∨
      (q.flags.testBit 1 = false ∧ q.flags.testBit 5 = true) ∨
      (q.flags.testBit 1 = false ∧ q.flags.testBit 5 = false) := by
    cases h1 : q.flags.testBit 1 <;> cases h5 : q.flags.testBit 5 <;> simp_all
  rcases hcases with ⟨b1, b5⟩ | ⟨b1, b5⟩ | ⟨b1, b5⟩ <;> cases b3 : q.flags.testBit 3 <;>
    simp [acomp_virt_to_sg, acomp_request_issg, flagSet_shape_mask, acomp_request_src_isvirt,
      acomp_request_src_isfolio, acomp_request_dst_isvirt, acomp_request_dst_isfolio,
      acomp_request_set_src_sg, acomp_request_set_dst_sg,
      flagSet_src_virt, flagSet_dst_virt, flagSet_src_folio, flagSet_dst_folio,
      testBit_clear_src_virt, testBit_clear_src_nondma,
      testBit_clear_dst_virt, testBit_clear_dst_nondma, testBit_clear_src_folio,
      testBit_clear_dst_folio, b1, b3, b5, h6, -Nat.testBit_and, -Nat.testBit_or]

/-- C19, the failing input. A job with a flat source of 4096 bytes and 8192
bytes of a folio as destination: after `acomp_virt_to_sg` the paged flag of
the destination is still set and the destination is still the folio, the
source is the chain state's destination entry, not its source entry, and the
source length is 8192, the destination's, not 4096. -/
theorem virt_to_sg_folio_dst_not_projected :
    acomp_request_src_isvirt flat_to_folio = true ∧
    acomp_request_dst_isfolio flat_to_folio = true ∧
    flat_to_folio.slen = 4096 ∧ flat_to_folio.dlen = 8192 ∧
    acomp_request_dst_isfolio (acomp_virt_to_sg 0 flat_to_folio) = true ∧
    acomp_request_issg (acomp_virt_to_sg 0 flat_to_folio) = false ∧
    (acomp_virt_to_sg 0 flat_to_folio).dst = .addr 2000 ∧
    (acomp_virt_to_sg 0 flat_to_folio).dst ≠ .dsg 0 ∧
    (acomp_virt_to_sg 0 flat_to_folio).src = .dsg 0 ∧
    (acomp_virt_to_sg 0 flat_to_folio).src ≠ .ssg 0 ∧
    (acomp_virt_to_sg 0 flat_to_folio).slen = 8192 := by
  decide

/-- C20. An in-progress notification while jobs are still queued is ignored:
`acomp_reqchain_done` called with -EINPROGRESS on a chain state whose pending
queue is not empty returns with the memory as it was: no job is started, no
completion function is called (the record of calls does not grow), and the
chain state and every job are unchanged. -/
theorem in_progress_notification_ignored (B : Backend) (w : World) (s : ReqId)
    (hq : (w.reqs s).chain.head ≠ []) :
    acomp_reqchain_done B w s (-EINPROGRESS) = w ∧
    (acomp_reqchain_done B w s (-EINPROGRESS)).trace = w.trace ∧
    newEvents w (acomp_reqchain_done B w s (-EINPROGRESS)) = [] ∧
    starts (newEvents w (acomp_reqchain_done B w s (-EINPROGRESS))) = [] ∧
    completions (newEvents w (acomp_reqchain_done B w s (-EINPROGRESS))) = [] ∧
    (∀ r, (acomp_reqchain_done B w s (-EINPROGRESS)).reqs r = w.reqs r) := by
  have h : acomp_reqchain_done B w s (-EINPROGRESS) = w := by
    simp only [acomp_reqchain_done, if_true, hq, ne_eq, not_false_eq_true]
  rw [h]
  simp [newEvents, starts, completions]

/-- C20, witness: the chain of three jobs waiting for its lead job, the two
follow-ons on the queue. -/
theorem in_progress_notification_ignored_witness :
    ((waiting_on_lead [-EINPROGRESS]).reqs 0).chain.head ≠ [] ∧
    acomp_reqchain_done (scripted_backend [] [] false) (waiting_on_lead [-EINPROGRESS]) 0
      (-EINPROGRESS) = waiting_on_lead [-EINPROGRESS] :=
  ⟨by decide,
    (in_progress_notification_ignored (scripted_backend [] [] false)
      (waiting_on_lead [-EINPROGRESS]) 0 (by decide)).1⟩

/-! ### The stream pool -/

theorem cpumask_first_succ (n : Nat) (mask : Nat → Bool) :
    cpumask_first (n + 1) mask =
      if cpumask_first n mask < n then cpumask_first n mask
      else if mask n = true then n else n + 1 := by
  unfold cpumask_first
  rw [List.range_succ, List.find?_append]
  cases h : (List.range n).find? mask with
  | none =>
    simp only [Option.none_or, Option.getD_none, lt_irrefl, if_false]
    cases hm : mask n <;> simp [List.find?, hm]
  | some x =>
    have hx : x < n := List.mem_range.mp (List.mem_of_find?_eq_some h)
    simp [hx]

theorem cpumask_first_le (n : Nat) (mask : Nat → Bool) : cpumask_first n mask ≤ n := by
  induction n with
  | zero => simp [cpumask_first]
  | succ n ih =>
    rw [cpumask_first_succ]
    split
    · omega
    · split <;> omega

/-- The CPU `cpumask_first` returns for a mask that is not empty below `nr`:
it is in the mask, below `nr`, and no smaller CPU is in the mask. -/
theorem cpumask_first_spec (nr : Nat) (mask : Nat → Bool) (h : ∃ c, c < nr ∧ mask c = true) :
    cpumask_first nr mask < nr ∧ mask (cpumask_first nr mask) = true ∧
    ∀ c, c < cpumask_first nr mask → mask c = false := by
  induction nr with
  | zero =>
    obtain ⟨c, hc, -⟩ := h
    omega
  | succ n ih =>
    rw [cpumask_first_succ]
    by_cases hex : ∃ c, c < n ∧ mask c = true
    · obtain ⟨h1, h2, h3⟩ := ih hex
      rw [if_pos h1]
      exact ⟨by omega, h2, h3⟩
    · have hnone : ∀ c, c < n → mask c = false := by
        intro c hc
        by_contra hm
        exact hex ⟨c, hc, by simpa using hm⟩
      have hfirst : ¬ cpumask_first n mask < n := by
        intro hlt
        have hle := cpumask_first_le n mask
        -- the first CPU below `n` would be in the mask
        have : ∃ x, (List.range n).find? mask = some x := by
          unfold cpumask_first at hlt
          cases hf : (List.range n).find? mask with
          | none => rw [hf] at hlt; simp at hlt
          | some x => exact ⟨x, rfl⟩
        obtain ⟨x, hx⟩ := this
        have hxm : mask x = true := List.find?_some hx
        have hxn : x < n := List.mem_range.mp (List.mem_of_find?_eq_some hx)
        rw [hnone x hxn] at hxm
        exact Bool.noConfusion hxm
      rw [if_neg hfirst]
      obtain ⟨c, hc, hm⟩ := h
      have hcn : c = n := by
        by_contra hne
        have : c < n := by omega
        rw [hnone c this] at hm
        exact Bool.noConfusion hm
      subst hcn
      rw [if_pos hm]
      exact ⟨by omega, hm, hnone⟩

theorem lock_init_loop_ctx (l : List Nat) (st : Nat → CryptoAcompStream) (c : Nat) :
    (lock_init_loop l st c).ctx = (st c).ctx := by
  induction l generalizing st with
  | nil => rfl
  | cons i rest ih =>
    rw [lock_init_loop, ih]
    by_cases hc : c = i
    · subst hc
      simp [spin_lock_init]
    · simp [Function.update_noteq hc]

theorem lock_init_loop_lock (l : List Nat) (st : Nat → CryptoAcompStream) (c : Nat)
    (h : (st c).lock = false) : (lock_init_loop l st c).lock = false := by
  induction l generalizing st with
  | nil => exact h
  | cons i rest ih =>
    rw [lock_init_loop]
    apply ih
    by_cases hc : c = i
    · subst hc
      simp [spin_lock_init]
    · simpa [Function.update_noteq hc] using h

theorem free_ctx_loop_calls (st : Nat → CryptoAcompStream) (l : List Nat) (w : PoolWorld) :
    free_ctx_loop st l w =
      { w with calls := w.calls ++ (l.filterMap (fun i => (st i).ctx)).map PoolEvent.free_ctx } := by
  induction l generalizing w with
  | nil => simp [free_ctx_loop]
  | cons i rest ih =>
    rw [free_ctx_loop]
    cases h : (st i).ctx with
    | none => simp only [ih]; simp [List.filterMap_cons, h]
    | some c => simp only [ih]; simp [List.filterMap_cons, h, PoolWorld.call]

/-- What `crypto_acomp_alloc_streams` does on a pool that is not allocated,
by the outcome of the two allocations. -/
theorem alloc_streams_fresh (E : PoolEnv) (w : PoolWorld) (hn : w.s.streams = none) :
    (E.alloc_percpu w = false →
      crypto_acomp_alloc_streams E w = (w.call (.alloc_percpu false), -ENOMEM)) ∧
    (∀ e, E.alloc_percpu w = true → E.alloc_ctx (w.call (.alloc_percpu true)) = .error e →
      crypto_acomp_alloc_streams E w =
        (((w.call (.alloc_percpu true)).call (.alloc_ctx (.error e))).call .free_percpu, e)) ∧
    (∀ h, E.alloc_percpu w = true → E.alloc_ctx (w.call (.alloc_percpu true)) = .handle h →
      ∃ st, crypto_acomp_alloc_streams E w =
        ({ s := { streams := some st, stream_want := w.s.stream_want, stream_work := ⟨true, false⟩ }
           bh := w.bh
           calls := w.calls ++ [.alloc_percpu true, .alloc_ctx (.handle h)] }, 0) ∧
        (st (cpumask_first E.nr_cpu_ids E.cpu_possible)).ctx = some h ∧
        (∀ c, c ≠ cpumask_first E.nr_cpu_ids E.cpu_possible → (st c).ctx = none) ∧
        (∀ c, (st c).lock = false)) := by
  refine ⟨?_, ?_, ?_⟩
  · intro hp
    simp [crypto_acomp_alloc_streams, hn, hp]
  · intro e hp hc
    simp [crypto_acomp_alloc_streams, hn, hp, hc]
  · intro h hp hc
    refine ⟨lock_init_loop (possible_cpus E) (Function.update zeroed_percpu
      (cpumask_first E.nr_cpu_ids E.cpu_possible)
      (set_ctx h (zeroed_percpu (cpumask_first E.nr_cpu_ids E.cpu_possible)))), ?_, ?_, ?_, ?_⟩
    · have hc2 := hc
      simp only [PoolWorld.call] at hc2
      simp [crypto_acomp_alloc_streams, hn, hp, hc2, init_work, PoolWorld.call]
    · rw [lock_init_loop_ctx]
      simp [set_ctx]
    · intro c hne
      rw [lock_init_loop_ctx, Function.update_noteq hne]
      rfl
    · intro c
      apply lock_init_loop_lock
      by_cases hc : c = cpumask_first E.nr_cpu_ids E.cpu_possible
      · subst hc
        simp [set_ctx, zeroed_percpu]
      · rw [Function.update_noteq hc]
        rfl

theorem ctx_allocations_append (a b : List PoolEvent) :
    ctx_allocations (a ++ b) = ctx_allocations a + ctx_allocations b := by
  simp [ctx_allocations, List.countP_append]

theorem ctx_frees_append (a b : List PoolEvent) :
    ctx_frees (a ++ b) = ctx_frees a ++ ctx_frees b := by
  simp [ctx_frees, List.filterMap_append]

theorem ctx_frees_map (l : List Nat) : ctx_frees (l.map PoolEvent.free_ctx) = l := by
  induction l with
  | nil => rfl
  | cons a t ih =>
    simp only [List.map_cons, ctx_frees, List.filterMap_cons] at ih ⊢
    rw [ih]

/-- C12. `crypto_acomp_alloc_streams` is idempotent: on a pool that is
already allocated it returns 0 and the memory is exactly as before: no call
to the storage or context allocator is recorded and no slot, the wanted set
and no other field of the pool has changed.  So a second call after a call
that left the pool allocated (as it does whenever both allocations succeed)
returns 0 and leaves the memory as the first call left it. -/
theorem alloc_streams_idempotent (E : PoolEnv) (w : PoolWorld) :
    (w.s.streams.isSome = true → crypto_acomp_alloc_streams E w = (w, 0)) ∧
    ((crypto_acomp_alloc_streams E w).1.s.streams.isSome = true →
      crypto_acomp_alloc_streams E (crypto_acomp_alloc_streams E w).1 =
        ((crypto_acomp_alloc_streams E w).1, 0)) ∧
    (E.alloc_percpu w = true →
      (∃ h, E.alloc_ctx (w.call (.alloc_percpu true)) = .handle h) →
      (crypto_acomp_alloc_streams E w).2 = 0 ∧
      crypto_acomp_alloc_streams E (crypto_acomp_alloc_streams E w).1 =
        ((crypto_acomp_alloc_streams E w).1, 0)) := by
  have h1 : ∀ v : PoolWorld, v.s.streams.isSome = true →
      crypto_acomp_alloc_streams E v = (v, 0) := by
    intro v hv
    simp [crypto_acomp_alloc_streams, hv]
  refine ⟨h1 w, h1 _, ?_⟩
  intro hp ⟨h, hc⟩
  cases hs : w.s.streams with
  | some st =>
    have hsome : w.s.streams.isSome = true := by rw [hs]; rfl
    rw [h1 w hsome]
    exact ⟨rfl, h1 w hsome⟩
  | none =>
    obtain ⟨st, heq, -⟩ := (alloc_streams_fresh E w hs).2.2 h hp hc
    refine ⟨by rw [heq], h1 _ ?_⟩
    rw [heq]
    rfl

/-- C12, witness: allocating the pool of four CPUs twice. -/
theorem alloc_streams_idempotent_witness :
    (crypto_acomp_alloc_streams four_units empty_pool).1.s.streams.isSome = true ∧
    crypto_acomp_alloc_streams four_units (crypto_acomp_alloc_streams four_units empty_pool).1 =
      ((crypto_acomp_alloc_streams four_units empty_pool).1, 0) :=
  ⟨by decide, (alloc_streams_idempotent four_units empty_pool).2.1 (by decide)⟩

/-- C13. `crypto_acomp_alloc_streams` on a pool that is not allocated.  When
the storage and the context allocation both succeed it returns 0, has called
the context allocator exactly once, and the pool is allocated with the
context in the slot of the first possible CPU and no context in any other
slot.  When the storage allocation fails it returns -ENOMEM, and when the
context allocation fails with `e` it returns `e`; in both cases the pool is as
it was, not allocated. -/
theorem alloc_streams_fills_first_unit (E : PoolEnv) (w : PoolWorld)
    (hn : w.s.streams = none) (hposs : ∃ c, c < E.nr_cpu_ids ∧ E.cpu_possible c = true) :
    (cpumask_first E.nr_cpu_ids E.cpu_possible < E.nr_cpu_ids ∧
      E.cpu_possible (cpumask_first E.nr_cpu_ids E.cpu_possible) = true ∧
      ∀ c, c < cpumask_first E.nr_cpu_ids E.cpu_possible → E.cpu_possible c = false) ∧
    (∀ h, E.alloc_percpu w = true → E.alloc_ctx (w.call (.alloc_percpu true)) = .handle h →
      (crypto_acomp_alloc_streams E w).2 = 0 ∧
      (crypto_acomp_alloc_streams E w).1.calls =
        w.calls ++ [.alloc_percpu true, .alloc_ctx (.handle h)] ∧
      ctx_allocations (crypto_acomp_alloc_streams E w).1.calls = ctx_allocations w.calls + 1 ∧
      (crypto_acomp_alloc_streams E w).1.s.streams.isSome = true ∧
      ((crypto_acomp_alloc_streams E w).1.stream
        (cpumask_first E.nr_cpu_ids E.cpu_possible)).ctx = some h ∧
      (∀ c, c ≠ cpumask_first E.nr_cpu_ids E.cpu_possible →
        ((crypto_acomp_alloc_streams E w).1.stream c).ctx = none) ∧
      (∀ c, ((crypto_acomp_alloc_streams E w).1.stream c).lock = false) ∧
      (crypto_acomp_alloc_streams E w).1.s.stream_want = w.s.stream_want) ∧
    (E.alloc_percpu w = false →
      (crypto_acomp_alloc_streams E w).2 = -ENOMEM ∧
      (crypto_acomp_alloc_streams E w).1.s = w.s ∧
      (crypto_acomp_alloc_streams E w).1.s.streams = none ∧
      ctx_allocations (crypto_acomp_alloc_streams E w).1.calls = ctx_allocations w.calls) ∧
    (∀ e, E.alloc_percpu w = true → E.alloc_ctx (w.call (.alloc_percpu true)) = .error e →
      (crypto_acomp_alloc_streams E w).2 = e ∧
      (crypto_acomp_alloc_streams E w).1.s = w.s ∧
      (crypto_acomp_alloc_streams E w).1.s.streams = none ∧
      (crypto_acomp_alloc_streams E w).1.calls =
        w.calls ++ [.alloc_percpu true, .alloc_ctx (.error e), .free_percpu]) := by
  obtain ⟨hfail, herr, hok⟩ := alloc_streams_fresh E w hn
  refine ⟨cpumask_first_spec _ _ hposs, ?_, ?_, ?_⟩
  · intro h hp hc
    obtain ⟨st, heq, hfirst, hother, hlock⟩ := hok h hp hc
    rw [heq]
    refine ⟨rfl, rfl, ?_, rfl, hfirst, hother, hlock, rfl⟩
    show ctx_allocations (w.calls ++ [.alloc_percpu true, .alloc_ctx (.handle h)]) = _
    rw [ctx_allocations_append]
    rfl
  · intro hp
    rw [hfail hp]
    refine ⟨rfl, rfl, hn, ?_⟩
    show ctx_allocations (w.calls ++ [.alloc_percpu false]) = _
    rw [ctx_allocations_append]
    rfl
  · intro e hp hc
    rw [herr e hp hc]
    refine ⟨rfl, rfl, hn, ?_⟩
    simp [PoolWorld.call]

/-- C13, witness: the pool of four CPUs, and the same with a context
allocator that fails. -/
theorem alloc_streams_fills_first_unit_witness :
    empty_pool.s.streams = none ∧
    (∃ c, c < four_units.nr_cpu_ids ∧ four_units.cpu_possible c = true) ∧
    cpumask_first four_units.nr_cpu_ids four_units.cpu_possible = 0 ∧
    ((crypto_acomp_alloc_streams four_units empty_pool).1.stream
      (cpumask_first four_units.nr_cpu_ids four_units.cpu_possible)).ctx = some 101 ∧
    (crypto_acomp_alloc_streams four_units_no_memory empty_pool).2 = -ENOMEM :=
  ⟨rfl, ⟨0, by decide, by decide⟩, by decide,
    ((alloc_streams_fills_first_unit four_units empty_pool rfl
      ⟨0, by decide, by decide⟩).2.1 101 rfl rfl).2.2.2.2.1,
    ((alloc_streams_fills_first_unit four_units_no_memory empty_pool rfl
      ⟨0, by decide, by decide⟩).2.2.2 (-ENOMEM) rfl rfl).1⟩

theorem stream_of_some {w : PoolWorld} {st : Nat → CryptoAcompStream}
    (h : w.s.streams = some st) (c : Nat) : w.stream c = st c := by
  simp [PoolWorld.stream, h]

/-- C14. `crypto_acomp_lock_stream_bh` on an allocated pool, called on CPU
`cpu`.  If the slot of `cpu` has a context, the slot returned is that of
`cpu`, locked, the wanted set is unchanged and no work is scheduled (no call
is recorded, the work item is unchanged).  If it has none, `cpu` is added to
the wanted set, the fill task is scheduled, and the slot returned is that of
the first possible CPU, locked.  No context changes in either case. -/
theorem lock_stream_chooses_slot (E : PoolEnv) (w : PoolWorld)
    (st : Nat → CryptoAcompStream) (hs : w.s.streams = some st) (cpu : Nat) :
    ((st cpu).ctx.isSome = true →
      ∃ w1, crypto_acomp_lock_stream_bh E w cpu = some (w1, cpu) ∧
        w1.s.stream_want = w.s.stream_want ∧ w1.calls = w.calls ∧
        w1.s.stream_work = w.s.stream_work ∧
        (w1.stream cpu).lock = true ∧
        (∀ c, (w1.stream c).ctx = (st c).ctx) ∧
        (∀ c, c ≠ cpu → w1.stream c = st c)) ∧
    ((st cpu).ctx = none →
      ∃ w1, crypto_acomp_lock_stream_bh E w cpu =
          some (w1, cpumask_first E.nr_cpu_ids E.cpu_possible) ∧
        w1.s.stream_want = Function.update w.s.stream_want cpu true ∧
        w1.s.stream_want cpu = true ∧
        w1.calls = w.calls ++ [.schedule_work] ∧
        w1.s.stream_work.pending = true ∧
        (w1.stream (cpumask_first E.nr_cpu_ids E.cpu_possible)).lock = true ∧
        (∀ c, (w1.stream c).ctx = (st c).ctx)) := by
  constructor
  · intro hc
    refine ⟨spin_lock_bh w cpu, ?_, rfl, rfl, rfl, ?_, ?_, ?_⟩
    · simp [crypto_acomp_lock_stream_bh, hs, hc]
    · simp [PoolWorld.stream, spin_lock_bh, PoolWorld.slot, hs, spin_lock]
    · intro c
      by_cases h : c = cpu
      · subst h
        simp [PoolWorld.stream, spin_lock_bh, PoolWorld.slot, hs, spin_lock]
      · simp [PoolWorld.stream, spin_lock_bh, PoolWorld.slot, hs, Function.update_noteq h]
    · intro c h
      simp [PoolWorld.stream, spin_lock_bh, PoolWorld.slot, hs, Function.update_noteq h]
  · intro hc
    refine ⟨(schedule_work (cpumask_set_cpu cpu ((spin_lock_bh w cpu).slot cpu spin_unlock))).slot
      (cpumask_first E.nr_cpu_ids E.cpu_possible) spin_lock, ?_, rfl, ?_, rfl, rfl, ?_, ?_⟩
    · simp [crypto_acomp_lock_stream_bh, hs, hc]
    · simp [PoolWorld.slot, schedule_work, cpumask_set_cpu, PoolWorld.call]
    · simp [PoolWorld.stream, spin_lock_bh, PoolWorld.slot, hs, spin_lock, schedule_work,
        cpumask_set_cpu, PoolWorld.call]
    · intro c
      simp only [PoolWorld.stream, spin_lock_bh, PoolWorld.slot, hs, schedule_work,
        cpumask_set_cpu, PoolWorld.call, Option.map_some', Option.getD_some]
      by_cases h1 : c = cpumask_first E.nr_cpu_ids E.cpu_possible
      · by_cases h2 : c = cpu
        · subst h2
          rw [← h1]
          simp [spin_lock, spin_unlock]
        · rw [← h1]
          simp [spin_lock, Function.update_noteq h2]
      · by_cases h2 : c = cpu
        · subst h2
          simp [spin_lock, spin_unlock, Function.update_noteq h1]
        · simp [Function.update_noteq h1, Function.update_noteq h2]

/-- C14, witness: four CPUs, CPU 0 filled at allocation; the call from CPU 2
returns the slot of CPU 0 and marks CPU 2 wanted. -/
theorem lock_stream_chooses_slot_witness :
    (four_units_allocated.stream 0).ctx = some 101 ∧
    (four_units_allocated.stream 2).ctx = none ∧
    ∃ w1, crypto_acomp_lock_stream_bh four_units four_units_allocated 2 = some (w1, 0) ∧
      w1.s.stream_want 2 = true ∧ w1.calls = four_units_allocated.calls ++ [.schedule_work] :=
  ⟨by decide, by decide,
    match (lock_stream_chooses_slot four_units four_units_allocated
      (four_units_allocated.s.streams.getD zeroed_percpu) rfl 2).2 (by decide) with
    | ⟨w1, h1, _, h3, h4, _⟩ => ⟨w1, h1, h3, h4⟩⟩

theorem free_streams_none (E : PoolEnv) (w : PoolWorld) (hn : w.s.streams = none) :
    crypto_acomp_free_streams E w = w := by
  obtain ⟨⟨streams, want, work⟩, bh, calls⟩ := w
  simp only at hn
  subst hn
  simp [crypto_acomp_free_streams]

theorem free_streams_some (E : PoolEnv) (w : PoolWorld) (st : Nat → CryptoAcompStream)
    (hs : w.s.streams = some st) :
    crypto_acomp_free_streams E w =
      { s := { streams := none, stream_want := w.s.stream_want
               stream_work := { w.s.stream_work with pending := false } }
        bh := w.bh
        calls := w.calls ++ [.cancel_work_sync] ++
          ((possible_cpus E).filterMap (fun i => (st i).ctx)).map PoolEvent.free_ctx ++
          [.free_percpu] } := by
  simp [crypto_acomp_free_streams, hs, free_ctx_loop_calls, cancel_work_sync, PoolWorld.call]

/-- C16. `crypto_acomp_free_streams`.  On a pool that is not allocated the
memory is as before: neither the destructor nor `cancel_work_sync` is called.
On an allocated pool it calls `cancel_work_sync`, then the destructor once on
the context of every possible CPU that has one, in order, and on nothing
else, then frees the storage, and the pool is left not allocated.  So a
second call changes nothing, and a later `crypto_acomp_alloc_streams` does
not return early: it allocates storage and a context again. -/
theorem free_streams_releases_contexts (E : PoolEnv) (w : PoolWorld) :
    (w.s.streams = none →
      crypto_acomp_free_streams E w = w ∧
      ctx_frees (crypto_acomp_free_streams E w).calls = ctx_frees w.calls) ∧
    (∀ st, w.s.streams = some st →
      (crypto_acomp_free_streams E w).s.streams = none ∧
      (crypto_acomp_free_streams E w).calls =
        w.calls ++ [.cancel_work_sync] ++
          ((possible_cpus E).filterMap (fun i => (st i).ctx)).map PoolEvent.free_ctx ++
          [.free_percpu] ∧
      ctx_frees (crypto_acomp_free_streams E w).calls =
        ctx_frees w.calls ++ (possible_cpus E).filterMap (fun i => (st i).ctx) ∧
      ((possible_cpus E).filterMap (fun i => (st i).ctx)).length =
        ((possible_cpus E).filter (fun i => (st i).ctx.isSome)).length ∧
      (crypto_acomp_free_streams E w).s.stream_want = w.s.stream_want ∧
      (crypto_acomp_free_streams E w).s.stream_work.pending = false) ∧
    crypto_acomp_free_streams E (crypto_acomp_free_streams E w) =
      crypto_acomp_free_streams E w ∧
    (E.alloc_percpu (crypto_acomp_free_streams E w) = false →
      crypto_acomp_alloc_streams E (crypto_acomp_free_streams E w) =
        ((crypto_acomp_free_streams E w).call (.alloc_percpu false), -ENOMEM)) ∧
    (∀ h, E.alloc_percpu (crypto_acomp_free_streams E w) = true →
      E.alloc_ctx ((crypto_acomp_free_streams E w).call (.alloc_percpu true)) = .handle h →
      (crypto_acomp_alloc_streams E (crypto_acomp_free_streams E w)).2 = 0 ∧
      (crypto_acomp_alloc_streams E (crypto_acomp_free_streams E w)).1.calls =
        (crypto_acomp_free_streams E w).calls ++ [.alloc_percpu true, .alloc_ctx (.handle h)] ∧
      (crypto_acomp_alloc_streams E (crypto_acomp_free_streams E w)).1.s.streams.isSome = true ∧
      ((crypto_acomp_alloc_streams E (crypto_acomp_free_streams E w)).1.stream
        (cpumask_first E.nr_cpu_ids E.cpu_possible)).ctx = some h ∧
      (∀ c, c ≠ cpumask_first E.nr_cpu_ids E.cpu_possible →
        ((crypto_acomp_alloc_streams E (crypto_acomp_free_streams E w)).1.stream c).ctx = none)) := by
  have hfreed : (crypto_acomp_free_streams E w).s.streams = none := by
    cases hs : w.s.streams with
    | none => rw [free_streams_none E w hs]; exact hs
    | some st => rw [free_streams_some E w st hs]
  refine ⟨?_, ?_, free_streams_none E _ hfreed, ?_, ?_⟩
  · intro hn
    rw [free_streams_none E w hn]
    exact ⟨rfl, rfl⟩
  · intro st hs
    rw [free_streams_some E w st hs]
    refine ⟨rfl, rfl, ?_, ?_, rfl, rfl⟩
    · show ctx_frees (w.calls ++ [.cancel_work_sync] ++
        ((possible_cpus E).filterMap (fun i => (st i).ctx)).map PoolEvent.free_ctx ++
        [.free_percpu]) = _
      rw [ctx_frees_append, ctx_frees_append, ctx_frees_append, ctx_frees_map]
      simp [ctx_frees]
    · induction possible_cpus E with
      | nil => rfl
      | cons i rest ih =>
        cases hc : (st i).ctx <;> simp [List.filterMap_cons, List.filter_cons, hc, ih]
  · exact (alloc_streams_fresh E _ hfreed).1
  · intro h hp hc
    obtain ⟨st1, heq, hfirst, hother, -⟩ := (alloc_streams_fresh E _ hfreed).2.2 h hp hc
    rw [heq]
    exact ⟨rfl, rfl, rfl, hfirst, hother⟩

/-- C16, witness: the pool of four CPUs after allocation holds one context,
101 on CPU 0; freeing it calls the destructor on 101 only. -/
theorem free_streams_releases_contexts_witness :
    four_units_allocated.s.streams = some (four_units_allocated.s.streams.getD zeroed_percpu) ∧
    ctx_frees (crypto_acomp_free_streams four_units four_units_allocated).calls = [101] ∧
    (crypto_acomp_free_streams four_units four_units_allocated).s.streams = none ∧
    crypto_acomp_free_streams four_units empty_pool = empty_pool :=
  ⟨rfl,
    ((free_streams_releases_contexts four_units four_units_allocated).2.1 _ rfl).2.2.1,
    ((free_streams_releases_contexts four_units four_units_allocated).2.1 _ rfl).1,
    ((free_streams_releases_contexts four_units empty_pool).1 rfl).1⟩

/-- One filling step of the fill task: the memory after the allocator
returned the handle `h` for CPU `cpu`. -/
theorem fill_step (w : PoolWorld) (st : Nat → CryptoAcompStream) (hs : w.s.streams = some st)
    (cpu h : Nat) (res : CtxResult) :
    cpumask_clear_cpu cpu (spin_unlock_bh ((spin_lock_bh (w.call (.alloc_ctx res)) cpu).slot cpu
      (set_ctx h)) cpu) =
    { s := { streams := some (Function.update st cpu ⟨false, some h⟩)
             stream_want := Function.update w.s.stream_want cpu false
             stream_work := w.s.stream_work }
      bh := w.bh
      calls := w.calls ++ [.alloc_ctx res] } := by
  simp [cpumask_clear_cpu, spin_unlock_bh, spin_lock_bh, PoolWorld.slot, PoolWorld.call, hs,
    set_ctx, spin_lock, spin_unlock]

theorem lock_stream_present (E : PoolEnv) (w : PoolWorld) (st : Nat → CryptoAcompStream)
    (hs : w.s.streams = some st) (cpu : Nat) (hc : (st cpu).ctx.isSome = true) :
    (crypto_acomp_lock_stream_bh E w cpu).map (fun p => p.2) = some cpu := by
  simp [crypto_acomp_lock_stream_bh, hs, hc]

/-- The loop of the fill task over the CPU ids `cs`, on an allocated pool:
the wanted CPUs without a context among `cs` split into those filled and the
rest, which is empty unless the allocator failed. -/
theorem workfn_loop_spec (E : PoolEnv) (cs : List Nat) (hnd : cs.Nodup) :
    ∀ (w : PoolWorld) (st : Nat → CryptoAcompStream), w.s.streams = some st →
    ∃ (w1 : PoolWorld) (st1 : Nat → CryptoAcompStream) (filled rest : List Nat)
      (tail : List PoolEvent),
      stream_workfn_loop E cs w = some w1 ∧
      w1.s.streams = some st1 ∧
      cs.filter (fun c => w.s.stream_want c && (st c).ctx.isNone) = filled ++ rest ∧
      (∀ c ∈ filled, ∃ h, st1 c = ⟨false, some h⟩ ∧ w1.s.stream_want c = false) ∧
      (∀ c, c ∉ filled → st1 c = st c ∧ w1.s.stream_want c = w.s.stream_want c) ∧
      w1.calls = w.calls ++
        filled.map (fun c => PoolEvent.alloc_ctx (.handle ((st1 c).ctx.getD 0))) ++ tail ∧
      ((rest = [] ∧ tail = []) ∨ (rest ≠ [] ∧ ∃ e, tail = [.alloc_ctx (.error e)])) ∧
      w1.s.stream_work = w.s.stream_work ∧ w1.bh = w.bh ∧
      ((∀ x, ∃ h, E.alloc_ctx x = .handle h) → rest = []) := by
  induction cs with
  | nil =>
    intro w st hs
    exact ⟨w, st, [], [], [], rfl, hs, rfl, by simp, by simp, by simp, Or.inl ⟨rfl, rfl⟩,
      rfl, rfl, fun _ => rfl⟩
  | cons cpu cs ih =>
    intro w st hs
    have hcpu : cpu ∉ cs := (List.nodup_cons.mp hnd).1
    have ih := ih (List.nodup_cons.mp hnd).2
    by_cases hw : w.s.stream_want cpu = true
    · cases hctx : (st cpu).ctx with
      | some x =>
        -- wanted, but the context is there: the slot is skipped
        obtain ⟨w1, st1, filled, rest, tail, h1, h2, h3, h4, h5, h6, h7, h8, h9, h10⟩ := ih w st hs
        refine ⟨w1, st1, filled, rest, tail, ?_, h2, ?_, h4, h5, h6, h7, h8, h9, h10⟩
        · simp [stream_workfn_loop, hw, hs, hctx, h1]
        · rw [List.filter_cons]
          simp [hw, hctx, h3]
      | none =>
        cases hres : E.alloc_ctx w with
        | error e =>
          refine ⟨w.call (.alloc_ctx (.error e)), st, [],
            (cpu :: cs).filter (fun c => w.s.stream_want c && (st c).ctx.isNone),
            [.alloc_ctx (.error e)], ?_, hs, rfl, by simp, fun c _ => ⟨rfl, rfl⟩,
            by simp [PoolWorld.call],
            Or.inr ⟨?_, e, rfl⟩, rfl, rfl, ?_⟩
          · simp [stream_workfn_loop, hw, hs, hctx, hres]
          · rw [List.filter_cons]
            simp [hw, hctx]
          · intro hall
            obtain ⟨h, hh⟩ := hall w
            rw [hres] at hh
            exact CtxResult.noConfusion hh
        | handle h =>
          have hstep := fill_step w st hs cpu h (.handle h)
          have hs2 : (cpumask_clear_cpu cpu (spin_unlock_bh ((spin_lock_bh
              (w.call (.alloc_ctx (.handle h))) cpu).slot cpu (set_ctx h)) cpu)).s.streams =
              some (Function.update st cpu ⟨false, some h⟩) := by rw [hstep]
          obtain ⟨w1, st1, filled, rest, tail, h1, h2, h3, h4, h5, h6, h7, h8, h9, h10⟩ :=
            ih _ _ hs2
          rw [hstep] at h1 h3 h5 h6 h8 h9
          simp only at h3 h5 h6 h8 h9
          have hfilter : cs.filter (fun c => Function.update w.s.stream_want cpu false c &&
              (Function.update st cpu ⟨false, some h⟩ c).ctx.isNone) =
              cs.filter (fun c => w.s.stream_want c && (st c).ctx.isNone) := by
            apply List.filter_congr
            intro c hc
            have hne : c ≠ cpu := fun heq => hcpu (heq ▸ hc)
            simp [Function.update_noteq hne]
          rw [hfilter] at h3
          have hsub : ∀ c ∈ filled, c ∈ cs := by
            intro c hc
            have : c ∈ cs.filter (fun c => w.s.stream_want c && (st c).ctx.isNone) := by
              rw [h3]
              exact List.mem_append_left _ hc
            exact (List.mem_filter.mp this).1
          have hnot : cpu ∉ filled := fun hc => hcpu (hsub cpu hc)
          have hcpu1 := h5 cpu hnot
          simp only [Function.update_same] at hcpu1
          refine ⟨w1, st1, cpu :: filled, rest, tail, ?_, h2, ?_, ?_, ?_, ?_, h7, h8, h9, h10⟩
          · simp only [stream_workfn_loop, hw, hs, hctx, hres, if_true, Option.isSome_none,
              Bool.false_eq_true, if_false]
            rw [hstep]
            exact h1
          · rw [List.filter_cons]
            simp [hw, hctx, h3]
          · intro c hc
            rcases List.mem_cons.mp hc with heq | hmem
            · subst heq
              exact ⟨h, hcpu1.1, hcpu1.2⟩
            · exact h4 c hmem
          · intro c hc
            have hne : c ≠ cpu := fun heq => hc (heq ▸ List.mem_cons_self _ _)
            have hnf : c ∉ filled := fun hm => hc (List.mem_cons_of_mem _ hm)
            have := h5 c hnf
            simpa [Function.update_noteq hne] using this
          · rw [h6, List.map_cons, hcpu1.1]
            simp
    · have hw2 : w.s.stream_want cpu = false := by simpa using hw
      obtain ⟨w1, st1, filled, rest, tail, h1, h2, h3, h4, h5, h6, h7, h8, h9, h10⟩ := ih w st hs
      refine ⟨w1, st1, filled, rest, tail, ?_, h2, ?_, h4, h5, h6, h7, h8, h9, h10⟩
      · simp [stream_workfn_loop, hw2, h1]
      · rw [List.filter_cons]
        simp [hw2, h3]

/-- C15. The fill task `acomp_stream_workfn` on an allocated pool.  The
wanted CPUs without a context, in increasing order, split into `filled` and
`rest`.  Every CPU of `filled` got a context from one call of the allocator,
stored with the lock released, and its wanted flag cleared; the calls of the
allocator recorded are those, in the order of `filled`, followed by the one
failing call when `rest` is not empty; `rest` is empty unless the allocator
failed, its CPUs are still without a context and still wanted, and every CPU
outside `filled` (a wanted CPU that had a context among them) has its slot
and its wanted flag as before.  If every allocation succeeds, every CPU that
was wanted has a context afterwards and `crypto_acomp_lock_stream_bh` called
on it returns its own slot. -/
theorem stream_workfn_fills_wanted (E : PoolEnv) (w : PoolWorld)
    (st : Nat → CryptoAcompStream) (hs : w.s.streams = some st) :
    ∃ (w1 : PoolWorld) (filled rest : List Nat) (tail : List PoolEvent),
      acomp_stream_workfn E w = some w1 ∧
      (List.range E.nr_cpu_ids).filter (fun c => w.s.stream_want c && (st c).ctx.isNone) =
        filled ++ rest ∧
      List.Pairwise (fun a b => a < b) (filled ++ rest) ∧
      (∀ c ∈ filled, ∃ h, w1.stream c = ⟨false, some h⟩ ∧ w1.s.stream_want c = false) ∧
      (∀ c, c ∉ filled → w1.stream c = st c ∧ w1.s.stream_want c = w.s.stream_want c) ∧
      (∀ c ∈ rest, (w1.stream c).ctx = none ∧ w1.s.stream_want c = true) ∧
      w1.calls = w.calls ++
        filled.map (fun c => PoolEvent.alloc_ctx (.handle ((w1.stream c).ctx.getD 0))) ++ tail ∧
      ((rest = [] ∧ tail = []) ∨ (rest ≠ [] ∧ ∃ e, tail = [.alloc_ctx (.error e)])) ∧
      ctx_allocations w1.calls = ctx_allocations w.calls + filled.length + tail.length ∧
      ((∀ x, ∃ h, E.alloc_ctx x = .handle h) →
        rest = [] ∧
        ∀ c, c < E.nr_cpu_ids → w.s.stream_want c = true →
          (w1.stream c).ctx.isSome = true ∧
          (crypto_acomp_lock_stream_bh E w1 c).map (fun p => p.2) = some c) := by
  obtain ⟨w1, st1, filled, rest, tail, h1, h2, h3, h4, h5, h6, h7, -, -, h10⟩ :=
    workfn_loop_spec E (List.range E.nr_cpu_ids) (List.nodup_range _) w st hs
  have hst : ∀ c, w1.stream c = st1 c := stream_of_some h2
  have hsorted : List.Pairwise (fun a b => a < b) (filled ++ rest) := by
    rw [← h3]
    exact List.Pairwise.filter _ (List.pairwise_lt_range _)
  have hnodup : (filled ++ rest).Nodup := by
    rw [← h3]
    exact List.Nodup.filter _ (List.nodup_range _)
  have hneedy : ∀ c ∈ filled ++ rest,
      c < E.nr_cpu_ids ∧ w.s.stream_want c = true ∧ (st c).ctx = none := by
    intro c hc
    rw [← h3] at hc
    obtain ⟨hr, hp⟩ := List.mem_filter.mp hc
    simp only [Bool.and_eq_true, Option.isNone_iff_eq_none] at hp
    exact ⟨List.mem_range.mp hr, hp.1, hp.2⟩
  have hcalls : w1.calls = w.calls ++
      filled.map (fun c => PoolEvent.alloc_ctx (.handle ((w1.stream c).ctx.getD 0))) ++ tail := by
    rw [h6]
    congr 2
    apply List.map_congr_left
    intro c _
    rw [hst]
  refine ⟨w1, filled, rest, tail, h1, h3, hsorted, ?_, ?_, ?_, hcalls, h7, ?_, ?_⟩
  · intro c hc
    rw [hst]
    exact h4 c hc
  · intro c hc
    rw [hst]
    exact h5 c hc
  · intro c hc
    have hnf : c ∉ filled := fun hf =>
      (List.disjoint_of_nodup_append hnodup) hf hc
    obtain ⟨-, hwant, hctx⟩ := hneedy c (List.mem_append_right _ hc)
    rw [hst, (h5 c hnf).1, (h5 c hnf).2]
    exact ⟨hctx, hwant⟩
  · rw [hcalls, ctx_allocations_append, ctx_allocations_append]
    have hmap : ∀ l : List Nat, ctx_allocations
        (l.map (fun c => PoolEvent.alloc_ctx (.handle ((w1.stream c).ctx.getD 0)))) = l.length := by
      intro l
      induction l with
      | nil => rfl
      | cons a t ih =>
        simp only [List.map_cons, ctx_allocations, List.length_cons] at ih ⊢
        rw [List.countP_cons, ih]
        simp
    rw [hmap]
    rcases h7 with ⟨-, ht⟩ | ⟨-, e, ht⟩ <;> rw [ht] <;> rfl
  · intro hall
    have hrest := h10 hall
    refine ⟨hrest, ?_⟩
    intro c hc hwant
    have hsome : (st1 c).ctx.isSome = true := by
      by_cases hf : c ∈ filled
      · obtain ⟨h, hh, -⟩ := h4 c hf
        rw [hh]
        rfl
      · rw [(h5 c hf).1]
        cases hctx : (st c).ctx with
        | some x => rfl
        | none =>
          exfalso
          apply hf
          have : c ∈ (List.range E.nr_cpu_ids).filter
              (fun c => w.s.stream_want c && (st c).ctx.isNone) := by
            apply List.mem_filter.mpr
            refine ⟨List.mem_range.mpr hc, ?_⟩
            simp [hwant, hctx]
          rw [h3, hrest, List.append_nil] at this
          exact this
    rw [hst]
    exact ⟨hsome, lock_stream_present E w1 st1 h2 c hsome⟩

/-- C15, witness: four CPUs, CPU 0 filled, CPU 2 wanted; the fill task on
this pool, whose allocator succeeds. -/
theorem stream_workfn_fills_wanted_witness :
    four_units_wanting_two.s.stream_want 2 = true ∧
    (four_units_wanting_two.stream 2).ctx = none ∧
    ∃ w1, acomp_stream_workfn four_units four_units_wanting_two = some w1 ∧
      (w1.stream 2).ctx.isSome = true ∧
      (crypto_acomp_lock_stream_bh four_units w1 2).map (fun p => p.2) = some 2 :=
  ⟨by decide, by decide,
    match stream_workfn_fills_wanted four_units four_units_wanting_two
      (four_units_wanting_two.s.streams.getD zeroed_percpu) rfl with
    | ⟨w1, _, _, _, h1, _, _, _, _, _, _, _, _, h10⟩ =>
      ⟨w1, h1, ((h10 (fun x => ⟨100 + x.calls.length, rfl⟩)).2 2 (by decide) (by decide)).1,
        ((h10 (fun x => ⟨100 + x.calls.length, rfl⟩)).2 2 (by decide) (by decide)).2⟩⟩

/-! ### Transform initialisation -/

/-- C17, the claim as stated fails. The fallback of an asynchronous
algorithm cannot be allocated because no synchronous implementation of the
name is registered: the allocator returns the error pointer of -ENOENT and
`crypto_acomp_init_tfm` returns -ENOENT, not -ENOMEM. -/
theorem init_tfm_passes_on_allocator_error :
    async_alg.acomp_type = true ∧ acomp_is_async async_alg = true ∧
    (tfm_env (.error (-ENOENT))).alloc_tfm fresh_tfms = .error (-ENOENT) ∧
    (crypto_acomp_init_tfm (tfm_env (.error (-ENOENT))) async_alg fresh_tfms 1).2 = -ENOENT ∧
    (crypto_acomp_init_tfm (tfm_env (.error (-ENOENT))) async_alg fresh_tfms 1).2 ≠ -ENOMEM := by
  decide

/-- C17, amended. `crypto_acomp_init_tfm` for an algorithm registered
against the acomp type.  Asynchronous algorithm: if the fallback cannot be
allocated, the error of the allocator is returned as it is (-ENOMEM when
memory ran out), nothing else is called and the transform is its own
fallback; if the fallback's request size exceeds `MAX_SYNC_COMP_REQSIZE`,
-EINVAL is returned, the fallback is freed and the `init` hook of the
algorithm is not called.  Synchronous algorithm: no fallback is allocated
and the transform is its own fallback. -/
theorem init_tfm_fallback (E : TfmEnv) (alg : AcompAlg) (w : TfmWorld) (t : TfmId)
    (htype : alg.acomp_type = true) :
    (acomp_is_async alg = true → ∀ e, E.alloc_tfm (w.set t (set_fb t)) = .error e →
      (crypto_acomp_init_tfm E alg w t).2 = e ∧
      (crypto_acomp_init_tfm E alg w t).1.calls =
        w.calls ++ [.alloc_acomp 0 CRYPTO_ALG_ASYNC (.error e)] ∧
      ((crypto_acomp_init_tfm E alg w t).1.tfms t).fb = t) ∧
    (acomp_is_async alg = true → E.alloc_tfm (w.set t (set_fb t)) = .error (-ENOMEM) →
      (crypto_acomp_init_tfm E alg w t).2 = -ENOMEM) ∧
    (acomp_is_async alg = true → ∀ fb, E.alloc_tfm (w.set t (set_fb t)) = .tfm fb →
      (w.tfms fb).reqsize > E.MAX_SYNC_COMP_REQSIZE →
      (crypto_acomp_init_tfm E alg w t).2 = -EINVAL ∧
      (crypto_acomp_init_tfm E alg w t).1.calls =
        w.calls ++ [.alloc_acomp 0 CRYPTO_ALG_ASYNC (.tfm fb), .free_acomp (some fb)] ∧
      (∀ x err, TfmEvent.alg_init x err ∉ (crypto_acomp_init_tfm E alg w t).1.calls.drop
        w.calls.length)) ∧
    (acomp_is_async alg = false →
      ((crypto_acomp_init_tfm E alg w t).1.tfms t).fb = t ∧
      (∀ ty mask res, TfmEvent.alloc_acomp ty mask res ∉
        (crypto_acomp_init_tfm E alg w t).1.calls.drop w.calls.length)) := by
  have herror : acomp_is_async alg = true → ∀ e, E.alloc_tfm (w.set t (set_fb t)) = .error e →
      crypto_acomp_init_tfm E alg w t =
        ((w.set t (set_fb t)).call (.alloc_acomp 0 CRYPTO_ALG_ASYNC (.error e)), e) := by
    intro hasync e he
    simp only [crypto_acomp_init_tfm, htype, hasync, crypto_alloc_acomp, he, if_true,
      Bool.true_eq_false, if_false]
  refine ⟨?_, ?_, ?_, ?_⟩
  · intro hasync e he
    rw [herror hasync e he]
    simp [TfmWorld.call, TfmWorld.set, set_fb]
  · intro hasync he
    rw [herror hasync _ he]
  · intro hasync fb hfb hsize
    have hsz : crypto_acomp_reqsize ((w.set t (set_fb t)).call
        (.alloc_acomp 0 CRYPTO_ALG_ASYNC (.tfm fb))) fb > E.MAX_SYNC_COMP_REQSIZE := by
      simp only [crypto_acomp_reqsize, TfmWorld.call, TfmWorld.set, set_fb]
      by_cases hft : fb = t
      · subst hft
        simpa using hsize
      · simpa [Function.update_noteq hft] using hsize
    have heq : crypto_acomp_init_tfm E alg w t =
        ((((w.set t (set_fb t)).call (.alloc_acomp 0 CRYPTO_ALG_ASYNC (.tfm fb))).call
          (.free_acomp (some fb))), -EINVAL) := by
      simp only [crypto_acomp_init_tfm, htype, hasync, crypto_alloc_acomp, hfb, if_true,
        Bool.true_eq_false, if_false, hsz]
    rw [heq]
    simp [TfmWorld.call, TfmWorld.set]
  · intro hsync
    have heq : crypto_acomp_init_tfm E alg w t = init_tfm_ops E alg (w.set t (set_fb t)) t none := by
      simp [crypto_acomp_init_tfm, htype, hsync]
    rw [heq]
    by_cases hi : alg.has_init = false
    · have h2 : init_tfm_ops E alg (w.set t (set_fb t)) t none =
          ((w.set t (set_fb t)).set t (set_ops alg), 0) := by
        simp only [init_tfm_ops, hi, if_true]
      rw [h2]
      simp [TfmWorld.set, set_ops, set_fb]
    · by_cases herr : E.alg_init ((w.set t (set_fb t)).set t (set_ops alg)) t = 0
      · have h2 : init_tfm_ops E alg (w.set t (set_fb t)) t none =
            (((w.set t (set_fb t)).set t (set_ops alg)).call (.alg_init t 0), 0) := by
          simp only [init_tfm_ops, hi, if_false, herr, ne_eq, not_true_eq_false, Bool.true_eq_false]
        rw [h2]
        simp [TfmWorld.set, TfmWorld.call, set_ops, set_fb]
      · have h2 : init_tfm_ops E alg (w.set t (set_fb t)) t none =
            ((((w.set t (set_fb t)).set t (set_ops alg)).call (.alg_init t
              (E.alg_init ((w.set t (set_fb t)).set t (set_ops alg)) t))).call
              (.free_acomp none),
              E.alg_init ((w.set t (set_fb t)).set t (set_ops alg)) t) := by
          simp only [init_tfm_ops, hi, if_false, herr, ne_eq, not_false_eq_true, if_true,
            Bool.true_eq_false]
        rw [h2]
        simp [TfmWorld.set, TfmWorld.call, set_ops, set_fb]

/-- C17, witness: the asynchronous algorithm whose fallback, transform 5,
needs 128 bytes against a bound of 0. -/
theorem init_tfm_fallback_witness :
    async_alg.acomp_type = true ∧ acomp_is_async async_alg = true ∧
    (fresh_tfms.tfms 5).reqsize > (tfm_env (.tfm 5)).MAX_SYNC_COMP_REQSIZE ∧
    (crypto_acomp_init_tfm (tfm_env (.tfm 5)) async_alg fresh_tfms 1).2 = -EINVAL :=
  ⟨rfl, by decide, by decide,
    ((init_tfm_fallback (tfm_env (.tfm 5)) async_alg fresh_tfms 1 rfl).2.2.1 (by decide) 5 rfl
      (by decide)).1⟩

/-! ### The chain path and the direct call -/

theorem issg_flags {q : AcompReq} (h : acomp_request_issg q = true) :
    acomp_request_src_isvirt q = false ∧ acomp_request_src_isfolio q = false ∧
    acomp_request_dst_isvirt q = false ∧ acomp_request_dst_isfolio q = false ∧
    q.flags &&& (CRYPTO_ACOMP_REQ_SRC_VIRT ||| CRYPTO_ACOMP_REQ_DST_VIRT |||
      CRYPTO_ACOMP_REQ_SRC_FOLIO ||| CRYPTO_ACOMP_REQ_DST_FOLIO) = 0 := by
  have hf : flagSet q.flags (CRYPTO_ACOMP_REQ_SRC_VIRT ||| CRYPTO_ACOMP_REQ_DST_VIRT |||
      CRYPTO_ACOMP_REQ_SRC_FOLIO ||| CRYPTO_ACOMP_REQ_DST_FOLIO) = false := by
    simpa [acomp_request_issg] using h
  have hbits := hf
  rw [flagSet_shape_mask] at hbits
  simp only [Bool.or_eq_false_iff] at hbits
  obtain ⟨⟨⟨h1, h3⟩, h5⟩, h6⟩ := hbits
  refine ⟨?_, ?_, ?_, ?_, ?_⟩
  · rw [acomp_request_src_isvirt, flagSet_src_virt, h1]
  · rw [acomp_request_src_isfolio, flagSet_src_folio, h5]
  · rw [acomp_request_dst_isvirt, flagSet_dst_virt, h3]
  · rw [acomp_request_dst_isfolio, flagSet_dst_folio, h6]
  · simpa [flagSet] using hf

theorem virt_to_sg_of_issg (r : ReqId) {q : AcompReq} (h : acomp_request_issg q = true) :
    acomp_virt_to_sg r q = { q with chain := { q.chain with flags := 0 } } := by
  obtain ⟨h1, h2, h3, h4, h5⟩ := issg_flags h
  simp only [acomp_request_src_isvirt, acomp_request_src_isfolio, acomp_request_dst_isvirt,
    acomp_request_dst_isfolio] at h1 h2 h3 h4
  simp [acomp_virt_to_sg, acomp_request_src_isvirt, acomp_request_src_isfolio,
    acomp_request_dst_isvirt, acomp_request_dst_isfolio, h1, h2, h3, h4, h5]

theorem reqchain_virt_req_of_zero {q : AcompReq} (h : q.chain.flags = 0) (e : Int) :
    reqchain_virt_req q e = { q with err := e } := by
  simp [reqchain_virt_req, h, flagSet]

theorem do_one_req_other (B : Backend) (w : World) (s r x : ReqId) (h : x ≠ r) :
    (acomp_do_one_req B w s r).1.reqs x = (w.modify s (set_cur r)).reqs x := by
  simp only [acomp_do_one_req]
  split_ifs with hn
  · simp only [acomp_do_nondma, log_reqs]
    rw [modify_reqs_other _ _ _ _ h]
  · simp only [call_op, log_reqs]
    rw [modify_reqs_other _ _ _ _ h, modify_reqs_other _ _ _ _ h]

theorem setup_buffers (w : World) (r : ReqId) (op : OpId) (x : ReqId) :
    buffers ((reqchain_setup w r op).reqs x) = buffers (w.reqs x) := by
  by_cases h : x = r
  · subst h
    simp [reqchain_setup, acomp_save_req, save_completion, Ptr.owner, buffers, set_op,
      set_src_null, init_head, splice_head, clear_list]
  · simp [reqchain_setup, acomp_save_req, save_completion, Ptr.owner, h]

/-- The start of a lead job whose buffers are scatter lists, right after the
chain was set up: the backend operation is called on the job with the
buffers the caller gave. -/
theorem lead_start_of_issg (B : Backend) (w : World) (lead : ReqId) (op : OpId)
    (hnd : (lead :: (w.reqs lead).list).Nodup)
    (hsg : acomp_request_issg (w.reqs lead) = true)
    (hdma : acomp_request_isnondma (w.reqs lead) = false)
    (hbuf : ∀ fn r x y, buffers (x.reqs r) = buffers (y.reqs r) → B.op fn r x = B.op fn r y) :
    ∃ seen : AcompReq,
      buffers seen = buffers (w.reqs lead) ∧
      (acomp_do_one_req B (reqchain_setup w lead op) lead lead).2 = (B.op op lead w).err ∧
      (acomp_do_one_req B (reqchain_setup w lead op) lead lead).1.trace =
        w.trace ++ [.op op lead seen (B.op op lead w).err] ∧
      buffers ((acomp_do_one_req B (reqchain_setup w lead op) lead lead).1.reqs lead) =
        buffers (set_dlen (B.op op lead w).dlen (w.reqs lead)) ∧
      ((acomp_do_one_req B (reqchain_setup w lead op) lead lead).1.reqs lead).chain.flags = 0 := by
  obtain ⟨-, -, -, hop1, htr1, -, -, -⟩ := setup_spec w lead op hnd
  have hb1 := setup_buffers w lead op lead
  have hflags : ((reqchain_setup w lead op).reqs lead).flags = (w.reqs lead).flags :=
    congrArg (fun p => p.2.2.2.2.2.2) hb1
  have hsg1 : acomp_request_issg (set_cur lead ((reqchain_setup w lead op).reqs lead)) = true := by
    simpa only [acomp_request_issg, set_cur, hflags] using hsg
  have hdma1 : acomp_request_isnondma
      (((reqchain_setup w lead op).modify lead (set_cur lead)).reqs lead) = false := by
    rw [modify_reqs_self]
    simpa only [acomp_request_isnondma, set_cur, hflags] using hdma
  have hproj : (((reqchain_setup w lead op).modify lead (set_cur lead)).modify lead
      (acomp_virt_to_sg lead)).reqs lead =
      { set_cur lead ((reqchain_setup w lead op).reqs lead) with
        chain := { (set_cur lead ((reqchain_setup w lead op).reqs lead)).chain with flags := 0 } } := by
    rw [modify_reqs_self, modify_reqs_self, virt_to_sg_of_issg lead hsg1]
  have hbw : buffers ((((reqchain_setup w lead op).modify lead (set_cur lead)).modify lead
      (acomp_virt_to_sg lead)).reqs lead) = buffers (w.reqs lead) := by
    rw [hproj, ← hb1]
    rfl
  have hopw : ((((reqchain_setup w lead op).modify lead (set_cur lead)).modify lead
      (acomp_virt_to_sg lead)).reqs lead).chain.op = op := by
    rw [hproj]
    exact hop1
  have hres := hbuf op lead _ _ hbw
  have hone : acomp_do_one_req B (reqchain_setup w lead op) lead lead =
      call_op B (((reqchain_setup w lead op).modify lead (set_cur lead)).modify lead
        (acomp_virt_to_sg lead)) op lead := by
    simp only [acomp_do_one_req]
    rw [if_neg (by rw [hdma1]; exact Bool.false_ne_true), hopw]
  refine ⟨(((reqchain_setup w lead op).modify lead (set_cur lead)).modify lead
      (acomp_virt_to_sg lead)).reqs lead, hbw, ?_, ?_, ?_, ?_⟩
  · rw [hone]
    simp only [call_op]
    rw [hres]
  · rw [hone]
    simp only [call_op, log_trace, modify_trace, htr1]
    rw [hres]
  · rw [hone]
    simp only [call_op, log_reqs]
    rw [modify_reqs_self, hres, hproj]
    simp only [buffers, set_dlen, set_cur, Prod.mk.injEq] at hb1 ⊢
    exact ⟨hb1.1, hb1.2.1, hb1.2.2.1, hb1.2.2.2.1, hb1.2.2.2.2.1, trivial, hb1.2.2.2.2.2.2⟩
  · rw [hone]
    simp only [call_op, log_reqs]
    rw [modify_reqs_self, hproj]
    rfl

theorem reqchain_virt_other (w : World) (s : ReqId) (err : Int) (x : ReqId)
    (h : x ≠ (w.reqs s).chain.cur) : (acomp_reqchain_virt w s err).reqs x = w.reqs x := by
  simp only [acomp_reqchain_virt]
  rw [modify_reqs_other _ _ _ _ h]

/-- The rest of a chain of two after the lead job finished with status `e`,
against a backend that completes synchronously: the follow-on `q` is started,
and the lead job keeps its buffers, has `e` as its error and has the caller's
completion and context back. -/
theorem finish_one_follow_on (B : Backend) (wc : World) (lead q : ReqId) (e : Int) (mask : Nat)
    (hne : q ≠ lead)
    (hd : (wc.reqs lead).data = .chain lead)
    (hcur : (wc.reqs lead).chain.cur = lead)
    (hzero : (wc.reqs lead).chain.flags = 0)
    (hhead : (wc.reqs lead).chain.head = [q])
    (hop : ∀ fn r x, deferred (B.op fn r x).err = false)
    (hfb : ∀ c f x, deferred (B.fb c f x).err = false) :
    ∃ ev : Event,
      (acomp_reqchain_finish B wc lead e mask).1.trace = wc.trace ++ [ev] ∧
      ev.started = some (q, (acomp_reqchain_finish B wc lead e mask).2) ∧
      deferred (acomp_reqchain_finish B wc lead e mask).2 = false ∧
      buffers ((acomp_reqchain_finish B wc lead e mask).1.reqs lead) = buffers (wc.reqs lead) ∧
      ((acomp_reqchain_finish B wc lead e mask).1.reqs lead).err = e ∧
      ((acomp_reqchain_finish B wc lead e mask).1.reqs lead).complete =
        (wc.reqs lead).chain.compl ∧
      ((acomp_reqchain_finish B wc lead e mask).1.reqs lead).data = (wc.reqs lead).chain.data := by
  have hlq : lead ≠ q := fun h => hne h.symm
  have hvirt : acomp_reqchain_virt wc lead e =
      wc.modify lead (fun req => reqchain_virt_req req e) := by
    simp only [acomp_reqchain_virt, hcur]
  have hfin := finish_eq B wc lead e mask hd (acomp_reqchain_virt wc lead e)
    (by rw [if_neg (by rw [hcur]; exact fun h => h rfl)])
  have hl2 : (acomp_reqchain_virt wc lead e).reqs lead = { wc.reqs lead with err := e } := by
    rw [hvirt, modify_reqs_self, reqchain_virt_req_of_zero hzero]
  have hhead2 : ((acomp_reqchain_virt wc lead e).reqs lead).chain.head = [q] := by
    rw [hl2]
    exact hhead
  rw [hhead2, loop_cons] at hfin
  have hterm : deferred (acomp_do_one_req B (((acomp_reqchain_virt wc lead e).modify lead
      (list_del_init q)).modify q (rebind mask lead)) lead q).2 = false := by
    rcases do_one_req_status B (((acomp_reqchain_virt wc lead e).modify lead
      (list_del_init q)).modify q (rebind mask lead)) lead q with ⟨fn, w0, h⟩ | ⟨c, f, w0, h⟩
    · rw [h]
      exact hop _ _ _
    · rw [h]
      exact hfb _ _ _
  obtain ⟨hnb, hnp⟩ := deferred_ne_ebusy hterm
  rw [if_neg hnp, if_neg hnb] at hfin
  simp only [reqchain_finish_loop, if_true] at hfin
  obtain ⟨ev, htr, hev⟩ := do_one_req_trace B (((acomp_reqchain_virt wc lead e).modify lead
      (list_del_init q)).modify q (rebind mask lead)) lead q
  have hcurq := do_one_req_cur B (((acomp_reqchain_virt wc lead e).modify lead
      (list_del_init q)).modify q (rebind mask lead)) lead q
  have hlead2 : (acomp_do_one_req B (((acomp_reqchain_virt wc lead e).modify lead
      (list_del_init q)).modify q (rebind mask lead)) lead q).1.reqs lead =
      set_cur q (list_del_init q { wc.reqs lead with err := e }) := by
    rw [do_one_req_other B _ lead q lead hlq, modify_reqs_self, modify_reqs_other _ _ _ _ hlq,
      modify_reqs_self, hl2]
  have hlead3 : ((acomp_reqchain_virt (acomp_do_one_req B (((acomp_reqchain_virt wc lead e).modify
      lead (list_del_init q)).modify q (rebind mask lead)) lead q).1 lead
      (acomp_do_one_req B (((acomp_reqchain_virt wc lead e).modify lead
        (list_del_init q)).modify q (rebind mask lead)) lead q).2).modify lead
      (list_add_tail q)).reqs lead =
      list_add_tail q (set_cur q (list_del_init q { wc.reqs lead with err := e })) := by
    rw [modify_reqs_self, reqchain_virt_other _ _ _ _ (by rw [hcurq]; exact hlq), hlead2]
  have hd3 : (((acomp_reqchain_virt (acomp_do_one_req B (((acomp_reqchain_virt wc lead e).modify
      lead (list_del_init q)).modify q (rebind mask lead)) lead q).1 lead
      (acomp_do_one_req B (((acomp_reqchain_virt wc lead e).modify lead
        (list_del_init q)).modify q (rebind mask lead)) lead q).2).modify lead
      (list_add_tail q)).reqs lead).data = .chain lead := by
    rw [hlead3]
    exact hd
  rw [restore_req_eq _ lead hd3] at hfin
  rw [hfin]
  refine ⟨ev, ?_, hev, hterm, ?_, ?_, ?_, ?_⟩
  · simp only [modify_trace, reqchain_virt_trace] at htr ⊢
    exact htr
  · show buffers ((World.modify _ lead _).reqs lead) = _
    rw [modify_reqs_self, hlead3]
    rfl
  · show ((World.modify _ lead _).reqs lead).err = _
    rw [modify_reqs_self, hlead3]
    rfl
  · show ((World.modify _ lead _).reqs lead).complete = _
    rw [modify_reqs_self, hlead3]
    rfl
  · show ((World.modify _ lead _).reqs lead).data = _
    rw [modify_reqs_self, hlead3]
    rfl

/-- C18. The chain path is transparent for the lead job. A lead job whose
buffers are scatter lists (and not NONDMA), with one follow-on job `q`
attached, on a transform without native chaining, against a backend that
completes synchronously and whose operation looks only at the buffers of the
job.  The direct call `op(req)` and the chain path both call the operation on
the lead job first, with the same buffers (source, destination, offsets,
lengths, flags) and the same result; the chain path then starts `q` and
returns its status.  When the chain has completed, the lead job's buffers,
the destination length the backend stored included, are those the direct
call leaves, its error field holds the status of its operation, and it has
the caller's completion and context back. -/
theorem chain_path_transparent (B : Backend) (w : World) (lead q : ReqId) (op : OpId)
    (hne : q ≠ lead)
    (hchain : (w.tfms (w.reqs lead).tfm).req_chain = false)
    (hlist : (w.reqs lead).list = [q])
    (hsg : acomp_request_issg (w.reqs lead) = true)
    (hdma : acomp_request_isnondma (w.reqs lead) = false)
    (hop : ∀ fn r x, deferred (B.op fn r x).err = false)
    (hfb : ∀ c f x, deferred (B.fb c f x).err = false)
    (hbuf : ∀ fn r x y, buffers (x.reqs r) = buffers (y.reqs r) → B.op fn r x = B.op fn r y) :
    ∃ (seen : AcompReq) (ev : Event),
      newEvents w (call_op B w op lead).1 =
        [Event.op op lead (w.reqs lead) (B.op op lead w).err] ∧
      newEvents w (acomp_do_req_chain B w lead op).1 =
        [Event.op op lead seen (B.op op lead w).err, ev] ∧
      buffers seen = buffers (w.reqs lead) ∧
      ev.started = some (q, (acomp_do_req_chain B w lead op).2) ∧
      deferred (acomp_do_req_chain B w lead op).2 = false ∧
      buffers ((acomp_do_req_chain B w lead op).1.reqs lead) =
        buffers ((call_op B w op lead).1.reqs lead) ∧
      ((acomp_do_req_chain B w lead op).1.reqs lead).dlen = (B.op op lead w).dlen ∧
      ((call_op B w op lead).1.reqs lead).dlen = (B.op op lead w).dlen ∧
      ((acomp_do_req_chain B w lead op).1.reqs lead).err = (B.op op lead w).err ∧
      ((acomp_do_req_chain B w lead op).1.reqs lead).complete = (w.reqs lead).complete ∧
      ((acomp_do_req_chain B w lead op).1.reqs lead).data = (w.reqs lead).data := by
  have hnd : (lead :: (w.reqs lead).list).Nodup := by
    rw [hlist]
    simp [Ne.symm hne]
  have hslow : ((w.tfms (w.reqs lead).tfm).req_chain ||
      (!acomp_request_chained (w.reqs lead) && acomp_request_issg (w.reqs lead))) = false := by
    simp [hchain, acomp_request_chained, hlist]
  obtain ⟨hrun, -, -, -, -, -, -, -⟩ := setup_spec w lead op hnd
  rw [hlist] at hrun
  obtain ⟨seen, hseen, hst, htr, hb, hzero⟩ := lead_start_of_issg B w lead op hnd hsg hdma hbuf
  have hsteer := do_one_req_steer B (reqchain_setup w lead op) lead lead lead
  rw [steer_eq_iff] at hsteer
  obtain ⟨-, hs2, -, -, hs5, -, hs7, hs8, -⟩ := hsteer
  have hdirect : ((call_op B w op lead).1.reqs lead) = set_dlen (B.op op lead w).dlen (w.reqs lead) := by
    simp only [call_op, log_reqs]
    rw [modify_reqs_self]
  obtain ⟨hnb, hnp⟩ := deferred_ne_ebusy (hop op lead w)
  have hchainEq := do_req_chain_slow B w lead op hslow hnd
  rw [hst, if_neg (by rintro (h | h); exact hnb h; exact hnp h)] at hchainEq
  obtain ⟨ev, ftr, fev, fterm, fbuf, ferr, fcompl, fdata⟩ :=
    finish_one_follow_on B (acomp_do_one_req B (reqchain_setup w lead op) lead lead).1 lead q
      (B.op op lead w).err (not32 0) hne (hs2.trans hrun.data)
      (do_one_req_cur B (reqchain_setup w lead op) lead lead) hzero (hs5.trans hrun.head) hop hfb
  rw [← hchainEq] at ftr fev fterm fbuf ferr fcompl fdata
  refine ⟨seen, ev, ?_, ?_, hseen, fev, fterm, ?_, ?_, ?_, ferr, ?_, ?_⟩
  · apply newEvents_of_trace
    simp only [call_op, log_trace, modify_trace]
  · apply newEvents_of_trace
    rw [ftr, htr, List.append_assoc]
    rfl
  · rw [fbuf, hb, hdirect]
  · have := congrArg (fun p => p.2.2.2.2.2.1) (fbuf.trans hb)
    exact this
  · rw [hdirect]
    rfl
  · rw [fcompl, hs7, hrun.compl]
  · rw [fdata, hs8, hrun.cdata]

/-- C18, witness: a lead job with scatter lists of 100 and 200 bytes and a
trivial follow-on, against a backend that halves the length. -/
theorem chain_path_transparent_witness :
    (1 : ReqId) ≠ 0 ∧ (sg_with_trivial.reqs 0).list = [1] ∧
    acomp_request_issg (sg_with_trivial.reqs 0) = true ∧
    ((call_op halving_backend sg_with_trivial 1 0).1.reqs 0).dlen = 50 ∧
    ∃ (seen : AcompReq) (ev : Event),
      newEvents sg_with_trivial (acomp_do_req_chain halving_backend sg_with_trivial 0 1).1 =
        [Event.op 1 0 seen (halving_backend.op 1 0 sg_with_trivial).err, ev] ∧
      buffers seen = buffers (sg_with_trivial.reqs 0) ∧
      buffers ((acomp_do_req_chain halving_backend sg_with_trivial 0 1).1.reqs 0) =
        buffers ((call_op halving_backend sg_with_trivial 1 0).1.reqs 0) :=
  ⟨by decide, by decide, by decide, by decide,
    match chain_path_transparent halving_backend sg_with_trivial 0 1 1 (by decide) (by decide)
      (by decide) (by decide) (by decide)
      (fun _ _ _ => by simp [halving_backend, deferred, EINPROGRESS, EBUSY])
      (fun _ _ _ => by simp [halving_backend, deferred, EINPROGRESS, EBUSY])
      (fun _ r x y h => by
        have hs : (x.reqs r).slen = (y.reqs r).slen := congrArg (fun p => p.2.2.2.2.1) h
        simp [halving_backend, hs]) with
    | ⟨seen, ev, _, h2, h3, _, _, h6, _⟩ => ⟨seen, ev, h2, h3, h6⟩⟩

/-! ### Submit, save and restore -/

/-- C28. Submit never returns in-progress for the lead job. On the slow
path, when the start of the lead job returns -EINPROGRESS or -EBUSY,
`acomp_do_req_chain` returns -EBUSY with the memory as the start left it:
the lead job is the only job started, the caller's completion is not called,
`acomp_reqchain_finish` has not run (the lead job's error field is as it
was, the follow-ons are all on the pending queue), the lead job's completion
is `acomp_reqchain_done` with the chain state as context, and the chain state
holds the caller's completion and context. -/
theorem lead_deferred_returns_busy (B : Backend) (w : World) (lead : ReqId) (op : OpId)
    (hslow : ((w.tfms (w.reqs lead).tfm).req_chain ||
      (!acomp_request_chained (w.reqs lead) && acomp_request_issg (w.reqs lead))) = false)
    (hnd : (lead :: (w.reqs lead).list).Nodup)
    (hdef : deferred (acomp_do_one_req B (reqchain_setup w lead op) lead lead).2 = true) :
    acomp_do_req_chain B w lead op =
      ((acomp_do_one_req B (reqchain_setup w lead op) lead lead).1, -EBUSY) ∧
    (acomp_do_req_chain B w lead op).2 = -EBUSY ∧
    starts (newEvents w (acomp_do_req_chain B w lead op).1) =
      [(lead, (acomp_do_one_req B (reqchain_setup w lead op) lead lead).2)] ∧
    completions (newEvents w (acomp_do_req_chain B w lead op).1) = [] ∧
    ((acomp_do_req_chain B w lead op).1.reqs lead).complete = .reqchain_done ∧
    ((acomp_do_req_chain B w lead op).1.reqs lead).data = .chain lead ∧
    ((acomp_do_req_chain B w lead op).1.reqs lead).chain.compl = (w.reqs lead).complete ∧
    ((acomp_do_req_chain B w lead op).1.reqs lead).chain.data = (w.reqs lead).data ∧
    ((acomp_do_req_chain B w lead op).1.reqs lead).chain.head = (w.reqs lead).list ∧
    ((acomp_do_req_chain B w lead op).1.reqs lead).list = [] ∧
    ((acomp_do_req_chain B w lead op).1.reqs lead).err = (w.reqs lead).err := by
  have hor : (acomp_do_one_req B (reqchain_setup w lead op) lead lead).2 = -EBUSY ∨
      (acomp_do_one_req B (reqchain_setup w lead op) lead lead).2 = -EINPROGRESS := by
    simp only [deferred, Bool.or_eq_true, decide_eq_true_eq] at hdef
    exact hdef.symm
  have heq := do_req_chain_slow B w lead op hslow hnd
  rw [if_pos hor] at heq
  obtain ⟨hrun, hcompl, hlist, -, htr, -, herrs, -⟩ := setup_spec w lead op hnd
  obtain ⟨ev, hev, hst⟩ := do_one_req_trace B (reqchain_setup w lead op) lead lead
  have hsteer := (steer_eq_iff _ _).1 (do_one_req_steer B (reqchain_setup w lead op) lead lead lead)
  obtain ⟨s1, s2, s3, -, s5, -, s7, s8, -⟩ := hsteer
  have hnew : newEvents w (acomp_do_one_req B (reqchain_setup w lead op) lead lead).1 = [ev] :=
    newEvents_of_trace (by rw [hev, htr])
  rw [heq]
  refine ⟨rfl, rfl, ?_, ?_, ?_, ?_, ?_, ?_, ?_, ?_, ?_⟩
  · show starts (newEvents w _) = _
    rw [hnew]
    simp [starts, hst]
  · show completions (newEvents w _) = _
    rw [hnew]
    have := (@started_completion ev (by rw [hst]; rfl)).1
    simp [completions, this]
  · exact s1.trans hcompl
  · exact s2.trans hrun.data
  · exact s7.trans hrun.compl
  · exact s8.trans hrun.cdata
  · exact s5.trans hrun.head
  · exact s3.trans hlist
  · show ((acomp_do_one_req B (reqchain_setup w lead op) lead lead).1.reqs lead).err = _
    rw [do_one_req_err, herrs]

/-- C28, witness: a lead job with flat buffers and no follow-ons whose start
returns -EINPROGRESS. -/
theorem lead_deferred_returns_busy_witness :
    (single_flat.reqs 0).list = [] ∧
    (acomp_do_one_req (scripted_backend [-EINPROGRESS] [] false)
      (reqchain_setup single_flat 0 1) 0 0).2 = -EINPROGRESS ∧
    (acomp_do_req_chain (scripted_backend [-EINPROGRESS] [] false) single_flat 0 1).2 = -EBUSY :=
  ⟨by decide, by decide,
    (lead_deferred_returns_busy (scripted_backend [-EINPROGRESS] [] false) single_flat 0 1
      (by decide) (by decide) (by decide)).2.1⟩

/-- C27. The lead job's completion is saved, rewritten and restored.  After
`acomp_save_req` the chain state holds the job's completion and context, the
job's completion is the given handler and its context the chain state, and
`acomp_restore_req` after it gives the job its completion and context back.
After the set-up of the slow path the handler is `acomp_reqchain_done` and
the pending queue is the list that was linked off the lead job, in order.
Whenever `acomp_reqchain_finish` returns a terminal status on a chain that
is set up, the queue is empty and the lead job has the caller's completion
and context. -/
theorem lead_completion_saved_and_restored (B : Backend) (w : World) (lead : ReqId)
    (op : OpId) (cplt : Completion) (hnd : (lead :: (w.reqs lead).list).Nodup)
    (w2 : World) (lead2 : ReqId) (c : Completion) (d : Ptr) (rest : List ReqId)
    (hrun : Running lead2 c d rest w2) (err : Int) (mask : Nat) :
    (((acomp_save_req w lead cplt).reqs lead).chain.compl = (w.reqs lead).complete ∧
      ((acomp_save_req w lead cplt).reqs lead).chain.data = (w.reqs lead).data ∧
      ((acomp_save_req w lead cplt).reqs lead).complete = cplt ∧
      ((acomp_save_req w lead cplt).reqs lead).data = .chain lead) ∧
    (((acomp_restore_req (acomp_save_req w lead cplt) lead).reqs lead).complete =
        (w.reqs lead).complete ∧
      ((acomp_restore_req (acomp_save_req w lead cplt) lead).reqs lead).data =
        (w.reqs lead).data) ∧
    (((reqchain_setup w lead op).reqs lead).complete = .reqchain_done ∧
      ((reqchain_setup w lead op).reqs lead).data = .chain lead ∧
      ((reqchain_setup w lead op).reqs lead).chain.compl = (w.reqs lead).complete ∧
      ((reqchain_setup w lead op).reqs lead).chain.data = (w.reqs lead).data ∧
      ((reqchain_setup w lead op).reqs lead).chain.head = (w.reqs lead).list ∧
      ((reqchain_setup w lead op).reqs lead).list = []) ∧
    (deferred (acomp_reqchain_finish B w2 lead2 err mask).2 = false →
      ((acomp_reqchain_finish B w2 lead2 err mask).1.reqs lead2).chain.head = [] ∧
      ((acomp_reqchain_finish B w2 lead2 err mask).1.reqs lead2).complete = c ∧
      ((acomp_reqchain_finish B w2 lead2 err mask).1.reqs lead2).data = d) := by
  have hsave : (acomp_save_req w lead cplt).reqs lead = save_completion cplt lead (w.reqs lead) := by
    simp only [acomp_save_req]
    rw [modify_reqs_self]
  refine ⟨?_, ?_, ?_, ?_⟩
  · rw [hsave]
    exact ⟨rfl, rfl, rfl, rfl⟩
  · have hd : ((acomp_save_req w lead cplt).reqs lead).data = .chain lead := by
      rw [hsave]; rfl
    rw [restore_req_eq _ lead hd, modify_reqs_self, hsave]
    exact ⟨rfl, rfl⟩
  · obtain ⟨hr, hcompl, hlist, -, -, -, -, -⟩ := setup_spec w lead op hnd
    exact ⟨hcompl, hr.data, hr.compl, hr.cdata, hr.head, hlist⟩
  · intro hterm
    obtain ⟨evs, hF⟩ := finish_spec B lead2 c d rest w2 err mask hrun
    rcases hF.outcome with hR | ⟨pre, r, st, rest1, hL, hret⟩
    · exact ⟨hR.head, hR.complete, hR.data⟩
    · exfalso
      rw [hret] at hterm
      split_ifs at hterm
      · rw [deferred_einprogress] at hterm
        exact Bool.noConfusion hterm
      · rw [deferred_ebusy] at hterm
        exact Bool.noConfusion hterm

/-- C27, witness: the chain of two jobs; its set-up, and the handler's
`acomp_reqchain_finish` on the single waiting job. -/
theorem lead_completion_saved_and_restored_witness :
    (chain_of_two.reqs 0).complete = .caller 7 ∧ (chain_of_two.reqs 0).list = [1] ∧
    ((reqchain_setup chain_of_two 0 1).reqs 0).complete = .reqchain_done ∧
    ((reqchain_setup chain_of_two 0 1).reqs 0).chain.compl = .caller 7 ∧
    ((reqchain_setup chain_of_two 0 1).reqs 0).chain.head = [1] ∧
    ((acomp_reqchain_finish (scripted_backend [] [] false) waiting_single 0 0
      CRYPTO_TFM_REQ_MAY_BACKLOG).1.reqs 0).complete = .caller 7 :=
  ⟨by decide, by decide,
    (lead_completion_saved_and_restored (scripted_backend [] [] false) chain_of_two 0 1
      .reqchain_done (by decide) waiting_single 0 (.caller 7) (.addr 99) []
      ⟨by decide, by decide, by decide, by decide, by decide, by decide⟩ 0
      CRYPTO_TFM_REQ_MAY_BACKLOG).2.2.1.1,
    (lead_completion_saved_and_restored (scripted_backend [] [] false) chain_of_two 0 1
      .reqchain_done (by decide) waiting_single 0 (.caller 7) (.addr 99) []
      ⟨by decide, by decide, by decide, by decide, by decide, by decide⟩ 0
      CRYPTO_TFM_REQ_MAY_BACKLOG).2.2.1.2.2.1,
    (lead_completion_saved_and_restored (scripted_backend [] [] false) chain_of_two 0 1
      .reqchain_done (by decide) waiting_single 0 (.caller 7) (.addr 99) []
      ⟨by decide, by decide, by decide, by decide, by decide, by decide⟩ 0
      CRYPTO_TFM_REQ_MAY_BACKLOG).2.2.1.2.2.2.2.1,
    ((lead_completion_saved_and_restored (scripted_backend [] [] false) chain_of_two 0 1
      .reqchain_done (by decide) waiting_single 0 (.caller 7) (.addr 99) []
      ⟨by decide, by decide, by decide, by decide, by decide, by decide⟩ 0
      CRYPTO_TFM_REQ_MAY_BACKLOG).2.2.2 (by decide)).2.1⟩

/-! ### The software fallback -/

theorem flagSet_src_nondma (f : Nat) : flagSet f CRYPTO_ACOMP_REQ_SRC_NONDMA = f.testBit 2 :=
  flagSet_two_pow f 2

theorem flagSet_dst_nondma (f : Nat) : flagSet f CRYPTO_ACOMP_REQ_DST_NONDMA = f.testBit 4 :=
  flagSet_two_pow f 4

/-! ### The completion handler and `acomp_reqchain_finish` -/

/-- A call of `acomp_reqchain_finish` on a chain that is set up, one of whose
starts returned a deferred status: that start is the last one, the loop was
left through `goto out`, the lead job's completion and context are as before
the call, and the status returned is -EINPROGRESS when the deferred status is
-EINPROGRESS and the queue is empty, -EBUSY otherwise. -/
theorem finish_out (B : Backend) (lead : ReqId) (c : Completion) (d : Ptr)
    (rest : List ReqId) (w : World) (err : Int) (mask : Nat)
    (h : Running lead c d rest w)
    (hdef : ∃ p ∈ starts (newEvents w (acomp_reqchain_finish B w lead err mask).1),
      deferred p.2 = true) :
    ((acomp_reqchain_finish B w lead err mask).1.reqs lead).complete = (w.reqs lead).complete ∧
    ((acomp_reqchain_finish B w lead err mask).1.reqs lead).data = .chain lead ∧
    ∃ pre r st, starts (newEvents w (acomp_reqchain_finish B w lead err mask).1) =
        pre ++ [(r, st)] ∧
      (∀ p ∈ pre, deferred p.2 = false) ∧ deferred st = true ∧
      (acomp_reqchain_finish B w lead err mask).2 =
        (if st = -EINPROGRESS ∧
            ((acomp_reqchain_finish B w lead err mask).1.reqs lead).chain.head = []
          then -EINPROGRESS else -EBUSY) := by
  obtain ⟨w2, hw2⟩ : ∃ w2, w2 = if (w.reqs lead).chain.cur ≠ lead then
      (acomp_reqchain_virt w lead err).modify lead (list_add_tail (w.reqs lead).chain.cur)
      else acomp_reqchain_virt w lead err := ⟨_, rfl⟩
  have hfe := finish_eq B w lead err mask h.data w2 hw2
  have w2_trace : w2.trace = w.trace := by
    rw [hw2]; split_ifs <;> rfl
  have hv := (steer_eq_iff _ _).1 (reqchain_virt_steer w lead err lead)
  have w2_lead : (w2.reqs lead).complete = (w.reqs lead).complete ∧
      (w2.reqs lead).data = (w.reqs lead).data ∧
      (w2.reqs lead).chain.head = (w.reqs lead).chain.head := by
    rw [hw2]
    split_ifs with hc
    · rw [modify_reqs_self]
      exact ⟨hv.1, hv.2.1, hv.2.2.2.2.1⟩
    · exact ⟨hv.1, hv.2.1, hv.2.2.2.2.1⟩
  have w2_head : (w2.reqs lead).chain.head = rest := by
    rw [w2_lead.2.2, h.head]
  rw [w2_head] at hfe
  obtain ⟨evs, hS⟩ := loop_spec B lead mask rest w2 err w2_head h.nodup
  generalize reqchain_finish_loop B lead lead mask rest w2 err = R at hS hfe
  by_cases hfin : R.2.2 = true
  · exfalso
    rw [if_pos hfin] at hfe
    obtain ⟨p, hp, hd⟩ := hdef
    have htr : (acomp_reqchain_finish B w lead err mask).1.trace = w.trace ++ evs := by
      rw [hfe]
      show (acomp_restore_req R.1 lead).trace = _
      unfold acomp_restore_req
      rw [modify_trace, hS.trace, w2_trace]
    rw [newEvents_of_trace htr] at hp
    rw [(hS.fin hfin).2.1 p hp] at hd
    exact Bool.false_ne_true hd
  · rw [if_neg hfin] at hfe
    have hout := hS.out (by simpa using hfin)
    obtain ⟨pre, r, st, o1, o2, o3, -, -, -, o7⟩ := hout
    have htr : (acomp_reqchain_finish B w lead err mask).1.trace = w.trace ++ evs := by
      rw [hfe]
      show R.1.trace = _
      rw [hS.trace, w2_trace]
    rw [newEvents_of_trace htr, hfe]
    refine ⟨?_, ?_, pre, r, st, o1, o2, o3, o7⟩
    · show (R.1.reqs lead).complete = _
      rw [hS.lead_complete, w2_lead.1]
    · show (R.1.reqs lead).data = _
      rw [hS.lead_data, w2_lead.2.1, h.data]

/-- C22. In-progress inside `acomp_reqchain_finish`. On a chain that is set
up, when the start of a popped job returns -EINPROGRESS, that start is the
last of the call: no further job is started; the lead job's completion and
context are not restored (they are as before the call, the context still the
chain state); and the call returns -EBUSY if the pending queue is not empty
at that point and -EINPROGRESS if it is empty. -/
theorem in_progress_start_stops_finish (B : Backend) (lead : ReqId) (c : Completion) (d : Ptr)
    (rest : List ReqId) (w : World) (err : Int) (mask : Nat)
    (h : Running lead c d rest w) :
    ∀ pre post r, starts (newEvents w (acomp_reqchain_finish B w lead err mask).1) =
        pre ++ (r, -EINPROGRESS) :: post →
      post = [] ∧
      ((acomp_reqchain_finish B w lead err mask).1.reqs lead).complete =
        (w.reqs lead).complete ∧
      ((acomp_reqchain_finish B w lead err mask).1.reqs lead).data = .chain lead ∧
      (((acomp_reqchain_finish B w lead err mask).1.reqs lead).chain.head ≠ [] →
        (acomp_reqchain_finish B w lead err mask).2 = -EBUSY) ∧
      (((acomp_reqchain_finish B w lead err mask).1.reqs lead).chain.head = [] →
        (acomp_reqchain_finish B w lead err mask).2 = -EINPROGRESS) := by
  intro pre post r hsplit
  have hdef : ∃ p ∈ starts (newEvents w (acomp_reqchain_finish B w lead err mask).1),
      deferred p.2 = true :=
    ⟨(r, -EINPROGRESS), by rw [hsplit]; simp, deferred_einprogress⟩
  obtain ⟨h1, h2, pre1, r1, st, h3, h4, -, h6⟩ := finish_out B lead c d rest w err mask h hdef
  rw [h3] at hsplit
  obtain ⟨hpost, hx⟩ := deferred_start_is_last h4 pre post (r, -EINPROGRESS)
    deferred_einprogress hsplit.symm
  have hst : st = -EINPROGRESS := (congrArg Prod.snd hx).symm
  refine ⟨hpost, h1, h2, ?_, ?_⟩
  · intro hne
    rw [h6, if_neg (fun hh => hne hh.2)]
  · intro he
    rw [h6, if_pos ⟨hst, he⟩]

/-- C22, witness: the chain of three jobs waiting for its lead job; the lead
job completes and the second job's start returns -EINPROGRESS with the third
still queued. -/
theorem in_progress_start_stops_finish_witness :
    starts (newEvents (waiting_on_lead [-EINPROGRESS, -EINPROGRESS])
      (acomp_reqchain_finish (scripted_backend [0, -EINPROGRESS] [] false)
        (waiting_on_lead [-EINPROGRESS, -EINPROGRESS]) 0 0 CRYPTO_TFM_REQ_MAY_BACKLOG).1) =
      [] ++ (1, -EINPROGRESS) :: [] ∧
    ((acomp_reqchain_finish (scripted_backend [0, -EINPROGRESS] [] false)
        (waiting_on_lead [-EINPROGRESS, -EINPROGRESS]) 0 0
        CRYPTO_TFM_REQ_MAY_BACKLOG).1.reqs 0).chain.head ≠ [] ∧
    (acomp_reqchain_finish (scripted_backend [0, -EINPROGRESS] [] false)
      (waiting_on_lead [-EINPROGRESS, -EINPROGRESS]) 0 0 CRYPTO_TFM_REQ_MAY_BACKLOG).2 = -EBUSY :=
  have e1 : starts (newEvents (waiting_on_lead [-EINPROGRESS, -EINPROGRESS])
      (acomp_reqchain_finish (scripted_backend [0, -EINPROGRESS] [] false)
        (waiting_on_lead [-EINPROGRESS, -EINPROGRESS]) 0 0 CRYPTO_TFM_REQ_MAY_BACKLOG).1) =
      [] ++ (1, -EINPROGRESS) :: [] := by decide
  have e2 : ((acomp_reqchain_finish (scripted_backend [0, -EINPROGRESS] [] false)
        (waiting_on_lead [-EINPROGRESS, -EINPROGRESS]) 0 0
        CRYPTO_TFM_REQ_MAY_BACKLOG).1.reqs 0).chain.head ≠ [] := by decide
  ⟨e1, e2,
    (in_progress_start_stops_finish (scripted_backend [0, -EINPROGRESS] [] false) 0
      (.caller 7) (.addr 99) [1, 2] (waiting_on_lead [-EINPROGRESS, -EINPROGRESS]) 0
      CRYPTO_TFM_REQ_MAY_BACKLOG
      ⟨by decide, by decide, by decide, by decide, by decide, by decide⟩ [] [] 1 e1).2.2.2.1 e2⟩

/-- C21, the claim as stated fails. A lead job with flat buffers and no
follow-ons waits for the backend with an empty queue; the backend sends an
in-progress notification: the case is not (in-progress with a non-empty
queue), yet `acomp_reqchain_done` does not call `acomp_reqchain_finish`: it
calls the caller's completion with -EINPROGRESS and leaves the memory as it
was, the lead job still projected and bound to the handler, where
`acomp_reqchain_finish` would have restored the job's buffers and its
completion. -/
theorem done_in_progress_skips_finish :
    (waiting_single.reqs 0).chain.head = [] ∧
    completions (newEvents waiting_single
      (acomp_reqchain_done (scripted_backend [] [] false) waiting_single 0 (-EINPROGRESS))) =
      [(.caller 7, .addr 99, -EINPROGRESS)] ∧
    (acomp_reqchain_done (scripted_backend [] [] false) waiting_single 0 (-EINPROGRESS)).reqs 0 =
      waiting_single.reqs 0 ∧
    ((acomp_reqchain_done (scripted_backend [] [] false) waiting_single 0
      (-EINPROGRESS)).reqs 0).complete = .reqchain_done ∧
    ((acomp_reqchain_done (scripted_backend [] [] false) waiting_single 0
      (-EINPROGRESS)).reqs 0).src = .ssg 0 ∧
    ((acomp_reqchain_finish (scripted_backend [] [] false) waiting_single 0 (-EINPROGRESS)
      CRYPTO_TFM_REQ_MAY_BACKLOG).1.reqs 0).complete = .caller 7 ∧
    ((acomp_reqchain_finish (scripted_backend [] [] false) waiting_single 0 (-EINPROGRESS)
      CRYPTO_TFM_REQ_MAY_BACKLOG).1.reqs 0).src = .addr 10 := by
  decide

/-- C21, amended. The dispatch of `acomp_reqchain_done` on a chain that is
set up.  With a status other than -EINPROGRESS it calls
`acomp_reqchain_finish` on the lead job with the may-backlog mask; if that
returns -EBUSY the caller's completion is not called, otherwise it is called
exactly once, with the caller's context and the status returned.  With
-EINPROGRESS and an empty queue it does not call `acomp_reqchain_finish`:
the caller's completion is called exactly once with the caller's context and
-EINPROGRESS and no request changes.  With -EINPROGRESS and a queue that is
not empty it does nothing. -/
theorem done_dispatch (B : Backend) (w : World) (lead : ReqId) (c : Completion) (d : Ptr)
    (rest : List ReqId) (hrun : Running lead c d rest w) (e : Int) :
    (e ≠ -EINPROGRESS →
      acomp_reqchain_done B w lead e =
        (if (acomp_reqchain_finish B w lead e CRYPTO_TFM_REQ_MAY_BACKLOG).2 = -EBUSY then
          (acomp_reqchain_finish B w lead e CRYPTO_TFM_REQ_MAY_BACKLOG).1
        else (acomp_reqchain_finish B w lead e CRYPTO_TFM_REQ_MAY_BACKLOG).1.log
          (.complete c d (acomp_reqchain_finish B w lead e CRYPTO_TFM_REQ_MAY_BACKLOG).2)) ∧
      completions (newEvents w (acomp_reqchain_done B w lead e)) =
        (if (acomp_reqchain_finish B w lead e CRYPTO_TFM_REQ_MAY_BACKLOG).2 = -EBUSY then []
        else [(c, d, (acomp_reqchain_finish B w lead e CRYPTO_TFM_REQ_MAY_BACKLOG).2)])) ∧
    (e = -EINPROGRESS → rest = [] →
      acomp_reqchain_done B w lead e = w.log (.complete c d (-EINPROGRESS)) ∧
      completions (newEvents w (acomp_reqchain_done B w lead e)) = [(c, d, -EINPROGRESS)] ∧
      starts (newEvents w (acomp_reqchain_done B w lead e)) = [] ∧
      (acomp_reqchain_done B w lead e).reqs = w.reqs) ∧
    (e = -EINPROGRESS → rest ≠ [] → acomp_reqchain_done B w lead e = w) := by
  refine ⟨?_, ?_, ?_⟩
  · intro he
    obtain ⟨evs, hF⟩ := finish_spec B lead c d rest w e CRYPTO_TFM_REQ_MAY_BACKLOG hrun
    have hD : acomp_reqchain_done B w lead e =
        if (acomp_reqchain_finish B w lead e CRYPTO_TFM_REQ_MAY_BACKLOG).2 = -EBUSY then
          (acomp_reqchain_finish B w lead e CRYPTO_TFM_REQ_MAY_BACKLOG).1
        else (acomp_reqchain_finish B w lead e CRYPTO_TFM_REQ_MAY_BACKLOG).1.log
          (.complete c d (acomp_reqchain_finish B w lead e CRYPTO_TFM_REQ_MAY_BACKLOG).2) := by
      unfold acomp_reqchain_done
      simp only [if_neg he, hrun.req0, hrun.compl, hrun.cdata]
    refine ⟨hD, ?_⟩
    rw [hD]
    generalize acomp_reqchain_finish B w lead e CRYPTO_TFM_REQ_MAY_BACKLOG = F at hF ⊢
    have cpe := (completions_of_starts hF.all_starts).1
    split_ifs with hb
    · rw [newEvents_of_trace hF.trace, cpe]
    · have : (F.1.log (.complete c d F.2)).trace = w.trace ++ (evs ++ [.complete c d F.2]) := by
        rw [log_trace, hF.trace, List.append_assoc]
      rw [newEvents_of_trace this, completions_append, cpe]
      rfl
  · intro he hr
    subst he
    have hh : (w.reqs lead).chain.head = [] := by rw [hrun.head, hr]
    have hD : acomp_reqchain_done B w lead (-EINPROGRESS) =
        w.log (.complete c d (-EINPROGRESS)) := by
      unfold acomp_reqchain_done
      simp only [if_true, hh, ne_eq, not_true_eq_false, if_false, hrun.compl, hrun.cdata]
    rw [hD]
    have hn : newEvents w (w.log (.complete c d (-EINPROGRESS))) =
        [.complete c d (-EINPROGRESS)] := newEvents_of_trace rfl
    rw [hn]
    exact ⟨rfl, rfl, rfl, rfl⟩
  · intro he hr
    subst he
    have hh : (w.reqs lead).chain.head ≠ [] := by rw [hrun.head]; exact hr
    unfold acomp_reqchain_done
    simp only [if_true, hh, ne_eq, not_false_eq_true]

/-- C21, witness: the lead job of `waiting_single` completes with status 0;
the handler runs `acomp_reqchain_finish` and calls the caller's completion
once with its status. -/
theorem done_dispatch_witness :
    (0 : Int) ≠ -EINPROGRESS ∧
    (acomp_reqchain_finish (scripted_backend [] [] false) waiting_single 0 0
      CRYPTO_TFM_REQ_MAY_BACKLOG).2 = 0 ∧
    completions (newEvents waiting_single
      (acomp_reqchain_done (scripted_backend [] [] false) waiting_single 0 0)) =
      (if (acomp_reqchain_finish (scripted_backend [] [] false) waiting_single 0 0
          CRYPTO_TFM_REQ_MAY_BACKLOG).2 = -EBUSY then []
        else [(.caller 7, .addr 99, (acomp_reqchain_finish (scripted_backend [] [] false)
          waiting_single 0 0 CRYPTO_TFM_REQ_MAY_BACKLOG).2)]) :=
  ⟨by decide, by decide,
    ((done_dispatch (scripted_backend [] [] false) waiting_single 0 (.caller 7) (.addr 99) []
      ⟨by decide, by decide, by decide, by decide, by decide, by decide⟩ 0).1 (by decide)).2⟩

/-! ### The flags of popped jobs -/

theorem loop_trace_ext (B : Backend) (req0 s : ReqId) (mask : Nat) :
    ∀ (qs : List ReqId) (w : World) (err : Int),
      ∃ evs, (reqchain_finish_loop B req0 s mask qs w err).1.trace = w.trace ++ evs := by
  intro qs
  induction qs with
  | nil =>
    intro w err
    exact ⟨[], by simp [reqchain_finish_loop]⟩
  | cons r rest ih =>
    intro w err
    rw [loop_cons]
    obtain ⟨ev, htr, -⟩ := do_one_req_trace B
      ((w.modify s (list_del_init r)).modify r (rebind mask s)) s r
    simp only [modify_trace] at htr
    by_cases h1 : (acomp_do_one_req B ((w.modify s (list_del_init r)).modify r
        (rebind mask s)) s r).2 = -EINPROGRESS
    · rw [if_pos h1]
      exact ⟨[ev], htr⟩
    by_cases h2 : (acomp_do_one_req B ((w.modify s (list_del_init r)).modify r
        (rebind mask s)) s r).2 = -EBUSY
    · rw [if_neg h1, if_pos h2]
      exact ⟨[ev], htr⟩
    · rw [if_neg h1, if_neg h2]
      obtain ⟨evs, hevs⟩ := ih ((acomp_reqchain_virt (acomp_do_one_req B
        ((w.modify s (list_del_init r)).modify r (rebind mask s)) s r).1 s
        (acomp_do_one_req B ((w.modify s (list_del_init r)).modify r (rebind mask s)) s r).2).modify
        req0 (list_add_tail r))
        (acomp_do_one_req B ((w.modify s (list_del_init r)).modify r (rebind mask s)) s r).2
      refine ⟨ev :: evs, ?_⟩
      rw [hevs, modify_trace, reqchain_virt_trace, htr, List.append_assoc]
      rfl

theorem int_of_uint_large (x : Nat) (h1 : INT_MAX < x) (h2 : x ≤ UINT_MAX) :
    int_of_uint x = (x : Int) - 2 ^ 32 ∧ int_of_uint x < 0 := by
  unfold INT_MAX at h1
  unfold UINT_MAX at h2
  unfold int_of_uint
  have hx : x % 2 ^ 32 = x := Nat.mod_eq_of_lt (by omega)
  rw [hx, if_neg (by omega)]
  constructor
  · rfl
  · omega

/-- The range of the span returned for a flat buffer of `len` bytes under the
bound `cap`. -/
theorem flat_span_range (len cap : Nat) (hl : len ≤ UINT_MAX) :
    (min len cap ≤ INT_MAX →
      0 ≤ int_of_uint (min len cap) ∧ int_of_uint (min len cap) ≤ (len : Int)) ∧
    uint_of_int (int_of_uint (min len cap)) ≤ len ∧
    (INT_MAX < min len cap → int_of_uint (min len cap) < 0) := by
  have hm : min len cap ≤ UINT_MAX := le_trans (min_le_left _ _) hl
  refine ⟨?_, ?_, ?_⟩
  · intro h
    rw [int_of_uint_small _ h]
    constructor
    · exact Int.ofNat_nonneg _
    · exact Int.ofNat_le.mpr (min_le_left _ _)
  · rw [uint_of_int_of_uint _ hm]
    exact min_le_left _ _
  · intro h
    exact (int_of_uint_large _ h hm).2

/-- C29, the claim as stated fails. A flat view of `2 ^ 32 - 1` bytes whose
span is not capped: `acomp_walk_next_src` and `acomp_walk_next_dst` return
-1, which is negative. -/
theorem flat_span_negative :
    flagSet (flat_view UINT_MAX UINT_MAX false).flags ACOMP_WALK_SRC_LINEAR = true ∧
    flagSet (flat_view UINT_MAX UINT_MAX false).flags ACOMP_WALK_DST_LINEAR = true ∧
    (flat_view UINT_MAX UINT_MAX false).slen = 2 ^ 32 - 1 ∧
    (flat_view UINT_MAX UINT_MAX false).dlen = 2 ^ 32 - 1 ∧
    (acomp_walk_next_src true whole_run (flat_view UINT_MAX UINT_MAX false)).2 = -1 ∧
    (acomp_walk_next_dst true whole_run (flat_view UINT_MAX UINT_MAX false)).2 = -1 ∧
    ¬ (0 ≤ (acomp_walk_next_src true whole_run (flat_view UINT_MAX UINT_MAX false)).2) ∧
    ¬ (0 ≤ (acomp_walk_next_dst true whole_run (flat_view UINT_MAX UINT_MAX false)).2) := by
  decide

/-- C29, amended. For a view over a flat buffer with a 32-bit remaining
length, the `int` returned by `acomp_walk_next_src` is non-negative and not
greater than the remaining length whenever the page cap applies or the
remaining length is at most `INT_MAX`; read back as `unsigned int` it never
exceeds the remaining length; without the cap and with a remaining length
above `INT_MAX` it is negative.  The same holds for `acomp_walk_next_dst`. -/
theorem flat_span_in_range (preemptible : Bool)
    (next : ScatterWalk → Nat → ScatterWalk × Nat) (walk : AcompWalk)
    (hs : walk.slen ≤ UINT_MAX) (hd : walk.dlen ≤ UINT_MAX) :
    (flagSet walk.flags ACOMP_WALK_SRC_LINEAR = true →
      (((preemptible = false ∧ flagSet walk.flags ACOMP_WALK_SLEEP = true) ∨
          walk.slen ≤ INT_MAX) →
        0 ≤ (acomp_walk_next_src preemptible next walk).2 ∧
        (acomp_walk_next_src preemptible next walk).2 ≤ (walk.slen : Int)) ∧
      uint_of_int (acomp_walk_next_src preemptible next walk).2 ≤ walk.slen ∧
      (¬ (preemptible = false ∧ flagSet walk.flags ACOMP_WALK_SLEEP = true) →
        INT_MAX < walk.slen → (acomp_walk_next_src preemptible next walk).2 < 0)) ∧
    (flagSet walk.flags ACOMP_WALK_DST_LINEAR = true →
      (((preemptible = false ∧ flagSet walk.flags ACOMP_WALK_SLEEP = true) ∨
          walk.dlen ≤ INT_MAX) →
        0 ≤ (acomp_walk_next_dst preemptible next walk).2 ∧
        (acomp_walk_next_dst preemptible next walk).2 ≤ (walk.dlen : Int)) ∧
      uint_of_int (acomp_walk_next_dst preemptible next walk).2 ≤ walk.dlen ∧
      (¬ (preemptible = false ∧ flagSet walk.flags ACOMP_WALK_SLEEP = true) →
        INT_MAX < walk.dlen → (acomp_walk_next_dst preemptible next walk).2 < 0)) := by
  have hcap : walk_span_max preemptible walk =
      if preemptible = false ∧ flagSet walk.flags ACOMP_WALK_SLEEP = true then PAGE_SIZE
      else UINT_MAX := by
    unfold walk_span_max
    cases preemptible <;> cases flagSet walk.flags ACOMP_WALK_SLEEP <;> simp
  have hpage : ∀ len : Nat, min len PAGE_SIZE ≤ INT_MAX := fun len =>
    le_trans (min_le_right _ _) (by unfold PAGE_SIZE INT_MAX; omega)
  have hkey : ∀ len : Nat, len ≤ UINT_MAX →
      (((preemptible = false ∧ flagSet walk.flags ACOMP_WALK_SLEEP = true) ∨ len ≤ INT_MAX) →
        0 ≤ int_of_uint (min len (walk_span_max preemptible walk)) ∧
        int_of_uint (min len (walk_span_max preemptible walk)) ≤ (len : Int)) ∧
      uint_of_int (int_of_uint (min len (walk_span_max preemptible walk))) ≤ len ∧
      (¬ (preemptible = false ∧ flagSet walk.flags ACOMP_WALK_SLEEP = true) →
        INT_MAX < len → int_of_uint (min len (walk_span_max preemptible walk)) < 0) := by
    intro len hl
    obtain ⟨h1, h2, h3⟩ := flat_span_range len (walk_span_max preemptible walk) hl
    refine ⟨?_, h2, ?_⟩
    · intro hor
      apply h1
      rcases hor with hc | hi
      · rw [hcap, if_pos hc]
        exact hpage _
      · exact le_trans (min_le_left _ _) hi
    · intro hnc hbig
      apply h3
      rw [hcap, if_neg hnc]
      exact lt_min hbig (lt_of_lt_of_le hbig hl)
  constructor
  · intro hl
    have hret : (acomp_walk_next_src preemptible next walk).2 =
        int_of_uint (min walk.slen (walk_span_max preemptible walk)) := by
      simp only [acomp_walk_next_src, hl, if_true]
    rw [hret]
    exact hkey _ hs
  · intro hl
    have hret : (acomp_walk_next_dst preemptible next walk).2 =
        int_of_uint (min walk.dlen (walk_span_max preemptible walk)) := by
      simp only [acomp_walk_next_dst, hl, if_true]
    rw [hret]
    exact hkey _ hd

/-- C29, witness: a flat view of 10000 source bytes without the cap. -/
theorem flat_span_in_range_witness :
    (flat_view 10000 100 false).slen ≤ UINT_MAX ∧ (flat_view 10000 100 false).dlen ≤ UINT_MAX ∧
    0 ≤ (acomp_walk_next_src true whole_run (flat_view 10000 100 false)).2 ∧
    (acomp_walk_next_src true whole_run (flat_view 10000 100 false)).2 ≤
      ((flat_view 10000 100 false).slen : Int) :=
  ⟨by decide, by decide,
    ((flat_span_in_range true whole_run (flat_view 10000 100 false) (by decide) (by decide)).1
      (by decide)).1 (Or.inr (by decide))⟩

/-! ### Walking a flat buffer to its end -/

theorem uint_sub_of_le (a b : Nat) (hb : b ≤ a) (ha : a ≤ UINT_MAX) : uint_sub a b = a - b := by
  unfold UINT_MAX at ha
  unfold uint_sub
  have h1 : a % 2 ^ 32 = a := Nat.mod_eq_of_lt (by omega)
  have h2 : b % 2 ^ 32 = b := Nat.mod_eq_of_lt (by omega)
  rw [h1, h2]
  omega

theorem uint_of_int_natCast (n : Nat) (h : n ≤ UINT_MAX) : uint_of_int (n : Int) = n := by
  unfold UINT_MAX at h
  unfold uint_of_int
  omega

theorem span_rounds_zero (cap : Nat) (hc : 0 < cap) : span_rounds 0 cap = 0 := by
  unfold span_rounds
  rw [Nat.zero_add]
  exact Nat.div_eq_of_lt (by omega)

theorem span_rounds_step (len cap : Nat) (hc : 0 < cap) (hl : 0 < len) :
    span_rounds len cap = span_rounds (len - min len cap) cap + 1 := by
  unfold span_rounds
  by_cases h : len ≤ cap
  · have e1 : len - min len cap = 0 := by
      rw [min_eq_left h]
      omega
    have e2 : (0 + cap - 1) / cap = 0 := Nat.div_eq_of_lt (by omega)
    have e3 : (len + cap - 1) / cap = 1 := by
      have h1 : len + cap - 1 = (len - 1) + cap := by omega
      rw [h1, Nat.add_div_right _ hc, Nat.div_eq_of_lt (by omega)]
    rw [e1, e2, e3]
  · have h2 : cap ≤ len := by omega
    rw [min_eq_right h2]
    have h1 : len + cap - 1 = (len - cap + cap - 1) + cap := by omega
    rw [h1, Nat.add_div_right _ hc]

/-- One round covers a buffer that fits the bound. -/
theorem span_rounds_one (len cap : Nat) (hl : 0 < len) (h : len ≤ cap) : span_rounds len cap = 1 := by
  rw [span_rounds_step len cap (by omega) hl, min_eq_left h, Nat.sub_self,
    span_rounds_zero cap (by omega)]

theorem walk_span_max_flags (preemptible : Bool) (w1 w2 : AcompWalk) (h : w1.flags = w2.flags) :
    walk_span_max preemptible w1 = walk_span_max preemptible w2 := by
  simp only [walk_span_max, h]

theorem walk_span_max_uncapped (preemptible : Bool) (walk : AcompWalk)
    (h : preemptible = true ∨ flagSet walk.flags ACOMP_WALK_SLEEP = false) :
    walk_span_max preemptible walk = UINT_MAX := by
  unfold walk_span_max
  rcases h with h | h <;> simp [h]

/-- What `acomp_walk_done_src` does to the lengths and the flags. -/
theorem done_src_fields (ops : WalkOps) (walk : AcompWalk) (used : Int) :
    (acomp_walk_done_src ops walk used).1.slen = uint_sub walk.slen (uint_of_int used) ∧
    (acomp_walk_done_src ops walk used).1.dlen = walk.dlen ∧
    (acomp_walk_done_src ops walk used).1.flags = walk.flags ∧
    (acomp_walk_done_src ops walk used).1.out = walk.out := by
  unfold acomp_walk_done_src
  by_cases h : flagSet walk.flags ACOMP_WALK_SRC_LINEAR = true <;> simp [h]

/-- What `acomp_walk_done_dst` does to the lengths and the flags. -/
theorem done_dst_fields (ops : WalkOps) (walk : AcompWalk) (used : Int) :
    (acomp_walk_done_dst ops walk used).1.dlen = uint_sub walk.dlen (uint_of_int used) ∧
    (acomp_walk_done_dst ops walk used).1.slen = walk.slen ∧
    (acomp_walk_done_dst ops walk used).1.flags = walk.flags ∧
    (acomp_walk_done_dst ops walk used).1.in_ = walk.in_ := by
  unfold acomp_walk_done_dst
  by_cases h : flagSet walk.flags ACOMP_WALK_DST_LINEAR = true <;> simp [h]

/-- The span of a flat source of at most `INT_MAX` bytes. -/
theorem next_src_flat (preemptible : Bool) (ops : WalkOps) (walk : AcompWalk)
    (hl : flagSet walk.flags ACOMP_WALK_SRC_LINEAR = true) (hs : walk.slen ≤ INT_MAX) :
    (acomp_walk_next_src preemptible ops.next walk).2 =
      ((min walk.slen (walk_span_max preemptible walk) : Nat) : Int) ∧
    (acomp_walk_next_src preemptible ops.next walk).1.slen = walk.slen ∧
    (acomp_walk_next_src preemptible ops.next walk).1.dlen = walk.dlen ∧
    (acomp_walk_next_src preemptible ops.next walk).1.flags = walk.flags := by
  simp only [acomp_walk_next_src, hl, if_true]
  exact ⟨int_of_uint_small _ (le_trans (min_le_left _ _) hs), trivial, trivial, trivial⟩

/-- The span of a flat destination of at most `INT_MAX` bytes. -/
theorem next_dst_flat (preemptible : Bool) (ops : WalkOps) (walk : AcompWalk)
    (hl : flagSet walk.flags ACOMP_WALK_DST_LINEAR = true) (hs : walk.dlen ≤ INT_MAX) :
    (acomp_walk_next_dst preemptible ops.next walk).2 =
      ((min walk.dlen (walk_span_max preemptible walk) : Nat) : Int) ∧
    (acomp_walk_next_dst preemptible ops.next walk).1.dlen = walk.dlen ∧
    (acomp_walk_next_dst preemptible ops.next walk).1.slen = walk.slen ∧
    (acomp_walk_next_dst preemptible ops.next walk).1.flags = walk.flags := by
  simp only [acomp_walk_next_dst, hl, if_true]
  exact ⟨int_of_uint_small _ (le_trans (min_le_left _ _) hs), trivial, trivial, trivial⟩

theorem int_max_le_uint_max : INT_MAX ≤ UINT_MAX := by
  unfold INT_MAX UINT_MAX
  omega

/-- One round over a flat source: the span taken, and the view after it was
consumed. -/
theorem src_round (preemptible : Bool) (ops : WalkOps) (walk : AcompWalk)
    (hl : flagSet walk.flags ACOMP_WALK_SRC_LINEAR = true) (hs : walk.slen ≤ INT_MAX) :
    (acomp_walk_next_src preemptible ops.next walk).2 =
      ((min walk.slen (walk_span_max preemptible walk) : Nat) : Int) ∧
    (acomp_walk_done_src ops (acomp_walk_next_src preemptible ops.next walk).1
      (acomp_walk_next_src preemptible ops.next walk).2).1.slen =
      walk.slen - min walk.slen (walk_span_max preemptible walk) ∧
    (acomp_walk_done_src ops (acomp_walk_next_src preemptible ops.next walk).1
      (acomp_walk_next_src preemptible ops.next walk).2).1.dlen = walk.dlen ∧
    (acomp_walk_done_src ops (acomp_walk_next_src preemptible ops.next walk).1
      (acomp_walk_next_src preemptible ops.next walk).2).1.flags = walk.flags := by
  obtain ⟨h1, h2, h3, h4⟩ := next_src_flat preemptible ops walk hl hs
  obtain ⟨g1, g2, g3, _⟩ := done_src_fields ops (acomp_walk_next_src preemptible ops.next walk).1
    (acomp_walk_next_src preemptible ops.next walk).2
  have hu : walk.slen ≤ UINT_MAX := le_trans hs int_max_le_uint_max
  refine ⟨h1, ?_, g2.trans h3, g3.trans h4⟩
  rw [g1, h1, h2, uint_of_int_natCast _ (le_trans (min_le_left _ _) hu),
    uint_sub_of_le _ _ (min_le_left _ _) hu]

/-- One round over a flat destination. -/
theorem dst_round (preemptible : Bool) (ops : WalkOps) (walk : AcompWalk)
    (hl : flagSet walk.flags ACOMP_WALK_DST_LINEAR = true) (hs : walk.dlen ≤ INT_MAX) :
    (acomp_walk_next_dst preemptible ops.next walk).2 =
      ((min walk.dlen (walk_span_max preemptible walk) : Nat) : Int) ∧
    (acomp_walk_done_dst ops (acomp_walk_next_dst preemptible ops.next walk).1
      (acomp_walk_next_dst preemptible ops.next walk).2).1.dlen =
      walk.dlen - min walk.dlen (walk_span_max preemptible walk) ∧
    (acomp_walk_done_dst ops (acomp_walk_next_dst preemptible ops.next walk).1
      (acomp_walk_next_dst preemptible ops.next walk).2).1.slen = walk.slen ∧
    (acomp_walk_done_dst ops (acomp_walk_next_dst preemptible ops.next walk).1
      (acomp_walk_next_dst preemptible ops.next walk).2).1.flags = walk.flags := by
  obtain ⟨h1, h2, h3, h4⟩ := next_dst_flat preemptible ops walk hl hs
  obtain ⟨g1, g2, g3, _⟩ := done_dst_fields ops (acomp_walk_next_dst preemptible ops.next walk).1
    (acomp_walk_next_dst preemptible ops.next walk).2
  have hu : walk.dlen ≤ UINT_MAX := le_trans hs int_max_le_uint_max
  refine ⟨h1, ?_, g2.trans h3, g3.trans h4⟩
  rw [g1, h1, h2, uint_of_int_natCast _ (le_trans (min_le_left _ _) hu),
    uint_sub_of_le _ _ (min_le_left _ _) hu]

/-- The walk over a flat source of at most `INT_MAX` bytes ends when the
fuel exceeds the number of rounds, and its spans cover the source. -/
theorem walk_src_flat (preemptible : Bool) (ops : WalkOps) :
    ∀ (fuel : Nat) (walk : AcompWalk), flagSet walk.flags ACOMP_WALK_SRC_LINEAR = true →
      walk.slen ≤ INT_MAX → span_rounds walk.slen (walk_span_max preemptible walk) < fuel →
      ∃ spans last, walk_src preemptible ops fuel walk = some (spans, last) ∧
        spans.length = span_rounds walk.slen (walk_span_max preemptible walk) ∧
        spans.sum = (walk.slen : Int) ∧
        (∀ s ∈ spans, 1 ≤ s ∧ s ≤ (walk_span_max preemptible walk : Int)) ∧
        last.slen = 0 ∧ last.dlen = walk.dlen ∧ last.flags = walk.flags := by
  intro fuel
  induction fuel with
  | zero =>
    intro walk _ _ h
    omega
  | succ fuel ih =>
    intro walk hl hs hf
    obtain ⟨hcpos, hcle⟩ := walk_span_max_pos preemptible walk
    obtain ⟨hn, hslen, hdlen, hflags⟩ := src_round preemptible ops walk hl hs
    obtain ⟨_, k2, k3, k4⟩ := next_src_flat preemptible ops walk hl hs
    by_cases h0 : walk.slen = 0
    · have hz : (acomp_walk_next_src preemptible ops.next walk).2 = 0 := by
        rw [hn, h0]
        simp
      refine ⟨[], (acomp_walk_next_src preemptible ops.next walk).1, ?_, ?_, ?_, ?_, ?_, k3, k4⟩
      · simp only [walk_src, hz, if_true]
      · rw [h0, span_rounds_zero _ hcpos]
        rfl
      · rw [h0]
        rfl
      · intro s hs
        cases hs
      · rw [k2, h0]
    · have hpos : 0 < walk.slen := Nat.pos_of_ne_zero h0
      have hmpos : 0 < min walk.slen (walk_span_max preemptible walk) := lt_min hpos hcpos
      have hnz : (acomp_walk_next_src preemptible ops.next walk).2 ≠ 0 := by
        rw [hn]
        exact_mod_cast (Nat.pos_iff_ne_zero.mp hmpos)
      have hstep := span_rounds_step walk.slen (walk_span_max preemptible walk) hcpos hpos
      have hcap := walk_span_max_flags preemptible _ _ hflags
      obtain ⟨spans, last, hrun, hlen, hsum, hall, e1, e2, e3⟩ :=
        ih (acomp_walk_done_src ops (acomp_walk_next_src preemptible ops.next walk).1
          (acomp_walk_next_src preemptible ops.next walk).2).1
          (by rw [hflags]; exact hl)
          (by rw [hslen]; exact le_trans (Nat.sub_le _ _) hs)
          (by rw [hslen, hcap]; omega)
      refine ⟨(acomp_walk_next_src preemptible ops.next walk).2 :: spans, last, ?_, ?_, ?_, ?_,
        e1, e2.trans hdlen, e3.trans hflags⟩
      · simp only [walk_src, hnz, if_false, hrun]
      · rw [List.length_cons, hlen, hslen, hcap, hstep]
      · rw [List.sum_cons, hsum, hslen, hn]
        have := min_le_left walk.slen (walk_span_max preemptible walk)
        omega
      · intro s hmem
        rcases List.mem_cons.mp hmem with h | h
        · rw [h, hn]
          constructor
          · exact_mod_cast hmpos
          · exact_mod_cast (min_le_right _ _)
        · rw [← hcap]
          exact hall s h

/-- The walk over a flat destination of at most `INT_MAX` bytes ends when
the fuel exceeds the number of rounds, and its spans cover the destination. -/
theorem walk_dst_flat (preemptible : Bool) (ops : WalkOps) :
    ∀ (fuel : Nat) (walk : AcompWalk), flagSet walk.flags ACOMP_WALK_DST_LINEAR = true →
      walk.dlen ≤ INT_MAX → span_rounds walk.dlen (walk_span_max preemptible walk) < fuel →
      ∃ spans last, walk_dst preemptible ops fuel walk = some (spans, last) ∧
        spans.length = span_rounds walk.dlen (walk_span_max preemptible walk) ∧
        spans.sum = (walk.dlen : Int) ∧
        (∀ s ∈ spans, 1 ≤ s ∧ s ≤ (walk_span_max preemptible walk : Int)) ∧
        last.dlen = 0 ∧ last.slen = walk.slen ∧ last.flags = walk.flags := by
  intro fuel
  induction fuel with
  | zero =>
    intro walk _ _ h
    omega
  | succ fuel ih =>
    intro walk hl hs hf
    obtain ⟨hcpos, hcle⟩ := walk_span_max_pos preemptible walk
    obtain ⟨hn, hslen, hdlen, hflags⟩ := dst_round preemptible ops walk hl hs
    obtain ⟨_, k2, k3, k4⟩ := next_dst_flat preemptible ops walk hl hs
    by_cases h0 : walk.dlen = 0
    · have hz : (acomp_walk_next_dst preemptible ops.next walk).2 = 0 := by
        rw [hn, h0]
        simp
      refine ⟨[], (acomp_walk_next_dst preemptible ops.next walk).1, ?_, ?_, ?_, ?_, ?_, k3, k4⟩
      · simp only [walk_dst, hz, if_true]
      · rw [h0, span_rounds_zero _ hcpos]
        rfl
      · rw [h0]
        rfl
      · intro s hs
        cases hs
      · rw [k2, h0]
    · have hpos : 0 < walk.dlen := Nat.pos_of_ne_zero h0
      have hmpos : 0 < min walk.dlen (walk_span_max preemptible walk) := lt_min hpos hcpos
      have hnz : (acomp_walk_next_dst preemptible ops.next walk).2 ≠ 0 := by
        rw [hn]
        exact_mod_cast (Nat.pos_iff_ne_zero.mp hmpos)
      have hstep := span_rounds_step walk.dlen (walk_span_max preemptible walk) hcpos hpos
      have hcap := walk_span_max_flags preemptible _ _ hflags
      obtain ⟨spans, last, hrun, hlen, hsum, hall, e1, e2, e3⟩ :=
        ih (acomp_walk_done_dst ops (acomp_walk_next_dst preemptible ops.next walk).1
          (acomp_walk_next_dst preemptible ops.next walk).2).1
          (by rw [hflags]; exact hl)
          (by rw [hslen]; exact le_trans (Nat.sub_le _ _) hs)
          (by rw [hslen, hcap]; omega)
      refine ⟨(acomp_walk_next_dst preemptible ops.next walk).2 :: spans, last, ?_, ?_, ?_, ?_,
        e1, e2.trans hdlen, e3.trans hflags⟩
      · simp only [walk_dst, hnz, if_false, hrun]
      · rw [List.length_cons, hlen, hslen, hcap, hstep]
      · rw [List.sum_cons, hsum, hslen, hn]
        have := min_le_left walk.dlen (walk_span_max preemptible walk)
        omega
      · intro s hmem
        rcases List.mem_cons.mp hmem with h | h
        · rw [h, hn]
          constructor
          · exact_mod_cast hmpos
          · exact_mod_cast (min_le_right _ _)
        · rw [← hcap]
          exact hall s h

/-- Consuming `used` bytes of a source that has them left lowers the
remaining source length by exactly `used` and keeps the destination length. -/
theorem done_src_exact (ops : WalkOps) (walk : AcompWalk) (used : Int)
    (hs : walk.slen ≤ UINT_MAX) (h0 : 0 ≤ used) (h1 : used ≤ (walk.slen : Int)) :
    ((acomp_walk_done_src ops walk used).1.slen : Int) = (walk.slen : Int) - used ∧
    (acomp_walk_done_src ops walk used).1.dlen = walk.dlen := by
  obtain ⟨g1, g2, _, _⟩ := done_src_fields ops walk used
  refine ⟨?_, g2⟩
  obtain ⟨n, rfl⟩ := Int.eq_ofNat_of_zero_le h0
  have hn : n ≤ walk.slen := by exact_mod_cast h1
  rw [g1, uint_of_int_natCast _ (le_trans hn hs), uint_sub_of_le _ _ hn hs]
  omega

/-- Consuming `used` bytes of a destination that has them left lowers the
remaining destination length by exactly `used` and keeps the source length. -/
theorem done_dst_exact (ops : WalkOps) (walk : AcompWalk) (used : Int)
    (hs : walk.dlen ≤ UINT_MAX) (h0 : 0 ≤ used) (h1 : used ≤ (walk.dlen : Int)) :
    ((acomp_walk_done_dst ops walk used).1.dlen : Int) = (walk.dlen : Int) - used ∧
    (acomp_walk_done_dst ops walk used).1.slen = walk.slen := by
  obtain ⟨g1, g2, _, _⟩ := done_dst_fields ops walk used
  refine ⟨?_, g2⟩
  obtain ⟨n, rfl⟩ := Int.eq_ofNat_of_zero_le h0
  have hn : n ≤ walk.dlen := by exact_mod_cast h1
  rw [g1, uint_of_int_natCast _ (le_trans hn hs), uint_sub_of_le _ _ hn hs]
  omega

/-- C26. Walking a flat buffer terminates and covers it exactly. For a view
over a flat source with `0 < slen ≤ INT_MAX`, the loop that takes a span with
`acomp_walk_next_src` and consumes it with `acomp_walk_done_src` until the
span is 0 ends, given more fuel than `slen / cap` rounded up, after exactly
that many rounds (one when the span is not capped); every span is between 1
and `cap`, the spans sum to `slen`, and the view ends with no source left and
the destination length it had.  In each round the span taken does not exceed
what remains, and consuming `n` bytes that remain lowers the remaining source
length by exactly `n` and keeps the destination length.  The same holds for
the destination with `acomp_walk_next_dst` and `acomp_walk_done_dst`. -/
theorem flat_walk_terminates_and_covers (preemptible : Bool) (ops : WalkOps) (walk : AcompWalk)
    (fuel : Nat) :
    (flagSet walk.flags ACOMP_WALK_SRC_LINEAR = true → 0 < walk.slen → walk.slen ≤ INT_MAX →
      span_rounds walk.slen (walk_span_max preemptible walk) < fuel →
      (∃ spans last, walk_src preemptible ops fuel walk = some (spans, last) ∧
        spans.length = span_rounds walk.slen (walk_span_max preemptible walk) ∧
        ((preemptible = true ∨ flagSet walk.flags ACOMP_WALK_SLEEP = false) →
          spans.length = 1) ∧
        (∀ s ∈ spans, 1 ≤ s ∧ s ≤ (walk_span_max preemptible walk : Int)) ∧
        spans.sum = (walk.slen : Int) ∧ last.slen = 0 ∧ last.dlen = walk.dlen) ∧
      0 ≤ (acomp_walk_next_src preemptible ops.next walk).2 ∧
      (acomp_walk_next_src preemptible ops.next walk).2 ≤ (walk.slen : Int) ∧
      ((acomp_walk_done_src ops (acomp_walk_next_src preemptible ops.next walk).1
        (acomp_walk_next_src preemptible ops.next walk).2).1.slen : Int) =
        (walk.slen : Int) - (acomp_walk_next_src preemptible ops.next walk).2) ∧
    (flagSet walk.flags ACOMP_WALK_DST_LINEAR = true → 0 < walk.dlen → walk.dlen ≤ INT_MAX →
      span_rounds walk.dlen (walk_span_max preemptible walk) < fuel →
      (∃ spans last, walk_dst preemptible ops fuel walk = some (spans, last) ∧
        spans.length = span_rounds walk.dlen (walk_span_max preemptible walk) ∧
        ((preemptible = true ∨ flagSet walk.flags ACOMP_WALK_SLEEP = false) →
          spans.length = 1) ∧
        (∀ s ∈ spans, 1 ≤ s ∧ s ≤ (walk_span_max preemptible walk : Int)) ∧
        spans.sum = (walk.dlen : Int) ∧ last.dlen = 0 ∧ last.slen = walk.slen) ∧
      0 ≤ (acomp_walk_next_dst preemptible ops.next walk).2 ∧
      (acomp_walk_next_dst preemptible ops.next walk).2 ≤ (walk.dlen : Int) ∧
      ((acomp_walk_done_dst ops (acomp_walk_next_dst preemptible ops.next walk).1
        (acomp_walk_next_dst preemptible ops.next walk).2).1.dlen : Int) =
        (walk.dlen : Int) - (acomp_walk_next_dst preemptible ops.next walk).2) ∧
    (∀ (w : AcompWalk) (n : Int), 0 ≤ n →
      (w.slen ≤ UINT_MAX → n ≤ (w.slen : Int) →
        ((acomp_walk_done_src ops w n).1.slen : Int) = (w.slen : Int) - n ∧
        (acomp_walk_done_src ops w n).1.dlen = w.dlen) ∧
      (w.dlen ≤ UINT_MAX → n ≤ (w.dlen : Int) →
        ((acomp_walk_done_dst ops w n).1.dlen : Int) = (w.dlen : Int) - n ∧
        (acomp_walk_done_dst ops w n).1.slen = w.slen)) := by
  refine ⟨?_, ?_, ?_⟩
  · intro hl hpos hs hf
    obtain ⟨spans, last, hrun, hlen, hsum, hall, e1, e2, _⟩ :=
      walk_src_flat preemptible ops fuel walk hl hs hf
    obtain ⟨hn, hslen, _, _⟩ := src_round preemptible ops walk hl hs
    have hmin := min_le_left walk.slen (walk_span_max preemptible walk)
    refine ⟨⟨spans, last, hrun, hlen, ?_, hall, hsum, e1, e2⟩, ?_, ?_, ?_⟩
    · intro hun
      rw [hlen, walk_span_max_uncapped preemptible walk hun]
      exact span_rounds_one _ _ hpos (le_trans hs int_max_le_uint_max)
    · rw [hn]
      exact Int.ofNat_nonneg _
    · rw [hn]
      exact_mod_cast hmin
    · rw [hslen, hn]
      omega
  · intro hl hpos hs hf
    obtain ⟨spans, last, hrun, hlen, hsum, hall, e1, e2, _⟩ :=
      walk_dst_flat preemptible ops fuel walk hl hs hf
    obtain ⟨hn, hslen, _, _⟩ := dst_round preemptible ops walk hl hs
    have hmin := min_le_left walk.dlen (walk_span_max preemptible walk)
    refine ⟨⟨spans, last, hrun, hlen, ?_, hall, hsum, e1, e2⟩, ?_, ?_, ?_⟩
    · intro hun
      rw [hlen, walk_span_max_uncapped preemptible walk hun]
      exact span_rounds_one _ _ hpos (le_trans hs int_max_le_uint_max)
    · rw [hn]
      exact Int.ofNat_nonneg _
    · rw [hn]
      exact_mod_cast hmin
    · rw [hslen, hn]
      omega
  · intro w n h0
    exact ⟨fun hs h1 => done_src_exact ops w n hs h0 h1,
      fun hs h1 => done_dst_exact ops w n hs h0 h1⟩

/-- C26, witness: a flat source of 10000 bytes under the page cap takes three
rounds. -/
theorem flat_walk_terminates_and_covers_witness :
    flagSet (flat_view 10000 100 true).flags ACOMP_WALK_SRC_LINEAR = true ∧
    0 < (flat_view 10000 100 true).slen ∧ (flat_view 10000 100 true).slen ≤ INT_MAX ∧
    span_rounds (flat_view 10000 100 true).slen
      (walk_span_max false (flat_view 10000 100 true)) < 4 ∧
    ∃ spans last, walk_src false flat_ops 4 (flat_view 10000 100 true) = some (spans, last) ∧
      spans.length = span_rounds (flat_view 10000 100 true).slen
        (walk_span_max false (flat_view 10000 100 true)) ∧
      spans.sum = ((flat_view 10000 100 true).slen : Int) ∧ last.slen = 0 :=
  ⟨by decide, by decide, by decide, by decide,
    match ((flat_walk_terminates_and_covers false flat_ops (flat_view 10000 100 true) 4).1
      (by decide) (by decide) (by decide) (by decide)).1 with
    | ⟨spans, last, h1, h2, _, _, h5, h6, _⟩ => ⟨spans, last, h1, h2, h5, h6⟩⟩

/-! ### The invariant of the stream pool -/

/-- What `crypto_acomp_lock_stream_bh` does on an allocated pool: it returns,
the slot it returns is locked, and no context changes. -/
theorem lock_stream_slots (E : PoolEnv) (w : PoolWorld) (st : Nat → CryptoAcompStream)
    (hs : w.s.streams = some st) (cpu : Nat) :
    ∃ w1 st1, crypto_acomp_lock_stream_bh E w cpu =
        some (w1, if (st cpu).ctx.isSome then cpu else cpumask_first E.nr_cpu_ids E.cpu_possible) ∧
      w1.s.streams = some st1 ∧ (∀ c, (st1 c).ctx = (st c).ctx) ∧
      (st1 (if (st cpu).ctx.isSome then cpu
        else cpumask_first E.nr_cpu_ids E.cpu_possible)).lock = true := by
  by_cases hc : (st cpu).ctx.isSome = true
  · refine ⟨spin_lock_bh w cpu, Function.update st cpu (spin_lock (st cpu)), ?_, ?_, ?_, ?_⟩
    · simp [crypto_acomp_lock_stream_bh, hs, hc]
    · simp [spin_lock_bh, PoolWorld.slot, hs]
    · intro c
      by_cases h : c = cpu
      · subst h
        simp [spin_lock]
      · simp [Function.update_noteq h]
    · rw [if_pos hc]
      simp [spin_lock]
  · have hc2 : (st cpu).ctx.isSome = false := by simpa using hc
    refine ⟨(schedule_work (cpumask_set_cpu cpu ((spin_lock_bh w cpu).slot cpu spin_unlock))).slot
      (cpumask_first E.nr_cpu_ids E.cpu_possible) spin_lock,
      Function.update (Function.update st cpu (spin_unlock (spin_lock (st cpu))))
      (cpumask_first E.nr_cpu_ids E.cpu_possible)
      (spin_lock (Function.update st cpu (spin_unlock (spin_lock (st cpu)))
        (cpumask_first E.nr_cpu_ids E.cpu_possible))), ?_, ?_, ?_, ?_⟩
    · simp only [crypto_acomp_lock_stream_bh, hs, hc2, Bool.false_eq_true, if_false]
    · simp [spin_lock_bh, PoolWorld.slot, hs, cpumask_set_cpu, schedule_work, PoolWorld.call]
    · intro c
      by_cases h1 : c = cpumask_first E.nr_cpu_ids E.cpu_possible
      · by_cases h2 : c = cpu
        · subst h2
          rw [← h1]
          simp [spin_lock, spin_unlock]
        · rw [← h1]
          simp [spin_lock, Function.update_noteq h2]
      · by_cases h2 : c = cpu
        · subst h2
          simp [Function.update_noteq h1, spin_lock, spin_unlock]
        · simp [Function.update_noteq h1, Function.update_noteq h2]
    · rw [if_neg hc]
      simp [spin_lock]

/-- One action on an allocated pool goes through, leaves the pool allocated
and keeps every context that is there. -/
theorem pool_step_keeps (E : PoolEnv) (w : PoolWorld) (st : Nat → CryptoAcompStream)
    (hs : w.s.streams = some st) (a : PoolAction) :
    ∃ w1 st1, pool_step E w a = some w1 ∧ w1.s.streams = some st1 ∧
      ∀ c h, (st c).ctx = some h → (st1 c).ctx = some h := by
  cases a with
  | lock cpu =>
    obtain ⟨w1, st1, h1, h2, h3, _⟩ := lock_stream_slots E w st hs cpu
    refine ⟨w1, st1, ?_, h2, ?_⟩
    · simp [pool_step, h1]
    · intro c h hc
      rw [h3, hc]
  | unlock cpu =>
    refine ⟨_, Function.update st cpu (spin_unlock (st cpu)), rfl, ?_, ?_⟩
    · simp [crypto_acomp_unlock_stream_bh, spin_unlock_bh, PoolWorld.slot, hs]
    · intro c h hc
      by_cases h1 : c = cpu
      · subst h1
        simpa [spin_unlock] using hc
      · simpa [Function.update_noteq h1] using hc
  | work =>
    obtain ⟨w1, st1, filled, rest, tail, h1, h2, h3, -, h5, -⟩ :=
      workfn_loop_spec E (List.range E.nr_cpu_ids) (List.nodup_range _) w st hs
    refine ⟨w1, st1, h1, h2, ?_⟩
    intro c h hc
    have hnot : c ∉ filled := by
      intro hmem
      have hin : c ∈ (List.range E.nr_cpu_ids).filter
          (fun c => w.s.stream_want c && (st c).ctx.isNone) := by
        rw [h3]
        exact List.mem_append_left _ hmem
      have := (List.mem_filter.mp hin).2
      simp [hc] at this
    rw [(h5 c hnot).1, hc]

/-- A sequence of actions on an allocated pool goes through, leaves the pool
allocated and keeps every context that is there. -/
theorem pool_run_keeps (E : PoolEnv) (acts : List PoolAction) :
    ∀ (w : PoolWorld) (st : Nat → CryptoAcompStream), w.s.streams = some st →
    ∃ w1 st1, pool_run E acts w = some w1 ∧ w1.s.streams = some st1 ∧
      ∀ c h, (st c).ctx = some h → (st1 c).ctx = some h := by
  induction acts with
  | nil =>
    intro w st hs
    exact ⟨w, st, rfl, hs, fun _ _ h => h⟩
  | cons a rest ih =>
    intro w st hs
    obtain ⟨w1, st1, h1, h2, h3⟩ := pool_step_keeps E w st hs a
    obtain ⟨w2, st2, g1, g2, g3⟩ := ih w1 st1 h2
    refine ⟨w2, st2, ?_, g2, fun c h hc => g3 c h (h3 c h hc)⟩
    simp only [pool_run, h1, g1]

/-- A fresh pool whose allocation returned 0, with an allocator whose errors
are not 0, is allocated and its first possible CPU holds a context. -/
theorem alloc_streams_ok (E : PoolEnv) (w : PoolWorld) (hn : w.s.streams = none)
    (herr : ∀ x e, E.alloc_ctx x = .error e → e ≠ 0)
    (hok : (crypto_acomp_alloc_streams E w).2 = 0) :
    ∃ st h, (crypto_acomp_alloc_streams E w).1.s.streams = some st ∧
      (st (cpumask_first E.nr_cpu_ids E.cpu_possible)).ctx = some h := by
  obtain ⟨hfail, hctx, hgood⟩ := alloc_streams_fresh E w hn
  by_cases hp : E.alloc_percpu w = true
  · cases hres : E.alloc_ctx (w.call (.alloc_percpu true)) with
    | error e =>
      rw [hctx e hp hres] at hok
      exact absurd hok (herr _ e hres)
    | handle h =>
      obtain ⟨st, h1, h2, _, _⟩ := hgood h hp hres
      exact ⟨st, h, by rw [h1], h2⟩
  · have hp2 : E.alloc_percpu w = false := by simpa using hp
    rw [hfail hp2] at hok
    simp [ENOMEM] at hok

/-- C25. The invariant of the stream pool. Take a fresh pool whose
`crypto_acomp_alloc_streams` returned 0 (the allocator's errors are not 0),
then any sequence of calls of `crypto_acomp_lock_stream_bh`, unlocks and runs
of `acomp_stream_workfn`, and then any further such sequence. Every call
returns; in the state in between, the slot of the first possible CPU has a
context; a context present in a slot in the state in between is the context
of that slot after the further sequence (never replaced, never cleared); and
`crypto_acomp_lock_stream_bh`, called on any CPU in the state in between,
returns a locked slot whose context is present, having changed no context. -/
theorem pool_invariant (E : PoolEnv) (w0 : PoolWorld) (hn : w0.s.streams = none)
    (herr : ∀ x e, E.alloc_ctx x = .error e → e ≠ 0)
    (hok : (crypto_acomp_alloc_streams E w0).2 = 0) (acts more : List PoolAction) :
    ∃ w1 w2, pool_run E acts (crypto_acomp_alloc_streams E w0).1 = some w1 ∧
      pool_run E more w1 = some w2 ∧
      w1.s.streams.isSome = true ∧ w2.s.streams.isSome = true ∧
      (w1.stream (cpumask_first E.nr_cpu_ids E.cpu_possible)).ctx.isSome = true ∧
      (∀ c h, (w1.stream c).ctx = some h → (w2.stream c).ctx = some h) ∧
      (∀ c, (w2.stream c).ctx ≠ (w1.stream c).ctx → (w1.stream c).ctx = none) ∧
      (∀ cpu, ∃ w3 c, crypto_acomp_lock_stream_bh E w1 cpu = some (w3, c) ∧
        (c = cpu ∨ c = cpumask_first E.nr_cpu_ids E.cpu_possible) ∧
        (w3.stream c).ctx.isSome = true ∧ (w3.stream c).lock = true ∧
        ∀ x, (w3.stream x).ctx = (w1.stream x).ctx) := by
  obtain ⟨st0, h0, hs0, hfirst0⟩ := alloc_streams_ok E w0 hn herr hok
  obtain ⟨w1, st1, hrun1, hs1, hkeep1⟩ := pool_run_keeps E acts _ st0 hs0
  obtain ⟨w2, st2, hrun2, hs2, hkeep2⟩ := pool_run_keeps E more w1 st1 hs1
  have e1 : ∀ c, w1.stream c = st1 c := stream_of_some hs1
  have e2 : ∀ c, w2.stream c = st2 c := stream_of_some hs2
  have hfirst1 := hkeep1 _ _ hfirst0
  refine ⟨w1, w2, hrun1, hrun2, by rw [hs1]; rfl, by rw [hs2]; rfl, ?_, ?_, ?_, ?_⟩
  · rw [e1, hfirst1]
    rfl
  · intro c h hc
    rw [e2]
    rw [e1] at hc
    exact hkeep2 c h hc
  · intro c hne
    rw [e1, e2] at hne
    rw [e1]
    cases hctx : (st1 c).ctx with
    | none => rfl
    | some h => exact absurd ((hkeep2 c h hctx).trans hctx.symm) hne
  · intro cpu
    obtain ⟨w3, st3, g1, g2, g3, g4⟩ := lock_stream_slots E w1 st1 hs1 cpu
    have e3 : ∀ c, w3.stream c = st3 c := stream_of_some g2
    refine ⟨w3, _, g1, ?_, ?_, ?_, ?_⟩
    · by_cases hc : (st1 cpu).ctx.isSome = true
      · left
        rw [if_pos hc]
      · right
        rw [if_neg hc]
    · rw [e3, g3]
      by_cases hc : (st1 cpu).ctx.isSome = true
      · rw [if_pos hc]
        exact hc
      · rw [if_neg hc, hfirst1]
        rfl
    · rw [e3]
      exact g4
    · intro x
      rw [e3, e1]
      exact g3 x

/-- C25, witness: four CPUs, a call on CPU 2 and a run of the fill task,
then an unlock and a call on CPU 3. -/
theorem pool_invariant_witness :
    empty_pool.s.streams = none ∧
    (∀ x e, four_units.alloc_ctx x = .error e → e ≠ 0) ∧
    (crypto_acomp_alloc_streams four_units empty_pool).2 = 0 ∧
    ∃ w1 w2, pool_run four_units [.lock 2, .work]
        (crypto_acomp_alloc_streams four_units empty_pool).1 = some w1 ∧
      pool_run four_units [.unlock 0, .lock 3] w1 = some w2 ∧
      (w1.stream (cpumask_first four_units.nr_cpu_ids four_units.cpu_possible)).ctx.isSome = true ∧
      (∀ c h, (w1.stream c).ctx = some h → (w2.stream c).ctx = some h) :=
  ⟨rfl, fun _ _ h => by simp [four_units] at h, by decide,
    match pool_invariant four_units empty_pool rfl (fun _ _ h => by simp [four_units] at h)
      (by decide) [.lock 2, .work] [.unlock 0, .lock 3] with
    | ⟨w1, w2, h1, h2, _, _, h5, h6, _⟩ => ⟨w1, w2, h1, h2, h5, h6⟩⟩

/-! ### Where the jobs of a chain are -/

theorem finishedJobs_terminal {l : List (ReqId × Int)} (h : ∀ p ∈ l, deferred p.2 = false) :
    finishedJobs l = l.map Prod.fst := by
  induction l with
  | nil => rfl
  | cons p l ih =>
    rw [finishedJobs_cons, h p (List.mem_cons_self _ _),
      ih (fun q hq => h q (List.mem_cons_of_mem _ hq))]
    rfl

theorem finishedJobs_waiting {pre : List (ReqId × Int)} {r : ReqId} {st : Int}
    (h : ∀ p ∈ pre, deferred p.2 = false) (hd : deferred st = true) :
    finishedJobs (pre ++ [(r, st)]) = pre.map Prod.fst := by
  have h1 := finishedJobs_terminal h
  unfold finishedJobs at h1 ⊢
  rw [List.filter_append, List.map_append, h1]
  simp [hd]

/-- Three lists that make up a list without duplicates share no entry. -/
theorem mem_exactly_one {α : Type} {a b c l : List α} (h : a ++ b ++ c = l) (hnd : l.Nodup)
    (q : α) (hq : q ∈ l) :
    (q ∈ a ∧ q ∉ b ∧ q ∉ c) ∨ (q ∉ a ∧ q ∈ b ∧ q ∉ c) ∨ (q ∉ a ∧ q ∉ b ∧ q ∈ c) := by
  subst h
  have h1 := List.nodup_append.mp hnd
  have h2 := List.nodup_append.mp h1.1
  have hab : ∀ x, x ∈ a → x ∈ b → False := fun x ha hb => h2.2.2 ha hb
  have hac : ∀ x, x ∈ a → x ∈ c → False := fun x ha hc =>
    h1.2.2 (List.mem_append_left _ ha) hc
  have hbc : ∀ x, x ∈ b → x ∈ c → False := fun x hb hc =>
    h1.2.2 (List.mem_append_right _ hb) hc
  rcases List.mem_append.mp hq with h | h
  · rcases List.mem_append.mp h with h | h
    · exact Or.inl ⟨h, fun hb => hab q h hb, fun hc => hac q h hc⟩
    · exact Or.inr (Or.inl ⟨fun ha => hab q ha h, h, fun hc => hbc q h hc⟩)
  · exact Or.inr (Or.inr ⟨fun ha => hac q ha h, fun hb => hbc q hb h, h⟩)

/-! ### The fallback call of a NONDMA job -/

/-- C24. The software fallback for NONDMA jobs. For a job `r` whose source
and destination are both NONDMA, `acomp_do_one_req` records no call of a
backend operation: its one call is the fallback, compress when the chain's
operation is the transform's `compress` and decompress otherwise, on an
on-stack request bound to the fallback transform that carries the job's
source, destination and lengths.  The fallback transform chains natively, so
the nested call takes the first branch of `acomp_do_req_chain` and is the one
call of the fallback's operation.  `acomp_do_one_req` returns the fallback's
status, stores the fallback's output length in the job, and leaves the job's
source, destination, source length and flags as they were: nothing is
projected. -/
theorem nondma_job_uses_fallback (B : Backend) (w : World) (s r : ReqId)
    (hsrc : flagSet (w.reqs r).flags CRYPTO_ACOMP_REQ_SRC_NONDMA = true)
    (hdst : flagSet (w.reqs r).flags CRYPTO_ACOMP_REQ_DST_NONDMA = true)
    (hnative : (w.tfms (w.tfms (w.reqs r).tfm).fb).req_chain = true) :
    ∃ fbreq : AcompReq,
      fbreq = nondma_fbreq (w.tfms (w.reqs r).tfm).fb ((w.modify s (set_cur r)).reqs r) ∧
      fbreq.tfm = (w.tfms (w.reqs r).tfm).fb ∧
      nested_direct (w.modify s (set_cur r)) fbreq = true ∧
      fbreq.src = (w.reqs r).src ∧ fbreq.dst = (w.reqs r).dst ∧
      fbreq.slen = (w.reqs r).slen ∧ fbreq.dlen = (w.reqs r).dlen ∧
      flagSet fbreq.flags CRYPTO_ACOMP_REQ_SRC_NONDMA = true ∧
      flagSet fbreq.flags CRYPTO_ACOMP_REQ_DST_NONDMA = true ∧
      newEvents w (acomp_do_one_req B w s r).1 =
        [.fallback (decide ((w.reqs s).chain.op = (w.tfms (w.reqs r).tfm).compress)) r fbreq
          (B.fb (decide ((w.reqs s).chain.op = (w.tfms (w.reqs r).tfm).compress)) fbreq
            (w.modify s (set_cur r))).err] ∧
      (∀ fn x seen e, Event.op fn x seen e ∉ newEvents w (acomp_do_one_req B w s r).1) ∧
      (acomp_do_one_req B w s r).2 =
        (B.fb (decide ((w.reqs s).chain.op = (w.tfms (w.reqs r).tfm).compress)) fbreq
          (w.modify s (set_cur r))).err ∧
      ((acomp_do_one_req B w s r).1.reqs r).dlen =
        (B.fb (decide ((w.reqs s).chain.op = (w.tfms (w.reqs r).tfm).compress)) fbreq
          (w.modify s (set_cur r))).dlen ∧
      ((acomp_do_one_req B w s r).1.reqs r).src = (w.reqs r).src ∧
      ((acomp_do_one_req B w s r).1.reqs r).dst = (w.reqs r).dst ∧
      ((acomp_do_one_req B w s r).1.reqs r).slen = (w.reqs r).slen ∧
      ((acomp_do_one_req B w s r).1.reqs r).flags = (w.reqs r).flags := by
  have hq : ∀ g : AcompReq → Nat, (∀ x q, g (set_cur x q) = g q) →
      g ((w.modify s (set_cur r)).reqs r) = g (w.reqs r) := fun g hg =>
    proj_modify g w s (set_cur r) (hg r) r
  have hqp : ∀ g : AcompReq → Ptr, (∀ x q, g (set_cur x q) = g q) →
      g ((w.modify s (set_cur r)).reqs r) = g (w.reqs r) := fun g hg =>
    proj_modify g w s (set_cur r) (hg r) r
  have hflags := hq AcompReq.flags (fun _ _ => rfl)
  have htfm := hq AcompReq.tfm (fun _ _ => rfl)
  have hop : ((w.modify s (set_cur r)).reqs s).chain.op = (w.reqs s).chain.op := by
    rw [modify_reqs_self]; rfl
  have hnd : acomp_request_isnondma ((w.modify s (set_cur r)).reqs r) = true := by
    rw [flagSet_src_nondma] at hsrc
    simp only [acomp_request_isnondma, hflags, flagSet_nondma, hsrc, Bool.true_or]
  have heq : acomp_do_one_req B w s r =
      acomp_do_nondma B (w.modify s (set_cur r)) s r := by
    simp only [acomp_do_one_req, hnd, if_true]
  have hnew : newEvents w (acomp_do_one_req B w s r).1 =
      [.fallback (decide ((w.reqs s).chain.op = (w.tfms (w.reqs r).tfm).compress)) r
        (nondma_fbreq (w.tfms (w.reqs r).tfm).fb ((w.modify s (set_cur r)).reqs r))
        (B.fb (decide ((w.reqs s).chain.op = (w.tfms (w.reqs r).tfm).compress))
          (nondma_fbreq (w.tfms (w.reqs r).tfm).fb ((w.modify s (set_cur r)).reqs r))
          (w.modify s (set_cur r))).err] := by
    apply newEvents_of_trace
    rw [heq]
    simp only [acomp_do_nondma, log_trace, modify_trace, modify_tfms, htfm, hop]
  have hkeep : ∀ (fb : TfmId) (q : AcompReq) (i : Nat),
      (q.flags &&& (CRYPTO_ACOMP_REQ_SRC_VIRT ||| CRYPTO_ACOMP_REQ_SRC_NONDMA |||
        CRYPTO_ACOMP_REQ_DST_VIRT ||| CRYPTO_ACOMP_REQ_DST_NONDMA)).testBit i = true →
      (nondma_fbreq fb q).flags.testBit i = true := by
    intro fb q i hi
    simp only [nondma_fbreq, setFlag, Nat.testBit_or, hi, Bool.or_true]
  have hdirect : nested_direct (w.modify s (set_cur r))
      (nondma_fbreq (w.tfms (w.reqs r).tfm).fb ((w.modify s (set_cur r)).reqs r)) = true := by
    have ht : (nondma_fbreq (w.tfms (w.reqs r).tfm).fb
        ((w.modify s (set_cur r)).reqs r)).tfm = (w.tfms (w.reqs r).tfm).fb := rfl
    unfold nested_direct
    rw [ht, modify_tfms, hnative]
    rfl
  refine ⟨_, rfl, rfl, hdirect, ?_, ?_, ?_, ?_, ?_, ?_, hnew, ?_, ?_, ?_, ?_, ?_, ?_, ?_⟩
  · exact hqp AcompReq.src (fun _ _ => rfl)
  · exact hqp AcompReq.dst (fun _ _ => rfl)
  · exact hq AcompReq.slen (fun _ _ => rfl)
  · exact hq AcompReq.dlen (fun _ _ => rfl)
  · rw [flagSet_src_nondma] at hsrc ⊢
    apply hkeep
    rw [Nat.testBit_and, hflags, hsrc]
    decide
  · rw [flagSet_dst_nondma] at hdst ⊢
    apply hkeep
    rw [Nat.testBit_and, hflags, hdst]
    decide
  · intro fn x seen e hmem
    rw [hnew] at hmem
    simp at hmem
  · rw [heq]
    simp only [acomp_do_nondma, modify_tfms, htfm, hop]
  · rw [heq]
    simp only [acomp_do_nondma, log_reqs, modify_tfms, htfm, hop]
    rw [modify_reqs_self]
    rfl
  · rw [heq]
    simp only [acomp_do_nondma, log_reqs]
    rw [modify_reqs_self]
    exact hqp AcompReq.src (fun _ _ => rfl)
  · rw [heq]
    simp only [acomp_do_nondma, log_reqs]
    rw [modify_reqs_self]
    exact hqp AcompReq.dst (fun _ _ => rfl)
  · rw [heq]
    simp only [acomp_do_nondma, log_reqs]
    rw [modify_reqs_self]
    exact hq AcompReq.slen (fun _ _ => rfl)
  · rw [heq]
    simp only [acomp_do_nondma, log_reqs]
    rw [modify_reqs_self]
    exact hq AcompReq.flags (fun _ _ => rfl)

/-- C24, witness: the start of a NONDMA job with flat buffers as job 0 of
its own chain state, with compress as the chain's operation, on a transform
whose fallback chains natively. -/
theorem nondma_job_uses_fallback_witness :
    flagSet ((reqchain_setup (with_fallback (memory_of [nondma_job])) 0 1).reqs 0).flags
      CRYPTO_ACOMP_REQ_SRC_NONDMA = true ∧
    flagSet ((reqchain_setup (with_fallback (memory_of [nondma_job])) 0 1).reqs 0).flags
      CRYPTO_ACOMP_REQ_DST_NONDMA = true ∧
    ((reqchain_setup (with_fallback (memory_of [nondma_job])) 0 1).tfms
      ((reqchain_setup (with_fallback (memory_of [nondma_job])) 0 1).tfms
        ((reqchain_setup (with_fallback (memory_of [nondma_job])) 0 1).reqs 0).tfm).fb).req_chain
      = true ∧
    (acomp_do_one_req (scripted_backend [] [] false)
      (reqchain_setup (with_fallback (memory_of [nondma_job])) 0 1) 0 0).2 = 0 ∧
    ((acomp_do_one_req (scripted_backend [] [] false)
      (reqchain_setup (with_fallback (memory_of [nondma_job])) 0 1) 0 0).1.reqs 0).dlen = 77 ∧
    ∃ fbreq : AcompReq, fbreq.tfm = 1 ∧ fbreq.slen = 100 ∧
      nested_direct ((reqchain_setup (with_fallback (memory_of [nondma_job])) 0 1).modify 0
        (set_cur 0)) fbreq = true ∧
      newEvents (reqchain_setup (with_fallback (memory_of [nondma_job])) 0 1)
        (acomp_do_one_req (scripted_backend [] [] false)
          (reqchain_setup (with_fallback (memory_of [nondma_job])) 0 1) 0 0).1 =
        [.fallback true 0 fbreq 0] :=
  ⟨by decide, by decide, by decide, by decide, by decide,
    match nondma_job_uses_fallback (scripted_backend [] [] false)
      (reqchain_setup (with_fallback (memory_of [nondma_job])) 0 1) 0 0 (by decide) (by decide)
      (by decide) with
    | ⟨fbreq, _, h2, h3, _, _, h6, _, _, _, h10, _⟩ => ⟨fbreq, h2, h6, h3, h10⟩⟩

/-! ### The events of a start -/

/-- The event `acomp_do_one_req` records for a job that is not NONDMA: the
call of the chain's operation on the projected job. -/
theorem do_one_req_dma_event (B : Backend) (w : World) (s r : ReqId)
    (h : acomp_request_isnondma ((w.modify s (set_cur r)).reqs r) = false) :
    ∃ fn e, (acomp_do_one_req B w s r).1.trace =
      w.trace ++ [.op fn r (acomp_virt_to_sg r ((w.modify s (set_cur r)).reqs r)) e] := by
  refine ⟨(((w.modify s (set_cur r)).modify r (acomp_virt_to_sg r)).reqs s).chain.op,
    (B.op (((w.modify s (set_cur r)).modify r (acomp_virt_to_sg r)).reqs s).chain.op r
      ((w.modify s (set_cur r)).modify r (acomp_virt_to_sg r))).err, ?_⟩
  simp only [acomp_do_one_req, h, Bool.false_eq_true, if_false, call_op, log_trace, modify_trace,
    modify_reqs_self]

/-- The event `acomp_do_one_req` records for a NONDMA job: the call of the
fallback on an on-stack request bound to the fallback transform. -/
theorem do_one_req_nondma_event (B : Backend) (w : World) (s r : ReqId)
    (h : acomp_request_isnondma ((w.modify s (set_cur r)).reqs r) = true) :
    ∃ c e, (acomp_do_one_req B w s r).1.trace =
      w.trace ++ [.fallback c r (nondma_fbreq
        (w.tfms ((w.modify s (set_cur r)).reqs r).tfm).fb
        ((w.modify s (set_cur r)).reqs r)) e] := by
  refine ⟨decide (((w.modify s (set_cur r)).reqs s).chain.op =
      (w.tfms ((w.modify s (set_cur r)).reqs r).tfm).compress),
    (B.fb (decide (((w.modify s (set_cur r)).reqs s).chain.op =
      (w.tfms ((w.modify s (set_cur r)).reqs r).tfm).compress))
      (nondma_fbreq (w.tfms ((w.modify s (set_cur r)).reqs r).tfm).fb
        ((w.modify s (set_cur r)).reqs r)) (w.modify s (set_cur r))).err, ?_⟩
  simp only [acomp_do_one_req, h, if_true, acomp_do_nondma, log_trace, modify_trace, modify_tfms]

/-- A fallback call recorded by `acomp_do_one_req` is on a request bound to
the fallback of a transform of the table. -/
theorem do_one_req_fallback_tfm (B : Backend) (w : World) (s r : ReqId) {ev : Event}
    (htr : (acomp_do_one_req B w s r).1.trace = w.trace ++ [ev])
    {c : Bool} {x : ReqId} {q : AcompReq} {e : Int} (hev : ev = .fallback c x q e) :
    ∃ t, q.tfm = (w.tfms t).fb := by
  by_cases h : acomp_request_isnondma ((w.modify s (set_cur r)).reqs r) = true
  · obtain ⟨c1, e1, h1⟩ := do_one_req_nondma_event B w s r h
    rw [h1] at htr
    have h2 := List.append_cancel_left htr
    simp only [List.cons.injEq, and_true] at h2
    rw [hev] at h2
    simp only [Event.fallback.injEq] at h2
    exact ⟨_, by rw [← h2.2.2.1]; rfl⟩
  · have h0 : acomp_request_isnondma ((w.modify s (set_cur r)).reqs r) = false := by
      simpa using h
    obtain ⟨fn, e1, h1⟩ := do_one_req_dma_event B w s r h0
    rw [h1] at htr
    have h2 := List.append_cancel_left htr
    simp only [List.cons.injEq, and_true] at h2
    rw [hev] at h2
    cases h2

/-- Every job the loop of `acomp_reqchain_finish` starts is a job of the
queue, handed to `acomp_do_one_req` with its flags masked and its completion
and context rebound, as it was otherwise when the loop was entered. -/
theorem loop_rebinds (B : Backend) (lead : ReqId) (mask : Nat) :
    ∀ (qs : List ReqId) (w : World) (err : Int), (lead :: qs).Nodup →
      ∀ ev ∈ newEvents w (reqchain_finish_loop B lead lead mask qs w err).1,
        ∃ r w0, r ∈ qs ∧ w0.tfms = w.tfms ∧
          w0.reqs r = rebind mask lead (w.reqs r) ∧
          (w0.reqs lead).chain.op = (w.reqs lead).chain.op ∧
          (acomp_do_one_req B w0 lead r).1.trace = w0.trace ++ [ev] ∧
          ev.started = some (r, (acomp_do_one_req B w0 lead r).2) := by
  intro qs
  induction qs with
  | nil =>
    intro w err _ ev hev
    simp [reqchain_finish_loop, newEvents] at hev
  | cons r rest ih =>
    intro w err hnd ev hev
    have hrl : r ≠ lead := by
      intro h; subst h; simp at hnd
    have hr_rest : r ∉ rest := by
      simp only [List.nodup_cons, List.mem_cons, not_or] at hnd
      exact hnd.2.1
    have hnd' : (lead :: rest).Nodup := by
      simp only [List.nodup_cons, List.mem_cons, not_or] at hnd ⊢
      exact ⟨hnd.1.2, hnd.2.2⟩
    have hl_rest : lead ∉ rest := (List.nodup_cons.mp hnd').1
    obtain ⟨ev0, htr0, hst0⟩ := do_one_req_trace B
      ((w.modify lead (list_del_init r)).modify r (rebind mask lead)) lead r
    have hw2r : (((w.modify lead (list_del_init r)).modify r (rebind mask lead)).reqs r) =
        rebind mask lead (w.reqs r) := by
      rw [modify_reqs_self, modify_reqs_other _ _ _ _ hrl]
    have hw2op : (((w.modify lead (list_del_init r)).modify r (rebind mask lead)).reqs
        lead).chain.op = (w.reqs lead).chain.op := by
      rw [modify_reqs_other _ _ _ _ (Ne.symm hrl), modify_reqs_self]
      rfl
    have hfirst : ∃ r1 w0, r1 ∈ r :: rest ∧ w0.tfms = w.tfms ∧
        w0.reqs r1 = rebind mask lead (w.reqs r1) ∧
        (w0.reqs lead).chain.op = (w.reqs lead).chain.op ∧
        (acomp_do_one_req B w0 lead r1).1.trace = w0.trace ++ [ev0] ∧
        ev0.started = some (r1, (acomp_do_one_req B w0 lead r1).2) :=
      ⟨r, (w.modify lead (list_del_init r)).modify r (rebind mask lead),
        List.mem_cons_self _ _, rfl, hw2r, hw2op, htr0, hst0⟩
    have hone : newEvents w (acomp_do_one_req B
        ((w.modify lead (list_del_init r)).modify r (rebind mask lead)) lead r).1 = [ev0] :=
      newEvents_of_trace (by rw [htr0]; rfl)
    rw [loop_cons] at hev
    by_cases h1 : (acomp_do_one_req B ((w.modify lead (list_del_init r)).modify r
        (rebind mask lead)) lead r).2 = -EINPROGRESS
    · rw [if_pos h1] at hev
      change ev ∈ newEvents w (acomp_do_one_req B ((w.modify lead (list_del_init r)).modify r
        (rebind mask lead)) lead r).1 at hev
      rw [hone, List.mem_singleton] at hev
      subst hev
      exact hfirst
    by_cases h2 : (acomp_do_one_req B ((w.modify lead (list_del_init r)).modify r
        (rebind mask lead)) lead r).2 = -EBUSY
    · rw [if_neg h1, if_pos h2] at hev
      change ev ∈ newEvents w (acomp_do_one_req B ((w.modify lead (list_del_init r)).modify r
        (rebind mask lead)) lead r).1 at hev
      rw [hone, List.mem_singleton] at hev
      subst hev
      exact hfirst
    · rw [if_neg h1, if_neg h2] at hev
      obtain ⟨evs, hevs⟩ := loop_trace_ext B lead lead mask rest
        ((acomp_reqchain_virt (acomp_do_one_req B
          ((w.modify lead (list_del_init r)).modify r (rebind mask lead)) lead r).1 lead
          (acomp_do_one_req B ((w.modify lead (list_del_init r)).modify r
            (rebind mask lead)) lead r).2).modify lead (list_add_tail r))
        (acomp_do_one_req B ((w.modify lead (list_del_init r)).modify r
          (rebind mask lead)) lead r).2
      have hah := ih ((acomp_reqchain_virt (acomp_do_one_req B
          ((w.modify lead (list_del_init r)).modify r (rebind mask lead)) lead r).1 lead
          (acomp_do_one_req B ((w.modify lead (list_del_init r)).modify r
            (rebind mask lead)) lead r).2).modify lead (list_add_tail r))
        (acomp_do_one_req B ((w.modify lead (list_del_init r)).modify r
          (rebind mask lead)) lead r).2 hnd'
      rw [newEvents_of_trace hevs] at hah
      have hw3t : ((acomp_reqchain_virt (acomp_do_one_req B
          ((w.modify lead (list_del_init r)).modify r (rebind mask lead)) lead r).1 lead
          (acomp_do_one_req B ((w.modify lead (list_del_init r)).modify r
            (rebind mask lead)) lead r).2).modify lead (list_add_tail r)).trace =
          w.trace ++ [ev0] := by
        rw [modify_trace, reqchain_virt_trace, htr0]
        rfl
      have hw3f : ((acomp_reqchain_virt (acomp_do_one_req B
          ((w.modify lead (list_del_init r)).modify r (rebind mask lead)) lead r).1 lead
          (acomp_do_one_req B ((w.modify lead (list_del_init r)).modify r
            (rebind mask lead)) lead r).2).modify lead (list_add_tail r)).tfms = w.tfms := by
        rw [modify_tfms, reqchain_virt_tfms, do_one_req_tfms]
        rfl
      have hw3op : (((acomp_reqchain_virt (acomp_do_one_req B
          ((w.modify lead (list_del_init r)).modify r (rebind mask lead)) lead r).1 lead
          (acomp_do_one_req B ((w.modify lead (list_del_init r)).modify r
            (rebind mask lead)) lead r).2).modify lead (list_add_tail r)).reqs lead).chain.op =
          (w.reqs lead).chain.op := by
        rw [modify_reqs_self]
        have h3 := ((steer_eq_iff _ _).1 (reqchain_virt_steer (acomp_do_one_req B
          ((w.modify lead (list_del_init r)).modify r (rebind mask lead)) lead r).1 lead
          (acomp_do_one_req B ((w.modify lead (list_del_init r)).modify r
            (rebind mask lead)) lead r).2 lead)).2.2.2.2.2.2.2.2
        have h4 := ((steer_eq_iff _ _).1 (do_one_req_steer B
          ((w.modify lead (list_del_init r)).modify r (rebind mask lead)) lead r
          lead)).2.2.2.2.2.2.2.2
        show ((acomp_reqchain_virt _ lead _).reqs lead).chain.op = _
        rw [h3, h4, hw2op]
      rw [newEvents_of_trace (by rw [hevs, hw3t, List.append_assoc] :
        _ = w.trace ++ ([ev0] ++ evs))] at hev
      rcases List.mem_append.mp hev with h0 | h1
      · rw [List.mem_singleton] at h0
        subst h0
        exact hfirst
      · obtain ⟨r1, w0, hr1, htf, hf, hop, ht, hs⟩ := hah ev h1
        have hr1r : r1 ≠ r := fun h => hr_rest (h ▸ hr1)
        have hr1l : r1 ≠ lead := fun h => hl_rest (h ▸ hr1)
        have hsame : ((acomp_reqchain_virt (acomp_do_one_req B
            ((w.modify lead (list_del_init r)).modify r (rebind mask lead)) lead r).1 lead
            (acomp_do_one_req B ((w.modify lead (list_del_init r)).modify r
              (rebind mask lead)) lead r).2).modify lead (list_add_tail r)).reqs r1 =
            w.reqs r1 := by
          rw [modify_reqs_other _ _ _ _ hr1l,
            reqchain_virt_other _ _ _ _ (by rw [do_one_req_cur]; exact hr1r),
            do_one_req_other B _ lead r r1 hr1r, modify_reqs_other _ _ _ _ hr1l,
            modify_reqs_other _ _ _ _ hr1r, modify_reqs_other _ _ _ _ hr1l]
        rw [hsame] at hf
        exact ⟨r1, w0, List.mem_cons_of_mem _ hr1, htf.trans hw3f, hf, hop.trans hw3op, ht, hs⟩

/-- Every job a call of `acomp_reqchain_finish` starts, on a chain that is
set up and whose current job is not on the queue, is a job of the queue,
handed to `acomp_do_one_req` with its flags masked and its completion and
context rebound, as it was otherwise when the call was made. -/
theorem finish_rebinds (B : Backend) (lead : ReqId) (c : Completion) (d : Ptr)
    (rest : List ReqId) (w : World) (err : Int) (mask : Nat)
    (hrun : Running lead c d rest w) (hcur : (w.reqs lead).chain.cur ∉ rest) :
    ∀ ev ∈ newEvents w (acomp_reqchain_finish B w lead err mask).1,
      ∃ r w0, r ∈ rest ∧ w0.tfms = w.tfms ∧
        w0.reqs r = rebind mask lead (w.reqs r) ∧
        (w0.reqs lead).chain.op = (w.reqs lead).chain.op ∧
        (acomp_do_one_req B w0 lead r).1.trace = w0.trace ++ [ev] ∧
        ev.started = some (r, (acomp_do_one_req B w0 lead r).2) := by
  obtain ⟨w2, hw2⟩ : ∃ w2, w2 = if (w.reqs lead).chain.cur ≠ lead then
      (acomp_reqchain_virt w lead err).modify lead (list_add_tail (w.reqs lead).chain.cur)
      else acomp_reqchain_virt w lead err := ⟨_, rfl⟩
  have hfe := finish_eq B w lead err mask hrun.data w2 hw2
  have w2_trace : w2.trace = w.trace := by
    rw [hw2]; split_ifs <;> rfl
  have w2_tfms : w2.tfms = w.tfms := by
    rw [hw2]; split_ifs <;> rfl
  have hv := (steer_eq_iff _ _).1 (reqchain_virt_steer w lead err lead)
  have w2_head : (w2.reqs lead).chain.head = rest := by
    rw [hw2, ← hrun.head]
    split_ifs with hc
    · rw [modify_reqs_self]
      exact hv.2.2.2.2.1
    · exact hv.2.2.2.2.1
  have w2_op : (w2.reqs lead).chain.op = (w.reqs lead).chain.op := by
    rw [hw2]
    split_ifs with hc
    · rw [modify_reqs_self]
      exact hv.2.2.2.2.2.2.2.2
    · exact hv.2.2.2.2.2.2.2.2
  have w2_other : ∀ r ∈ rest, w2.reqs r = w.reqs r := by
    intro r hr
    have hrl : r ≠ lead := fun h => (List.nodup_cons.mp hrun.nodup).1 (h ▸ hr)
    have hrc : r ≠ (w.reqs lead).chain.cur := fun h => hcur (h ▸ hr)
    rw [hw2]
    split_ifs with hc
    · rw [modify_reqs_other _ _ _ _ hrl, reqchain_virt_other _ _ _ _ hrc]
    · rw [reqchain_virt_other _ _ _ _ hrc]
  rw [w2_head] at hfe
  have hloop := loop_rebinds B lead mask rest w2 err hrun.nodup
  have hnew : newEvents w (acomp_reqchain_finish B w lead err mask).1 =
      newEvents w2 (reqchain_finish_loop B lead lead mask rest w2 err).1 := by
    have ht : (acomp_reqchain_finish B w lead err mask).1.trace =
        (reqchain_finish_loop B lead lead mask rest w2 err).1.trace := by
      rw [hfe]
      split_ifs
      · show (acomp_restore_req _ lead).trace = _
        unfold acomp_restore_req
        rw [modify_trace]
      · rfl
    unfold newEvents
    rw [ht, w2_trace]
  intro ev hev
  rw [hnew] at hev
  obtain ⟨r, w0, hr, htf, hf, hop, hrest⟩ := hloop ev hev
  rw [w2_other r hr] at hf
  exact ⟨r, w0, hr, htf.trans w2_tfms, hf, hop.trans w2_op, hrest⟩

/-- Every job a submit call on the slow path starts is the lead job or a
follow-on, handed to `acomp_do_one_req` in a memory with the transform table
of the call; a follow-on is handed over with its flags masked with all ones
and its completion and context rebound, as it was otherwise when the call
was made. -/
theorem submit_starts (B : Backend) (w : World) (lead : ReqId) (op : OpId)
    (hslow : ((w.tfms (w.reqs lead).tfm).req_chain ||
      (!acomp_request_chained (w.reqs lead) && acomp_request_issg (w.reqs lead))) = false)
    (hnd : (lead :: (w.reqs lead).list).Nodup) :
    ∀ ev ∈ newEvents w (acomp_do_req_chain B w lead op).1,
      ∃ r w0, r ∈ lead :: (w.reqs lead).list ∧ w0.tfms = w.tfms ∧
        (r ≠ lead → w0.reqs r = rebind (not32 0) lead (w.reqs r)) ∧
        (acomp_do_one_req B w0 lead r).1.trace = w0.trace ++ [ev] ∧
        ev.started = some (r, (acomp_do_one_req B w0 lead r).2) := by
  rw [do_req_chain_slow B w lead op hslow hnd]
  obtain ⟨hrun, _, _, _, htrace, htfms, _, hother⟩ := setup_spec w lead op hnd
  generalize reqchain_setup w lead op = w1 at hrun htrace htfms hother ⊢
  obtain ⟨ev0, htr, hev0⟩ := do_one_req_trace B w1 lead lead
  have hsteer := do_one_req_steer B w1 lead lead
  have hcur := do_one_req_cur B w1 lead lead
  have htf := do_one_req_tfms B w1 lead lead
  have hoth : ∀ x, x ≠ lead → (acomp_do_one_req B w1 lead lead).1.reqs x = w.reqs x := by
    intro x hx
    rw [do_one_req_other B w1 lead lead x hx, modify_reqs_other _ _ _ _ hx, hother x hx]
  have hfirst : ∃ r w0, r ∈ lead :: (w.reqs lead).list ∧ w0.tfms = w.tfms ∧
      (r ≠ lead → w0.reqs r = rebind (not32 0) lead (w.reqs r)) ∧
      (acomp_do_one_req B w0 lead r).1.trace = w0.trace ++ [ev0] ∧
      ev0.started = some (r, (acomp_do_one_req B w0 lead r).2) :=
    ⟨lead, w1, List.mem_cons_self _ _, htfms, fun h => absurd rfl h, htr, hev0⟩
  have htr1 : (acomp_do_one_req B w1 lead lead).1.trace = w.trace ++ [ev0] := by
    rw [htr, htrace]
  generalize hres : acomp_do_one_req B w1 lead lead = res at htr1 hsteer hcur htf hoth ⊢
  have hl := (steer_eq_iff _ _).1 (hsteer lead)
  have hrun1 : Running lead (w.reqs lead).complete (w.reqs lead).data (w.reqs lead).list
      res.1 := by
    constructor
    · rw [hl.2.1, hrun.data]
    · rw [hl.2.2.2.2.2.1, hrun.req0]
    · rw [hl.2.2.2.2.2.2.1, hrun.compl]
    · rw [hl.2.2.2.2.2.2.2.1, hrun.cdata]
    · rw [hl.2.2.2.2.1, hrun.head]
    · exact hnd
  have hcur1 : (res.1.reqs lead).chain.cur ∉ (w.reqs lead).list := by
    rw [hcur]
    exact (List.nodup_cons.mp hnd).1
  intro ev hev
  by_cases hdef : res.2 = -EBUSY ∨ res.2 = -EINPROGRESS
  · rw [if_pos hdef] at hev
    change ev ∈ newEvents w res.1 at hev
    rw [newEvents_of_trace htr1, List.mem_singleton] at hev
    subst hev
    exact hfirst
  · rw [if_neg hdef] at hev
    obtain ⟨evs, hF⟩ := finish_spec B lead (w.reqs lead).complete (w.reqs lead).data
      (w.reqs lead).list res.1 res.2 (not32 0) hrun1
    have hreb := finish_rebinds B lead (w.reqs lead).complete (w.reqs lead).data
      (w.reqs lead).list res.1 res.2 (not32 0) hrun1 hcur1
    rw [newEvents_of_trace hF.trace] at hreb
    rw [newEvents_of_trace (by rw [hF.trace, htr1, List.append_assoc] :
      _ = w.trace ++ ([ev0] ++ evs))] at hev
    rcases List.mem_append.mp hev with h0 | h1
    · rw [List.mem_singleton] at h0
      subst h0
      exact hfirst
    · obtain ⟨r, w0, hr, h2, h3, _, h5, h6⟩ := hreb ev h1
      have hrl : r ≠ lead := fun h => (List.nodup_cons.mp hnd).1 (h ▸ hr)
      refine ⟨r, w0, List.mem_cons_of_mem _ hr, ?_, fun _ => ?_, h5, h6⟩
      · rw [h2, htf, htfms]
      · rw [h3, hoth r hrl]

/-- With a transform table in which every fallback chains natively, each
fallback call of a submit call on the slow path is a nested call that takes
the first branch of `acomp_do_req_chain`. -/
theorem submit_fallbacks_direct (B : Backend) (w : World) (lead : ReqId) (op : OpId)
    (hslow : ((w.tfms (w.reqs lead).tfm).req_chain ||
      (!acomp_request_chained (w.reqs lead) && acomp_request_issg (w.reqs lead))) = false)
    (hnd : (lead :: (w.reqs lead).list).Nodup)
    (hnative : ∀ t, (w.tfms (w.tfms t).fb).req_chain = true) :
    ∀ c x q e, Event.fallback c x q e ∈ newEvents w (acomp_do_req_chain B w lead op).1 →
      nested_direct w q = true := by
  intro c x q e hmem
  obtain ⟨r, w0, _, htf, _, htr, _⟩ := submit_starts B w lead op hslow hnd _ hmem
  obtain ⟨t, ht⟩ := do_one_req_fallback_tfm B w0 lead r htr rfl
  unfold nested_direct
  rw [ht, htf, hnative t]
  rfl

/-- C5. On the slow path, against a backend whose every operation returns a
terminal status, for the jobs and for the on-stack requests of the software
fallback, and with fallback transforms that chain natively (so the nested
call of a NONDMA start is the one call of the fallback's operation): the
submit call starts the lead job and every follow-on, in order, and returns
the status that the start of the last job of the chain returned, whatever
the earlier jobs returned. -/
theorem sync_chain_returns_last_status (B : Backend) (w : World) (lead : ReqId) (op : OpId)
    (hslow : ((w.tfms (w.reqs lead).tfm).req_chain ||
      (!acomp_request_chained (w.reqs lead) && acomp_request_issg (w.reqs lead))) = false)
    (hnd : (lead :: (w.reqs lead).list).Nodup)
    (hnative : ∀ t, (w.tfms (w.tfms t).fb).req_chain = true)
    (hop : ∀ fn r w0, deferred (B.op fn r w0).err = false)
    (hfb : ∀ c q w0, deferred (B.fb c q w0).err = false) :
    (starts (newEvents w (acomp_do_req_chain B w lead op).1)).map Prod.fst =
      lead :: (w.reqs lead).list ∧
    (starts (newEvents w (acomp_do_req_chain B w lead op).1)).getLast? =
      some (lastJob lead (w.reqs lead).list, (acomp_do_req_chain B w lead op).2) ∧
    (∀ c x q e, Event.fallback c x q e ∈ newEvents w (acomp_do_req_chain B w lead op).1 →
      nested_direct w q = true) := by
  refine ⟨?_, ?_, submit_fallbacks_direct B w lead op hslow hnd hnative⟩
  all_goals
    obtain ⟨evs, hS⟩ := submit_spec B w lead op hslow hnd
    rw [newEvents_of_trace hS.trace]
    have hterm := sync_backend_terminal hop hfb hS.statuses
    rcases hS.outcome with hR | ⟨pre, r, st, rest1, hL, _⟩
  · exact hR.jobs
  · exfalso
    have := hterm (r, st) (by rw [hL.starts_eq]; simp)
    rw [hL.deferred] at this
    exact Bool.noConfusion this
  · rw [getLast_of_jobs hR.jobs 0, hR.status]
  · exfalso
    have := hterm (r, st) (by rw [hL.starts_eq]; simp)
    rw [hL.deferred] at this
    exact Bool.noConfusion this

/-- C5, witness: a lead job whose start returns -5 and a NONDMA follow-on
that the fallback completes with status 0, on a transform whose fallback
chains natively; the submit call returns 0, the status of the follow-on. -/
theorem sync_chain_returns_last_status_witness :
    (((chain_with_nondma.tfms (chain_with_nondma.reqs 0).tfm).req_chain ||
      (!acomp_request_chained (chain_with_nondma.reqs 0) &&
        acomp_request_issg (chain_with_nondma.reqs 0))) = false) ∧
    (0 :: (chain_with_nondma.reqs 0).list).Nodup ∧
    (∀ t, (chain_with_nondma.tfms (chain_with_nondma.tfms t).fb).req_chain = true) ∧
    (starts (newEvents chain_with_nondma
      (acomp_do_req_chain (scripted_backend [-5] [] false) chain_with_nondma 0 1).1)).map
        Prod.fst = 0 :: (chain_with_nondma.reqs 0).list ∧
    (starts (newEvents chain_with_nondma
      (acomp_do_req_chain (scripted_backend [-5] [] false) chain_with_nondma 0 1).1)).getLast?
      = some (lastJob 0 (chain_with_nondma.reqs 0).list,
          (acomp_do_req_chain (scripted_backend [-5] [] false) chain_with_nondma 0 1).2) ∧
    (∀ c x q e, Event.fallback c x q e ∈ newEvents chain_with_nondma
        (acomp_do_req_chain (scripted_backend [-5] [] false) chain_with_nondma 0 1).1 →
      nested_direct chain_with_nondma q = true) ∧
    starts (newEvents chain_with_nondma
      (acomp_do_req_chain (scripted_backend [-5] [] false) chain_with_nondma 0 1).1) =
      [(0, -5), (1, 0)] ∧
    lastJob 0 (chain_with_nondma.reqs 0).list = 1 ∧
    (acomp_do_req_chain (scripted_backend [-5] [] false) chain_with_nondma 0 1).2 = 0 :=
  have hn : ∀ t, (chain_with_nondma.tfms (chain_with_nondma.tfms t).fb).req_chain = true :=
    fun t => by
      by_cases h : t = 0 <;> simp [chain_with_nondma, with_fallback, fallback_tfms, h]
  have h := sync_chain_returns_last_status (scripted_backend [-5] [] false)
    chain_with_nondma 0 1 (by decide) (by decide) hn
    (fun _ r _ => match r with
      | 0 => by simp [scripted_backend, deferred, EINPROGRESS, EBUSY]
      | _ + 1 => by simp [scripted_backend, deferred, EINPROGRESS, EBUSY])
    (fun _ _ _ => rfl)
  ⟨by decide, by decide, hn, h.1, h.2.1, h.2.2, by decide, by decide, by decide⟩

/-! ### The places of the follow-ons -/

/-- In a waiting chain the follow-ons are in place when the lead job's
list, the job waited for and the pending queue make them up. -/
theorem linked_waiting {lead : ReqId} {c : Completion} {d : Ptr} {qs : List ReqId}
    {w : World} {r : ReqId} {rest : List ReqId} (hW : Waiting lead c d qs w r rest) :
    Linked lead qs w ↔
      (w.reqs lead).list ++ (if r = lead then [] else [r]) ++ rest = qs := by
  unfold Linked
  rw [hW.out, hW.cur, hW.running.head]
  constructor
  · rintro (h | h)
    · exact absurd h.1 (by simp)
    · exact h.2
  · intro h
    exact Or.inr ⟨rfl, h⟩

/-- The submit call on the slow path leaves every follow-on in place. -/
theorem submit_linked (B : Backend) (w : World) (lead : ReqId) (op : OpId)
    (hslow : ((w.tfms (w.reqs lead).tfm).req_chain ||
      (!acomp_request_chained (w.reqs lead) && acomp_request_issg (w.reqs lead))) = false)
    (hnd : (lead :: (w.reqs lead).list).Nodup) (ht : w.trace = []) :
    Linked lead (w.reqs lead).list (acomp_do_req_chain B w lead op).1 := by
  obtain ⟨evs, hS⟩ := submit_spec B w lead op hslow hnd
  have htr : (acomp_do_req_chain B w lead op).1.trace = evs := by
    rw [hS.trace, ht]; rfl
  rcases hS.outcome with hR | ⟨pre, r, st, rest1, hL, hret⟩
  · have hout : outstanding (acomp_do_req_chain B w lead op).1.trace = [] := by
      rw [htr]
      have := outstanding_terminal_starts [] hS.all_starts hR.terminal
      simpa [outstanding] using this
    refine Or.inl ⟨hout, hR.head, ?_⟩
    rw [hS.lead_list, finishedJobs_terminal hR.terminal, hR.jobs]
    rfl
  · have hout : outstanding (acomp_do_req_chain B w lead op).1.trace = [r] := by
      rw [htr]
      have := outstanding_waiting_starts [] hS.all_starts hL.starts_eq hL.terminal hL.deferred
      simpa [outstanding] using this
    refine Or.inr ⟨by rw [hout, hL.cur], ?_⟩
    rw [hL.cur, hL.running.head, hS.lead_list, hL.starts_eq,
      finishedJobs_waiting hL.terminal hL.deferred]
    have hj := hL.jobs
    cases pre with
    | nil =>
      simp only [List.map_nil, List.nil_append, List.cons.injEq] at hj
      obtain ⟨h1, h2⟩ := hj
      simp [← h1, h2]
    | cons p pre1 =>
      simp only [List.map_cons, List.cons_append, List.cons.injEq] at hj
      obtain ⟨h1, h2⟩ := hj
      have hr : r ≠ lead := by
        intro h
        have hmem : r ∈ (w.reqs lead).list := by rw [h2]; simp
        rw [h] at hmem
        exact (List.nodup_cons.mp hnd).1 hmem
      simp [h2, hr]

/-- An in-progress notification changes no request and leaves the same job
outstanding. -/
theorem notify_reqs (B : Backend) {lead : ReqId} {c : Completion} {d : Ptr}
    {qs : List ReqId} {w : World} {r : ReqId} {rest : List ReqId}
    (hW : Waiting lead c d qs w r rest) :
    (crypto_request_complete B w r (-EINPROGRESS)).reqs = w.reqs ∧
    ∃ evs, (crypto_request_complete B w r (-EINPROGRESS)).trace = w.trace ++ evs := by
  rw [complete_done_eq B w r _ hW.complete, hW.data]
  unfold acomp_reqchain_done
  simp only [Ptr.owner, if_true]
  split_ifs
  · exact ⟨rfl, [_], rfl⟩
  · exact ⟨rfl, [.deliver r (-EINPROGRESS), .complete (w.reqs lead).chain.compl
      (w.reqs lead).chain.data (-EINPROGRESS)], by simp⟩

/-- An in-progress notification moves no job. -/
theorem notify_linked (B : Backend) {lead : ReqId} {c : Completion} {d : Ptr}
    {qs : List ReqId} {w : World} {r : ReqId} {rest : List ReqId}
    (hW : Waiting lead c d qs w r rest) (hP : Linked lead qs w) :
    Linked lead qs (crypto_request_complete B w r (-EINPROGRESS)) := by
  rw [linked_waiting (notify_waiting B hW), (notify_reqs B hW).1]
  exact (linked_waiting hW).mp hP

/-- The completion of the job a chain waits for leaves every follow-on in
place. -/
theorem final_linked (B : Backend) {lead : ReqId} {c : Completion} {d : Ptr}
    {qs : List ReqId} {w : World} {r : ReqId} {rest : List ReqId}
    (hW : Waiting lead c d qs w r rest) {e : Int} (he : deferred e = false)
    (hP : Linked lead qs w) :
    Linked lead qs (crypto_request_complete B w r e) := by
  rw [complete_done_eq B w r _ hW.complete, hW.data]
  obtain ⟨w1, hw1⟩ : ∃ w1, w1 = w.log (.deliver r e) := ⟨_, rfl⟩
  rw [← hw1]
  have hrun1 : Running lead c d rest w1 := running_of_reqs hW.running (by rw [hw1]; rfl)
  have t1 : w1.trace = w.trace ++ [.deliver r e] := by rw [hw1]; rfl
  have out1 : outstanding w1.trace = [] := by
    rw [t1, outstanding_append, hW.out]
    simp [outstanding_step, he]
  have hcur1 : (w1.reqs lead).chain.cur = r := by rw [hw1]; exact hW.cur
  have hlist1 : (w1.reqs lead).list = (w.reqs lead).list := by rw [hw1]; rfl
  have hP1 : (w.reqs lead).list ++ (if r = lead then [] else [r]) ++ rest = qs :=
    (linked_waiting hW).mp hP
  have hne := (deferred_ne_ebusy he).2
  unfold acomp_reqchain_done
  simp only [Ptr.owner, if_neg hne, hrun1.req0, hrun1.compl, hrun1.cdata]
  obtain ⟨evs, hF⟩ := finish_spec B lead c d rest w1 e CRYPTO_TFM_REQ_MAY_BACKLOG hrun1
  generalize acomp_reqchain_finish B w1 lead e CRYPTO_TFM_REQ_MAY_BACKLOG = F at hF ⊢
  have hlist := hF.lead_list
  rw [hcur1, hlist1] at hlist
  have hmid : (if r ≠ lead then [r] else []) = (if r = lead then [] else [r]) := by
    by_cases h : r = lead <;> simp [h]
  rw [hmid] at hlist
  have hgoal : ∀ R : World, R.reqs = F.1.reqs → outstanding R.trace = outstanding F.1.trace →
      Linked lead qs R := by
    intro R hr ho
    unfold Linked
    rw [ho, hr]
    rcases hF.outcome with hR | ⟨pre1, r1, st, rest1, hL, _⟩
    · have hout : outstanding F.1.trace = [] := by
        rw [hF.trace, outstanding_terminal_starts _ hF.all_starts hR.terminal, out1]
      refine Or.inl ⟨hout, hR.head, ?_⟩
      rw [hlist, finishedJobs_terminal hR.terminal, hR.jobs]
      exact hP1
    · have hout : outstanding F.1.trace = [r1] := by
        rw [hF.trace, outstanding_waiting_starts _ hF.all_starts hL.starts_eq hL.terminal
          hL.deferred, out1]
        rfl
      have hr1 : r1 ≠ lead := by
        intro h
        have hmem : r1 ∈ rest := by rw [hL.jobs]; simp
        rw [h] at hmem
        exact (List.nodup_cons.mp hW.running.nodup).1 hmem
      refine Or.inr ⟨by rw [hout, hL.cur], ?_⟩
      rw [hL.cur, hL.running.head, hlist, hL.starts_eq,
        finishedJobs_waiting hL.terminal hL.deferred, if_neg hr1, ← hP1, hL.jobs]
      simp
  split_ifs
  · exact hgoal _ rfl rfl
  · exact hgoal _ rfl (by rw [log_trace, outstanding_append]; rfl)

/-- One round of the backend on a waiting chain leaves every follow-on in
place. -/
theorem round_linked (B : Backend) (hfin : ∀ r, deferred (B.final r) = false)
    {lead : ReqId} {c : Completion} {d : Ptr} {qs : List ReqId} {w : World} {r : ReqId}
    {rest : List ReqId} (hW : Waiting lead c d qs w r rest) (hP : Linked lead qs w) :
    Linked lead qs (backend_round B w) := by
  unfold backend_round
  rw [hW.out]
  simp only
  split_ifs with hn
  · exact final_linked B (notify_waiting B hW) (hfin r) (notify_linked B hW hP)
  · exact final_linked B hW (hfin r) hP

/-- Any number of rounds of the backend leaves every follow-on in place. -/
theorem rounds_linked (B : Backend) (hfin : ∀ r, deferred (B.final r) = false)
    {lead : ReqId} {c : Completion} {d : Ptr} {qs : List ReqId} (n : Nat) :
    ∀ {w : World}, (Over lead c d qs w ∨ ∃ r rest, Waiting lead c d qs w r rest) →
      Linked lead qs w → Linked lead qs (backend_rounds B n w) := by
  induction n with
  | zero =>
    intro w _ h1
    exact h1
  | succ n ih =>
    intro w hst h1
    rw [backend_rounds]
    rcases hst with hO | ⟨r, rest, hW⟩
    · rw [round_over B hO]
      exact ih (Or.inl hO) h1
    · have g1 := round_linked B hfin hW h1
      rcases round_waiting B hfin hW with hO | ⟨r1, rest1, hW1, _⟩
      · exact ih (Or.inl hO.1) g1
      · exact ih (Or.inr ⟨r1, rest1, hW1⟩) g1

/-- After the submit call and after any number of rounds of the backend every
follow-on is in place. -/
theorem life_linked (B : Backend) (hfin : ∀ r, deferred (B.final r) = false)
    (w : World) (lead : ReqId) (op : OpId)
    (hslow : ((w.tfms (w.reqs lead).tfm).req_chain ||
      (!acomp_request_chained (w.reqs lead) && acomp_request_issg (w.reqs lead))) = false)
    (hnd : (lead :: (w.reqs lead).list).Nodup) (ht : w.trace = []) (n : Nat) :
    Linked lead (w.reqs lead).list (chain_life B w lead op n) := by
  have h1 := submit_linked B w lead op hslow hnd ht
  have hst : Over lead (w.reqs lead).complete (w.reqs lead).data (w.reqs lead).list
        (acomp_do_req_chain B w lead op).1 ∨
      ∃ r rest, Waiting lead (w.reqs lead).complete (w.reqs lead).data (w.reqs lead).list
        (acomp_do_req_chain B w lead op).1 r rest := by
    rcases submit_life B w lead op hslow hnd ht with hO | ⟨r, rest, hW, _⟩
    · exact Or.inl hO.1
    · exact Or.inr ⟨r, rest, hW⟩
  exact rounds_linked B hfin n hst h1

/-! ### The error field of a finished job -/

/-- C30, the claim as stated fails. After the synchronous submit of a chain
of two jobs nothing is outstanding and the follow-on, job 1, is on the lead
job's list and is still `state->cur`: the current slot is not cleared when
its job is relinked, so the follow-on is in two of the three places. -/
theorem relinked_job_stays_current :
    (acomp_do_req_chain (scripted_backend [0, 0] [] false) chain_of_two 0 1).2 = 0 ∧
    outstanding (acomp_do_req_chain (scripted_backend [0, 0] [] false) chain_of_two 0 1).1.trace
      = [] ∧
    (chain_of_two.reqs 0).list = [1] ∧
    ((acomp_do_req_chain (scripted_backend [0, 0] [] false) chain_of_two 0 1).1.reqs 0).list
      = [1] ∧
    ((acomp_do_req_chain (scripted_backend [0, 0] [] false) chain_of_two 0 1).1.reqs
      0).chain.cur = 1 ∧
    ((acomp_do_req_chain (scripted_backend [0, 0] [] false) chain_of_two 0 1).1.reqs
      0).chain.head = [] := by
  decide

/-- C30, amended. Jobs are conserved and relinked in order. For a lead job
with the follow-ons `qs` on the slow path, submitted in a fresh trace to a
backend whose final statuses are terminal: when the submit call has returned
and after any number of rounds of the backend (each round ends when the
completion handler returns), the lead job's list, then a middle part, then
the pending queue `state->head` make up `qs` in the original order, where
the middle part is the job `state->cur` while that job is outstanding and is
a follow-on, and is empty otherwise; so every follow-on is in exactly one of
the three.  Once nothing is outstanding the pending queue is empty and the
lead job's list is `qs` again, which is the case after more rounds than there
are follow-ons.  An in-progress notification for the outstanding job changes
no request and leaves the same job outstanding, so the places are the same
when the handler returns from it.  With a synchronous backend (every
operation returns a terminal status) and fallback transforms that chain
natively this holds when the submit call returns: the backend has nothing
left to do, every job was started once, in order, the `err` recorded in each
job is the status its start returned, and every fallback call took the first
branch of the nested `acomp_do_req_chain`. -/
theorem jobs_conserved_and_relinked (B : Backend) (hfin : ∀ r, deferred (B.final r) = false)
    (w : World) (lead : ReqId) (op : OpId)
    (hslow : ((w.tfms (w.reqs lead).tfm).req_chain ||
      (!acomp_request_chained (w.reqs lead) && acomp_request_issg (w.reqs lead))) = false)
    (hnd : (lead :: (w.reqs lead).list).Nodup) (ht : w.trace = []) :
    (∀ n, ∃ mid,
      ((chain_life B w lead op n).reqs lead).list ++ mid ++
        ((chain_life B w lead op n).reqs lead).chain.head = (w.reqs lead).list ∧
      (mid = [] ∨ mid = [((chain_life B w lead op n).reqs lead).chain.cur]) ∧
      (∀ q ∈ (w.reqs lead).list,
        (q ∈ ((chain_life B w lead op n).reqs lead).list ∧ q ∉ mid ∧
          q ∉ ((chain_life B w lead op n).reqs lead).chain.head) ∨
        (q ∉ ((chain_life B w lead op n).reqs lead).list ∧ q ∈ mid ∧
          q ∉ ((chain_life B w lead op n).reqs lead).chain.head) ∨
        (q ∉ ((chain_life B w lead op n).reqs lead).list ∧ q ∉ mid ∧
          q ∈ ((chain_life B w lead op n).reqs lead).chain.head)) ∧
      (outstanding (chain_life B w lead op n).trace = [] →
        mid = [] ∧ ((chain_life B w lead op n).reqs lead).chain.head = [] ∧
        ((chain_life B w lead op n).reqs lead).list = (w.reqs lead).list) ∧
      (outstanding (chain_life B w lead op n).trace ≠ [] →
        outstanding (chain_life B w lead op n).trace =
          [((chain_life B w lead op n).reqs lead).chain.cur] ∧
        (((chain_life B w lead op n).reqs lead).chain.cur ≠ lead →
          mid = [((chain_life B w lead op n).reqs lead).chain.cur]))) ∧
    (∀ n, (w.reqs lead).list.length < n → outstanding (chain_life B w lead op n).trace = []) ∧
    (∀ n r, outstanding (chain_life B w lead op n).trace = [r] →
      (crypto_request_complete B (chain_life B w lead op n) r (-EINPROGRESS)).reqs =
        (chain_life B w lead op n).reqs ∧
      outstanding (crypto_request_complete B (chain_life B w lead op n) r (-EINPROGRESS)).trace =
        [r]) ∧
    ((∀ t, (w.tfms (w.tfms t).fb).req_chain = true) →
      (∀ fn r w0, deferred (B.op fn r w0).err = false) →
      (∀ c q w0, deferred (B.fb c q w0).err = false) →
      deferred (acomp_do_req_chain B w lead op).2 = false ∧
      (∀ n, chain_life B w lead op n = (acomp_do_req_chain B w lead op).1) ∧
      outstanding (acomp_do_req_chain B w lead op).1.trace = [] ∧
      ((acomp_do_req_chain B w lead op).1.reqs lead).chain.head = [] ∧
      ((acomp_do_req_chain B w lead op).1.reqs lead).list = (w.reqs lead).list ∧
      (starts (acomp_do_req_chain B w lead op).1.trace).map Prod.fst =
        lead :: (w.reqs lead).list ∧
      (∀ p ∈ starts (acomp_do_req_chain B w lead op).1.trace,
        deferred p.2 = false ∧ ((acomp_do_req_chain B w lead op).1.reqs p.1).err = p.2) ∧
      (∀ c x q e, Event.fallback c x q e ∈ (acomp_do_req_chain B w lead op).1.trace →
        nested_direct w q = true)) := by
  have hqs : (w.reqs lead).list.Nodup := (List.nodup_cons.mp hnd).2
  refine ⟨?_, ?_, ?_, ?_⟩
  · intro n
    rcases life_linked B hfin w lead op hslow hnd ht n with ⟨h1, h2, h3⟩ | ⟨h1, h2⟩
    · refine ⟨[], ?_, Or.inl rfl, ?_, fun _ => ⟨rfl, h2, h3⟩, fun h => absurd h1 h⟩
      · rw [h2, h3]
        simp
      · intro q hq
        exact mem_exactly_one (by rw [h2, h3]; simp) hqs q hq
    · refine ⟨_, h2, ?_, ?_, fun h => ?_, fun _ => ⟨h1, fun h => if_neg h⟩⟩
      · by_cases h : ((chain_life B w lead op n).reqs lead).chain.cur = lead
        · exact Or.inl (if_pos h)
        · exact Or.inr (if_neg h)
      · intro q hq
        exact mem_exactly_one h2 hqs q hq
      · rw [h1] at h
        cases h
  · intro n hn
    exact (chain_life_over B hfin w lead op hslow hnd ht n hn).out
  · intro n r hr
    rcases chain_life_spec B hfin w lead op hslow hnd ht n with
      ⟨_, _, hO, _⟩ | ⟨_, ⟨hO, _⟩ | ⟨r1, rest, hW, _⟩⟩
    · rw [hO.out] at hr
      cases hr
    · rw [hO.out] at hr
      cases hr
    · have hrr : r1 = r := by
        have := hW.out
        rw [hr] at this
        simpa using this.symm
      subst hrr
      exact ⟨(notify_reqs B hW).1, (notify_waiting B hW).out⟩
  · intro hnative hop hfb
    obtain ⟨evs, hS⟩ := submit_spec B w lead op hslow hnd
    have htr : (acomp_do_req_chain B w lead op).1.trace = evs := by
      rw [hS.trace, ht]; rfl
    have hterm := sync_backend_terminal hop hfb hS.statuses
    rcases hS.outcome with hR | ⟨pre, r, st, rest1, hL, _⟩
    · have hdef : deferred (acomp_do_req_chain B w lead op).2 = false := by
        rw [hR.status]
        exact lastStatus_terminal hR.terminal (by decide)
      have hout : outstanding (acomp_do_req_chain B w lead op).1.trace = [] := by
        rw [htr]
        have := outstanding_terminal_starts [] hS.all_starts hR.terminal
        simpa [outstanding] using this
      refine ⟨hdef, ?_, hout, hR.head, ?_, ?_, ?_, ?_⟩
      · intro n
        rcases chain_life_spec B hfin w lead op hslow hnd ht n with h | h
        · exact h.2.1
        · rw [hdef] at h
          exact absurd h.1 (by decide)
      · rw [hS.lead_list, finishedJobs_terminal hR.terminal, hR.jobs]
        rfl
      · rw [htr]
        exact hR.jobs
      · intro p hp
        rw [htr] at hp
        exact ⟨hterm p hp, hS.errs p hp (hterm p hp)⟩
      · intro c x q e hmem
        have hmem2 : Event.fallback c x q e ∈
            newEvents w (acomp_do_req_chain B w lead op).1 := by
          rw [newEvents_of_trace hS.trace, ← htr]
          exact hmem
        exact submit_fallbacks_direct B w lead op hslow hnd hnative c x q e hmem2
    · have hmem : (r, st) ∈ starts evs := by
        rw [hL.starts_eq]
        simp
      have := hterm (r, st) hmem
      rw [hL.deferred] at this
      exact absurd this (by decide)

/-- C30 amended, witness: a chain of three jobs whose lead and last job are
deferred, after one round of the backend. -/
theorem jobs_conserved_and_relinked_witness :
    (∀ r, deferred ((scripted_backend [-115, 0, -115] [-5, 0, -7] true).final r) = false) ∧
    (((chain_of_three.tfms (chain_of_three.reqs 0).tfm).req_chain ||
      (!acomp_request_chained (chain_of_three.reqs 0) &&
        acomp_request_issg (chain_of_three.reqs 0))) = false) ∧
    (0 :: (chain_of_three.reqs 0).list).Nodup ∧ chain_of_three.trace = [] ∧
    ∃ mid,
      ((chain_life (scripted_backend [-115, 0, -115] [-5, 0, -7] true)
        chain_of_three 0 1 1).reqs 0).list ++ mid ++
      ((chain_life (scripted_backend [-115, 0, -115] [-5, 0, -7] true)
        chain_of_three 0 1 1).reqs 0).chain.head = (chain_of_three.reqs 0).list ∧
      (mid = [] ∨ mid = [((chain_life (scripted_backend [-115, 0, -115] [-5, 0, -7] true)
        chain_of_three 0 1 1).reqs 0).chain.cur]) :=
  have h0 : ∀ r, deferred ((scripted_backend [-115, 0, -115] [-5, 0, -7] true).final r)
      = false := fun r => match r with
    | 0 => by simp [scripted_backend, deferred, EINPROGRESS, EBUSY]
    | 1 => by simp [scripted_backend, deferred, EINPROGRESS, EBUSY]
    | 2 => by simp [scripted_backend, deferred, EINPROGRESS, EBUSY]
    | _ + 3 => by simp [scripted_backend, deferred, EINPROGRESS, EBUSY]
  have h1 : ((chain_of_three.tfms (chain_of_three.reqs 0).tfm).req_chain ||
      (!acomp_request_chained (chain_of_three.reqs 0) &&
        acomp_request_issg (chain_of_three.reqs 0))) = false := by decide
  have h2 : (0 :: (chain_of_three.reqs 0).list).Nodup := by decide
  have h3 : chain_of_three.trace = [] := rfl
  ⟨h0, h1, h2, h3,
    match (jobs_conserved_and_relinked (scripted_backend [-115, 0, -115] [-5, 0, -7] true) h0
      chain_of_three 0 1 h1 h2 h3).1 1 with
    | ⟨mid, g1, g2, _⟩ => ⟨mid, g1, g2⟩⟩

/-! ### The jobs started with their flags reset -/

end Acomp
